import Mathlib

/-!
# virgl vtest winsys: resource cache and command-buffer reference set

A shallow embedding of `virgl_vtest_winsys.c` and of the request helpers of
`virgl_vtest_socket.c`.

* Resources live in a heap `mem : Nat → virgl_hw_res`; a C pointer is an address
  (`Nat`), a nullable pointer is an `Option Nat`.  `CALLOC_STRUCT` hands out the
  next unused address with a zeroed record and always succeeds; `free` leaves the
  record in place (addresses are never handed out twice).
* The intrusive list `vtws->delayed` is the list of the addresses linked into it,
  head first.
* The transport is a log `sent` of the requests written so far, oldest first.
* The two things the code reads from outside are streams: `clock n` is the value
  of the n-th call of `os_time_get`, and `busy_reply n handle` is the result word
  the server returns to the n-th `RESOURCE_BUSY_WAIT` request.
* 32-bit unsigned arithmetic is `Nat` arithmetic modulo `2 ^ 32 = 4294967296`.
-/

namespace VirglVtest

/-! ## Constants and helpers declared outside the two source files -/

/-- Modelled from the spec: the bind-flag macros are declared in `virgl_hw.h`,
which is not among the source files; these are the spec's vertex-buffer,
index-buffer, constant-buffer, display-target, custom and scanout bind kinds
with the bit positions of that header. -/
def VIRGL_BIND_VERTEX_BUFFER : Nat := 1 <<< 4

/-- Modelled from the spec: index-buffer bind kind (`virgl_hw.h`). -/
def VIRGL_BIND_INDEX_BUFFER : Nat := 1 <<< 5

/-- Modelled from the spec: constant-buffer bind kind (`virgl_hw.h`). -/
def VIRGL_BIND_CONSTANT_BUFFER : Nat := 1 <<< 6

/-- Modelled from the spec: display-target bind kind (`virgl_hw.h`). -/
def VIRGL_BIND_DISPLAY_TARGET : Nat := 1 <<< 7

/-- Modelled from the spec: the generic custom bind kind (`virgl_hw.h`). -/
def VIRGL_BIND_CUSTOM : Nat := 1 <<< 17

/-- Modelled from the spec: scanout bind kind (`virgl_hw.h`). -/
def VIRGL_BIND_SCANOUT : Nat := 1 <<< 18

/-- Modelled from the spec: `RESOURCE_BUSY_WAIT` flag word "block until idle"
(`vtest_protocol.h`; the spec gives 0 = poll, 1 = block-until-idle). -/
def VCMD_BUSY_WAIT_FLAG_WAIT : Nat := 1

/-- Modelled from the spec: `sizeof(cbuf->is_handle_added)`, the size of the
direct-mapped dedup table of `struct virgl_vtest_cmd_buf` (`virgl_vtest_winsys.h`,
not among the source files). -/
def is_handle_added_size : Nat := 512

/-- Conversion of a 32-bit unsigned word to `int`. -/
def to_int32 (w : Nat) : Int :=
  if w % 4294967296 < 2147483648 then ((w % 4294967296 : Nat) : Int) else ((w % 4294967296 : Nat) : Int) - 4294967296

/-- Modelled from the spec: `os_time_timeout` is an inline helper of
`util/os_time.h`, which is not among the source files.  The retention window
`[start, end)` has passed at `curr` when `curr` lies outside it (the second
branch is the wrapped interval). -/
def os_time_timeout (start end_ curr : Int) : Bool :=
  if start ≤ end_ then !(decide (start ≤ curr) && decide (curr < end_))
  else !(decide (start ≤ curr) || decide (curr < end_))

/-! ## Data model -/

/-- The sub-commands of the display-target request. -/
inductive vtest_dt_cmd where
  | VCMD_DT_CMD_CREATE
  | VCMD_DT_CMD_DESTROY
  | VCMD_DT_CMD_SET_RECT
  | VCMD_DT_CMD_FLUSH
deriving DecidableEq

/-- The command identifiers a request header can carry (`vtest_protocol.h`). -/
inductive vcmd where
  | VCMD_GET_CAPS
  | VCMD_RESOURCE_CREATE
  | VCMD_RESOURCE_UNREF
  | VCMD_TRANSFER_GET
  | VCMD_TRANSFER_PUT
  | VCMD_SUBMIT_CMD
  | VCMD_RESOURCE_BUSY_WAIT
  | VCMD_CREATE_RENDERER
  | VCMD_GET_CAPS2
  | VCMD_DT_COMMAND
deriving DecidableEq

/-- A request written to the transport, with the payload words in the order the
request helper stores them.  `create_renderer` carries the characters of the
identifier string (without the terminating NUL), `transfer` the length word its
helper computed for the header, and `transfer_put_data` stands for the raw data
bytes that follow a `TRANSFER_PUT` request. -/
inductive vtest_msg where
  | resource_create (handle target format bind width height depth array_size
      last_level nr_samples : Nat)
  | resource_unref (handle : Nat)
  | busy_wait (handle flags : Nat)
  | dt (cmd : vtest_dt_cmd) (x y w h id handle drawable : Nat)
  | submit_cmd (cdw : Nat) (words : List Nat)
  | create_renderer (cmdline : List Nat)
  | get_caps2
  | get_caps
  | transfer (cmd_len : Nat) (vcmd : vcmd) (handle level stride layer_stride x y z width height
      depth data_size : Nat)
  | transfer_put_data (data_size : Nat)
deriving DecidableEq

/-- The part of `struct vtest_displaytarget` the winsys core uses. -/
structure vtest_displaytarget where
  id : Nat
deriving DecidableEq

/-- The client-side record `struct virgl_hw_res`; `reference` is the count of
its `struct pipe_reference`.  All fields are zero after `CALLOC_STRUCT`. -/
structure virgl_hw_res where
  reference : Int := 0
  res_handle : Nat := 0
  num_cs_references : Int := 0
  size : Nat := 0
  format : Nat := 0
  bind : Nat := 0
  width : Nat := 0
  height : Nat := 0
  dt : Option vtest_displaytarget := none
  cacheable : Bool := false
  start : Int := 0
  end_ : Int := 0
deriving DecidableEq

/-- The state of `struct virgl_vtest_winsys` together with the process state the
code touches: the function-local `static int handle`, the heap of resource
records, the request log and the two input streams. -/
structure virgl_vtest_winsys where
  delayed : List Nat
  num_delayed : Int
  usecs : Int
  dt_set : Nat
  handle : Nat
  mem : Nat → virgl_hw_res
  brk : Nat
  sent : List vtest_msg
  clock : Nat → Int
  ticks : Nat
  busy_reply : Nat → Nat → Nat
  polls : Nat

/-- The state of `struct virgl_vtest_cmd_buf`: the word array `buf` with its
fill count `cdw`, the reference array `res_bo` with `cres` used of `nres`
allocated slots, and the dedup table. -/
structure virgl_vtest_cmd_buf where
  buf : Nat → Nat
  cdw : Nat
  nres : Nat
  cres : Nat
  res_bo : Nat → Option Nat
  is_handle_added : Nat → Bool
  reloc_indices_hashlist : Nat → Nat

/-- Store `r` at address `p`. -/
def store (s : virgl_vtest_winsys) (p : Nat) (r : virgl_hw_res) : virgl_vtest_winsys :=
  { s with mem := fun q => if q = p then r else s.mem q }

/-- One request written with `virgl_block_write` (header and payload). -/
def send (s : virgl_vtest_winsys) (m : vtest_msg) : virgl_vtest_winsys :=
  { s with sent := s.sent ++ [m] }

/-- The call `os_time_get()`: the next value of the clock stream. -/
def os_time_get (s : virgl_vtest_winsys) : Int × virgl_vtest_winsys :=
  (s.clock s.ticks, { s with ticks := s.ticks + 1 })

/-- The macro `LIST_DEL`: unlink the node at address `p`. -/
def LIST_DEL (p : Nat) (l : List Nat) : List Nat := l.erase p

/-- The macro `LIST_ADDTAIL`: link the node at address `p` before the list head,
that is at the tail. -/
def LIST_ADDTAIL (p : Nat) (l : List Nat) : List Nat := l ++ [p]

/-! ## Request helpers (`virgl_vtest_socket.c`) -/

def virgl_vtest_send_resource_create (s : virgl_vtest_winsys)
    (handle target format bind width height depth array_size last_level nr_samples : Nat) :
    virgl_vtest_winsys :=
  send s (.resource_create handle target format bind width height depth array_size
    last_level nr_samples)

def virgl_vtest_send_dt (s : virgl_vtest_winsys) (cmd : vtest_dt_cmd)
    (x y w h id handle drawable : Nat) : virgl_vtest_winsys :=
  send s (.dt cmd x y w h id handle drawable)

def virgl_vtest_send_resource_unref (s : virgl_vtest_winsys) (handle : Nat) :
    virgl_vtest_winsys :=
  send s (.resource_unref handle)

/-- The request `virgl_vtest_busy_wait`: writes the request, reads the response
header and the result word, and returns the result word as an `int`. -/
def virgl_vtest_busy_wait (s : virgl_vtest_winsys) (handle flags : Nat) :
    Int × virgl_vtest_winsys :=
  let s1 := send s (.busy_wait (handle % 4294967296) (flags % 4294967296))
  (to_int32 (s1.busy_reply s1.polls (handle % 4294967296)), { s1 with polls := s1.polls + 1 })

/-! ## Display targets -/

/-- The loop `while((vtws->dt_set & (1<<id)) && (id < 32)) id++;`, with `fuel`
bounding the number of iterations. -/
def dt_scan (dt_set : Nat) : Nat → Nat → Nat
  | 0, id => id
  | fuel + 1, id =>
    if dt_set &&& (1 <<< id) ≠ 0 ∧ id < 32 then dt_scan dt_set fuel (id + 1) else id

def vtest_displaytarget_destroy (s : virgl_vtest_winsys) (dt : vtest_displaytarget) :
    virgl_vtest_winsys :=
  let s1 := virgl_vtest_send_dt s .VCMD_DT_CMD_DESTROY 0 0 0 0 dt.id 0 0
  { s1 with dt_set := s1.dt_set &&& (4294967295 ^^^ ((1 <<< dt.id) % 4294967296)) }

/-- The function `vtest_displaytarget_create`; the stride written by the external
software winsys is not tracked. -/
def vtest_displaytarget_create (s : virgl_vtest_winsys) (width height : Nat) :
    Option vtest_displaytarget × virgl_vtest_winsys :=
  let id := dt_scan s.dt_set 33 0
  if id = 32 then (none, s)
  else
    let s1 := virgl_vtest_send_dt s .VCMD_DT_CMD_CREATE 0 0 width height id 0 0
    (some { id := id }, { s1 with dt_set := (s1.dt_set ||| (1 <<< id)) % 4294967296 })

/-! ## Resource registry and cache (`virgl_vtest_winsys.c`) -/

def can_cache_resource (res : virgl_hw_res) : Bool := res.cacheable == true

def virgl_hw_res_destroy (s : virgl_vtest_winsys) (res : Nat) : virgl_vtest_winsys :=
  let s1 := virgl_vtest_send_resource_unref s (s.mem res).res_handle
  match (s1.mem res).dt with
  | some dt => vtest_displaytarget_destroy s1 dt
  | none => s1

def virgl_vtest_resource_is_busy (s : virgl_vtest_winsys) (res : Nat) :
    Bool × virgl_vtest_winsys :=
  let (ret, s1) := virgl_vtest_busy_wait s (s.mem res).res_handle 0
  if ret < 0 then (false, s1) else (decide (ret = 1), s1)

/-- The loop of `virgl_cache_flush` over the nodes from `curr` on. -/
def virgl_cache_flush_loop : List Nat → virgl_vtest_winsys → virgl_vtest_winsys
  | [], s => s
  | curr :: next, s =>
    let s1 := { s with delayed := LIST_DEL curr s.delayed }
    virgl_cache_flush_loop next (virgl_hw_res_destroy s1 curr)

def virgl_cache_flush (s : virgl_vtest_winsys) : virgl_vtest_winsys :=
  virgl_cache_flush_loop s.delayed s

/-- The loop of `virgl_cache_list_check_free` over the nodes from `curr` on. -/
def virgl_cache_list_check_free_loop (now : Int) :
    List Nat → virgl_vtest_winsys → virgl_vtest_winsys
  | [], s => s
  | curr :: next, s =>
    if !os_time_timeout (s.mem curr).start (s.mem curr).end_ now then s
    else
      let s1 := { s with delayed := LIST_DEL curr s.delayed }
      virgl_cache_list_check_free_loop now next (virgl_hw_res_destroy s1 curr)

def virgl_cache_list_check_free (s : virgl_vtest_winsys) : virgl_vtest_winsys :=
  let (now, s1) := os_time_get s
  virgl_cache_list_check_free_loop now s1.delayed s1

/-- Modelled from the spec: `pipe_reference` is an inline helper of
`util/u_inlines.h`, which is not among the source files.  It takes a reference
on `src`, drops the one on `dst`, and reports whether the count of `dst` reached
zero; nothing happens when both are the same object. -/
def pipe_reference (s : virgl_vtest_winsys) (dst src : Option Nat) :
    Bool × virgl_vtest_winsys :=
  if dst = src then (false, s)
  else
    let s1 := match src with
      | some p => store s p { s.mem p with reference := (s.mem p).reference + 1 }
      | none => s
    match dst with
    | some p =>
      let c := (s1.mem p).reference - 1
      (decide (c = 0), store s1 p { s1.mem p with reference := c })
    | none => (false, s1)

/-- The function `virgl_vtest_resource_reference(vtws, dres, sres)`; the first
component of the result is the new value of `*dres`. -/
def virgl_vtest_resource_reference (s : virgl_vtest_winsys) (dres sres : Option Nat) :
    Option Nat × virgl_vtest_winsys :=
  let old := dres
  let (zero, s1) := pipe_reference s dres sres
  match zero, old with
  | true, some old =>
    if !can_cache_resource (s1.mem old) then
      (sres, virgl_hw_res_destroy s1 old)
    else
      let s2 := virgl_cache_list_check_free s1
      let (now, s3) := os_time_get s2
      let s4 := store s3 old { s3.mem old with start := now }
      let s5 := store s4 old { s4.mem old with end_ := (s4.mem old).start + s4.usecs }
      (sres, { s5 with delayed := LIST_ADDTAIL old s5.delayed,
                       num_delayed := s5.num_delayed + 1 })
  | _, _ => (sres, s1)

/-- The function `virgl_vtest_winsys_resource_create`.  `size` only sizes the
host allocation `align_malloc(size, 64)`, whose contents are not tracked. -/
def virgl_vtest_winsys_resource_create (s : virgl_vtest_winsys)
    (target format bind width height depth array_size last_level nr_samples _size : Nat) :
    Nat × virgl_vtest_winsys :=
  let res := s.brk
  let s1 := store { s with brk := s.brk + 1 } res {}
  let s2 :=
    if bind &&& (VIRGL_BIND_DISPLAY_TARGET ||| VIRGL_BIND_SCANOUT) ≠ 0 then
      let (dt, s') := vtest_displaytarget_create s1 width height
      store s' res { s'.mem res with dt := dt }
    else s1
  let s3 := store s2 res { s2.mem res with bind := bind }
  let s4 := store s3 res { s3.mem res with format := format }
  let s5 := store s4 res { s4.mem res with height := height }
  let s6 := store s5 res { s5.mem res with width := width }
  let s7 := virgl_vtest_send_resource_create s6 s6.handle target format bind width height
    depth array_size last_level nr_samples
  let s8 := store { s7 with handle := (s7.handle + 1) % 4294967296 } res
    { s7.mem res with res_handle := s7.handle }
  (res, store s8 res { s8.mem res with reference := 1 })

def virgl_vtest_winsys_resource_unref (s : virgl_vtest_winsys) (hres : Nat) :
    virgl_vtest_winsys :=
  (virgl_vtest_resource_reference s (some hres) none).2

def virgl_is_res_compat (s : virgl_vtest_winsys) (res : Nat) (size bind format : Nat) :
    Int × virgl_vtest_winsys :=
  if (s.mem res).bind ≠ bind then (0, s)
  else if (s.mem res).format ≠ format then (0, s)
  else if (s.mem res).size < size then (0, s)
  else if (s.mem res).size > (size * 2) % 4294967296 then (0, s)
  else
    let (busy, s1) := virgl_vtest_resource_is_busy s res
    if busy then (-1, s1) else (1, s1)

/-- The local variables of `virgl_vtest_winsys_resource_cache_create` that
survive its scanning loops: the chosen entry `res`, the last value of `ret`, and
the nodes from `curr` on. -/
structure cache_scan where
  res : Option Nat
  ret : Int
  curr : List Nat
  ws : virgl_vtest_winsys

/-- The first loop of `virgl_vtest_winsys_resource_cache_create` (the one that
also destroys timed-out entries), over the nodes from `curr` on. -/
def cache_create_loop1 (now : Int) (size bind format : Nat) :
    Option Nat → Int → List Nat → virgl_vtest_winsys → cache_scan
  | res, ret, [], s => ⟨res, ret, [], s⟩
  | res, ret, curr_res :: next, s =>
    let compat : Option (Int × virgl_vtest_winsys) :=
      if res.isNone then some (virgl_is_res_compat s curr_res size bind format) else none
    let ret1 := match compat with | some c => c.1 | none => ret
    let s1 := match compat with | some c => c.2 | none => s
    if res.isNone ∧ ret1 > 0 then
      if ret1 = -1 then ⟨some curr_res, ret1, curr_res :: next, s1⟩
      else cache_create_loop1 now size bind format (some curr_res) ret1 next s1
    else if os_time_timeout (s1.mem curr_res).start (s1.mem curr_res).end_ now then
      let s2 := { s1 with delayed := LIST_DEL curr_res s1.delayed }
      let s3 := virgl_hw_res_destroy s2 curr_res
      if ret1 = -1 then ⟨res, ret1, curr_res :: next, s3⟩
      else cache_create_loop1 now size bind format res ret1 next s3
    else ⟨res, ret1, curr_res :: next, s1⟩

/-- The second loop of `virgl_vtest_winsys_resource_cache_create`, entered when
the first one chose nothing and did not see a busy entry. -/
def cache_create_loop2 (size bind format : Nat) :
    Int → List Nat → virgl_vtest_winsys → cache_scan
  | ret, [], s => ⟨none, ret, [], s⟩
  | _, curr_res :: next, s =>
    let (ret, s1) := virgl_is_res_compat s curr_res size bind format
    if ret > 0 then ⟨some curr_res, ret, curr_res :: next, s1⟩
    else if ret = -1 then ⟨none, ret, curr_res :: next, s1⟩
    else cache_create_loop2 size bind format ret next s1

/-- The two scanning loops of `virgl_vtest_winsys_resource_cache_create` in
sequence, started with `res = NULL`: the second loop runs when the first one
chose nothing and `ret` is not -1. -/
def cache_create_scan (now : Int) (size bind format : Nat) (ret : Int) (curr : List Nat)
    (s : virgl_vtest_winsys) : cache_scan :=
  let l1 := cache_create_loop1 now size bind format none ret curr s
  if l1.res.isNone ∧ l1.ret ≠ -1 then
    cache_create_loop2 size bind format l1.ret l1.curr l1.ws
  else l1

/-- The function `virgl_vtest_winsys_resource_cache_create`.  `ret` is not
initialised in the source; with an empty pool its value only guards a loop that
has nothing to visit, so the model starts it at 0. -/
def virgl_vtest_winsys_resource_cache_create (s : virgl_vtest_winsys)
    (target format bind width height depth array_size last_level nr_samples size : Nat) :
    Nat × virgl_vtest_winsys :=
  let alloc (s : virgl_vtest_winsys) : Nat × virgl_vtest_winsys :=
    let (res, s1) := virgl_vtest_winsys_resource_create s target format bind width height
      depth array_size last_level nr_samples size
    if bind = VIRGL_BIND_CONSTANT_BUFFER ∨ bind = VIRGL_BIND_INDEX_BUFFER ∨
        bind = VIRGL_BIND_VERTEX_BUFFER then
      (res, store s1 res { s1.mem res with cacheable := true })
    else (res, s1)
  if bind ≠ VIRGL_BIND_CONSTANT_BUFFER ∧ bind ≠ VIRGL_BIND_INDEX_BUFFER ∧
      bind ≠ VIRGL_BIND_VERTEX_BUFFER ∧ bind ≠ VIRGL_BIND_CUSTOM then
    alloc s
  else
    let (now, s0) := os_time_get s
    let l2 := cache_create_scan now size bind format 0 s0.delayed s0
    match l2.res with
    | some res =>
      let s1 := { l2.ws with delayed := LIST_DEL res l2.ws.delayed,
                             num_delayed := l2.ws.num_delayed - 1 }
      (res, store s1 res { s1.mem res with reference := 1 })
    | none => alloc l2.ws

/-- The state `virgl_vtest_winsys_wrap` leaves behind: a zeroed winsys with
`usecs = 1000000` and an empty `delayed` list, the handle counter at its initial
value 1, no resource allocated and nothing sent. -/
def virgl_vtest_winsys_wrap (clock : Nat → Int) (busy_reply : Nat → Nat → Nat) :
    virgl_vtest_winsys :=
  { delayed := [], num_delayed := 0, usecs := 1000000, dt_set := 0, handle := 1,
    mem := fun _ => {}, brk := 0, sent := [], clock := clock, ticks := 0,
    busy_reply := busy_reply, polls := 0 }

/-! ## Command buffers -/

/-- The function `virgl_vtest_cmd_buf_create`: a zeroed buffer with room for 512
references. -/
def virgl_vtest_cmd_buf_create : virgl_vtest_cmd_buf :=
  { buf := fun _ => 0, cdw := 0, nres := 512, cres := 0, res_bo := fun _ => none,
    is_handle_added := fun _ => false, reloc_indices_hashlist := fun _ => 0 }

/-- The slot `res->res_handle & (sizeof(cbuf->is_handle_added)-1)`. -/
def res_hash (s : virgl_vtest_winsys) (res : Nat) : Nat :=
  (s.mem res).res_handle &&& (is_handle_added_size - 1)

/-- The linear scan `for (i = 0; i < cbuf->cres; i++)` of
`virgl_vtest_lookup_res`, from index `i` with `fuel` slots left; the result is
the first index holding `res`. -/
def lookup_res_scan (cbuf : virgl_vtest_cmd_buf) (res : Nat) : Nat → Nat → Option Nat
  | 0, _ => none
  | fuel + 1, i =>
    if cbuf.res_bo i = some res then some i else lookup_res_scan cbuf res fuel (i + 1)

def virgl_vtest_lookup_res (s : virgl_vtest_winsys) (cbuf : virgl_vtest_cmd_buf)
    (res : Nat) : Bool × virgl_vtest_cmd_buf :=
  let hash := res_hash s res
  if cbuf.is_handle_added hash then
    let i := cbuf.reloc_indices_hashlist hash
    if cbuf.res_bo i = some res then (true, cbuf)
    else
      match lookup_res_scan cbuf res cbuf.cres 0 with
      | some i =>
        (true, { cbuf with reloc_indices_hashlist :=
                   fun h => if h = hash then i else cbuf.reloc_indices_hashlist h })
      | none => (false, cbuf)
  else (false, cbuf)

/-- The loop of `virgl_vtest_release_all_res` from index `i` with `fuel` slots
left.  A slot below `cres` always holds a resource; an empty one is skipped. -/
def release_all_res_loop :
    Nat → Nat → virgl_vtest_winsys → virgl_vtest_cmd_buf →
      virgl_vtest_winsys × virgl_vtest_cmd_buf
  | 0, _, s, cbuf => (s, cbuf)
  | fuel + 1, i, s, cbuf =>
    match cbuf.res_bo i with
    | some p =>
      let s1 := store s p { s.mem p with num_cs_references := (s.mem p).num_cs_references - 1 }
      let (d, s2) := virgl_vtest_resource_reference s1 (cbuf.res_bo i) none
      release_all_res_loop fuel (i + 1) s2
        { cbuf with res_bo := fun j => if j = i then d else cbuf.res_bo j }
    | none => release_all_res_loop fuel (i + 1) s cbuf

def virgl_vtest_release_all_res (s : virgl_vtest_winsys) (cbuf : virgl_vtest_cmd_buf) :
    virgl_vtest_winsys × virgl_vtest_cmd_buf :=
  let (s1, cbuf1) := release_all_res_loop cbuf.cres 0 s cbuf
  (s1, { cbuf1 with cres := 0 })

/-- The function `virgl_vtest_add_res`; `REALLOC` succeeds. -/
def virgl_vtest_add_res (s : virgl_vtest_winsys) (cbuf : virgl_vtest_cmd_buf) (res : Nat) :
    virgl_vtest_winsys × virgl_vtest_cmd_buf :=
  let hash := res_hash s res
  let cbuf1 := if cbuf.cres ≥ cbuf.nres then { cbuf with nres := cbuf.nres + 256 } else cbuf
  let cbuf2 := { cbuf1 with res_bo := fun j => if j = cbuf1.cres then none else cbuf1.res_bo j }
  let (d, s1) := virgl_vtest_resource_reference s (cbuf2.res_bo cbuf2.cres) (some res)
  let cbuf3 := { cbuf2 with res_bo := fun j => if j = cbuf2.cres then d else cbuf2.res_bo j }
  let cbuf4 := { cbuf3 with is_handle_added :=
                   fun h => if h = hash then true else cbuf3.is_handle_added h }
  let cbuf5 := { cbuf4 with reloc_indices_hashlist :=
                   fun h => if h = hash then cbuf4.cres else cbuf4.reloc_indices_hashlist h }
  let s2 := store s1 res { s1.mem res with num_cs_references := (s1.mem res).num_cs_references + 1 }
  (s2, { cbuf5 with cres := cbuf5.cres + 1 })

/-- The request `virgl_vtest_submit_cmd`: the header and the first `cdw` words. -/
def virgl_vtest_submit_cmd (s : virgl_vtest_winsys) (cbuf : virgl_vtest_cmd_buf) :
    virgl_vtest_winsys :=
  send s (.submit_cmd cbuf.cdw ((List.range cbuf.cdw).map cbuf.buf))

def virgl_vtest_winsys_submit_cmd (s : virgl_vtest_winsys) (cbuf : virgl_vtest_cmd_buf) :
    virgl_vtest_winsys × virgl_vtest_cmd_buf :=
  if cbuf.cdw = 0 then (s, cbuf)
  else
    let s1 := virgl_vtest_submit_cmd s cbuf
    let (s2, cbuf1) := virgl_vtest_release_all_res s1 cbuf
    (s2, { cbuf1 with is_handle_added := fun _ => false, cdw := 0 })

def virgl_vtest_emit_res (s : virgl_vtest_winsys) (cbuf : virgl_vtest_cmd_buf) (res : Nat)
    (write_buf : Bool) : virgl_vtest_winsys × virgl_vtest_cmd_buf :=
  let (already_in_list, cbuf1) := virgl_vtest_lookup_res s cbuf res
  let cbuf2 :=
    if write_buf then
      { cbuf1 with buf := fun j => if j = cbuf1.cdw then (s.mem res).res_handle else cbuf1.buf j,
                   cdw := cbuf1.cdw + 1 }
    else cbuf1
  if !already_in_list then virgl_vtest_add_res s cbuf2 res else (s, cbuf2)

def virgl_vtest_res_is_ref (s : virgl_vtest_winsys) (res : Nat) : Bool :=
  if (s.mem res).num_cs_references = 0 then false else true

/-! ## Vocabulary of the statements -/

/-- The result word the server gives to the next `RESOURCE_BUSY_WAIT` request
when that request names the resource at `res` (0 = idle, 1 = busy). -/
def next_busy_reply (s : virgl_vtest_winsys) (res : Nat) : Nat :=
  s.busy_reply s.polls ((s.mem res).res_handle % 4294967296)

/-- The winsys state after one `RESOURCE_BUSY_WAIT` poll (flags 0) of the
resource at `res`: the request is logged and one reply is consumed. -/
def after_poll (s : virgl_vtest_winsys) (res : Nat) : virgl_vtest_winsys :=
  { send s (.busy_wait ((s.mem res).res_handle % 4294967296) 0) with polls := s.polls + 1 }

/-- The static part of `virgl_is_res_compat`: bind, format and the size window,
before the server is asked. -/
def res_matches (r : virgl_hw_res) (size bind format : Nat) : Bool :=
  decide (r.bind = bind) && decide (r.format = format) && !decide (r.size < size) &&
    !decide (r.size > (size * 2) % 4294967296)

/-- A winsys whose pool holds one idle 128-byte constant buffer of format 1. -/
def pooled_128 : virgl_vtest_winsys :=
  { virgl_vtest_winsys_wrap (fun _ => 0) (fun _ _ => 0) with
    delayed := [0], num_delayed := 1, handle := 2, brk := 1,
    mem := fun _ => { reference := 0, res_handle := 1, size := 128, format := 1,
                      bind := VIRGL_BIND_CONSTANT_BUFFER, cacheable := true,
                      start := 0, end_ := 1000000 } }

/-- The value `dt_set &= ~(1 << dt->id)` leaves in `dt_set` when a resource with
display target `dt` is destroyed (unchanged when it has none). -/
def dt_set_after_destroy (dt_set : Nat) (dt : Option vtest_displaytarget) : Nat :=
  match dt with
  | some dt => dt_set &&& (4294967295 ^^^ ((1 <<< dt.id) % 4294967296))
  | none => dt_set

/-- The requests `virgl_hw_res_destroy` writes for a resource record: one
`RESOURCE_UNREF` with its handle, followed by a display-target destroy command
with its id when it has a display target. -/
def destroy_msgs (r : virgl_hw_res) : List vtest_msg :=
  .resource_unref r.res_handle ::
    (match r.dt with
     | some dt => [.dt .VCMD_DT_CMD_DESTROY 0 0 0 0 dt.id 0 0]
     | none => [])

/-- Whether the retention window of the entry at `p` has passed at `now`. -/
def expired (mem : Nat → virgl_hw_res) (now : Int) (p : Nat) : Bool :=
  os_time_timeout (mem p).start (mem p).end_ now

/-- The first half of `pipe_reference`: one more reference on `src` (nothing
for a null pointer). -/
def take_reference (s : virgl_vtest_winsys) (src : Option Nat) : virgl_vtest_winsys :=
  match src with
  | some p => store s p { s.mem p with reference := (s.mem p).reference + 1 }
  | none => s

/-- Two heaps that differ at most in the reference counts of their records. -/
def same_but_reference (m m' : Nat → virgl_hw_res) : Prop :=
  ∀ q, m' q = { m q with reference := (m' q).reference }

/-- The pooled entries `virgl_cache_list_check_free` destroys at time `now`: the
longest run of timed-out entries at the head of the pool. -/
def expired_head (s : virgl_vtest_winsys) (now : Int) : List Nat :=
  s.delayed.takeWhile (expired s.mem now)

/-- A winsys holding one sampler-view texture (bind `1 << 3`, not a cacheable
kind) with a single reference, at address 0 with handle 1. -/
def one_texture : virgl_vtest_winsys :=
  (virgl_vtest_winsys_resource_cache_create (virgl_vtest_winsys_wrap (fun _ => 0) (fun _ _ => 0))
    2 1 8 16 16 1 1 0 0 1024).2

/-- A winsys holding one vertex buffer (a cacheable kind) with a single
reference, at address 0 with handle 1. -/
def one_vertex_buffer : virgl_vtest_winsys :=
  (virgl_vtest_winsys_resource_cache_create (virgl_vtest_winsys_wrap (fun _ => 0) (fun _ _ => 0))
    0 1 VIRGL_BIND_VERTEX_BUFFER 256 1 1 1 0 0 256).2

/-- A winsys with two vertex buffers A (address 0, handle 1) and B (address 1,
handle 2) under a clock that advances two seconds per reading: A has been
released into the pool and B still has its single reference. -/
def one_pooled_one_held : virgl_vtest_winsys :=
  let w := virgl_vtest_winsys_wrap (fun n => 2000000 * (n : Int)) (fun _ _ => 0)
  let a := virgl_vtest_winsys_resource_cache_create w 0 1 VIRGL_BIND_VERTEX_BUFFER 256 1 1 1 0 0 256
  let b := virgl_vtest_winsys_resource_cache_create a.2 0 1 VIRGL_BIND_VERTEX_BUFFER 256 1 1 1 0 0
    256
  virgl_vtest_winsys_resource_unref b.2 a.1

/-- The handles carried by the `RESOURCE_CREATE` requests of a log, in order. -/
def created_handles (l : List vtest_msg) : List Nat :=
  l.filterMap (fun m => match m with
    | .resource_create handle _ _ _ _ _ _ _ _ _ => some handle
    | _ => none)

/-- What a scan of the pool can change: it only appends to the request log,
only unlinks pool entries and only consumes poll replies; it writes no
`RESOURCE_CREATE`, and the heap, the handle counter, the allocation mark, the
clock and `num_delayed` stay as they are. -/
def scan_frame (s s' : virgl_vtest_winsys) : Prop :=
  s'.mem = s.mem ∧ s'.handle = s.handle ∧ s'.brk = s.brk ∧ s'.busy_reply = s.busy_reply ∧
  s'.clock = s.clock ∧ s'.ticks = s.ticks ∧ s'.usecs = s.usecs ∧
  s'.num_delayed = s.num_delayed ∧ s.sent <+: s'.sent ∧ s'.delayed.Sublist s.delayed ∧
  s.polls ≤ s'.polls ∧ created_handles s'.sent = created_handles s.sent

/-- The bind kinds for which `virgl_vtest_winsys_resource_cache_create` scans
the pool. -/
def scans_pool (bind : Nat) : Prop :=
  bind = VIRGL_BIND_CONSTANT_BUFFER ∨ bind = VIRGL_BIND_INDEX_BUFFER ∨
    bind = VIRGL_BIND_VERTEX_BUFFER ∨ bind = VIRGL_BIND_CUSTOM

/-- The state in which the scan of `virgl_vtest_winsys_resource_cache_create`
ends when started in `s`. -/
def scan_of (s : virgl_vtest_winsys) (size bind format : Nat) : cache_scan :=
  cache_create_scan (s.clock s.ticks) size bind format 0 s.delayed
    { s with ticks := s.ticks + 1 }

/-- A winsys whose pool holds three constant buffers of format 1 with recorded
sizes 32, 128 and 128 (addresses 0, 1, 2; handles 1, 2, 3), none timed out at
time 0, and whose server answers every poll with the word `reply`. -/
def pool_of_three (reply : Nat) : virgl_vtest_winsys :=
  { virgl_vtest_winsys_wrap (fun _ => 0) (fun _ _ => reply) with
    delayed := [0, 1, 2], num_delayed := 3, handle := 4, brk := 3,
    mem := fun q =>
      { reference := 0, res_handle := q + 1, size := if q = 0 then 32 else 128, format := 1,
        bind := VIRGL_BIND_CONSTANT_BUFFER, cacheable := true, start := 0, end_ := 1000000 } }

/-- The winsys right after `virgl_vtest_winsys_wrap`, with a clock that stands
still at 0 and a server that reports every resource idle. -/
def fresh_winsys : virgl_vtest_winsys :=
  virgl_vtest_winsys_wrap (fun _ => 0) (fun _ _ => 0)

/-- The scenario "create, release the only reference, create again" on
`fresh_winsys` for a buffer of bind kind `bind` and format 1: the first create
asks for `size1` bytes, the second for `size2` bytes.  The result holds the
address returned by the first create, the state after the release, and the
address and state returned by the second create. -/
def create_release_create (bind size1 size2 : Nat) :
    Nat × virgl_vtest_winsys × Nat × virgl_vtest_winsys :=
  let c1 := virgl_vtest_winsys_resource_cache_create fresh_winsys 0 1 bind size1 1 1 1 0 0 size1
  let s2 := virgl_vtest_winsys_resource_unref c1.2 c1.1
  let c2 := virgl_vtest_winsys_resource_cache_create s2 0 1 bind size2 1 1 1 0 0 size2
  (c1.1, s2, c2.1, c2.2)

/-! ## Sequences of winsys operations -/

/-- A winsys together with the command buffers created on it so far; a
destroyed command buffer leaves an empty slot. -/
structure vtest_system where
  ws : virgl_vtest_winsys
  cbufs : List (Option virgl_vtest_cmd_buf)

/-- The resource and command-buffer entry points of `struct virgl_winsys` that
`virgl_vtest_winsys_wrap` installs (resources are named by address, command
buffers by creation index), and the pool flush of `virgl_vtest_winsys_destroy`. -/
inductive vtest_op where
  | resource_create (target format bind width height depth array_size last_level
      nr_samples size : Nat)
  | resource_unref (hres : Nat)
  | fence_reference (dst src : Option Nat)
  | cmd_buf_create
  | cmd_buf_destroy (cbuf : Nat)
  | emit_res (cbuf res : Nat) (write_buf : Bool)
  | submit_cmd (cbuf : Nat)
  | cache_flush

/-- One operation.  An operation on a command buffer that does not exist (or
was destroyed) does nothing. -/
def vtest_step (sys : vtest_system) : vtest_op → vtest_system
  | .resource_create target format bind width height depth array_size last_level nr_samples
      size =>
    { sys with ws := (virgl_vtest_winsys_resource_cache_create sys.ws target format bind width
        height depth array_size last_level nr_samples size).2 }
  | .resource_unref hres => { sys with ws := virgl_vtest_winsys_resource_unref sys.ws hres }
  | .fence_reference dst src =>
    { sys with ws := (virgl_vtest_resource_reference sys.ws dst src).2 }
  | .cmd_buf_create => { sys with cbufs := sys.cbufs ++ [some virgl_vtest_cmd_buf_create] }
  | .cmd_buf_destroy cbuf => { sys with cbufs := sys.cbufs.set cbuf none }
  | .emit_res cbuf res write_buf =>
    match (sys.cbufs.getD cbuf none) with
    | some b =>
      let r := virgl_vtest_emit_res sys.ws b res write_buf
      { ws := r.1, cbufs := sys.cbufs.set cbuf (some r.2) }
    | none => sys
  | .submit_cmd cbuf =>
    match (sys.cbufs.getD cbuf none) with
    | some b =>
      let r := virgl_vtest_winsys_submit_cmd sys.ws b
      { ws := r.1, cbufs := sys.cbufs.set cbuf (some r.2) }
    | none => sys
  | .cache_flush => { sys with ws := virgl_cache_flush sys.ws }

/-- A sequence of operations, first to last. -/
def vtest_run (sys : vtest_system) (ops : List vtest_op) : vtest_system :=
  ops.foldl vtest_step sys

/-- The system right after `virgl_vtest_winsys_wrap`: no command buffer yet. -/
def vtest_boot (clock : Nat → Int) (busy_reply : Nat → Nat → Nat) : vtest_system :=
  { ws := virgl_vtest_winsys_wrap clock busy_reply, cbufs := [] }

/-- Two heaps whose records agree on everything that is fixed once a resource
has been created: handle, size, format, bind, display target, cacheable flag. -/
def same_fixed (m m' : Nat → virgl_hw_res) : Prop :=
  ∀ q, (m' q).res_handle = (m q).res_handle ∧ (m' q).size = (m q).size ∧
    (m' q).format = (m q).format ∧ (m' q).bind = (m q).bind ∧ (m' q).dt = (m q).dt ∧
    (m' q).cacheable = (m q).cacheable

/-- A step that creates nothing: handle counter, allocation mark, the fixed part
of every record, the `RESOURCE_CREATE` requests of the log, `usecs` and the two
input streams are as before. -/
def keeps_ids (s s' : virgl_vtest_winsys) : Prop :=
  s'.handle = s.handle ∧ s'.brk = s.brk ∧ same_fixed s.mem s'.mem ∧
  created_handles s'.sent = created_handles s.sent ∧ s'.usecs = s.usecs ∧
  s'.clock = s.clock ∧ s'.busy_reply = s.busy_reply

/-- The cacheable branch of `virgl_vtest_resource_reference` in closed form:
sweep the head of the pool, read the clock, stamp the released record with
`start = now` and `end = now + usecs`, link it at the tail and count it. -/
def pool_insert (s : virgl_vtest_winsys) (old : Nat) : virgl_vtest_winsys :=
  let s2 := virgl_cache_list_check_free s
  { s2 with
    ticks := s2.ticks + 1
    delayed := s2.delayed ++ [old]
    num_delayed := s2.num_delayed + 1
    mem := fun q =>
      if q = old then
        { s2.mem old with start := s2.clock s2.ticks, end_ := s2.clock s2.ticks + s2.usecs }
      else s2.mem q }

/-- The numbering of handles: the counter is one ahead of the number of records
allocated so far, the record allocated k-th (address `k - 1`) carries handle `k`,
and the `RESOURCE_CREATE` requests written so far carry 1, 2, ... in this order
(all modulo `2 ^ 32`). -/
def handles_numbered (s : virgl_vtest_winsys) : Prop :=
  s.handle = (s.brk + 1) % 4294967296 ∧
  (∀ k, k < s.brk → (s.mem k).res_handle = (k + 1) % 4294967296) ∧
  created_handles s.sent = (List.range s.brk).map (fun k => (k + 1) % 4294967296)

/-- No record of the heap has a recorded size: the field `size` of every
`virgl_hw_res` is still the zero `CALLOC_STRUCT` left there. -/
def sizes_unset (s : virgl_vtest_winsys) : Prop :=
  ∀ q, (s.mem q).size = 0

/-- A winsys under a clock that advances two seconds per reading, in which a
vertex buffer created with size 0 (address 0, handle 1) has been released: it
sits in the pool with the window `[4000000, 5000000)`, and the next reading of
the clock is 6000000. -/
def stale_pool : virgl_vtest_winsys :=
  let w := virgl_vtest_winsys_wrap (fun n => 2000000 * (n : Int)) (fun _ _ => 0)
  let a := virgl_vtest_winsys_resource_cache_create w 0 1 VIRGL_BIND_VERTEX_BUFFER 0 1 1 1 0 0 0
  virgl_vtest_winsys_resource_unref a.2 a.1

/-! ## One command buffer -/

/-- The reference set of a command buffer, `res_bo[0..cres)`, slot by slot. -/
def reference_set (cbuf : virgl_vtest_cmd_buf) : List (Option Nat) :=
  (List.range cbuf.cres).map cbuf.res_bo

/-- The plain linear scan of the reference set: whether some slot of
`res_bo[0..cres)` holds the resource at `res`. -/
def linear_lookup (cbuf : virgl_vtest_cmd_buf) (res : Nat) : Bool :=
  (reference_set cbuf).contains (some res)

/-- The operations on one command buffer. -/
inductive cbuf_op where
  | emit_res (res : Nat) (write_buf : Bool)
  | submit_cmd

def cbuf_step (st : virgl_vtest_winsys × virgl_vtest_cmd_buf) :
    cbuf_op → virgl_vtest_winsys × virgl_vtest_cmd_buf
  | .emit_res res write_buf => virgl_vtest_emit_res st.1 st.2 res write_buf
  | .submit_cmd => virgl_vtest_winsys_submit_cmd st.1 st.2

def cbuf_run (st : virgl_vtest_winsys × virgl_vtest_cmd_buf) (ops : List cbuf_op) :
    virgl_vtest_winsys × virgl_vtest_cmd_buf :=
  ops.foldl cbuf_step st

/-- What the dedup table of a command buffer satisfies in every state: a flagged
slot of the table points below `cres`, and every used slot of `res_bo` holds a
resource whose table slot is flagged. -/
def cbuf_ok (s : virgl_vtest_winsys) (cbuf : virgl_vtest_cmd_buf) : Prop :=
  (∀ h, cbuf.is_handle_added h = true → cbuf.reloc_indices_hashlist h < cbuf.cres) ∧
  (∀ i, i < cbuf.cres →
    ∃ p, cbuf.res_bo i = some p ∧ cbuf.is_handle_added (res_hash s p) = true)

/-- A winsys with three resources held once each, at addresses 0, 1, 2 with
handles 1, 513, 2: the first two share slot 1 of the 512-entry dedup table. -/
def colliding_handles : virgl_vtest_winsys :=
  { virgl_vtest_winsys_wrap (fun _ => 0) (fun _ _ => 0) with
    handle := 514, brk := 3,
    mem := fun q =>
      { reference := 1, res_handle := if q = 0 then 1 else if q = 1 then 513 else 2,
        bind := 8, format := 1 } }

/-! ## Wire layout of the requests -/

/-- Modelled from the spec: the payload sizes, in words, that `vtest_protocol.h`
(not among the source files) gives to the fixed-size requests: a 10-word
`RESOURCE_CREATE`, a 2-word `RESOURCE_BUSY_WAIT`, an 11-word transfer request and
an 8-word display-target request. -/
def VCMD_RES_CREATE_SIZE : Nat := 10

/-- Modelled from the spec: `RESOURCE_BUSY_WAIT` has a 2-word payload. -/
def VCMD_BUSY_WAIT_SIZE : Nat := 2

/-- Modelled from the spec: the transfer requests have an 11-word payload. -/
def VCMD_TRANSFER_HDR_SIZE : Nat := 11

/-- Modelled from the spec: the display-target request has an 8-word payload. -/
def VCMD_DT_SIZE : Nat := 8

/-- What one request puts on the transport: the two header words
`vtest_hdr[VTEST_CMD_LEN]` and `vtest_hdr[VTEST_CMD_ID]`, and the number of
bytes its helper writes after the header. -/
structure vtest_request where
  cmd_len : Nat
  cmd_id : vcmd
  payload_bytes : Nat
deriving DecidableEq

/-- The header and payload size each request helper of `virgl_vtest_socket.c`
writes (`sizeof` of a `uint32_t` array of n words is 4n; `cdw` is bounded by the
size of the word array, so `cdw * 4` does not wrap).  The raw data of a
`TRANSFER_PUT` has no header of its own. -/
def wire_request : vtest_msg → Option vtest_request
  | .resource_create _ _ _ _ _ _ _ _ _ _ =>
    some ⟨VCMD_RES_CREATE_SIZE, .VCMD_RESOURCE_CREATE, 4 * VCMD_RES_CREATE_SIZE⟩
  | .resource_unref _ => some ⟨1, .VCMD_RESOURCE_UNREF, 4 * 1⟩
  | .busy_wait _ _ => some ⟨VCMD_BUSY_WAIT_SIZE, .VCMD_RESOURCE_BUSY_WAIT, 4 * VCMD_BUSY_WAIT_SIZE⟩
  | .dt _ _ _ _ _ _ _ _ => some ⟨VCMD_DT_SIZE, .VCMD_DT_COMMAND, 4 * VCMD_DT_SIZE⟩
  | .submit_cmd cdw _ => some ⟨cdw, .VCMD_SUBMIT_CMD, cdw * 4⟩
  | .create_renderer cmdline =>
    some ⟨cmdline.length + 1, .VCMD_CREATE_RENDERER, cmdline.length + 1⟩
  | .get_caps2 => some ⟨0, .VCMD_GET_CAPS2, 0⟩
  | .get_caps => some ⟨0, .VCMD_GET_CAPS, 0⟩
  | .transfer cmd_len vcmd _ _ _ _ _ _ _ _ _ _ _ =>
    some ⟨cmd_len, vcmd, 4 * VCMD_TRANSFER_HDR_SIZE⟩
  | .transfer_put_data _ => none

/-- The payload words `cmd[0..10]` of a transfer request, in the order
`virgl_vtest_send_transfer_cmd` stores them. -/
def transfer_words : vtest_msg → List Nat
  | .transfer _ _ handle level stride layer_stride x y z width height depth data_size =>
    [handle, level, stride, layer_stride, x, y, z, width, height, depth, data_size]
  | _ => []

/-- Conversion of an `int` to a 32-bit unsigned word. -/
def to_uint32 (i : Int) : Nat := (i % 4294967296).toNat

/-- Conversion of an `int64_t` to a 64-bit unsigned value. -/
def to_uint64 (i : Int) : Nat := (i % 18446744073709551616).toNat

/-- The region `struct pipe_box`, with `int` fields. -/
structure pipe_box where
  x : Int
  y : Int
  z : Int
  width : Int
  height : Int
  depth : Int
deriving DecidableEq

/-- The request `virgl_vtest_send_init`; the identifier string is the process
name resolved by the caller's environment (or the default `virtest`). -/
def virgl_vtest_send_init (s : virgl_vtest_winsys) (cmdline : List Nat) : virgl_vtest_winsys :=
  send s (.create_renderer cmdline)

/-- The two probe headers `virgl_vtest_send_get_caps` writes. -/
def virgl_vtest_send_get_caps_probes (s : virgl_vtest_winsys) : virgl_vtest_winsys :=
  send (send s .get_caps2) .get_caps

def virgl_vtest_send_transfer_cmd (s : virgl_vtest_winsys) (vcmd : vcmd)
    (handle level stride layer_stride : Nat) (box : pipe_box) (data_size : Nat) :
    virgl_vtest_winsys :=
  let cmd_len := VCMD_TRANSFER_HDR_SIZE
  let cmd_len :=
    if vcmd = .VCMD_TRANSFER_PUT then (cmd_len + (data_size + 3 / 4)) % 4294967296 else cmd_len
  send s (.transfer cmd_len vcmd handle level stride layer_stride (to_uint32 box.x)
    (to_uint32 box.y) (to_uint32 box.z) (to_uint32 box.width) (to_uint32 box.height)
    (to_uint32 box.depth) data_size)

def virgl_vtest_send_transfer_put_data (s : virgl_vtest_winsys) (data_size : Nat) :
    virgl_vtest_winsys :=
  send s (.transfer_put_data data_size)

/-! ## Transfer size -/

/-- The format helpers of `util/u_format.h` that the transfer code calls
(`util_format_get_stride`, `util_format_get_2d_size`, `util_format_get_nblocksy`);
the header and its format table are not among the source files, so the helpers
are taken as given functions of the format and their other arguments. -/
structure util_format where
  util_format_get_stride : Nat → Nat → Nat
  util_format_get_2d_size : Nat → Nat → Nat → Nat
  util_format_get_nblocksy : Nat → Nat → Nat

/-- The function `vtest_get_transfer_size`; the result is the returned size and
the value stored through `valid_stride_p`. -/
def vtest_get_transfer_size (fmt : util_format) (res : virgl_hw_res) (box : pipe_box)
    (stride layer_stride _level : Nat) : Nat × Nat :=
  let valid_stride := fmt.util_format_get_stride res.format (to_uint32 box.width) % 4294967296
  let valid_stride :=
    if stride ≠ 0 then (if box.height > 1 then stride else valid_stride) else valid_stride
  let valid_layer_stride :=
    fmt.util_format_get_2d_size res.format valid_stride (to_uint32 box.height) % 4294967296
  let valid_layer_stride :=
    if layer_stride ≠ 0 then (if box.depth > 1 then layer_stride else valid_layer_stride)
    else valid_layer_stride
  ((valid_layer_stride * to_uint32 box.depth) % 4294967296, valid_stride)

/-- The function `virgl_vtest_transfer_put`: the transfer request, then the data
bytes (mapping and unmapping the resource changes nothing that is tracked). -/
def virgl_vtest_transfer_put (fmt : util_format) (s : virgl_vtest_winsys) (res : Nat)
    (box : pipe_box) (stride layer_stride _buf_offset level : Nat) : virgl_vtest_winsys :=
  let size := (vtest_get_transfer_size fmt (s.mem res) box stride layer_stride level).1
  let s1 := virgl_vtest_send_transfer_cmd s .VCMD_TRANSFER_PUT (s.mem res).res_handle level
    stride layer_stride box size
  virgl_vtest_send_transfer_put_data s1 size

/-! ## Command-buffer results and fences -/

/-- The `int` that `virgl_vtest_winsys_submit_cmd` returns: 0 for an empty
batch, otherwise the result of `virgl_vtest_submit_cmd`, which is always 0. -/
def virgl_vtest_winsys_submit_cmd_result (cbuf : virgl_vtest_cmd_buf) : Int :=
  if cbuf.cdw = 0 then 0 else 0

/-- The constants of `pipe/p_defines.h` and `pipe/p_format.h` that
`virgl_cs_create_fence` passes on; the headers are not among the source files,
so their values are taken as given. -/
structure pipe_defines where
  PIPE_BUFFER : Nat
  PIPE_FORMAT_R8_UNORM : Nat
  PIPE_BIND_CUSTOM : Nat

/-- Modelled from the spec: the timeout value that stands for "infinite"
(`PIPE_TIMEOUT_INFINITE` of `pipe/p_defines.h`, all 64 bits set). -/
def PIPE_TIMEOUT_INFINITE : Nat := 18446744073709551615

def virgl_cs_create_fence (pd : pipe_defines) (s : virgl_vtest_winsys) :
    Nat × virgl_vtest_winsys :=
  virgl_vtest_winsys_resource_cache_create s pd.PIPE_BUFFER pd.PIPE_FORMAT_R8_UNORM
    pd.PIPE_BIND_CUSTOM 8 1 1 0 0 0 8

def virgl_vtest_resource_wait (s : virgl_vtest_winsys) (res : Nat) : virgl_vtest_winsys :=
  (virgl_vtest_busy_wait s (s.mem res).res_handle VCMD_BUSY_WAIT_FLAG_WAIT).2

/-- The polling loop of `virgl_fence_wait` for a finite timeout (already divided
by 1000), with `fuel` bounding the number of polls; `none` when the fuel runs
out before the loop is left.  The elapsed time `os_time_get() - start_time` is
an `int64_t` and is compared with the unsigned `timeout` as an unsigned value.
`os_time_sleep(10)` only lets time pass. -/
def virgl_fence_wait_loop (start_time : Int) (timeout : Nat) (res : Nat) :
    Nat → virgl_vtest_winsys → Option (Bool × virgl_vtest_winsys)
  | 0, _ => none
  | fuel + 1, s =>
    let (busy, s1) := virgl_vtest_resource_is_busy s res
    if busy then
      let (now, s2) := os_time_get s1
      if to_uint64 (now - start_time) ≥ timeout then some (false, s2)
      else virgl_fence_wait_loop start_time timeout res fuel s2
    else some (true, s1)

/-- The function `virgl_fence_wait` (`timeout` is a `uint64_t`). -/
def virgl_fence_wait (s : virgl_vtest_winsys) (fence : Nat) (timeout : Nat) (fuel : Nat) :
    Option (Bool × virgl_vtest_winsys) :=
  if timeout = 0 then some (true, s)
  else if timeout ≠ PIPE_TIMEOUT_INFINITE then
    let (start_time, s1) := os_time_get s
    virgl_fence_wait_loop start_time (timeout / 1000) fence fuel s1
  else some (true, virgl_vtest_resource_wait s fence)

def virgl_fence_reference (s : virgl_vtest_winsys) (dst src : Option Nat) :
    Option Nat × virgl_vtest_winsys :=
  virgl_vtest_resource_reference s dst src

/-- A freshly wrapped winsys (clock standing still, server idle) in which one
256-byte vertex buffer has been created (address 0, handle 1), and a new command
buffer into which that buffer has been emitted once, with or without writing its
handle into the batch. -/
def one_emitted (write_buf : Bool) : virgl_vtest_winsys × virgl_vtest_cmd_buf :=
  let w := virgl_vtest_winsys_wrap (fun _ => 0) (fun _ _ => 0)
  let a := virgl_vtest_winsys_resource_cache_create w 0 1 VIRGL_BIND_VERTEX_BUFFER 256 1 1 1 0 0
    256
  virgl_vtest_emit_res a.2 virgl_vtest_cmd_buf_create a.1 write_buf

/-- A resource that a command buffer names while its owner lets go of it:
`virgl_vtest_emit_res` puts the resource at `r` into the buffer, the owner calls
`virgl_vtest_winsys_resource_unref`, and then the buffer is submitted.  The result
is the winsys after the unref, and the winsys and the buffer after the submit. -/
def emit_unref_submit (s : virgl_vtest_winsys) (cbuf : virgl_vtest_cmd_buf) (r : Nat)
    (write_buf : Bool) : virgl_vtest_winsys × (virgl_vtest_winsys × virgl_vtest_cmd_buf) :=
  let e := virgl_vtest_emit_res s cbuf r write_buf
  let u := virgl_vtest_winsys_resource_unref e.1 r
  (u, virgl_vtest_winsys_submit_cmd u e.2)

/-- The number of live command buffers of the system whose reference set
`res_bo[0..cres)` contains the resource at `r`. -/
def live_references (sys : vtest_system) (r : Nat) : Nat :=
  (sys.cbufs.filter (fun b =>
    match b with
    | some b => linear_lookup b r
    | none => false)).length

/-- On a freshly wrapped winsys: a 256-byte vertex buffer is created (address 0,
handle 1), a command buffer is created, the vertex buffer is emitted into it, and
the command buffer is destroyed without having been submitted. -/
def emit_then_destroy : vtest_system :=
  vtest_run (vtest_boot (fun _ => 0) (fun _ _ => 0))
    [.resource_create 0 1 VIRGL_BIND_VERTEX_BUFFER 256 1 1 1 0 0 256, .cmd_buf_create,
     .emit_res 0 0 true, .cmd_buf_destroy 0]

/-- A format of 4-byte pixels in blocks of one pixel, as the helpers of
`u_format.h` compute for it: a row of `width` pixels takes `4 * width` bytes,
`height` rows of `stride` bytes take `stride * height` bytes, and a region of
`height` rows is `height` blocks high. -/
def four_byte_pixels : util_format :=
  { util_format_get_stride := fun _ width => 4 * width
    util_format_get_2d_size := fun _ stride height => stride * height
    util_format_get_nblocksy := fun _ height => height }

/-- The request-writing helpers of `virgl_vtest_socket.c`, each with its
arguments. -/
inductive vtest_send where
  | send_init (cmdline : List Nat)
  | send_get_caps
  | send_resource_create (handle target format bind width height depth array_size last_level
      nr_samples : Nat)
  | send_resource_unref (handle : Nat)
  | busy_wait (handle flags : Nat)
  | submit_cmd (cbuf : virgl_vtest_cmd_buf)
  | send_transfer_cmd (vcmd : vcmd) (handle level stride layer_stride : Nat) (box : pipe_box)
      (data_size : Nat)
  | send_dt (cmd : vtest_dt_cmd) (x y w h id handle drawable : Nat)

/-- The winsys after one call of a request-writing helper. -/
def write_request (s : virgl_vtest_winsys) : vtest_send → virgl_vtest_winsys
  | .send_init cmdline => virgl_vtest_send_init s cmdline
  | .send_get_caps => virgl_vtest_send_get_caps_probes s
  | .send_resource_create handle target format bind width height depth array_size last_level
      nr_samples =>
    virgl_vtest_send_resource_create s handle target format bind width height depth array_size
      last_level nr_samples
  | .send_resource_unref handle => virgl_vtest_send_resource_unref s handle
  | .busy_wait handle flags => (virgl_vtest_busy_wait s handle flags).2
  | .submit_cmd cbuf => virgl_vtest_submit_cmd s cbuf
  | .send_transfer_cmd vcmd handle level stride layer_stride box data_size =>
    virgl_vtest_send_transfer_cmd s vcmd handle level stride layer_stride box data_size
  | .send_dt cmd x y w h id handle drawable => virgl_vtest_send_dt s cmd x y w h id handle drawable

/-- The command identifiers of the request headers a helper writes, in order. -/
def request_ids : vtest_send → List vcmd
  | .send_init _ => [.VCMD_CREATE_RENDERER]
  | .send_get_caps => [.VCMD_GET_CAPS2, .VCMD_GET_CAPS]
  | .send_resource_create _ _ _ _ _ _ _ _ _ _ => [.VCMD_RESOURCE_CREATE]
  | .send_resource_unref _ => [.VCMD_RESOURCE_UNREF]
  | .busy_wait _ _ => [.VCMD_RESOURCE_BUSY_WAIT]
  | .submit_cmd _ => [.VCMD_SUBMIT_CMD]
  | .send_transfer_cmd vcmd _ _ _ _ _ _ => [vcmd]
  | .send_dt _ _ _ _ _ _ _ _ => [.VCMD_DT_COMMAND]

/-- Values for the constants of `pipe_defines` under which `PIPE_BIND_CUSTOM`
coincides with `VIRGL_BIND_CUSTOM`, the bind for which the cache lookup scans
the pool. -/
def custom_as_virgl : pipe_defines :=
  { PIPE_BUFFER := 0, PIPE_FORMAT_R8_UNORM := 64, PIPE_BIND_CUSTOM := VIRGL_BIND_CUSTOM }

/-- A winsys whose server answers "busy" to every poll and whose clock advances
one millisecond per reading for the first ten readings and then stands still,
holding one fence (address 0, handle 1) created at the first reading. -/
def busy_fence : virgl_vtest_winsys :=
  (virgl_cs_create_fence custom_as_virgl
    (virgl_vtest_winsys_wrap (fun n => 1000 * ((min n 10 : Nat) : Int)) (fun _ _ => 1))).2

/-- What is recorded of a fence that is created, released and created again. -/
structure fence_trace where
  first : Nat
  created : virgl_vtest_winsys
  released : virgl_vtest_winsys
  second : Nat
  final : virgl_vtest_winsys

/-- A fence is created with `virgl_cs_create_fence`, its only reference is
dropped through `virgl_fence_reference`, and `virgl_cs_create_fence` is called
again: the first fence, the winsys after its creation and after its release, the
second fence and the winsys at the end. -/
def fence_create_release_create (pd : pipe_defines) (s : virgl_vtest_winsys) : fence_trace :=
  let c1 := virgl_cs_create_fence pd s
  let r := virgl_fence_reference c1.2 (some c1.1) none
  let c2 := virgl_cs_create_fence pd r.2
  { first := c1.1, created := c1.2, released := r.2, second := c2.1, final := c2.2 }

/-- The command-buffer operations other than destroy: create, emit and submit. -/
def keeps_buffers : vtest_op → Bool
  | .cmd_buf_create => true
  | .emit_res _ _ _ => true
  | .submit_cmd _ => true
  | _ => false

/-- The bookkeeping of command-buffer references: every live buffer has a
consistent dedup table and names a resource at most once, and for every resource
`num_cs_references` is the number of live buffers naming it. -/
def cs_counted (sys : vtest_system) : Prop :=
  (∀ b, some b ∈ sys.cbufs → cbuf_ok sys.ws b ∧ (reference_set b).Nodup) ∧
  ∀ r, (sys.ws.mem r).num_cs_references = (live_references sys r : Int)

/-- The handles carried by the `RESOURCE_UNREF` requests of a log, in order. -/
def unref_handles (l : List vtest_msg) : List Nat :=
  l.filterMap (fun m => match m with
    | .resource_unref handle => some handle
    | _ => none)

/-! ## Display targets in use -/

/-- A winsys together with the display targets created on it and not yet
destroyed. -/
structure dt_system where
  ws : virgl_vtest_winsys
  live : List vtest_displaytarget

/-- The two display-target operations; a destroy names the display target to
destroy. -/
inductive dt_op where
  | create (width height : Nat)
  | destroy (dt : vtest_displaytarget)

/-- One display-target operation.  A create that returns NULL adds nothing; a
destroy of something that is not a live display target is not a call the winsys
makes and does nothing. -/
def dt_step (sys : dt_system) : dt_op → dt_system
  | .create width height =>
    match vtest_displaytarget_create sys.ws width height with
    | (some dt, s) => { ws := s, live := sys.live ++ [dt] }
    | (none, s) => { ws := s, live := sys.live }
  | .destroy dt =>
    if dt ∈ sys.live then
      { ws := vtest_displaytarget_destroy sys.ws dt, live := sys.live.erase dt }
    else sys

def dt_run (sys : dt_system) (ops : List dt_op) : dt_system :=
  ops.foldl dt_step sys

/-- The ids of the live display targets. -/
def live_ids (sys : dt_system) : List Nat :=
  sys.live.map (fun dt => dt.id)

/-- The bookkeeping of display-target ids: the live ids are pairwise distinct
and below 32, and `dt_set` has exactly their bits set. -/
def dt_ok (sys : dt_system) : Prop :=
  (live_ids sys).Nodup ∧ (∀ i ∈ live_ids sys, i < 32) ∧
  ∀ i, sys.ws.dt_set.testBit i = decide (i ∈ live_ids sys)

/-- On a freshly wrapped winsys: two display targets are created (ids 0 and 1),
the first one is destroyed, and a third one is created, which gets id 0 again. -/
def create_destroy_create_dt : dt_system :=
  dt_run { ws := virgl_vtest_winsys_wrap (fun _ => 0) (fun _ _ => 0), live := [] }
    [.create 4 4, .create 8 8, .destroy { id := 0 }, .create 2 2]

/-! ## Capability negotiation -/

/-- The outcome of one `write` call on the socket: the number of bytes it
wrote, or failure (result -1) with the value it left in `errno`. -/
inductive write_result where
  | wrote (n : Nat)
  | failed (errno : Nat)
deriving DecidableEq

/-- Modelled from the spec: the `errno` value of a transient interruption
(`errno.h`, 4 on Linux). -/
def EINTR : Nat := 4

/-- The loop `do { ret = write(fd, ptr, left); ... } while (left)` of
`virgl_block_write` on the socket backend.  `results k` is the outcome of the
`k`-th `write` call, `ptr` is kept as an offset into the buffer, `log` collects
the calls issued as (offset, count), and `fuel` bounds the number of rounds. -/
def virgl_block_write_loop (results : Nat → write_result) (size : Nat) :
    Nat → Nat → Nat → Int → List (Nat × Int) → Option (Int × List (Nat × Int))
  | 0, _, _, _, _ => none
  | fuel + 1, k, ptr, left, log =>
    match results k with
    | .failed errno => some (-(errno : Int), log ++ [(ptr, left)])
    | .wrote n =>
      if left - (n : Int) ≠ 0 then
        virgl_block_write_loop results size fuel (k + 1) (ptr + n) (left - (n : Int))
          (log ++ [(ptr, left)])
      else some ((size : Int), log ++ [(ptr, left)])

/-- The function `virgl_block_write` when `vws->ring` is not set: the value
returned and the `write` calls issued. -/
def virgl_block_write (results : Nat → write_result) (size : Nat) (fuel : Nat) :
    Option (Int × List (Nat × Int)) :=
  virgl_block_write_loop results size fuel 0 0 (size : Int) []

/-- The number of bytes the `k`-th `write` call wrote (0 for a failed call). -/
def written (results : Nat → write_result) (k : Nat) : Nat :=
  match results k with
  | .wrote n => n
  | .failed _ => 0

/-- The number of bytes written by the first `k` calls. -/
def written_before (results : Nat → write_result) (k : Nat) : Nat :=
  ((List.range k).map (written results)).sum

/-- The calls a correct sender issues as its first `m` calls: each starts at the
first unsent byte and asks for all that remains of `size`. -/
def resumed_calls (results : Nat → write_result) (size : Nat) (m : Nat) : List (Nat × Int) :=
  (List.range m).map (fun i => (written_before results i, (size : Int) - written_before results i))

/-- A socket whose first `write` is interrupted and whose later `write` calls
take everything offered. -/
def interrupted_once : Nat → write_result :=
  fun k => if k = 0 then .failed EINTR else .wrote 16

/-- A socket that takes 5, 7 and then 4 bytes. -/
def three_partial_writes : Nat → write_result :=
  fun k => if k = 0 then .wrote 5 else if k = 1 then .wrote 7 else .wrote 4

/-! ## Receiving transfer data -/

/-- The loop `while (hblocks) { ... }` of `virgl_vtest_recv_transfer_get_data`.
`rx` is the incoming byte stream and `pos` the position of its next byte,
`data` holds the destination bytes by offset from the `data` pointer, and `ptr`
is kept as such an offset.  One round reads `stride` bytes into `line` (the read
is taken to succeed), copies the first `packed` bytes of `line` to `ptr` and
advances `ptr` by `stride`; a byte of `line` beyond what was read has no defined
value and is taken as 0.  `fuel` bounds the number of rounds. -/
def recv_transfer_loop (rx : Nat → Nat) (stride packed : Nat) :
    Nat → Int → Nat → Nat → (Nat → Nat) → Option ((Nat → Nat) × Nat)
  | 0, _, _, _, _ => none
  | fuel + 1, hblocks, ptr, pos, data =>
    if hblocks = 0 then some (data, pos)
    else
      let line : Nat → Nat := fun j => if j < stride then rx (pos + j) else 0
      recv_transfer_loop rx stride packed fuel (hblocks - 1) (ptr + stride) (pos + stride)
        (fun a => if ptr ≤ a ∧ a < ptr + packed then line (a - ptr) else data a)

/-- The function `virgl_vtest_recv_transfer_get_data`: the destination bytes and
the stream position afterwards. -/
def virgl_vtest_recv_transfer_get_data (fmt : util_format) (rx : Nat → Nat) (pos : Nat)
    (data : Nat → Nat) (_data_size stride : Nat) (box : pipe_box) (format : Nat) (fuel : Nat) :
    Option ((Nat → Nat) × Nat) :=
  let hblocks := to_int32 (fmt.util_format_get_nblocksy format (to_uint32 box.height))
  recv_transfer_loop rx stride
    (fmt.util_format_get_stride format (to_uint32 box.width) % 4294967296) fuel hblocks 0 pos data

/-- An incoming stream whose byte at position `i` is `100 + i`. -/
def counting_stream : Nat → Nat := fun i => 100 + i

/-- A box of 2 by 2 pixels in one layer. -/
def two_by_two : pipe_box := { x := 0, y := 0, z := 0, width := 2, height := 2, depth := 1 }

/-! ## What a scan of the pool does -/

/-- The (handle, flags) pairs of the `RESOURCE_BUSY_WAIT` requests of a log, in
order. -/
def busy_polls (l : List vtest_msg) : List (Nat × Nat) :=
  l.filterMap (fun m => match m with
    | .busy_wait handle flags => some (handle, flags)
    | _ => none)

/-- The effect of a scan or sweep of the pool, with the entries it destroyed
(`gone`) and the entries it polled (`polled`), both in order: besides what
`scan_frame` says, the `RESOURCE_UNREF` requests added carry the handles of the
destroyed entries, and the polls added are one poll with flags 0 per polled
entry. -/
def scan_effect (s s' : virgl_vtest_winsys) (gone polled : List Nat) : Prop :=
  scan_frame s s' ∧
  unref_handles s'.sent = unref_handles s.sent ++ gone.map (fun p => (s.mem p).res_handle) ∧
  busy_polls s'.sent =
    busy_polls s.sent ++ polled.map (fun p => ((s.mem p).res_handle % 4294967296, 0)) ∧
  s'.polls = s.polls + polled.length

/-- What an allocation leaves behind when made in state `ws`: the new record sits
at the allocation mark with one reference, the current value of the handle
counter, the requested bind and the cacheable flag `c`; no other record, no pool
link and no clock reading is touched; one `RESOURCE_CREATE` is written, and no
`RESOURCE_UNREF` and no poll. -/
def fresh_record (ws : virgl_vtest_winsys) (bind : Nat) (c : Bool)
    (r : Nat × virgl_vtest_winsys) : Prop :=
  r.1 = ws.brk ∧ r.2.brk = ws.brk + 1 ∧ r.2.handle = (ws.handle + 1) % 4294967296 ∧
  (∀ q, q ≠ ws.brk → r.2.mem q = ws.mem q) ∧
  (r.2.mem ws.brk).res_handle = ws.handle ∧ (r.2.mem ws.brk).reference = 1 ∧
  (r.2.mem ws.brk).num_cs_references = 0 ∧ (r.2.mem ws.brk).bind = bind ∧
  (r.2.mem ws.brk).cacheable = c ∧
  r.2.delayed = ws.delayed ∧ r.2.num_delayed = ws.num_delayed ∧
  unref_handles r.2.sent = unref_handles ws.sent ∧
  busy_polls r.2.sent = busy_polls ws.sent ∧
  created_handles r.2.sent = created_handles ws.sent ++ [ws.handle] ∧
  r.2.clock = ws.clock ∧ r.2.ticks = ws.ticks ∧ r.2.usecs = ws.usecs ∧
  r.2.polls = ws.polls ∧ r.2.busy_reply = ws.busy_reply

/-- A step that creates nothing and links only cacheable records into the pool:
besides what `keeps_ids` says, every entry of the new pool was in the old pool or
is flagged cacheable. -/
def pool_kept (s s' : virgl_vtest_winsys) : Prop :=
  keeps_ids s s' ∧ ∀ p ∈ s'.delayed, p ∈ s.delayed ∨ (s.mem p).cacheable = true

/-- Every record flagged cacheable has been allocated and has one of the three
buffer binds, and every pooled entry is flagged cacheable. -/
def pool_cacheable (s : virgl_vtest_winsys) : Prop :=
  (∀ q, (s.mem q).cacheable = true →
    q < s.brk ∧ ((s.mem q).bind = VIRGL_BIND_VERTEX_BUFFER ∨
      (s.mem q).bind = VIRGL_BIND_INDEX_BUFFER ∨ (s.mem q).bind = VIRGL_BIND_CONSTANT_BUFFER)) ∧
  ∀ p ∈ s.delayed, (s.mem p).cacheable = true

/-! ## Well-used sequences of operations -/

/-- The pool is in order of insertion: every entry was stamped with a reading of
the clock already taken and the window `end = start + usecs`, and the values of
`end` do not decrease from head to tail. -/
def pool_sorted (s : virgl_vtest_winsys) : Prop :=
  (∀ p ∈ s.delayed, ∃ t, t < s.ticks ∧ (s.mem p).start = s.clock t ∧
    (s.mem p).end_ = (s.mem p).start + s.usecs) ∧
  s.delayed.Pairwise (fun a b => (s.mem a).end_ ≤ (s.mem b).end_)

/-- The bookkeeping of resource lifetimes: handles are numbered and the counter
has not wrapped; command-buffer references are counted among the references; a
record with a reference has been allocated and no `RESOURCE_UNREF` names its
handle; no node is linked into the pool twice; a pooled entry has no reference,
is flagged cacheable, has been allocated and no `RESOURCE_UNREF` names its
handle; no handle occurs in two `RESOURCE_UNREF` requests; every handle of a
`RESOURCE_UNREF` is the handle of an allocated record; and under a clock that
never runs backwards the pool is in order of insertion. -/
def pool_ok (s : virgl_vtest_winsys) : Prop :=
  handles_numbered s ∧ s.brk < 4294967296 ∧
  (∀ q, 0 ≤ (s.mem q).num_cs_references ∧
    (s.mem q).num_cs_references ≤ (s.mem q).reference) ∧
  (∀ q, 0 < (s.mem q).reference →
    q < s.brk ∧ (s.mem q).res_handle ∉ unref_handles s.sent) ∧
  s.delayed.Nodup ∧
  (∀ p ∈ s.delayed, (s.mem p).reference = 0 ∧ (s.mem p).cacheable = true ∧ p < s.brk ∧
    (s.mem p).res_handle ∉ unref_handles s.sent) ∧
  (unref_handles s.sent).Nodup ∧
  (∀ h ∈ unref_handles s.sent, ∃ q, q < s.brk ∧ (s.mem q).res_handle = h) ∧
  0 ≤ s.usecs ∧
  (Monotone s.clock → pool_sorted s)

/-- Whether an operation is a proper use of the winsys in the state `sys`: a
release drops a reference that is held beyond those of the command buffers,
`emit_res` names a resource that has a reference, and a create is made while the
handle counter has not run through its 32 bits.  Fence-reference moves and
`cmd_buf_destroy` are left out. -/
def op_valid (sys : vtest_system) : vtest_op → Bool
  | .resource_create _ _ _ _ _ _ _ _ _ _ => decide (sys.ws.brk + 1 < 4294967296)
  | .resource_unref hres =>
    decide ((sys.ws.mem hres).num_cs_references < (sys.ws.mem hres).reference)
  | .fence_reference _ _ => false
  | .cmd_buf_create => true
  | .cmd_buf_destroy _ => false
  | .emit_res _ res _ => decide (0 < (sys.ws.mem res).reference)
  | .submit_cmd _ => true
  | .cache_flush => true

/-- A sequence of operations each of which is a proper use in the state it is
applied in. -/
def ops_valid (sys : vtest_system) : List vtest_op → Bool
  | [] => true
  | op :: rest => op_valid sys op && ops_valid (vtest_step sys op) rest

/-- The bookkeeping of the whole system: command-buffer references are counted
and the resource lifetimes are in order. -/
def pool_sound (sys : vtest_system) : Prop :=
  cs_counted sys ∧ pool_ok sys.ws

/-- A vertex buffer is created, emitted into a command buffer and released by
its owner; the submit drops the last reference and pools it; it is reused by the
next create, released again, and flushed. -/
def pooled_then_reused : List vtest_op :=
  [.resource_create 0 1 VIRGL_BIND_VERTEX_BUFFER 0 1 1 1 0 0 0, .cmd_buf_create,
   .emit_res 0 0 true, .resource_unref 0, .submit_cmd 0,
   .resource_create 0 1 VIRGL_BIND_VERTEX_BUFFER 0 1 1 1 0 0 0, .resource_unref 0,
   .cache_flush]

/-- Two vertex buffers and a texture are created and released one after the
other under a clock that advances by 400000 per reading. -/
def released_in_turn : List vtest_op :=
  [.resource_create 0 1 VIRGL_BIND_VERTEX_BUFFER 0 1 1 1 0 0 0,
   .resource_create 0 1 VIRGL_BIND_VERTEX_BUFFER 0 1 1 1 0 0 0,
   .resource_create 2 1 8 16 16 1 1 0 0 1024,
   .resource_unref 0, .resource_unref 2, .resource_unref 1]

/-- An index buffer is created and its only reference is released. -/
def index_buffer_released : List vtest_op :=
  [.resource_create 0 1 VIRGL_BIND_INDEX_BUFFER 64 1 1 1 0 0 64, .resource_unref 0]

/-! ## Reading a region back -/

/-- The function `virgl_vtest_transfer_get`: the transfer request, then the
reply bytes.  `mapped` holds the bytes of the mapping `ptr` by offset (mapping and
unmapping the resource changes nothing else that is tracked); the result is the
winsys, the mapping and the stream position afterwards. -/
def virgl_vtest_transfer_get (fmt : util_format) (s : virgl_vtest_winsys) (rx : Nat → Nat)
    (pos : Nat) (mapped : Nat → Nat) (res : Nat) (box : pipe_box)
    (stride layer_stride buf_offset level : Nat) (fuel : Nat) :
    Option (virgl_vtest_winsys × (Nat → Nat) × Nat) :=
  let size := (vtest_get_transfer_size fmt (s.mem res) box stride layer_stride level).1
  let valid_stride := (vtest_get_transfer_size fmt (s.mem res) box stride layer_stride level).2
  let s1 := virgl_vtest_send_transfer_cmd s .VCMD_TRANSFER_GET (s.mem res).res_handle level
    stride layer_stride box size
  match virgl_vtest_recv_transfer_get_data fmt rx pos (fun a => mapped (buf_offset + a)) size
      valid_stride box (s.mem res).format fuel with
  | some (data, pos') =>
    some (s1, fun a => if buf_offset ≤ a then data (a - buf_offset) else mapped a, pos')
  | none => none

/-- A box one pixel wide and four rows high, in one layer. -/
def one_by_four : pipe_box := { x := 0, y := 0, z := 0, width := 1, height := 4, depth := 1 }

/-! ## Theorems -/

theorem to_int32_zero : to_int32 0 = 0 := by decide

theorem to_int32_one : to_int32 1 = 1 := by decide

/-- One busy poll: the answer is "busy" exactly when the reply word reads 1 as an
`int`, and the state afterwards is `after_poll`. -/
theorem virgl_vtest_resource_is_busy_eq (s : virgl_vtest_winsys) (res : Nat) :
    virgl_vtest_resource_is_busy s res =
      (decide (to_int32 (next_busy_reply s res) = 1), after_poll s res) := by
  unfold virgl_vtest_resource_is_busy virgl_vtest_busy_wait next_busy_reply after_poll send
  by_cases h : to_int32 (s.busy_reply s.polls ((s.mem res).res_handle % 4294967296)) < 0
  · have h1 : ¬ to_int32 (s.busy_reply s.polls ((s.mem res).res_handle % 4294967296)) = 1 := by
      omega
    simp [h, h1]
  · simp [h]

theorem virgl_is_res_compat_of_not_matches (s : virgl_vtest_winsys)
    (res size bind format : Nat) (h : res_matches (s.mem res) size bind format = false) :
    virgl_is_res_compat s res size bind format = (0, s) := by
  unfold virgl_is_res_compat
  unfold res_matches at h
  by_cases h1 : (s.mem res).bind = bind
  · by_cases h2 : (s.mem res).format = format
    · by_cases h3 : (s.mem res).size < size
      · simp [h1, h2, h3]
      · by_cases h4 : (s.mem res).size > (size * 2) % 4294967296
        · simp [h1, h2, h3, h4]
        · simp [h1, h2, h3, h4] at h
    · simp [h1, h2]
  · simp [h1]

theorem virgl_is_res_compat_of_matches (s : virgl_vtest_winsys)
    (res size bind format : Nat) (h : res_matches (s.mem res) size bind format = true) :
    virgl_is_res_compat s res size bind format =
      (if to_int32 (next_busy_reply s res) = 1 then -1 else 1, after_poll s res) := by
  unfold virgl_is_res_compat
  unfold res_matches at h
  simp only [Bool.and_eq_true, decide_eq_true_eq, Bool.not_eq_true', decide_eq_false_iff_not]
    at h
  obtain ⟨⟨⟨h1, h2⟩, h3⟩, h4⟩ := h
  rw [virgl_vtest_resource_is_busy_eq]
  by_cases hb : to_int32 (next_busy_reply s res) = 1
  · simp [h1, h2, h3, h4, hb]
  · simp [h1, h2, h3, h4, hb]

/-- C2 (as stated, refuted): a pooled entry of recorded size `S = 128` is accepted
for a request of size `R = 64` with equal bind and format and an idle server,
although `S = 2R` lies outside `[R, 2R)`. -/
theorem virgl_is_res_compat_accepts_twice_the_size :
    (pooled_128.mem 0).bind = VIRGL_BIND_CONSTANT_BUFFER ∧
    (pooled_128.mem 0).format = 1 ∧
    (pooled_128.mem 0).size = 2 * 64 ∧
    next_busy_reply pooled_128 0 = 0 ∧
    (virgl_is_res_compat pooled_128 0 64 VIRGL_BIND_CONSTANT_BUFFER 1).1 = 1 ∧
    ¬ ((pooled_128.mem 0).size < 2 * 64) := by
  decide

/-- C2 (amended): with equal bind and format, a request size `R < 2^31 = 2147483648` and the
server reporting the entry idle, `virgl_is_res_compat` returns 1 exactly when the
recorded size `S` satisfies `R ≤ S ≤ 2R`; the upper end `S = 2R` is accepted. -/
theorem virgl_is_res_compat_window (s : virgl_vtest_winsys) (res size bind format : Nat)
    (hbind : (s.mem res).bind = bind) (hformat : (s.mem res).format = format)
    (hsize : size < 2147483648) (hidle : next_busy_reply s res = 0) :
    (virgl_is_res_compat s res size bind format).1 = 1 ↔
      (size ≤ (s.mem res).size ∧ (s.mem res).size ≤ 2 * size) := by
  have hmod : (size * 2) % 4294967296 = 2 * size := by omega
  by_cases hm : res_matches (s.mem res) size bind format = true
  · rw [virgl_is_res_compat_of_matches s res size bind format hm, hidle, to_int32_zero]
    simp only [res_matches, hmod, Bool.and_eq_true, decide_eq_true_eq, Bool.not_eq_true',
      decide_eq_false_iff_not] at hm
    have := hm.1.2
    have := hm.2
    simp
    omega
  · have hm0 : res_matches (s.mem res) size bind format = false := by simpa using hm
    rw [virgl_is_res_compat_of_not_matches s res size bind format hm0]
    simp only [res_matches, hmod, hbind, hformat, decide_True, Bool.true_and,
      Bool.and_eq_false_imp, Bool.not_eq_true', decide_eq_false_iff_not,
      Bool.not_eq_false', decide_eq_true_eq] at hm0
    simp
    intro h
    have := hm0 (by omega)
    omega

/-- Witness for C2: the window theorem at the pooled 128-byte entry and a request
of 64 bytes. -/
theorem virgl_is_res_compat_window_witness :
    (virgl_is_res_compat pooled_128 0 64 VIRGL_BIND_CONSTANT_BUFFER 1).1 = 1 ↔
      (64 ≤ (pooled_128.mem 0).size ∧ (pooled_128.mem 0).size ≤ 2 * 64) :=
  virgl_is_res_compat_window pooled_128 0 64 VIRGL_BIND_CONSTANT_BUFFER 1
    (by decide) (by decide) (by decide) (by decide)

/-! ### Destroying a resource and sweeping the head of the pool -/

theorem virgl_hw_res_destroy_eq (s : virgl_vtest_winsys) (res : Nat) :
    virgl_hw_res_destroy s res =
      { s with sent := s.sent ++ destroy_msgs (s.mem res),
               dt_set := dt_set_after_destroy s.dt_set (s.mem res).dt } := by
  unfold virgl_hw_res_destroy virgl_vtest_send_resource_unref send destroy_msgs
    dt_set_after_destroy
  cases h : (s.mem res).dt with
  | none => simp [h]
  | some dt => simp [h, vtest_displaytarget_destroy, virgl_vtest_send_dt, send]

theorem check_free_loop_mem (now : Int) (l : List Nat) (s : virgl_vtest_winsys) :
    (virgl_cache_list_check_free_loop now l s).mem = s.mem ∧
    (virgl_cache_list_check_free_loop now l s).usecs = s.usecs ∧
    (virgl_cache_list_check_free_loop now l s).num_delayed = s.num_delayed ∧
    (virgl_cache_list_check_free_loop now l s).handle = s.handle ∧
    (virgl_cache_list_check_free_loop now l s).brk = s.brk ∧
    (virgl_cache_list_check_free_loop now l s).clock = s.clock ∧
    (virgl_cache_list_check_free_loop now l s).ticks = s.ticks ∧
    (virgl_cache_list_check_free_loop now l s).busy_reply = s.busy_reply ∧
    (virgl_cache_list_check_free_loop now l s).polls = s.polls := by
  induction l generalizing s with
  | nil => simp [virgl_cache_list_check_free_loop]
  | cons c rest ih =>
    unfold virgl_cache_list_check_free_loop
    by_cases h : os_time_timeout (s.mem c).start (s.mem c).end_ now = true
    · simp only [h, Bool.not_true, Bool.false_eq_true, if_false]
      have := ih (virgl_hw_res_destroy { s with delayed := LIST_DEL c s.delayed } c)
      simpa [virgl_hw_res_destroy_eq] using this
    · simp [h]

theorem check_free_loop_delayed (now : Int) (l : List Nat) (s : virgl_vtest_winsys)
    (hl : s.delayed = l) :
    (virgl_cache_list_check_free_loop now l s).delayed = l.dropWhile (expired s.mem now) := by
  induction l generalizing s with
  | nil => simp [virgl_cache_list_check_free_loop, hl]
  | cons c rest ih =>
    unfold virgl_cache_list_check_free_loop
    by_cases h : os_time_timeout (s.mem c).start (s.mem c).end_ now = true
    · simp only [h, Bool.not_true, Bool.false_eq_true, if_false]
      rw [ih _ (by simp [virgl_hw_res_destroy_eq, LIST_DEL, hl])]
      simp [List.dropWhile, expired, h, virgl_hw_res_destroy_eq]
    · simp [h, List.dropWhile, expired, hl]

theorem check_free_loop_sent (now : Int) (l : List Nat) (s : virgl_vtest_winsys) :
    (virgl_cache_list_check_free_loop now l s).sent =
      s.sent ++ ((l.takeWhile (expired s.mem now)).map (fun p => destroy_msgs (s.mem p))).flatten := by
  induction l generalizing s with
  | nil => simp [virgl_cache_list_check_free_loop]
  | cons c rest ih =>
    unfold virgl_cache_list_check_free_loop
    by_cases h : os_time_timeout (s.mem c).start (s.mem c).end_ now = true
    · simp only [h, Bool.not_true, Bool.false_eq_true, if_false]
      rw [ih _]
      simp [List.takeWhile, expired, h, virgl_hw_res_destroy_eq]
    · simp [h, List.takeWhile, expired]

/-! ### Dropping a reference -/

theorem take_reference_same (s : virgl_vtest_winsys) (src : Option Nat) :
    same_but_reference s.mem (take_reference s src).mem ∧
    (take_reference s src).delayed = s.delayed ∧
    (take_reference s src).num_delayed = s.num_delayed ∧
    (take_reference s src).usecs = s.usecs ∧
    (take_reference s src).sent = s.sent ∧
    (take_reference s src).clock = s.clock ∧
    (take_reference s src).ticks = s.ticks := by
  cases src with
  | none => simp [take_reference, same_but_reference]
  | some p =>
    refine ⟨?_, rfl, rfl, rfl, rfl, rfl, rfl⟩
    intro q
    by_cases hq : q = p <;> simp [take_reference, store, hq]

theorem take_reference_other (s : virgl_vtest_winsys) (src : Option Nat) (res : Nat)
    (hne : src ≠ some res) : (take_reference s src).mem res = s.mem res := by
  cases src with
  | none => rfl
  | some p =>
    have : res ≠ p := fun h => hne (by rw [h])
    simp [take_reference, store, this]

theorem pipe_reference_eq (s : virgl_vtest_winsys) (res : Nat) (src : Option Nat)
    (hne : src ≠ some res) :
    pipe_reference s (some res) src =
      (decide ((s.mem res).reference - 1 = 0),
        store (take_reference s src) res
          { s.mem res with reference := (s.mem res).reference - 1 }) := by
  have h1 : ¬ some res = src := fun h => hne h.symm
  have h2 := take_reference_other s src res hne
  unfold pipe_reference
  simp only [h1, if_false]
  cases src with
  | none => rfl
  | some p => simp only [take_reference] at h2 ⊢; rw [h2]

theorem same_but_reference_expired (m m' : Nat → virgl_hw_res)
    (h : same_but_reference m m') (now : Int) : expired m' now = expired m now := by
  funext p
  unfold expired
  rw [h p]

theorem same_but_reference_destroy_msgs (m m' : Nat → virgl_hw_res)
    (h : same_but_reference m m') (p : Nat) : destroy_msgs (m' p) = destroy_msgs (m p) := by
  unfold destroy_msgs
  rw [h p]

theorem same_but_reference_store (s : virgl_vtest_winsys) (src : Option Nat) (res : Nat)
    (c : Int) (hne : src ≠ some res) :
    same_but_reference s.mem
      (store (take_reference s src) res { s.mem res with reference := c }).mem := by
  intro q
  by_cases hq : q = res
  · subst hq; simp [store]
  · have := (take_reference_same s src).1 q
    simp only [store, hq, if_false]
    exact this

/-- C7: dropping the last reference of a resource that is not cacheable writes
exactly its destroy requests (one `RESOURCE_UNREF` with its handle, then the
display-target destroy command when it has a display target) and leaves the pool
and `num_delayed` alone; a drop that does not bring the count to zero writes
nothing and leaves the pool alone. -/
theorem virgl_vtest_resource_reference_not_cacheable (s : virgl_vtest_winsys) (res : Nat)
    (sres : Option Nat) (hne : sres ≠ some res) :
    ((s.mem res).reference = 1 → (s.mem res).cacheable = false →
      (virgl_vtest_resource_reference s (some res) sres).2.sent =
          s.sent ++ destroy_msgs (s.mem res) ∧
        (virgl_vtest_resource_reference s (some res) sres).2.delayed = s.delayed ∧
        (virgl_vtest_resource_reference s (some res) sres).2.num_delayed = s.num_delayed) ∧
    ((s.mem res).reference ≠ 1 →
      (virgl_vtest_resource_reference s (some res) sres).2.sent = s.sent ∧
        (virgl_vtest_resource_reference s (some res) sres).2.delayed = s.delayed ∧
        (virgl_vtest_resource_reference s (some res) sres).2.num_delayed = s.num_delayed) := by
  have hsame := take_reference_same s sres
  constructor
  · intro href hcache
    unfold virgl_vtest_resource_reference
    rw [pipe_reference_eq s res sres hne]
    have hz : decide ((s.mem res).reference - 1 = 0) = true := by simp [href]
    simp only [hz]
    have hc : can_cache_resource
        ((store (take_reference s sres) res
          { s.mem res with reference := (s.mem res).reference - 1 }).mem res) = false := by
      simp [store, can_cache_resource, hcache]
    simp only [hc, Bool.not_false, if_true, virgl_hw_res_destroy_eq]
    refine ⟨?_, hsame.2.1, hsame.2.2.1⟩
    simp [store, hsame.2.2.2.2.1, destroy_msgs]
  · intro href
    unfold virgl_vtest_resource_reference
    rw [pipe_reference_eq s res sres hne]
    have hz : decide ((s.mem res).reference - 1 = 0) = false := by
      simp only [decide_eq_false_iff_not]; omega
    simp only [hz]
    exact ⟨hsame.2.2.2.2.1, hsame.2.1, hsame.2.2.1⟩

/-- Witness for C7: releasing the only reference of the texture of `one_texture`
writes its `RESOURCE_UNREF`; taking a second reference first and dropping one
writes nothing. -/
theorem virgl_vtest_resource_reference_not_cacheable_witness :
    ((virgl_vtest_resource_reference one_texture (some 0) none).2.sent =
        one_texture.sent ++ [.resource_unref 1] ∧
      (virgl_vtest_resource_reference one_texture (some 0) none).2.delayed = [] ∧
      (virgl_vtest_resource_reference one_texture (some 0) none).2.num_delayed = 0) ∧
    ((virgl_vtest_resource_reference (take_reference one_texture (some 0)) (some 0) none).2.sent =
        one_texture.sent ∧
      (virgl_vtest_resource_reference (take_reference one_texture (some 0)) (some 0) none).2.delayed
        = [] ∧
      (virgl_vtest_resource_reference (take_reference one_texture (some 0)) (some 0)
        none).2.num_delayed = 0) :=
  ⟨(virgl_vtest_resource_reference_not_cacheable one_texture 0 none (by decide)).1
      (by decide) (by decide),
    (virgl_vtest_resource_reference_not_cacheable (take_reference one_texture (some 0)) 0 none
      (by decide)).2 (by decide)⟩

/-- The sweep `virgl_cache_list_check_free`: it reads the clock once, destroys
the timed-out entries at the head of the pool and touches nothing else. -/
theorem virgl_cache_list_check_free_spec (s : virgl_vtest_winsys) :
    (virgl_cache_list_check_free s).delayed =
        s.delayed.dropWhile (expired s.mem (s.clock s.ticks)) ∧
    (virgl_cache_list_check_free s).sent =
        s.sent ++ ((expired_head s (s.clock s.ticks)).map
          (fun p => destroy_msgs (s.mem p))).flatten ∧
    (virgl_cache_list_check_free s).mem = s.mem ∧
    (virgl_cache_list_check_free s).usecs = s.usecs ∧
    (virgl_cache_list_check_free s).num_delayed = s.num_delayed ∧
    (virgl_cache_list_check_free s).clock = s.clock ∧
    (virgl_cache_list_check_free s).ticks = s.ticks + 1 ∧
    (virgl_cache_list_check_free s).handle = s.handle ∧
    (virgl_cache_list_check_free s).brk = s.brk ∧
    (virgl_cache_list_check_free s).busy_reply = s.busy_reply ∧
    (virgl_cache_list_check_free s).polls = s.polls := by
  unfold virgl_cache_list_check_free os_time_get expired_head
  simp only []
  have hfr := check_free_loop_mem (s.clock s.ticks) s.delayed { s with ticks := s.ticks + 1 }
  have hdl := check_free_loop_delayed (s.clock s.ticks) s.delayed
    { s with ticks := s.ticks + 1 } rfl
  have hst := check_free_loop_sent (s.clock s.ticks) s.delayed { s with ticks := s.ticks + 1 }
  obtain ⟨f1, f2, f3, f4, f5, f6, f7, f8, f9⟩ := hfr
  exact ⟨hdl, hst, f1, f2, f3, f6, f7, f4, f5, f8, f9⟩

/-- C6: dropping the last reference of a cacheable resource first destroys the
timed-out entries at the head of the pool (stopping at the first entry whose
window has not passed, and writing only their destroy requests), then appends
the released resource at the tail with `start = now` and `end = now + usecs`,
and increments `num_delayed`; nothing is written for the released resource
itself.  `virgl_vtest_winsys_wrap` sets `usecs` to 1000000. -/
theorem virgl_vtest_resource_reference_cacheable (s : virgl_vtest_winsys) (res : Nat)
    (sres : Option Nat) (hne : sres ≠ some res) (href : (s.mem res).reference = 1)
    (hcache : (s.mem res).cacheable = true) :
    (virgl_vtest_resource_reference s (some res) sres).2.delayed =
        s.delayed.dropWhile (expired s.mem (s.clock s.ticks)) ++ [res] ∧
    (virgl_vtest_resource_reference s (some res) sres).2.sent =
        s.sent ++ ((expired_head s (s.clock s.ticks)).map
          (fun p => destroy_msgs (s.mem p))).flatten ∧
    ((virgl_vtest_resource_reference s (some res) sres).2.mem res).start =
        s.clock (s.ticks + 1) ∧
    ((virgl_vtest_resource_reference s (some res) sres).2.mem res).end_ =
        s.clock (s.ticks + 1) + s.usecs ∧
    (virgl_vtest_resource_reference s (some res) sres).2.num_delayed = s.num_delayed + 1 ∧
    (virgl_vtest_resource_reference s (some res) sres).2.usecs = s.usecs ∧
    (∀ clock busy_reply, (virgl_vtest_winsys_wrap clock busy_reply).usecs = 1000000) := by
  have hsame := take_reference_same s sres
  have hz : decide ((s.mem res).reference - 1 = 0) = true := by simp [href]
  have hm := same_but_reference_store s sres res ((s.mem res).reference - 1) hne
  have hc : can_cache_resource
      ((store (take_reference s sres) res
        { s.mem res with reference := (s.mem res).reference - 1 }).mem res) = true := by
    simp [store, can_cache_resource, hcache]
  unfold virgl_vtest_resource_reference
  rw [pipe_reference_eq s res sres hne]
  simp only [hz, hc, Bool.not_true, Bool.false_eq_true, if_false]
  generalize hs1 : store (take_reference s sres) res
    { s.mem res with reference := (s.mem res).reference - 1 } = s1 at hm
  have h1d : s1.delayed = s.delayed := by rw [← hs1]; exact hsame.2.1
  have h1n : s1.num_delayed = s.num_delayed := by rw [← hs1]; exact hsame.2.2.1
  have h1u : s1.usecs = s.usecs := by rw [← hs1]; exact hsame.2.2.2.1
  have h1s : s1.sent = s.sent := by rw [← hs1]; exact hsame.2.2.2.2.1
  have h1c : s1.clock = s.clock := by rw [← hs1]; exact hsame.2.2.2.2.2.1
  have h1t : s1.ticks = s.ticks := by rw [← hs1]; exact hsame.2.2.2.2.2.2
  have hexp := same_but_reference_expired s.mem s1.mem hm
  have hsp := virgl_cache_list_check_free_spec s1
  generalize virgl_cache_list_check_free s1 = s3 at hsp
  obtain ⟨g1, g2, g3, g4, g5, g6, g7, -, -, -, -⟩ := hsp
  unfold os_time_get
  refine ⟨?_, ?_, ?_, ?_, ?_, ?_, fun _ _ => rfl⟩
  · simp [store, LIST_ADDTAIL, g1, hexp, h1d, h1c, h1t]
  · simp only [store, g2, hexp, h1d, h1c, h1t, h1s, expired_head]
    congr 2
    apply List.map_congr_left
    intro p _
    exact same_but_reference_destroy_msgs s.mem s1.mem hm p
  · simp [store, g6, g7, h1c, h1t]
  · simp [store, g6, g7, h1c, h1t, g4, h1u]
  · simp [store, g5, h1n]
  · simp [store, g4, h1u]

/-- Witness for C6: with buffer A pooled and timed out, releasing buffer B sweeps
A (its `RESOURCE_UNREF` is the only request written) and pools B with a fresh
one-second window. -/
theorem virgl_vtest_resource_reference_cacheable_witness :
    one_pooled_one_held.delayed = [0] ∧
    (virgl_vtest_resource_reference one_pooled_one_held (some 1) none).2.delayed = [1] ∧
    (virgl_vtest_resource_reference one_pooled_one_held (some 1) none).2.sent =
        one_pooled_one_held.sent ++ [.resource_unref 1] ∧
    ((virgl_vtest_resource_reference one_pooled_one_held (some 1) none).2.mem 1).start =
        10000000 ∧
    ((virgl_vtest_resource_reference one_pooled_one_held (some 1) none).2.mem 1).end_ =
        11000000 ∧
    (virgl_vtest_resource_reference one_pooled_one_held (some 1) none).2.num_delayed = 2 :=
  have h := virgl_vtest_resource_reference_cacheable one_pooled_one_held 1 none
    (by decide) (by decide) (by decide)
  ⟨by decide, h.1, h.2.1, h.2.2.1, h.2.2.2.1, h.2.2.2.2.1⟩

/-! ### The scanning loops of the cache lookup -/

theorem loop1_skip_expired (now : Int) (size bind format : Nat) (ret : Int) (c : Nat)
    (rest : List Nat) (s : virgl_vtest_winsys)
    (hm : res_matches (s.mem c) size bind format = false)
    (hx : expired s.mem now c = true) :
    cache_create_loop1 now size bind format none ret (c :: rest) s =
      cache_create_loop1 now size bind format none 0 rest
        (virgl_hw_res_destroy { s with delayed := LIST_DEL c s.delayed } c) := by
  unfold expired at hx
  rw [cache_create_loop1]
  simp [virgl_is_res_compat_of_not_matches s c size bind format hm, hx]

theorem loop1_stop (now : Int) (size bind format : Nat) (ret : Int) (c : Nat)
    (rest : List Nat) (s : virgl_vtest_winsys)
    (hm : res_matches (s.mem c) size bind format = false)
    (hx : expired s.mem now c = false) :
    cache_create_loop1 now size bind format none ret (c :: rest) s =
      ⟨none, 0, c :: rest, s⟩ := by
  unfold expired at hx
  rw [cache_create_loop1]
  simp [virgl_is_res_compat_of_not_matches s c size bind format hm, hx]

theorem loop1_pick (now : Int) (size bind format : Nat) (ret : Int) (c : Nat)
    (rest : List Nat) (s : virgl_vtest_winsys)
    (hm : res_matches (s.mem c) size bind format = true)
    (hidle : to_int32 (next_busy_reply s c) ≠ 1) :
    cache_create_loop1 now size bind format none ret (c :: rest) s =
      cache_create_loop1 now size bind format (some c) 1 rest (after_poll s c) := by
  rw [cache_create_loop1]
  simp [virgl_is_res_compat_of_matches s c size bind format hm, hidle]

theorem loop1_busy (now : Int) (size bind format : Nat) (ret : Int) (c : Nat)
    (rest : List Nat) (s : virgl_vtest_winsys)
    (hm : res_matches (s.mem c) size bind format = true)
    (hbusy : to_int32 (next_busy_reply s c) = 1) :
    cache_create_loop1 now size bind format none ret (c :: rest) s =
      ⟨none, -1, c :: rest,
        if expired s.mem now c then
          virgl_hw_res_destroy
            { after_poll s c with delayed := LIST_DEL c (after_poll s c).delayed } c
        else after_poll s c⟩ := by
  rw [cache_create_loop1]
  by_cases hx : expired s.mem now c = true
  · have hx' : os_time_timeout ((after_poll s c).mem c).start ((after_poll s c).mem c).end_ now
        = true := hx
    simp [virgl_is_res_compat_of_matches s c size bind format hm, hbusy, hx, hx']
  · have hx' : os_time_timeout ((after_poll s c).mem c).start ((after_poll s c).mem c).end_ now
        = false := by simpa [expired] using hx
    simp [virgl_is_res_compat_of_matches s c size bind format hm, hbusy, hx, hx']

theorem loop1_chosen_step (now : Int) (size bind format : Nat) (r : Nat) (ret : Int) (c : Nat)
    (rest : List Nat) (s : virgl_vtest_winsys) :
    cache_create_loop1 now size bind format (some r) ret (c :: rest) s =
      if expired s.mem now c then
        if ret = -1 then
          ⟨some r, ret, c :: rest,
            virgl_hw_res_destroy { s with delayed := LIST_DEL c s.delayed } c⟩
        else cache_create_loop1 now size bind format (some r) ret rest
          (virgl_hw_res_destroy { s with delayed := LIST_DEL c s.delayed } c)
      else ⟨some r, ret, c :: rest, s⟩ := by
  rw [cache_create_loop1]
  simp [expired]

theorem loop1_chosen (now : Int) (size bind format : Nat) (r : Nat) (ret : Int)
    (l : List Nat) (s : virgl_vtest_winsys) :
    (cache_create_loop1 now size bind format (some r) ret l s).res = some r ∧
    (cache_create_loop1 now size bind format (some r) ret l s).ret = ret := by
  induction l generalizing s with
  | nil => simp [cache_create_loop1]
  | cons c rest ih =>
    rw [loop1_chosen_step]
    by_cases hx : expired s.mem now c = true
    · by_cases hr : ret = -1
      · simp [hx, hr]
      · simp only [hx, hr, if_true, if_false]
        exact ih _
    · simp [hx]

theorem loop2_skip (size bind format : Nat) (ret : Int) (c : Nat) (rest : List Nat)
    (s : virgl_vtest_winsys) (hm : res_matches (s.mem c) size bind format = false) :
    cache_create_loop2 size bind format ret (c :: rest) s =
      cache_create_loop2 size bind format 0 rest s := by
  rw [cache_create_loop2]
  simp [virgl_is_res_compat_of_not_matches s c size bind format hm]

theorem loop2_pick (size bind format : Nat) (ret : Int) (c : Nat) (rest : List Nat)
    (s : virgl_vtest_winsys) (hm : res_matches (s.mem c) size bind format = true)
    (hidle : to_int32 (next_busy_reply s c) ≠ 1) :
    cache_create_loop2 size bind format ret (c :: rest) s =
      ⟨some c, 1, c :: rest, after_poll s c⟩ := by
  rw [cache_create_loop2]
  simp [virgl_is_res_compat_of_matches s c size bind format hm, hidle]

theorem loop2_busy (size bind format : Nat) (ret : Int) (c : Nat) (rest : List Nat)
    (s : virgl_vtest_winsys) (hm : res_matches (s.mem c) size bind format = true)
    (hbusy : to_int32 (next_busy_reply s c) = 1) :
    cache_create_loop2 size bind format ret (c :: rest) s =
      ⟨none, -1, c :: rest, after_poll s c⟩ := by
  rw [cache_create_loop2]
  simp [virgl_is_res_compat_of_matches s c size bind format hm, hbusy]

theorem created_handles_destroy_msgs (l : List vtest_msg) (r : virgl_hw_res) :
    created_handles (l ++ destroy_msgs r) = created_handles l := by
  unfold created_handles destroy_msgs
  cases r.dt <;> simp

theorem scan_frame_refl (s : virgl_vtest_winsys) : scan_frame s s :=
  ⟨rfl, rfl, rfl, rfl, rfl, rfl, rfl, rfl, List.prefix_refl _, List.Sublist.refl _, le_refl _,
    rfl⟩

theorem scan_frame_trans {a b c : virgl_vtest_winsys} (h1 : scan_frame a b)
    (h2 : scan_frame b c) : scan_frame a c := by
  obtain ⟨a1, a2, a3, a4, a5, a6, a7, a8, a9, a10, a11, a12⟩ := h1
  obtain ⟨b1, b2, b3, b4, b5, b6, b7, b8, b9, b10, b11, b12⟩ := h2
  exact ⟨b1.trans a1, b2.trans a2, b3.trans a3, b4.trans a4, b5.trans a5, b6.trans a6,
    b7.trans a7, b8.trans a8, a9.trans b9, b10.trans a10, le_trans a11 b11, b12.trans a12⟩

theorem scan_frame_destroy (s : virgl_vtest_winsys) (c : Nat) :
    scan_frame s (virgl_hw_res_destroy { s with delayed := LIST_DEL c s.delayed } c) := by
  rw [virgl_hw_res_destroy_eq]
  exact ⟨rfl, rfl, rfl, rfl, rfl, rfl, rfl, rfl, List.prefix_append _ _,
    List.erase_sublist _ _, le_refl _, created_handles_destroy_msgs _ _⟩

theorem scan_frame_after_poll (s : virgl_vtest_winsys) (c : Nat) :
    scan_frame s (after_poll s c) :=
  ⟨rfl, rfl, rfl, rfl, rfl, rfl, rfl, rfl, List.prefix_append _ _, List.Sublist.refl _,
    Nat.le_succ _, by simp [after_poll, send, created_handles]⟩

theorem virgl_is_res_compat_cases (s : virgl_vtest_winsys) (c size bind format : Nat) :
    virgl_is_res_compat s c size bind format = (0, s) ∨
    virgl_is_res_compat s c size bind format = (1, after_poll s c) ∨
    virgl_is_res_compat s c size bind format = (-1, after_poll s c) := by
  by_cases hm : res_matches (s.mem c) size bind format = true
  · rw [virgl_is_res_compat_of_matches s c size bind format hm]
    by_cases hb : to_int32 (next_busy_reply s c) = 1
    · right; right; simp [hb]
    · right; left; simp [hb]
  · left
    exact virgl_is_res_compat_of_not_matches s c size bind format (by simpa using hm)

theorem scan_frame_compat (s : virgl_vtest_winsys) (c size bind format : Nat) :
    scan_frame s (virgl_is_res_compat s c size bind format).2 := by
  rcases virgl_is_res_compat_cases s c size bind format with h | h | h <;> rw [h]
  · exact scan_frame_refl s
  · exact scan_frame_after_poll s c
  · exact scan_frame_after_poll s c

theorem scan_frame_loop1 (now : Int) (size bind format : Nat) (res : Option Nat) (ret : Int)
    (l : List Nat) (s : virgl_vtest_winsys) :
    scan_frame s (cache_create_loop1 now size bind format res ret l s).ws := by
  induction l generalizing s res ret with
  | nil => simp [cache_create_loop1, scan_frame_refl]
  | cons c rest ih =>
    cases res with
    | some r =>
      rw [loop1_chosen_step]
      by_cases hx : expired s.mem now c = true
      · by_cases hr : ret = -1
        · simp only [hx, hr, if_true]
          exact scan_frame_destroy s c
        · simp only [hx, hr, if_true, if_false]
          exact scan_frame_trans (scan_frame_destroy s c) (ih _ _ _)
      · simp only [hx, if_false]
        exact scan_frame_refl s
    | none =>
      by_cases hm : res_matches (s.mem c) size bind format = true
      · by_cases hb : to_int32 (next_busy_reply s c) = 1
        · rw [loop1_busy now size bind format ret c rest s hm hb]
          by_cases hx : expired s.mem now c = true
          · simp only [hx, if_true]
            exact scan_frame_trans (scan_frame_after_poll s c)
              (scan_frame_destroy (after_poll s c) c)
          · simp only [hx, if_false]
            exact scan_frame_after_poll s c
        · rw [loop1_pick now size bind format ret c rest s hm hb]
          exact scan_frame_trans (scan_frame_after_poll s c) (ih _ _ _)
      · have hm' : res_matches (s.mem c) size bind format = false := by simpa using hm
        by_cases hx : expired s.mem now c = true
        · rw [loop1_skip_expired now size bind format ret c rest s hm' hx]
          exact scan_frame_trans (scan_frame_destroy s c) (ih _ _ _)
        · rw [loop1_stop now size bind format ret c rest s hm' (by simpa using hx)]
          exact scan_frame_refl s

theorem scan_frame_loop2 (size bind format : Nat) (ret : Int) (l : List Nat)
    (s : virgl_vtest_winsys) :
    scan_frame s (cache_create_loop2 size bind format ret l s).ws := by
  induction l generalizing s ret with
  | nil => simp [cache_create_loop2, scan_frame_refl]
  | cons c rest ih =>
    by_cases hm : res_matches (s.mem c) size bind format = true
    · by_cases hb : to_int32 (next_busy_reply s c) = 1
      · rw [loop2_busy size bind format ret c rest s hm hb]
        exact scan_frame_after_poll s c
      · rw [loop2_pick size bind format ret c rest s hm hb]
        exact scan_frame_after_poll s c
    · rw [loop2_skip size bind format ret c rest s (by simpa using hm)]
      exact ih _ _

theorem scan_frame_scan (now : Int) (size bind format : Nat) (ret : Int) (l : List Nat)
    (s : virgl_vtest_winsys) :
    scan_frame s (cache_create_scan now size bind format ret l s).ws := by
  unfold cache_create_scan
  simp only []
  split
  · exact scan_frame_trans (scan_frame_loop1 now size bind format none ret l s)
      (scan_frame_loop2 _ _ _ _ _ _)
  · exact scan_frame_loop1 now size bind format none ret l s

theorem next_busy_reply_congr (s s' : virgl_vtest_winsys) (e : Nat) (h : scan_frame s s')
    (hp : s'.polls = s.polls) : next_busy_reply s' e = next_busy_reply s e := by
  unfold next_busy_reply
  rw [h.1, h.2.2.2.1, hp]

theorem loop2_first_match (size bind format : Nat) (pre : List Nat) (e : Nat)
    (post : List Nat) (ret : Int) (s : virgl_vtest_winsys)
    (hpre : ∀ p ∈ pre, res_matches (s.mem p) size bind format = false)
    (he : res_matches (s.mem e) size bind format = true) :
    cache_create_loop2 size bind format ret (pre ++ e :: post) s =
      ⟨if to_int32 (next_busy_reply s e) = 1 then none else some e,
        if to_int32 (next_busy_reply s e) = 1 then -1 else 1, e :: post, after_poll s e⟩ := by
  induction pre generalizing ret with
  | nil =>
    by_cases hb : to_int32 (next_busy_reply s e) = 1
    · simp only [List.nil_append, hb, if_true]
      exact loop2_busy size bind format ret e post s he hb
    · simp only [List.nil_append, hb, if_false]
      exact loop2_pick size bind format ret e post s he hb
  | cons c rest ih =>
    rw [List.cons_append, loop2_skip size bind format ret c _ s (hpre c (by simp))]
    exact ih 0 (fun p hp => hpre p (by simp [hp]))

/-- The scan stops at the first entry that matches bind, format and size window:
that entry is chosen when the server reports it idle, and nothing is chosen when
the server reports it busy. -/
theorem scan_first_match (now : Int) (size bind format : Nat) (pre : List Nat) (e : Nat)
    (post : List Nat) (ret : Int) (s : virgl_vtest_winsys)
    (hpre : ∀ p ∈ pre, res_matches (s.mem p) size bind format = false)
    (he : res_matches (s.mem e) size bind format = true) :
    (cache_create_scan now size bind format ret (pre ++ e :: post) s).res =
      if to_int32 (next_busy_reply s e) = 1 then none else some e := by
  induction pre generalizing ret s with
  | nil =>
    unfold cache_create_scan
    by_cases hb : to_int32 (next_busy_reply s e) = 1
    · simp [loop1_busy now size bind format ret e post s he hb, hb]
    · have hc := loop1_chosen now size bind format e 1 post (after_poll s e)
      simp [loop1_pick now size bind format ret e post s he hb, hb, hc.1]
  | cons c rest ih =>
    have hc := hpre c (by simp)
    by_cases hx : expired s.mem now c = true
    · have hstep := loop1_skip_expired now size bind format ret c (rest ++ e :: post) s hc hx
      have hfr := scan_frame_destroy s c
      have hpolls : (virgl_hw_res_destroy { s with delayed := LIST_DEL c s.delayed } c).polls
          = s.polls := by rw [virgl_hw_res_destroy_eq]
      have := ih 0 (virgl_hw_res_destroy { s with delayed := LIST_DEL c s.delayed } c)
        (fun p hp => by rw [hfr.1]; exact hpre p (by simp [hp])) (by rw [hfr.1]; exact he)
      rw [next_busy_reply_congr s _ e hfr hpolls] at this
      rw [← this]
      unfold cache_create_scan
      rw [List.cons_append, hstep]
    · have hstep := loop1_stop now size bind format ret c (rest ++ e :: post) s hc
        (by simpa using hx)
      unfold cache_create_scan
      rw [List.cons_append, hstep]
      simp only [Option.isNone_none, true_and]
      have h2 := loop2_first_match size bind format (c :: rest) e post 0 s hpre he
      rw [List.cons_append] at h2
      simp [h2]

/-- A fresh allocation that takes no display target: the new record sits at
`s.brk`, carries the current value of the handle counter and one reference; one
`RESOURCE_CREATE` is written and the counter advances. -/
theorem virgl_vtest_winsys_resource_create_eq (s : virgl_vtest_winsys)
    (target format bind width height depth array_size last_level nr_samples size : Nat)
    (hdt : bind &&& (VIRGL_BIND_DISPLAY_TARGET ||| VIRGL_BIND_SCANOUT) = 0) :
    virgl_vtest_winsys_resource_create s target format bind width height depth array_size
        last_level nr_samples size =
      (s.brk,
        { s with
          brk := s.brk + 1
          handle := (s.handle + 1) % 4294967296
          sent := s.sent ++ [.resource_create s.handle target format bind width height depth
            array_size last_level nr_samples]
          mem := fun q => if q = s.brk then
              { reference := 1, res_handle := s.handle, format := format, bind := bind,
                width := width, height := height }
            else s.mem q }) := by
  unfold virgl_vtest_winsys_resource_create
  simp only [hdt, ne_eq, not_true_eq_false, if_false, virgl_vtest_send_resource_create, store,
    send, if_true]
  congr 2
  funext q
  by_cases hq : q = s.brk <;> simp [hq]

/-! ### The cache lookup as a whole -/

theorem scans_pool_no_dt (bind : Nat) (hbind : scans_pool bind) :
    bind &&& (VIRGL_BIND_DISPLAY_TARGET ||| VIRGL_BIND_SCANOUT) = 0 := by
  rcases hbind with rfl | rfl | rfl | rfl <;> decide

theorem scan_frame_scan_of (s : virgl_vtest_winsys) (size bind format : Nat) :
    (scan_of s size bind format).ws.mem = s.mem ∧
    (scan_of s size bind format).ws.handle = s.handle ∧
    (scan_of s size bind format).ws.brk = s.brk ∧
    s.sent <+: (scan_of s size bind format).ws.sent ∧
    (scan_of s size bind format).ws.delayed.Sublist s.delayed ∧
    (scan_of s size bind format).ws.num_delayed = s.num_delayed := by
  have h := scan_frame_scan (s.clock s.ticks) size bind format 0 s.delayed
    { s with ticks := s.ticks + 1 }
  obtain ⟨a1, a2, a3, _, _, _, _, a8, a9, a10, _, _⟩ := h
  exact ⟨a1, a2, a3, a9, a10, a8⟩

/-- When the scan chooses nothing, the lookup allocates: the new record sits at
the allocation mark, gets the current value of the handle counter, and one
`RESOURCE_CREATE` carrying that value is appended to what the scan wrote. -/
theorem cache_create_of_scan_none (s : virgl_vtest_winsys)
    (target format bind width height depth array_size last_level nr_samples size : Nat)
    (hbind : scans_pool bind) (hres : (scan_of s size bind format).res = none) :
    (virgl_vtest_winsys_resource_cache_create s target format bind width height depth
        array_size last_level nr_samples size).1 = s.brk ∧
    ((virgl_vtest_winsys_resource_cache_create s target format bind width height depth
        array_size last_level nr_samples size).2.mem s.brk).res_handle = s.handle ∧
    (virgl_vtest_winsys_resource_cache_create s target format bind width height depth
        array_size last_level nr_samples size).2.sent =
      (scan_of s size bind format).ws.sent ++
        [.resource_create s.handle target format bind width height depth array_size
          last_level nr_samples] ∧
    (virgl_vtest_winsys_resource_cache_create s target format bind width height depth
        array_size last_level nr_samples size).2.delayed =
      (scan_of s size bind format).ws.delayed ∧
    (virgl_vtest_winsys_resource_cache_create s target format bind width height depth
        array_size last_level nr_samples size).2.handle = (s.handle + 1) % 4294967296 ∧
    (virgl_vtest_winsys_resource_cache_create s target format bind width height depth
        array_size last_level nr_samples size).2.brk = s.brk + 1 := by
  have hguard : ¬ (bind ≠ VIRGL_BIND_CONSTANT_BUFFER ∧ bind ≠ VIRGL_BIND_INDEX_BUFFER ∧
      bind ≠ VIRGL_BIND_VERTEX_BUFFER ∧ bind ≠ VIRGL_BIND_CUSTOM) := by
    unfold scans_pool at hbind; tauto
  have hdt := scans_pool_no_dt bind hbind
  obtain ⟨f1, f2, f3, -, -, -⟩ := scan_frame_scan_of s size bind format
  unfold scan_of at hres f1 f2 f3
  unfold virgl_vtest_winsys_resource_cache_create
  simp only [hguard, if_false, os_time_get, hres]
  rw [virgl_vtest_winsys_resource_create_eq _ _ _ _ _ _ _ _ _ _ _ hdt]
  unfold scan_of
  split <;> simp [store, f2, f3]

/-- When the scan chooses an entry, the lookup returns it. -/
theorem cache_create_of_scan_some (s : virgl_vtest_winsys)
    (target format bind width height depth array_size last_level nr_samples size : Nat)
    (hbind : scans_pool bind) (e : Nat) (hres : (scan_of s size bind format).res = some e) :
    virgl_vtest_winsys_resource_cache_create s target format bind width height depth
        array_size last_level nr_samples size =
      (e, store { (scan_of s size bind format).ws with
                  delayed := LIST_DEL e (scan_of s size bind format).ws.delayed,
                  num_delayed := (scan_of s size bind format).ws.num_delayed - 1 } e
            { (scan_of s size bind format).ws.mem e with reference := 1 }) := by
  have hguard : ¬ (bind ≠ VIRGL_BIND_CONSTANT_BUFFER ∧ bind ≠ VIRGL_BIND_INDEX_BUFFER ∧
      bind ≠ VIRGL_BIND_VERTEX_BUFFER ∧ bind ≠ VIRGL_BIND_CUSTOM) := by
    unfold scans_pool at hbind; tauto
  unfold scan_of at hres
  unfold virgl_vtest_winsys_resource_cache_create
  simp only [hguard, if_false, os_time_get, hres]
  rfl

/-- C5: let `e` be the first pooled entry, head to tail, that matches the
requested bind, format and size window.  If the server reports `e` busy, the
lookup returns no pooled entry: the result is the freshly allocated record, with
the next handle, and a `RESOURCE_CREATE` carrying that handle is the last request
written.  If the server reports `e` idle, the lookup returns `e`. -/
theorem cache_create_first_match (s : virgl_vtest_winsys)
    (target format bind width height depth array_size last_level nr_samples size : Nat)
    (pre : List Nat) (e : Nat) (post : List Nat)
    (hbind : scans_pool bind) (hpool : s.delayed = pre ++ e :: post)
    (hpre : ∀ p ∈ pre, res_matches (s.mem p) size bind format = false)
    (he : res_matches (s.mem e) size bind format = true) :
    (next_busy_reply s e = 1 →
      (virgl_vtest_winsys_resource_cache_create s target format bind width height depth
          array_size last_level nr_samples size).1 = s.brk ∧
      ((∀ p ∈ s.delayed, p < s.brk) →
        (virgl_vtest_winsys_resource_cache_create s target format bind width height depth
          array_size last_level nr_samples size).1 ∉ s.delayed) ∧
      ((virgl_vtest_winsys_resource_cache_create s target format bind width height depth
          array_size last_level nr_samples size).2.mem s.brk).res_handle = s.handle ∧
      (virgl_vtest_winsys_resource_cache_create s target format bind width height depth
          array_size last_level nr_samples size).2.sent.getLast? =
        some (.resource_create s.handle target format bind width height depth array_size
          last_level nr_samples)) ∧
    (next_busy_reply s e = 0 →
      (virgl_vtest_winsys_resource_cache_create s target format bind width height depth
          array_size last_level nr_samples size).1 = e) := by
  have hscan := scan_first_match (s.clock s.ticks) size bind format pre e post 0
    { s with ticks := s.ticks + 1 } hpre he
  have hnb : next_busy_reply { s with ticks := s.ticks + 1 } e = next_busy_reply s e := rfl
  rw [hnb, ← hpool] at hscan
  constructor
  · intro hbusy
    have hres : (scan_of s size bind format).res = none := by
      unfold scan_of
      rw [hscan, hbusy, to_int32_one]
      simp
    obtain ⟨h1, h2, h3, -, -, -⟩ := cache_create_of_scan_none s target format bind width height
      depth array_size last_level nr_samples size hbind hres
    refine ⟨h1, ?_, h2, ?_⟩
    · intro hlt hmem
      rw [h1] at hmem
      exact absurd (hlt _ hmem) (lt_irrefl _)
    · rw [h3]; simp
  · intro hidle
    have hres : (scan_of s size bind format).res = some e := by
      unfold scan_of
      rw [hscan, hidle, to_int32_zero]
      simp
    rw [cache_create_of_scan_some s target format bind width height depth array_size last_level
      nr_samples size hbind e hres]

/-- Witness for C5: in a pool of constant buffers of sizes 32, 128, 128 and a
request of 100 bytes, the first match is the second entry; with a busy server the
lookup allocates address 3 with handle 4, with an idle server it returns the
second entry. -/
theorem cache_create_first_match_witness :
    ((virgl_vtest_winsys_resource_cache_create (pool_of_three 1) 0 1
        VIRGL_BIND_CONSTANT_BUFFER 100 1 1 1 0 0 100).1 = 3 ∧
      ((virgl_vtest_winsys_resource_cache_create (pool_of_three 1) 0 1
        VIRGL_BIND_CONSTANT_BUFFER 100 1 1 1 0 0 100).2.mem 3).res_handle = 4 ∧
      (virgl_vtest_winsys_resource_cache_create (pool_of_three 1) 0 1
        VIRGL_BIND_CONSTANT_BUFFER 100 1 1 1 0 0 100).2.sent.getLast? =
        some (.resource_create 4 0 1 VIRGL_BIND_CONSTANT_BUFFER 100 1 1 1 0 0)) ∧
    (virgl_vtest_winsys_resource_cache_create (pool_of_three 0) 0 1
        VIRGL_BIND_CONSTANT_BUFFER 100 1 1 1 0 0 100).1 = 1 :=
  have hb := (cache_create_first_match (pool_of_three 1) 0 1 VIRGL_BIND_CONSTANT_BUFFER 100 1 1
    1 0 0 100 [0] 1 [2] (Or.inl rfl) rfl (by decide) (by decide)).1 (by decide)
  have hi := (cache_create_first_match (pool_of_three 0) 0 1 VIRGL_BIND_CONSTANT_BUFFER 100 1 1
    1 0 0 100 [0] 1 [2] (Or.inl rfl) rfl (by decide) (by decide)).2 (by decide)
  ⟨⟨hb.1, hb.2.2.1, hb.2.2.2⟩, hi⟩

/-- C1 (the code at the failing input): a 64-byte vertex buffer is created,
released into the pool (nothing is written, the window has not passed, the
server is idle) and a 64-byte vertex buffer of the same format is created again.
The pooled record has `size = 0`, because `virgl_vtest_winsys_resource_create`
never stores the size, so the lookup rejects it: the second create returns a
different resource with handle 2 and a second `RESOURCE_CREATE` is written, while
the first resource stays in the pool. -/
theorem cache_create_after_release_creates_again :
    (create_release_create VIRGL_BIND_VERTEX_BUFFER 64 64).1 = 0 ∧
    (create_release_create VIRGL_BIND_VERTEX_BUFFER 64 64).2.1.delayed = [0] ∧
    ((create_release_create VIRGL_BIND_VERTEX_BUFFER 64 64).2.1.mem 0).res_handle = 1 ∧
    ((create_release_create VIRGL_BIND_VERTEX_BUFFER 64 64).2.1.mem 0).size = 0 ∧
    expired (create_release_create VIRGL_BIND_VERTEX_BUFFER 64 64).2.1.mem 0 0 = false ∧
    (create_release_create VIRGL_BIND_VERTEX_BUFFER 64 64).2.2.1 = 1 ∧
    ((create_release_create VIRGL_BIND_VERTEX_BUFFER 64 64).2.2.2.mem 1).res_handle = 2 ∧
    (create_release_create VIRGL_BIND_VERTEX_BUFFER 64 64).2.2.2.delayed = [0] ∧
    (create_release_create VIRGL_BIND_VERTEX_BUFFER 64 64).2.2.2.sent =
      [.resource_create 1 0 1 VIRGL_BIND_VERTEX_BUFFER 64 1 1 1 0 0,
       .resource_create 2 0 1 VIRGL_BIND_VERTEX_BUFFER 64 1 1 1 0 0] := by
  decide

/-- C4 (as stated, refuted): a 64-byte constant buffer is created and released,
then a 100-byte constant buffer of the same format is created within the window
with an idle server: the second create returns a resource with handle 2, not the
first resource's handle 1, and writes a second `RESOURCE_CREATE`. -/
theorem cache_create_64_then_100_creates_again :
    ((create_release_create VIRGL_BIND_CONSTANT_BUFFER 64 100).2.1.mem
      (create_release_create VIRGL_BIND_CONSTANT_BUFFER 64 100).1).res_handle = 1 ∧
    (create_release_create VIRGL_BIND_CONSTANT_BUFFER 64 100).2.1.delayed = [0] ∧
    expired (create_release_create VIRGL_BIND_CONSTANT_BUFFER 64 100).2.1.mem 0 0 = false ∧
    ((create_release_create VIRGL_BIND_CONSTANT_BUFFER 64 100).2.2.2.mem
      (create_release_create VIRGL_BIND_CONSTANT_BUFFER 64 100).2.2.1).res_handle = 2 ∧
    (create_release_create VIRGL_BIND_CONSTANT_BUFFER 64 100).2.2.2.sent =
      [.resource_create 1 0 1 VIRGL_BIND_CONSTANT_BUFFER 64 1 1 1 0 0,
       .resource_create 2 0 1 VIRGL_BIND_CONSTANT_BUFFER 100 1 1 1 0 0] := by
  decide

/-! ### Steps that create nothing -/

theorem same_fixed_refl (m : Nat → virgl_hw_res) : same_fixed m m :=
  fun _ => ⟨rfl, rfl, rfl, rfl, rfl, rfl⟩

theorem same_fixed_trans {a b c : Nat → virgl_hw_res} (h1 : same_fixed a b)
    (h2 : same_fixed b c) : same_fixed a c := by
  intro q
  obtain ⟨a1, a2, a3, a4, a5, a6⟩ := h1 q
  obtain ⟨b1, b2, b3, b4, b5, b6⟩ := h2 q
  exact ⟨b1.trans a1, b2.trans a2, b3.trans a3, b4.trans a4, b5.trans a5, b6.trans a6⟩

theorem keeps_ids_refl (s : virgl_vtest_winsys) : keeps_ids s s :=
  ⟨rfl, rfl, same_fixed_refl _, rfl, rfl, rfl, rfl⟩

theorem keeps_ids_trans {a b c : virgl_vtest_winsys} (h1 : keeps_ids a b)
    (h2 : keeps_ids b c) : keeps_ids a c := by
  obtain ⟨a1, a2, a3, a4, a5, a6, a7⟩ := h1
  obtain ⟨b1, b2, b3, b4, b5, b6, b7⟩ := h2
  exact ⟨b1.trans a1, b2.trans a2, same_fixed_trans a3 b3, b4.trans a4, b5.trans a5,
    b6.trans a6, b7.trans a7⟩

theorem keeps_ids_of_scan_frame {s s' : virgl_vtest_winsys} (h : scan_frame s s') :
    keeps_ids s s' := by
  obtain ⟨a1, a2, a3, a4, a5, _, a7, _, _, _, _, a12⟩ := h
  exact ⟨a2, a3, by rw [a1]; exact same_fixed_refl _, a12, a7, a5, a4⟩

/-- Writing a record that agrees with the old one on the fixed fields. -/
theorem keeps_ids_store (s : virgl_vtest_winsys) (p : Nat) (r : virgl_hw_res)
    (h1 : r.res_handle = (s.mem p).res_handle) (h2 : r.size = (s.mem p).size)
    (h3 : r.format = (s.mem p).format) (h4 : r.bind = (s.mem p).bind)
    (h5 : r.dt = (s.mem p).dt) (h6 : r.cacheable = (s.mem p).cacheable) :
    keeps_ids s (store s p r) := by
  refine ⟨rfl, rfl, ?_, rfl, rfl, rfl, rfl⟩
  intro q
  by_cases hq : q = p
  · subst hq; simp [store, h1, h2, h3, h4, h5, h6]
  · simp [store, hq]

theorem keeps_ids_delayed (s : virgl_vtest_winsys) (l : List Nat) (n : Int) :
    keeps_ids s { s with delayed := l, num_delayed := n } :=
  ⟨rfl, rfl, same_fixed_refl _, rfl, rfl, rfl, rfl⟩

theorem keeps_ids_os_time_get (s : virgl_vtest_winsys) : keeps_ids s (os_time_get s).2 :=
  ⟨rfl, rfl, same_fixed_refl _, rfl, rfl, rfl, rfl⟩

theorem keeps_ids_destroy (s : virgl_vtest_winsys) (c : Nat) :
    keeps_ids s (virgl_hw_res_destroy s c) := by
  rw [virgl_hw_res_destroy_eq]
  exact ⟨rfl, rfl, same_fixed_refl _, created_handles_destroy_msgs _ _, rfl, rfl, rfl⟩

theorem keeps_ids_check_free_loop (now : Int) (l : List Nat) (s : virgl_vtest_winsys) :
    keeps_ids s (virgl_cache_list_check_free_loop now l s) := by
  induction l generalizing s with
  | nil => simp [virgl_cache_list_check_free_loop, keeps_ids_refl]
  | cons c rest ih =>
    unfold virgl_cache_list_check_free_loop
    split
    · exact keeps_ids_refl s
    · exact keeps_ids_trans
        (keeps_ids_trans (keeps_ids_delayed s (LIST_DEL c s.delayed) s.num_delayed)
          (keeps_ids_destroy _ c)) (ih _)

theorem keeps_ids_check_free (s : virgl_vtest_winsys) :
    keeps_ids s (virgl_cache_list_check_free s) := by
  unfold virgl_cache_list_check_free
  exact keeps_ids_trans (keeps_ids_os_time_get s) (keeps_ids_check_free_loop _ _ _)

theorem keeps_ids_flush_loop (l : List Nat) (s : virgl_vtest_winsys) :
    keeps_ids s (virgl_cache_flush_loop l s) := by
  induction l generalizing s with
  | nil => simp [virgl_cache_flush_loop, keeps_ids_refl]
  | cons c rest ih =>
    unfold virgl_cache_flush_loop
    exact keeps_ids_trans
      (keeps_ids_trans (keeps_ids_delayed s (LIST_DEL c s.delayed) s.num_delayed)
        (keeps_ids_destroy _ c)) (ih _)

theorem keeps_ids_take_reference (s : virgl_vtest_winsys) (src : Option Nat) :
    keeps_ids s (take_reference s src) := by
  cases src with
  | none => exact keeps_ids_refl s
  | some p => exact keeps_ids_store s p _ rfl rfl rfl rfl rfl rfl

theorem pipe_reference_eq_take (s : virgl_vtest_winsys) (dst src : Option Nat) :
    (pipe_reference s dst src).2 =
      if dst = src then s
      else match dst with
        | some p => store (take_reference s src) p
            { (take_reference s src).mem p with
              reference := ((take_reference s src).mem p).reference - 1 }
        | none => take_reference s src := by
  unfold pipe_reference
  by_cases h : dst = src
  · simp [h]
  · simp only [h, if_false]
    cases dst <;> cases src <;> rfl

theorem keeps_ids_pipe_reference (s : virgl_vtest_winsys) (dst src : Option Nat) :
    keeps_ids s (pipe_reference s dst src).2 := by
  rw [pipe_reference_eq_take]
  by_cases h : dst = src
  · simp only [h, if_true]; exact keeps_ids_refl s
  · simp only [h, if_false]
    cases dst with
    | none => exact keeps_ids_take_reference s src
    | some p =>
      exact keeps_ids_trans (keeps_ids_take_reference s src)
        (keeps_ids_store _ p _ rfl rfl rfl rfl rfl rfl)

/-- The function `virgl_vtest_resource_reference` by cases: nothing more happens
unless the count of the old pointee reached zero; then the old pointee is
destroyed when it is not cacheable and pooled when it is. -/
theorem virgl_vtest_resource_reference_eq (s : virgl_vtest_winsys) (dres sres : Option Nat) :
    virgl_vtest_resource_reference s dres sres =
      (sres,
        match dres with
        | some old =>
          if (pipe_reference s dres sres).1 = true then
            if can_cache_resource ((pipe_reference s dres sres).2.mem old) = true then
              pool_insert (pipe_reference s dres sres).2 old
            else virgl_hw_res_destroy (pipe_reference s dres sres).2 old
          else (pipe_reference s dres sres).2
        | none => (pipe_reference s dres sres).2) := by
  unfold virgl_vtest_resource_reference
  generalize pipe_reference s dres sres = pr
  obtain ⟨zero, s1⟩ := pr
  cases zero with
  | false => cases dres <;> rfl
  | true =>
    cases dres with
    | none => rfl
    | some old =>
      by_cases hc : can_cache_resource (s1.mem old) = true
      · simp only [hc, Bool.not_true, Bool.false_eq_true, if_false, if_true]
        congr 1
        unfold pool_insert os_time_get store LIST_ADDTAIL
        simp only []
        congr 1
        funext q
        by_cases hq : q = old <;> simp [hq]
      · simp [hc]

theorem keeps_ids_pool_insert (s : virgl_vtest_winsys) (old : Nat) :
    keeps_ids s (pool_insert s old) := by
  have h := keeps_ids_check_free s
  generalize hs2 : virgl_cache_list_check_free s = s2 at h
  have h2 : keeps_ids s2 (pool_insert s old) := by
    unfold pool_insert
    rw [hs2]
    refine ⟨rfl, rfl, ?_, rfl, rfl, rfl, rfl⟩
    intro q
    by_cases hq : q = old
    · subst hq; simp
    · simp [hq]
  exact keeps_ids_trans h h2

theorem keeps_ids_resource_reference (s : virgl_vtest_winsys) (dres sres : Option Nat) :
    keeps_ids s (virgl_vtest_resource_reference s dres sres).2 := by
  have hp := keeps_ids_pipe_reference s dres sres
  rw [virgl_vtest_resource_reference_eq]
  cases dres with
  | none => exact hp
  | some old =>
    simp only []
    split
    · split
      · exact keeps_ids_trans hp (keeps_ids_pool_insert _ _)
      · exact keeps_ids_trans hp (keeps_ids_destroy _ _)
    · exact hp

theorem keeps_ids_send (s : virgl_vtest_winsys) (m : vtest_msg)
    (h : created_handles [m] = []) : keeps_ids s (send s m) := by
  refine ⟨rfl, rfl, same_fixed_refl _, ?_, rfl, rfl, rfl⟩
  unfold created_handles at h ⊢
  simp [send, List.filterMap_append, h]

theorem keeps_ids_store_cs (s : virgl_vtest_winsys) (p : Nat) (c : Int) :
    keeps_ids s (store s p { s.mem p with num_cs_references := c }) :=
  keeps_ids_store s p _ rfl rfl rfl rfl rfl rfl

theorem keeps_ids_release_all_res_loop (fuel i : Nat) (s : virgl_vtest_winsys)
    (cbuf : virgl_vtest_cmd_buf) : keeps_ids s (release_all_res_loop fuel i s cbuf).1 := by
  induction fuel generalizing i s cbuf with
  | zero => simp [release_all_res_loop, keeps_ids_refl]
  | succ n ih =>
    unfold release_all_res_loop
    cases h : cbuf.res_bo i with
    | none => simp only []; exact ih _ _ _
    | some p =>
      simp only []
      have h1 := keeps_ids_store_cs s p ((s.mem p).num_cs_references - 1)
      have h2 := keeps_ids_resource_reference
        (store s p { s.mem p with num_cs_references := (s.mem p).num_cs_references - 1 })
        (some p) none
      exact keeps_ids_trans (keeps_ids_trans h1 h2) (ih _ _ _)

theorem keeps_ids_submit (s : virgl_vtest_winsys) (cbuf : virgl_vtest_cmd_buf) :
    keeps_ids s (virgl_vtest_winsys_submit_cmd s cbuf).1 := by
  unfold virgl_vtest_winsys_submit_cmd
  split
  · exact keeps_ids_refl s
  · unfold virgl_vtest_release_all_res virgl_vtest_submit_cmd
    exact keeps_ids_trans
      (keeps_ids_send s (.submit_cmd cbuf.cdw ((List.range cbuf.cdw).map cbuf.buf)) rfl)
      (keeps_ids_release_all_res_loop _ _ _ _)

theorem keeps_ids_add_res (s : virgl_vtest_winsys) (cbuf : virgl_vtest_cmd_buf) (res : Nat) :
    keeps_ids s (virgl_vtest_add_res s cbuf res).1 := by
  unfold virgl_vtest_add_res
  exact keeps_ids_trans (keeps_ids_resource_reference _ _ _)
    (keeps_ids_store _ res _ rfl rfl rfl rfl rfl rfl)

theorem keeps_ids_emit_res (s : virgl_vtest_winsys) (cbuf : virgl_vtest_cmd_buf) (res : Nat)
    (write_buf : Bool) : keeps_ids s (virgl_vtest_emit_res s cbuf res write_buf).1 := by
  unfold virgl_vtest_emit_res
  simp only []
  split
  · exact keeps_ids_add_res _ _ _
  · exact keeps_ids_refl s

theorem keeps_ids_handles_numbered {s s' : virgl_vtest_winsys} (h : keeps_ids s s')
    (hn : handles_numbered s) : handles_numbered s' := by
  obtain ⟨a1, a2, a3, a4, _, _, _⟩ := h
  obtain ⟨n1, n2, n3⟩ := hn
  refine ⟨by rw [a1, a2, n1], ?_, by rw [a4, a2, n3]⟩
  intro k hk
  rw [(a3 k).1]
  exact n2 k (by rw [← a2]; exact hk)

/-- A call of `virgl_vtest_winsys_resource_create`, whatever the bind: one record
is allocated at the allocation mark with the current value of the handle counter,
no other record changes, one `RESOURCE_CREATE` carrying that value is written and
the counter advances. -/
theorem resource_create_ids (s : virgl_vtest_winsys)
    (target format bind width height depth array_size last_level nr_samples size : Nat) :
    (virgl_vtest_winsys_resource_create s target format bind width height depth array_size
        last_level nr_samples size).1 = s.brk ∧
    (virgl_vtest_winsys_resource_create s target format bind width height depth array_size
        last_level nr_samples size).2.brk = s.brk + 1 ∧
    (virgl_vtest_winsys_resource_create s target format bind width height depth array_size
        last_level nr_samples size).2.handle = (s.handle + 1) % 4294967296 ∧
    ((virgl_vtest_winsys_resource_create s target format bind width height depth array_size
        last_level nr_samples size).2.mem s.brk).res_handle = s.handle ∧
    (∀ q, q ≠ s.brk →
      (virgl_vtest_winsys_resource_create s target format bind width height depth array_size
        last_level nr_samples size).2.mem q = s.mem q) ∧
    created_handles (virgl_vtest_winsys_resource_create s target format bind width height depth
        array_size last_level nr_samples size).2.sent = created_handles s.sent ++ [s.handle] := by
  unfold virgl_vtest_winsys_resource_create
  by_cases hdt : bind &&& (VIRGL_BIND_DISPLAY_TARGET ||| VIRGL_BIND_SCANOUT) = 0
  · simp only [hdt, ne_eq, not_true_eq_false, if_false]
    refine ⟨?_, ?_, ?_, ?_, ?_, ?_⟩
    · simp [store, virgl_vtest_send_resource_create, send]
    · simp [store, virgl_vtest_send_resource_create, send]
    · simp [store, virgl_vtest_send_resource_create, send]
    · simp [store, virgl_vtest_send_resource_create, send]
    · intro q hq; simp [store, virgl_vtest_send_resource_create, send, hq]
    · simp [store, virgl_vtest_send_resource_create, send, created_handles,
        List.filterMap_append]
  · simp only [hdt, ne_eq, not_false_eq_true, if_true]
    unfold vtest_displaytarget_create
    by_cases hid : dt_scan s.dt_set 33 0 = 32
    · refine ⟨?_, ?_, ?_, ?_, ?_, ?_⟩
      · simp [store, virgl_vtest_send_resource_create, send, hid]
      · simp [store, virgl_vtest_send_resource_create, send, hid]
      · simp [store, virgl_vtest_send_resource_create, send, hid]
      · simp [store, virgl_vtest_send_resource_create, send, hid]
      · intro q hq; simp [store, virgl_vtest_send_resource_create, send, hq, hid]
      · simp [store, virgl_vtest_send_resource_create, send, created_handles,
          List.filterMap_append, hid]
    · refine ⟨?_, ?_, ?_, ?_, ?_, ?_⟩
      · simp [store, virgl_vtest_send_resource_create, virgl_vtest_send_dt, send, hid]
      · simp [store, virgl_vtest_send_resource_create, virgl_vtest_send_dt, send, hid]
      · simp [store, virgl_vtest_send_resource_create, virgl_vtest_send_dt, send, hid]
      · simp [store, virgl_vtest_send_resource_create, virgl_vtest_send_dt, send, hid]
      · intro q hq
        simp [store, virgl_vtest_send_resource_create, virgl_vtest_send_dt, send, hq, hid]
      · simp [store, virgl_vtest_send_resource_create, virgl_vtest_send_dt, send,
          created_handles, List.filterMap_append, hid]

/-! ### Handles count up from 1 -/

theorem handles_numbered_store (s : virgl_vtest_winsys) (p : Nat) (r : virgl_hw_res)
    (h : r.res_handle = (s.mem p).res_handle) (hn : handles_numbered s) :
    handles_numbered (store s p r) := by
  obtain ⟨n1, n2, n3⟩ := hn
  refine ⟨n1, ?_, n3⟩
  intro k hk
  by_cases hq : k = p
  · subst hq; simp [store, h, n2 k hk]
  · simp [store, hq]; exact n2 k hk

theorem handles_numbered_resource_create (s : virgl_vtest_winsys)
    (target format bind width height depth array_size last_level nr_samples size : Nat)
    (hn : handles_numbered s) :
    handles_numbered (virgl_vtest_winsys_resource_create s target format bind width height
      depth array_size last_level nr_samples size).2 := by
  obtain ⟨c1, c2, c3, c4, c5, c6⟩ := resource_create_ids s target format bind width height
    depth array_size last_level nr_samples size
  obtain ⟨n1, n2, n3⟩ := hn
  refine ⟨?_, ?_, ?_⟩
  · rw [c3, c2, n1]; omega
  · intro k hk
    rw [c2] at hk
    by_cases hq : k = s.brk
    · subst hq; rw [c4, n1]
    · rw [c5 k hq]; exact n2 k (by omega)
  · rw [c6, c2, n3, n1, List.range_succ]
    simp

theorem handles_numbered_cache_create (s : virgl_vtest_winsys)
    (target format bind width height depth array_size last_level nr_samples size : Nat)
    (hn : handles_numbered s) :
    handles_numbered (virgl_vtest_winsys_resource_cache_create s target format bind width
      height depth array_size last_level nr_samples size).2 := by
  have halloc : ∀ s', handles_numbered s' →
      handles_numbered
        (if bind = VIRGL_BIND_CONSTANT_BUFFER ∨ bind = VIRGL_BIND_INDEX_BUFFER ∨
            bind = VIRGL_BIND_VERTEX_BUFFER then
          ((virgl_vtest_winsys_resource_create s' target format bind width height depth
              array_size last_level nr_samples size).1,
            store (virgl_vtest_winsys_resource_create s' target format bind width height depth
              array_size last_level nr_samples size).2
              (virgl_vtest_winsys_resource_create s' target format bind width height depth
                array_size last_level nr_samples size).1
              { (virgl_vtest_winsys_resource_create s' target format bind width height depth
                  array_size last_level nr_samples size).2.mem
                  (virgl_vtest_winsys_resource_create s' target format bind width height depth
                    array_size last_level nr_samples size).1 with cacheable := true })
        else
          ((virgl_vtest_winsys_resource_create s' target format bind width height depth
              array_size last_level nr_samples size).1,
            (virgl_vtest_winsys_resource_create s' target format bind width height depth
              array_size last_level nr_samples size).2)).2 := by
    intro s' hs'
    have h := handles_numbered_resource_create s' target format bind width height depth
      array_size last_level nr_samples size hs'
    split
    · exact handles_numbered_store _ _ _ rfl h
    · exact h
  unfold virgl_vtest_winsys_resource_cache_create
  simp only []
  split
  · exact halloc s hn
  · have hfr := scan_frame_scan (os_time_get s).1 size bind format 0 (os_time_get s).2.delayed
      (os_time_get s).2
    have hk : keeps_ids s
        (cache_create_scan (os_time_get s).1 size bind format 0 (os_time_get s).2.delayed
          (os_time_get s).2).ws :=
      keeps_ids_trans (keeps_ids_os_time_get s) (keeps_ids_of_scan_frame hfr)
    have hn2 := keeps_ids_handles_numbered hk hn
    split
    · exact handles_numbered_store _ _ _ rfl hn2
    · exact halloc _ hn2

theorem handles_numbered_step (sys : vtest_system) (op : vtest_op)
    (hn : handles_numbered sys.ws) : handles_numbered (vtest_step sys op).ws := by
  cases op with
  | resource_create target format bind width height depth array_size last_level nr_samples
      size =>
    exact handles_numbered_cache_create sys.ws target format bind width height depth
      array_size last_level nr_samples size hn
  | resource_unref hres =>
    exact keeps_ids_handles_numbered (keeps_ids_resource_reference sys.ws (some hres) none) hn
  | fence_reference dst src =>
    exact keeps_ids_handles_numbered (keeps_ids_resource_reference sys.ws dst src) hn
  | cmd_buf_create => exact hn
  | cmd_buf_destroy cbuf => exact hn
  | emit_res cbuf res write_buf =>
    simp only [vtest_step]
    split
    · exact keeps_ids_handles_numbered (keeps_ids_emit_res sys.ws _ res write_buf) hn
    · exact hn
  | submit_cmd cbuf =>
    simp only [vtest_step]
    split
    · exact keeps_ids_handles_numbered (keeps_ids_submit sys.ws _) hn
    · exact hn
  | cache_flush =>
    exact keeps_ids_handles_numbered (keeps_ids_flush_loop sys.ws.delayed sys.ws) hn

theorem handles_numbered_run (ops : List vtest_op) (sys : vtest_system)
    (hn : handles_numbered sys.ws) : handles_numbered (vtest_run sys ops).ws := by
  induction ops generalizing sys with
  | nil => exact hn
  | cons op rest ih =>
    exact ih (vtest_step sys op) (handles_numbered_step sys op hn)

theorem handles_numbered_boot (clock : Nat → Int) (busy_reply : Nat → Nat → Nat) :
    handles_numbered (vtest_boot clock busy_reply).ws := by
  refine ⟨rfl, ?_, rfl⟩
  intro k hk
  exact absurd hk (Nat.not_lt_zero k)

theorem resource_create_last_msg (s : virgl_vtest_winsys)
    (target format bind width height depth array_size last_level nr_samples size : Nat) :
    (virgl_vtest_winsys_resource_create s target format bind width height depth array_size
        last_level nr_samples size).2.sent.getLast? =
      some (.resource_create s.handle target format bind width height depth array_size
        last_level nr_samples) := by
  unfold virgl_vtest_winsys_resource_create
  by_cases hdt : bind &&& (VIRGL_BIND_DISPLAY_TARGET ||| VIRGL_BIND_SCANOUT) = 0
  · simp [hdt, store, virgl_vtest_send_resource_create, send]
  · unfold vtest_displaytarget_create
    by_cases hid : dt_scan s.dt_set 33 0 = 32
    · simp [hdt, hid, store, virgl_vtest_send_resource_create, send]
    · simp [hdt, hid, store, virgl_vtest_send_resource_create, virgl_vtest_send_dt, send]

/-- C8: after any sequence of operations, the call of
`virgl_vtest_winsys_resource_create` that is the k-th one (`k - 1` earlier calls
have each written one `RESOURCE_CREATE`), with `k < 2^31`, assigns handle `k` to
the new resource and writes a `RESOURCE_CREATE` carrying `k` as its last request.
Hence the handle is not 0, and every resource created earlier carries its own
creation number, which is smaller: handles increase strictly in creation order
and no two resources share one. -/
theorem resource_create_kth_handle (clock : Nat → Int) (busy_reply : Nat → Nat → Nat)
    (ops : List vtest_op)
    (target format bind width height depth array_size last_level nr_samples size k : Nat)
    (hk : k < 2147483648)
    (hcalls : (created_handles (vtest_run (vtest_boot clock busy_reply) ops).ws.sent).length + 1
      = k) :
    ((virgl_vtest_winsys_resource_create (vtest_run (vtest_boot clock busy_reply) ops).ws
        target format bind width height depth array_size last_level nr_samples size).2.mem
      (virgl_vtest_winsys_resource_create (vtest_run (vtest_boot clock busy_reply) ops).ws
        target format bind width height depth array_size last_level nr_samples size).1).res_handle
      = k ∧
    (virgl_vtest_winsys_resource_create (vtest_run (vtest_boot clock busy_reply) ops).ws
        target format bind width height depth array_size last_level nr_samples size).2.sent.getLast?
      = some (.resource_create k target format bind width height depth array_size last_level
          nr_samples) ∧
    k ≠ 0 ∧
    (virgl_vtest_winsys_resource_create (vtest_run (vtest_boot clock busy_reply) ops).ws
        target format bind width height depth array_size last_level nr_samples size).1 + 1 = k ∧
    (∀ p, p + 1 < k →
      ((virgl_vtest_winsys_resource_create (vtest_run (vtest_boot clock busy_reply) ops).ws
        target format bind width height depth array_size last_level nr_samples size).2.mem
        p).res_handle = p + 1) := by
  have hn := handles_numbered_run ops (vtest_boot clock busy_reply)
    (handles_numbered_boot clock busy_reply)
  generalize (vtest_run (vtest_boot clock busy_reply) ops).ws = s at hn hcalls
  obtain ⟨n1, n2, n3⟩ := hn
  obtain ⟨c1, c2, c3, c4, c5, c6⟩ := resource_create_ids s target format bind width height
    depth array_size last_level nr_samples size
  have hlast := resource_create_last_msg s target format bind width height depth array_size
    last_level nr_samples size
  have hlen : s.brk + 1 = k := by
    rw [n3] at hcalls
    simpa using hcalls
  have hh : s.handle = k := by rw [n1]; omega
  refine ⟨?_, ?_, by omega, ?_, ?_⟩
  · rw [c1, c4, hh]
  · rw [hlast, hh]
  · rw [c1, hlen]
  · intro p hp
    rw [c5 p (by omega), n2 p (by omega)]
    omega

/-- Witness for C8: after creating a vertex buffer, releasing it and creating a
second one, the next call is the third and assigns handle 3. -/
theorem resource_create_kth_handle_witness :
    ((virgl_vtest_winsys_resource_create
        (vtest_run (vtest_boot (fun _ => 0) (fun _ _ => 0))
          [.resource_create 0 1 VIRGL_BIND_VERTEX_BUFFER 64 1 1 1 0 0 64, .resource_unref 0,
           .resource_create 0 1 VIRGL_BIND_VERTEX_BUFFER 64 1 1 1 0 0 64]).ws
        2 1 8 16 16 1 1 0 0 1024).2.mem 2).res_handle = 3 :=
  (resource_create_kth_handle (fun _ => 0) (fun _ _ => 0)
    [.resource_create 0 1 VIRGL_BIND_VERTEX_BUFFER 64 1 1 1 0 0 64, .resource_unref 0,
     .resource_create 0 1 VIRGL_BIND_VERTEX_BUFFER 64 1 1 1 0 0 64]
    2 1 8 16 16 1 1 0 0 1024 3 (by decide) (by decide)).1

/-! ### Lookups in which no pooled entry matches -/

theorem loop2_no_match (size bind format : Nat) (l : List Nat) (ret : Int)
    (s : virgl_vtest_winsys)
    (hl : ∀ p ∈ l, res_matches (s.mem p) size bind format = false) :
    (cache_create_loop2 size bind format ret l s).res = none ∧
    (cache_create_loop2 size bind format ret l s).ws = s := by
  induction l generalizing ret with
  | nil => simp [cache_create_loop2]
  | cons c rest ih =>
    rw [loop2_skip size bind format ret c rest s (hl c (by simp))]
    exact ih 0 (fun p hp => hl p (by simp [hp]))

/-- When no pooled entry matches, the scan chooses nothing and does exactly what
the sweep `virgl_cache_list_check_free` does: it destroys the timed-out entries
at the head of the pool. -/
theorem scan_no_match (now : Int) (size bind format : Nat) (l : List Nat) (ret : Int)
    (s : virgl_vtest_winsys)
    (hl : ∀ p ∈ l, res_matches (s.mem p) size bind format = false) :
    (cache_create_scan now size bind format ret l s).res = none ∧
    (cache_create_scan now size bind format ret l s).ws =
      virgl_cache_list_check_free_loop now l s := by
  induction l generalizing ret s with
  | nil =>
    unfold cache_create_scan
    simp only [cache_create_loop1, virgl_cache_list_check_free_loop]
    split <;> simp [cache_create_loop2]
  | cons c rest ih =>
    have hc := hl c (by simp)
    by_cases hx : expired s.mem now c = true
    · have hstep := loop1_skip_expired now size bind format ret c rest s hc hx
      have hfr := scan_frame_destroy s c
      have := ih 0 (virgl_hw_res_destroy { s with delayed := LIST_DEL c s.delayed } c)
        (fun p hp => by rw [hfr.1]; exact hl p (by simp [hp]))
      have hcf : virgl_cache_list_check_free_loop now (c :: rest) s =
          virgl_cache_list_check_free_loop now rest
            (virgl_hw_res_destroy { s with delayed := LIST_DEL c s.delayed } c) := by
        rw [virgl_cache_list_check_free_loop]
        have hx' : os_time_timeout (s.mem c).start (s.mem c).end_ now = true := hx
        simp [hx']
      rw [hcf, ← this.2, ← this.1]
      unfold cache_create_scan
      rw [hstep]
      exact ⟨rfl, rfl⟩
    · have hx' : os_time_timeout (s.mem c).start (s.mem c).end_ now = false := by
        simpa [expired] using hx
      have hstep := loop1_stop now size bind format ret c rest s hc (by simpa using hx)
      have hcf : virgl_cache_list_check_free_loop now (c :: rest) s = s := by
        rw [virgl_cache_list_check_free_loop]
        simp [hx']
      have h2 := loop2_no_match size bind format (c :: rest) 0 s hl
      unfold cache_create_scan
      rw [hstep, hcf]
      simpa using h2

theorem res_matches_false_of_size_zero (r : virgl_hw_res) (size bind format : Nat)
    (hr : r.size = 0) (hsize : 0 < size) : res_matches r size bind format = false := by
  unfold res_matches
  simp [hr, hsize]

/-- A lookup in a pool none of whose entries matches allocates: the result is
the record at the allocation mark, it carries the current value of the handle
counter, and the last request written is its `RESOURCE_CREATE`. -/
theorem cache_create_no_match (s : virgl_vtest_winsys)
    (target format bind width height depth array_size last_level nr_samples size : Nat)
    (hbind : scans_pool bind)
    (hl : ∀ p ∈ s.delayed, res_matches (s.mem p) size bind format = false) :
    (virgl_vtest_winsys_resource_cache_create s target format bind width height depth
        array_size last_level nr_samples size).1 = s.brk ∧
    ((virgl_vtest_winsys_resource_cache_create s target format bind width height depth
        array_size last_level nr_samples size).2.mem s.brk).res_handle = s.handle ∧
    (virgl_vtest_winsys_resource_cache_create s target format bind width height depth
        array_size last_level nr_samples size).2.sent.getLast? =
      some (.resource_create s.handle target format bind width height depth array_size
        last_level nr_samples) ∧
    (virgl_vtest_winsys_resource_cache_create s target format bind width height depth
        array_size last_level nr_samples size).2.handle = (s.handle + 1) % 4294967296 ∧
    (virgl_vtest_winsys_resource_cache_create s target format bind width height depth
        array_size last_level nr_samples size).2.brk = s.brk + 1 := by
  have hres : (scan_of s size bind format).res = none :=
    (scan_no_match (s.clock s.ticks) size bind format s.delayed 0
      { s with ticks := s.ticks + 1 } hl).1
  obtain ⟨h1, h2, h3, -, h5, h6⟩ := cache_create_of_scan_none s target format bind width height
    depth array_size last_level nr_samples size hbind hres
  exact ⟨h1, h2, by rw [h3]; simp, h5, h6⟩

/-! ### The recorded size is never set -/

theorem sizes_unset_of_keeps_ids {s s' : virgl_vtest_winsys} (h : keeps_ids s s')
    (hz : sizes_unset s) : sizes_unset s' := by
  intro q
  rw [(h.2.2.1 q).2.1]
  exact hz q

theorem sizes_unset_store (s : virgl_vtest_winsys) (p : Nat) (r : virgl_hw_res)
    (h : r.size = (s.mem p).size) (hz : sizes_unset s) : sizes_unset (store s p r) := by
  intro q
  by_cases hq : q = p
  · subst hq; simp [store, h, hz q]
  · simp [store, hq, hz q]

theorem sizes_unset_resource_create (s : virgl_vtest_winsys)
    (target format bind width height depth array_size last_level nr_samples size : Nat)
    (hz : sizes_unset s) :
    sizes_unset (virgl_vtest_winsys_resource_create s target format bind width height
      depth array_size last_level nr_samples size).2 := by
  obtain ⟨-, -, -, -, c5, -⟩ := resource_create_ids s target format bind width height
    depth array_size last_level nr_samples size
  intro q
  by_cases hq : q = s.brk
  · subst hq
    unfold virgl_vtest_winsys_resource_create
    by_cases hdt : bind &&& (VIRGL_BIND_DISPLAY_TARGET ||| VIRGL_BIND_SCANOUT) = 0
    · simp [hdt, store, virgl_vtest_send_resource_create, send]
    · unfold vtest_displaytarget_create
      by_cases hid : dt_scan s.dt_set 33 0 = 32
      · simp [hdt, hid, store, virgl_vtest_send_resource_create, send]
      · simp [hdt, hid, store, virgl_vtest_send_resource_create, virgl_vtest_send_dt, send]
  · rw [c5 q hq]; exact hz q

theorem sizes_unset_cache_create (s : virgl_vtest_winsys)
    (target format bind width height depth array_size last_level nr_samples size : Nat)
    (hz : sizes_unset s) :
    sizes_unset (virgl_vtest_winsys_resource_cache_create s target format bind width
      height depth array_size last_level nr_samples size).2 := by
  have halloc : ∀ s', sizes_unset s' →
      sizes_unset
        (if bind = VIRGL_BIND_CONSTANT_BUFFER ∨ bind = VIRGL_BIND_INDEX_BUFFER ∨
            bind = VIRGL_BIND_VERTEX_BUFFER then
          ((virgl_vtest_winsys_resource_create s' target format bind width height depth
              array_size last_level nr_samples size).1,
            store (virgl_vtest_winsys_resource_create s' target format bind width height depth
              array_size last_level nr_samples size).2
              (virgl_vtest_winsys_resource_create s' target format bind width height depth
                array_size last_level nr_samples size).1
              { (virgl_vtest_winsys_resource_create s' target format bind width height depth
                  array_size last_level nr_samples size).2.mem
                  (virgl_vtest_winsys_resource_create s' target format bind width height depth
                    array_size last_level nr_samples size).1 with cacheable := true })
        else
          ((virgl_vtest_winsys_resource_create s' target format bind width height depth
              array_size last_level nr_samples size).1,
            (virgl_vtest_winsys_resource_create s' target format bind width height depth
              array_size last_level nr_samples size).2)).2 := by
    intro s' hs'
    have h := sizes_unset_resource_create s' target format bind width height depth
      array_size last_level nr_samples size hs'
    split
    · exact sizes_unset_store _ _ _ rfl h
    · exact h
  unfold virgl_vtest_winsys_resource_cache_create
  simp only []
  split
  · exact halloc s hz
  · have hfr := scan_frame_scan (os_time_get s).1 size bind format 0 (os_time_get s).2.delayed
      (os_time_get s).2
    have hk : keeps_ids s
        (cache_create_scan (os_time_get s).1 size bind format 0 (os_time_get s).2.delayed
          (os_time_get s).2).ws :=
      keeps_ids_trans (keeps_ids_os_time_get s) (keeps_ids_of_scan_frame hfr)
    have hz2 := sizes_unset_of_keeps_ids hk hz
    split
    · exact sizes_unset_store _ _ _ rfl hz2
    · exact halloc _ hz2

theorem sizes_unset_step (sys : vtest_system) (op : vtest_op)
    (hz : sizes_unset sys.ws) : sizes_unset (vtest_step sys op).ws := by
  cases op with
  | resource_create target format bind width height depth array_size last_level nr_samples
      size =>
    exact sizes_unset_cache_create sys.ws target format bind width height depth
      array_size last_level nr_samples size hz
  | resource_unref hres =>
    exact sizes_unset_of_keeps_ids (keeps_ids_resource_reference sys.ws (some hres) none) hz
  | fence_reference dst src =>
    exact sizes_unset_of_keeps_ids (keeps_ids_resource_reference sys.ws dst src) hz
  | cmd_buf_create => exact hz
  | cmd_buf_destroy cbuf => exact hz
  | emit_res cbuf res write_buf =>
    simp only [vtest_step]
    split
    · exact sizes_unset_of_keeps_ids (keeps_ids_emit_res sys.ws _ res write_buf) hz
    · exact hz
  | submit_cmd cbuf =>
    simp only [vtest_step]
    split
    · exact sizes_unset_of_keeps_ids (keeps_ids_submit sys.ws _) hz
    · exact hz
  | cache_flush =>
    exact sizes_unset_of_keeps_ids (keeps_ids_flush_loop sys.ws.delayed sys.ws) hz

theorem sizes_unset_run (ops : List vtest_op) (sys : vtest_system)
    (hz : sizes_unset sys.ws) : sizes_unset (vtest_run sys ops).ws := by
  induction ops generalizing sys with
  | nil => exact hz
  | cons op rest ih => exact ih (vtest_step sys op) (sizes_unset_step sys op hz)

/-- In every state reached from `virgl_vtest_winsys_wrap`, a lookup for a
positive size never reuses a pooled entry: no operation ever stores the size of a
resource, so every pooled record has `size = 0` and fails `res->size < size`.
The lookup allocates a new record with the next handle and writes a
`RESOURCE_CREATE`. -/
theorem cache_create_never_reuses (clock : Nat → Int) (busy_reply : Nat → Nat → Nat)
    (ops : List vtest_op)
    (target format bind width height depth array_size last_level nr_samples size : Nat)
    (hbind : scans_pool bind) (hsize : 0 < size) :
    (virgl_vtest_winsys_resource_cache_create (vtest_run (vtest_boot clock busy_reply) ops).ws
        target format bind width height depth array_size last_level nr_samples size).1 =
      (vtest_run (vtest_boot clock busy_reply) ops).ws.brk ∧
    (virgl_vtest_winsys_resource_cache_create (vtest_run (vtest_boot clock busy_reply) ops).ws
        target format bind width height depth array_size last_level nr_samples size).2.sent.getLast?
      = some (.resource_create (vtest_run (vtest_boot clock busy_reply) ops).ws.handle target
          format bind width height depth array_size last_level nr_samples) := by
  have hz := sizes_unset_run ops (vtest_boot clock busy_reply) (fun _ => rfl)
  have h := cache_create_no_match (vtest_run (vtest_boot clock busy_reply) ops).ws target format
    bind width height depth array_size last_level nr_samples size hbind
    (fun p _ => res_matches_false_of_size_zero _ size bind format (hz p) hsize)
  exact ⟨h.1, h.2.2.1⟩

/-- C4 (amended): a 64-byte constant buffer is created and released, then a
100-byte constant buffer with the same bind and format is created.  The second
create does not reuse the first resource: it allocates a new record, distinct
from the first, with handle 2 (the first has handle 1), and its
`RESOURCE_CREATE` is the last request written.  A pooled entry whose recorded
size is at most 64 is rejected for a request of 100 bytes by the guard
`res->size < size`, without asking the server. -/
theorem second_create_of_100_after_64_is_fresh (clock : Nat → Int) (busy_reply : Nat → Nat → Nat)
    (target format width height depth array_size last_level nr_samples : Nat) :
    ((virgl_vtest_winsys_resource_cache_create (virgl_vtest_winsys_wrap clock busy_reply)
        target format VIRGL_BIND_CONSTANT_BUFFER width height depth array_size last_level
        nr_samples 64).2.mem
      (virgl_vtest_winsys_resource_cache_create (virgl_vtest_winsys_wrap clock busy_reply)
        target format VIRGL_BIND_CONSTANT_BUFFER width height depth array_size last_level
        nr_samples 64).1).res_handle = 1 ∧
    (virgl_vtest_winsys_resource_cache_create
        (virgl_vtest_winsys_resource_unref
          (virgl_vtest_winsys_resource_cache_create (virgl_vtest_winsys_wrap clock busy_reply)
            target format VIRGL_BIND_CONSTANT_BUFFER width height depth array_size last_level
            nr_samples 64).2
          (virgl_vtest_winsys_resource_cache_create (virgl_vtest_winsys_wrap clock busy_reply)
            target format VIRGL_BIND_CONSTANT_BUFFER width height depth array_size last_level
            nr_samples 64).1)
        target format VIRGL_BIND_CONSTANT_BUFFER width height depth array_size last_level
        nr_samples 100).1 ≠
      (virgl_vtest_winsys_resource_cache_create (virgl_vtest_winsys_wrap clock busy_reply)
        target format VIRGL_BIND_CONSTANT_BUFFER width height depth array_size last_level
        nr_samples 64).1 ∧
    ((virgl_vtest_winsys_resource_cache_create
        (virgl_vtest_winsys_resource_unref
          (virgl_vtest_winsys_resource_cache_create (virgl_vtest_winsys_wrap clock busy_reply)
            target format VIRGL_BIND_CONSTANT_BUFFER width height depth array_size last_level
            nr_samples 64).2
          (virgl_vtest_winsys_resource_cache_create (virgl_vtest_winsys_wrap clock busy_reply)
            target format VIRGL_BIND_CONSTANT_BUFFER width height depth array_size last_level
            nr_samples 64).1)
        target format VIRGL_BIND_CONSTANT_BUFFER width height depth array_size last_level
        nr_samples 100).2.mem
      (virgl_vtest_winsys_resource_cache_create
        (virgl_vtest_winsys_resource_unref
          (virgl_vtest_winsys_resource_cache_create (virgl_vtest_winsys_wrap clock busy_reply)
            target format VIRGL_BIND_CONSTANT_BUFFER width height depth array_size last_level
            nr_samples 64).2
          (virgl_vtest_winsys_resource_cache_create (virgl_vtest_winsys_wrap clock busy_reply)
            target format VIRGL_BIND_CONSTANT_BUFFER width height depth array_size last_level
            nr_samples 64).1)
        target format VIRGL_BIND_CONSTANT_BUFFER width height depth array_size last_level
        nr_samples 100).1).res_handle = 2 ∧
    (virgl_vtest_winsys_resource_cache_create
        (virgl_vtest_winsys_resource_unref
          (virgl_vtest_winsys_resource_cache_create (virgl_vtest_winsys_wrap clock busy_reply)
            target format VIRGL_BIND_CONSTANT_BUFFER width height depth array_size last_level
            nr_samples 64).2
          (virgl_vtest_winsys_resource_cache_create (virgl_vtest_winsys_wrap clock busy_reply)
            target format VIRGL_BIND_CONSTANT_BUFFER width height depth array_size last_level
            nr_samples 64).1)
        target format VIRGL_BIND_CONSTANT_BUFFER width height depth array_size last_level
        nr_samples 100).2.sent.getLast? =
      some (.resource_create 2 target format VIRGL_BIND_CONSTANT_BUFFER width height depth
        array_size last_level nr_samples) ∧
    (∀ (s : virgl_vtest_winsys) (res bind format : Nat), (s.mem res).size ≤ 64 →
      virgl_is_res_compat s res 100 bind format = (0, s)) := by
  have hb : scans_pool VIRGL_BIND_CONSTANT_BUFFER := Or.inl rfl
  have hz0 : sizes_unset (virgl_vtest_winsys_wrap clock busy_reply) := fun _ => rfl
  obtain ⟨a1, a2, -, a4, a5⟩ := cache_create_no_match (virgl_vtest_winsys_wrap clock busy_reply)
    target format VIRGL_BIND_CONSTANT_BUFFER width height depth array_size last_level
    nr_samples 64 hb (fun p hp => by simp [virgl_vtest_winsys_wrap] at hp)
  have hz1 := sizes_unset_cache_create (virgl_vtest_winsys_wrap clock busy_reply)
    target format VIRGL_BIND_CONSTANT_BUFFER width height depth array_size last_level
    nr_samples 64 hz0
  generalize virgl_vtest_winsys_resource_cache_create (virgl_vtest_winsys_wrap clock busy_reply)
    target format VIRGL_BIND_CONSTANT_BUFFER width height depth array_size last_level
    nr_samples 64 = c1 at a1 a2 a4 a5 hz1
  have hk := keeps_ids_resource_reference c1.2 (some c1.1) none
  have hz2 := sizes_unset_of_keeps_ids hk hz1
  obtain ⟨k1, k2, -, -, -, -, -⟩ := hk
  obtain ⟨b1, b2, b3, -, -⟩ := cache_create_no_match (virgl_vtest_winsys_resource_unref c1.2 c1.1)
    target format VIRGL_BIND_CONSTANT_BUFFER width height depth array_size last_level
    nr_samples 100 hb
    (fun p _ => res_matches_false_of_size_zero _ 100 _ format (hz2 p) (by decide))
  have hbrk : (virgl_vtest_winsys_resource_unref c1.2 c1.1).brk = 1 := by
    unfold virgl_vtest_winsys_resource_unref; rw [k2, a5]; rfl
  have hh : (virgl_vtest_winsys_resource_unref c1.2 c1.1).handle = 2 := by
    unfold virgl_vtest_winsys_resource_unref; rw [k1, a4]; rfl
  have ha1 : c1.1 = 0 := a1
  refine ⟨?_, ?_, ?_, ?_, ?_⟩
  · rw [ha1]; exact a2
  · rw [b1, hbrk, ha1]; decide
  · rw [b1, b2, hh]
  · rw [b3, hh]
  · intro s res bind format hle
    apply virgl_is_res_compat_of_not_matches
    have : (s.mem res).size < 100 := by omega
    simp [res_matches, this]

/-! ### The sweeping pass of the lookup -/

theorem loop1_ret_irrelevant (now : Int) (size bind format : Nat) (ret : Int) (c : Nat)
    (rest : List Nat) (s : virgl_vtest_winsys) :
    cache_create_loop1 now size bind format none ret (c :: rest) s =
      cache_create_loop1 now size bind format none 0 (c :: rest) s := by
  rw [cache_create_loop1, cache_create_loop1]
  simp

theorem check_free_loop_cons_expired (now : Int) (c : Nat) (rest : List Nat)
    (s : virgl_vtest_winsys) (hx : expired s.mem now c = true) :
    virgl_cache_list_check_free_loop now (c :: rest) s =
      virgl_cache_list_check_free_loop now rest
        (virgl_hw_res_destroy { s with delayed := LIST_DEL c s.delayed } c) := by
  have hx' : os_time_timeout (s.mem c).start (s.mem c).end_ now = true := hx
  rw [virgl_cache_list_check_free_loop]
  simp [hx']

theorem check_free_loop_cons_live (now : Int) (c : Nat) (rest : List Nat)
    (s : virgl_vtest_winsys) (hx : expired s.mem now c = false) :
    virgl_cache_list_check_free_loop now (c :: rest) s = s := by
  have hx' : os_time_timeout (s.mem c).start (s.mem c).end_ now = false := hx
  rw [virgl_cache_list_check_free_loop]
  simp [hx']

/-- The first pass walks through a run of timed-out entries that do not match
exactly as the sweep does, destroying each of them. -/
theorem loop1_sweep_prefix (now : Int) (size bind format : Nat) (pre : List Nat) (e : Nat)
    (post : List Nat) (ret : Int) (s : virgl_vtest_winsys)
    (hpre : ∀ p ∈ pre, res_matches (s.mem p) size bind format = false ∧
      expired s.mem now p = true) :
    cache_create_loop1 now size bind format none ret (pre ++ e :: post) s =
      cache_create_loop1 now size bind format none 0 (e :: post)
        (virgl_cache_list_check_free_loop now pre s) := by
  induction pre generalizing ret s with
  | nil =>
    simp only [List.nil_append, virgl_cache_list_check_free_loop]
    exact loop1_ret_irrelevant now size bind format ret e post s
  | cons c rest ih =>
    obtain ⟨hm, hx⟩ := hpre c (by simp)
    have hfr := scan_frame_destroy s c
    rw [List.cons_append, loop1_skip_expired now size bind format ret c _ s hm hx,
      check_free_loop_cons_expired now c rest s hx]
    exact ih 0 _ (fun p hp => by rw [hfr.1]; exact hpre p (by simp [hp]))

theorem check_free_loop_delayed_mid (now : Int) (front l tail : List Nat)
    (s : virgl_vtest_winsys) (hl : s.delayed = front ++ l ++ tail)
    (hfront : ∀ c ∈ l, c ∉ front) :
    (virgl_cache_list_check_free_loop now l s).delayed =
      front ++ l.dropWhile (expired s.mem now) ++ tail := by
  induction l generalizing s with
  | nil => simp [virgl_cache_list_check_free_loop, hl]
  | cons c rest ih =>
    by_cases hx : expired s.mem now c = true
    · rw [check_free_loop_cons_expired now c rest s hx]
      have hc : c ∉ front := hfront c (by simp)
      have hd : (virgl_hw_res_destroy { s with delayed := LIST_DEL c s.delayed } c).delayed =
          front ++ rest ++ tail := by
        rw [virgl_hw_res_destroy_eq]
        simp only [LIST_DEL, hl, List.append_assoc]
        rw [List.erase_append_right _ hc]
        simp
      rw [ih _ hd (fun c' hc' => hfront c' (by simp [hc']))]
      simp [List.dropWhile, hx, virgl_hw_res_destroy_eq]
    · have hx' : expired s.mem now c = false := by simpa using hx
      rw [check_free_loop_cons_live now c rest s hx']
      simp [List.dropWhile, hx', hl]

theorem takeWhile_of_all {α : Type} (p : α → Bool) (l : List α) (h : ∀ a ∈ l, p a = true) :
    l.takeWhile p = l := by
  induction l with
  | nil => rfl
  | cons a rest ih =>
    simp [List.takeWhile, h a (by simp), ih (fun b hb => h b (by simp [hb]))]

theorem dropWhile_of_all {α : Type} (p : α → Bool) (l : List α) (h : ∀ a ∈ l, p a = true) :
    l.dropWhile p = [] := by
  induction l with
  | nil => rfl
  | cons a rest ih =>
    simp [List.dropWhile, h a (by simp), ih (fun b hb => h b (by simp [hb]))]

/-- Once an entry is chosen, the rest of the first pass is the sweep. -/
theorem loop1_chosen_ws (now : Int) (size bind format : Nat) (r : Nat) (ret : Int)
    (l : List Nat) (s : virgl_vtest_winsys) (hret : ret ≠ -1) :
    (cache_create_loop1 now size bind format (some r) ret l s).ws =
      virgl_cache_list_check_free_loop now l s := by
  induction l generalizing s with
  | nil => simp [cache_create_loop1, virgl_cache_list_check_free_loop]
  | cons c rest ih =>
    rw [loop1_chosen_step]
    by_cases hx : expired s.mem now c = true
    · simp only [hx, hret, if_true, if_false]
      rw [check_free_loop_cons_expired now c rest s hx]
      exact ih _
    · have hx' : expired s.mem now c = false := by simpa using hx
      simp only [hx', Bool.false_eq_true, if_false]
      rw [check_free_loop_cons_live now c rest s hx']

theorem loop1_res_mem (now : Int) (size bind format : Nat) (ret : Int) (l : List Nat)
    (s : virgl_vtest_winsys) (r : Nat)
    (h : (cache_create_loop1 now size bind format none ret l s).res = some r) : r ∈ l := by
  induction l generalizing s ret with
  | nil => simp [cache_create_loop1] at h
  | cons c rest ih =>
    by_cases hm : res_matches (s.mem c) size bind format = true
    · by_cases hb : to_int32 (next_busy_reply s c) = 1
      · rw [loop1_busy now size bind format ret c rest s hm hb] at h
        simp at h
      · rw [loop1_pick now size bind format ret c rest s hm hb,
          (loop1_chosen now size bind format c 1 rest (after_poll s c)).1] at h
        simp only [Option.some.injEq] at h
        simp [← h]
    · have hm' : res_matches (s.mem c) size bind format = false := by simpa using hm
      by_cases hx : expired s.mem now c = true
      · rw [loop1_skip_expired now size bind format ret c rest s hm' hx] at h
        exact List.mem_cons_of_mem _ (ih _ _ h)
      · rw [loop1_stop now size bind format ret c rest s hm' (by simpa using hx)] at h
        simp at h

theorem loop1_curr_suffix (now : Int) (size bind format : Nat) (res : Option Nat) (ret : Int)
    (l : List Nat) (s : virgl_vtest_winsys) :
    (cache_create_loop1 now size bind format res ret l s).curr <:+ l := by
  induction l generalizing s ret res with
  | nil => simp [cache_create_loop1]
  | cons c rest ih =>
    cases res with
    | some r =>
      rw [loop1_chosen_step]
      by_cases hx : expired s.mem now c = true
      · by_cases hr : ret = -1
        · simp only [hx, hr, if_true]; exact List.suffix_refl _
        · simp only [hx, hr, if_true, if_false]
          exact (ih _ _ _).trans (List.suffix_cons _ _)
      · simp only [hx, if_false]; exact List.suffix_refl _
    | none =>
      by_cases hm : res_matches (s.mem c) size bind format = true
      · by_cases hb : to_int32 (next_busy_reply s c) = 1
        · rw [loop1_busy now size bind format ret c rest s hm hb]
        · rw [loop1_pick now size bind format ret c rest s hm hb]
          exact (ih _ _ _).trans (List.suffix_cons _ _)
      · have hm' : res_matches (s.mem c) size bind format = false := by simpa using hm
        by_cases hx : expired s.mem now c = true
        · rw [loop1_skip_expired now size bind format ret c rest s hm' hx]
          exact (ih _ _ _).trans (List.suffix_cons _ _)
        · rw [loop1_stop now size bind format ret c rest s hm' (by simpa using hx)]

theorem loop2_res_mem (size bind format : Nat) (ret : Int) (l : List Nat)
    (s : virgl_vtest_winsys) (r : Nat)
    (h : (cache_create_loop2 size bind format ret l s).res = some r) : r ∈ l := by
  induction l generalizing s ret with
  | nil => simp [cache_create_loop2] at h
  | cons c rest ih =>
    by_cases hm : res_matches (s.mem c) size bind format = true
    · by_cases hb : to_int32 (next_busy_reply s c) = 1
      · rw [loop2_busy size bind format ret c rest s hm hb] at h
        simp at h
      · rw [loop2_pick size bind format ret c rest s hm hb] at h
        simp only [Option.some.injEq] at h
        simp [← h]
    · rw [loop2_skip size bind format ret c rest s (by simpa using hm)] at h
      exact List.mem_cons_of_mem _ (ih _ _ h)

/-- An entry the scan chooses is one of the entries it was given. -/
theorem scan_res_mem (now : Int) (size bind format : Nat) (ret : Int) (l : List Nat)
    (s : virgl_vtest_winsys) (r : Nat)
    (h : (cache_create_scan now size bind format ret l s).res = some r) : r ∈ l := by
  unfold cache_create_scan at h
  simp only [] at h
  split at h
  · exact (loop1_curr_suffix now size bind format none ret l s).subset
      (loop2_res_mem _ _ _ _ _ _ r h)
  · exact loop1_res_mem now size bind format ret l s r h

/-- The sweep over a run of timed-out entries at the head of the pool destroys
all of them. -/
theorem sweep_prefix_state (now : Int) (pre tail : List Nat) (s : virgl_vtest_winsys)
    (hall : ∀ p ∈ pre, expired s.mem now p = true) (hd : s.delayed = pre ++ tail) :
    (virgl_cache_list_check_free_loop now pre s).mem = s.mem ∧
    (virgl_cache_list_check_free_loop now pre s).polls = s.polls ∧
    (virgl_cache_list_check_free_loop now pre s).busy_reply = s.busy_reply ∧
    (virgl_cache_list_check_free_loop now pre s).delayed = tail ∧
    (virgl_cache_list_check_free_loop now pre s).sent =
      s.sent ++ (pre.map (fun p => destroy_msgs (s.mem p))).flatten := by
  obtain ⟨f1, -, -, -, -, -, -, f8, f9⟩ := check_free_loop_mem now pre s
  have hdl := check_free_loop_delayed_mid now [] pre tail s (by simpa using hd) (by simp)
  have hst := check_free_loop_sent now pre s
  rw [takeWhile_of_all _ _ hall] at hst
  rw [dropWhile_of_all _ _ hall] at hdl
  exact ⟨f1, f9, f8, by simpa using hdl, hst⟩

/-- The scan reaches a timed-out entry that matches and is idle with nothing
chosen yet: the entry is chosen, and the rest of the pass sweeps what follows. -/
theorem scan_expired_idle (now : Int) (size bind format : Nat) (pre : List Nat) (e : Nat)
    (post : List Nat) (s : virgl_vtest_winsys)
    (hpool : s.delayed = pre ++ e :: post) (hnodup : s.delayed.Nodup)
    (hpre : ∀ p ∈ pre, res_matches (s.mem p) size bind format = false ∧
      expired s.mem now p = true)
    (hm : res_matches (s.mem e) size bind format = true)
    (hidle : next_busy_reply s e = 0) :
    (cache_create_scan now size bind format 0 (pre ++ e :: post) s).res = some e ∧
    (cache_create_scan now size bind format 0 (pre ++ e :: post) s).ws.delayed =
      e :: post.dropWhile (expired s.mem now) ∧
    (cache_create_scan now size bind format 0 (pre ++ e :: post) s).ws.sent =
      s.sent ++ (pre.map (fun p => destroy_msgs (s.mem p))).flatten ++
        [.busy_wait ((s.mem e).res_handle % 4294967296) 0] ++
        ((post.takeWhile (expired s.mem now)).map (fun p => destroy_msgs (s.mem p))).flatten ∧
    (cache_create_scan now size bind format 0 (pre ++ e :: post) s).ws.mem = s.mem := by
  obtain ⟨w1, w2, w3, w4, w5⟩ := sweep_prefix_state now pre (e :: post) s
    (fun p hp => (hpre p hp).2) hpool
  have hstep := loop1_sweep_prefix now size bind format pre e post 0 s hpre
  generalize virgl_cache_list_check_free_loop now pre s = w at w1 w2 w3 w4 w5 hstep
  have hm' : res_matches (w.mem e) size bind format = true := by rw [w1]; exact hm
  have hnb : next_busy_reply w e = 0 := by
    unfold next_busy_reply at hidle ⊢; rw [w1, w2, w3]; exact hidle
  have hidle' : to_int32 (next_busy_reply w e) ≠ 1 := by rw [hnb, to_int32_zero]; decide
  have hpick := loop1_pick now size bind format 0 e post w hm' hidle'
  have hch := loop1_chosen now size bind format e 1 post (after_poll w e)
  have hws := loop1_chosen_ws now size bind format e 1 post (after_poll w e) (by decide)
  have hnd : ∀ c ∈ post, c ∉ [e] := by
    intro c hc hce
    rw [hpool] at hnodup
    have h2 := (List.nodup_append.mp hnodup).2.1
    have h3 := (List.nodup_cons.mp h2).1
    simp only [List.mem_singleton] at hce
    exact h3 (hce ▸ hc)
  have hdl := check_free_loop_delayed_mid now [e] post [] (after_poll w e)
    (by simp [after_poll, send, w4]) hnd
  have hst := check_free_loop_sent now post (after_poll w e)
  obtain ⟨g1, -, -, -, -, -, -, -, -⟩ := check_free_loop_mem now post (after_poll w e)
  have hscan : cache_create_scan now size bind format 0 (pre ++ e :: post) s =
      cache_create_loop1 now size bind format (some e) 1 post (after_poll w e) := by
    unfold cache_create_scan
    rw [hstep, hpick]
    simp [hch.1]
  rw [hscan, hch.1, hws]
  have hmem : (after_poll w e).mem = s.mem := w1
  refine ⟨rfl, ?_, ?_, ?_⟩
  · rw [hdl, hmem]; simp
  · rw [hst, hmem]
    simp [after_poll, send, w5, w1]
  · rw [g1, hmem]

/-- The scan reaches a timed-out entry that does not match, or that matches but
is reported busy, with nothing chosen yet: the entry is unlinked and destroyed,
and whatever the scan chooses afterwards comes from the entries behind it. -/
theorem scan_expired_destroyed (now : Int) (size bind format : Nat) (pre : List Nat) (e : Nat)
    (post : List Nat) (s : virgl_vtest_winsys)
    (hpool : s.delayed = pre ++ e :: post)
    (hpre : ∀ p ∈ pre, res_matches (s.mem p) size bind format = false ∧
      expired s.mem now p = true)
    (he : expired s.mem now e = true)
    (hcase : res_matches (s.mem e) size bind format = false ∨ next_busy_reply s e = 1) :
    (∀ x, (cache_create_scan now size bind format 0 (pre ++ e :: post) s).res = some x →
      x ∈ post) ∧
    (cache_create_scan now size bind format 0 (pre ++ e :: post) s).ws.delayed.Sublist post ∧
    (∃ l, (cache_create_scan now size bind format 0 (pre ++ e :: post) s).ws.sent =
        s.sent ++ l ∧ vtest_msg.resource_unref (s.mem e).res_handle ∈ l) := by
  obtain ⟨w1, w2, w3, w4, w5⟩ := sweep_prefix_state now pre (e :: post) s
    (fun p hp => (hpre p hp).2) hpool
  have hstep := loop1_sweep_prefix now size bind format pre e post 0 s hpre
  generalize virgl_cache_list_check_free_loop now pre s = w at w1 w2 w3 w4 w5 hstep
  have hx : expired w.mem now e = true := by rw [w1]; exact he
  have hunref : vtest_msg.resource_unref (s.mem e).res_handle ∈ destroy_msgs (s.mem e) := by
    unfold destroy_msgs; simp
  by_cases hm : res_matches (s.mem e) size bind format = true
  · -- matches, so the server reported it busy
    have hbusy : next_busy_reply s e = 1 := by
      rcases hcase with h | h
      · rw [hm] at h; exact absurd h (by decide)
      · exact h
    have hm' : res_matches (w.mem e) size bind format = true := by rw [w1]; exact hm
    have hnb : to_int32 (next_busy_reply w e) = 1 := by
      have : next_busy_reply w e = 1 := by
        unfold next_busy_reply at hbusy ⊢; rw [w1, w2, w3]; exact hbusy
      rw [this, to_int32_one]
    have hb := loop1_busy now size bind format 0 e post w hm' hnb
    have hscan : cache_create_scan now size bind format 0 (pre ++ e :: post) s =
        ⟨none, -1, e :: post,
          virgl_hw_res_destroy
            { after_poll w e with delayed := LIST_DEL e (after_poll w e).delayed } e⟩ := by
      unfold cache_create_scan
      rw [hstep, hb]
      simp [hx]
    rw [hscan, virgl_hw_res_destroy_eq]
    refine ⟨fun x hx' => by simp at hx', ?_, ?_⟩
    · simp [after_poll, send, LIST_DEL, w4]
    · refine ⟨(pre.map (fun p => destroy_msgs (s.mem p))).flatten ++
          [.busy_wait ((s.mem e).res_handle % 4294967296) 0] ++ destroy_msgs (s.mem e), ?_, ?_⟩
      · simp [after_poll, send, w5, w1]
      · exact List.mem_append_right _ hunref
  · -- does not match
    have hm0 : res_matches (s.mem e) size bind format = false := by simpa using hm
    have hm' : res_matches (w.mem e) size bind format = false := by rw [w1]; exact hm0
    have hsk := loop1_skip_expired now size bind format 0 e post w hm' hx
    have hscan : cache_create_scan now size bind format 0 (pre ++ e :: post) s =
        cache_create_scan now size bind format 0 post
          (virgl_hw_res_destroy { w with delayed := LIST_DEL e w.delayed } e) := by
      unfold cache_create_scan
      rw [hstep, hsk]
    have hfr := scan_frame_scan now size bind format 0 post
      (virgl_hw_res_destroy { w with delayed := LIST_DEL e w.delayed } e)
    rw [hscan]
    refine ⟨fun x hx' => scan_res_mem now size bind format 0 post _ x hx', ?_, ?_⟩
    · have h10 := hfr.2.2.2.2.2.2.2.2.2.1
      have hd : (virgl_hw_res_destroy { w with delayed := LIST_DEL e w.delayed } e).delayed
          = post := by
        rw [virgl_hw_res_destroy_eq]; simp [LIST_DEL, w4]
      rw [hd] at h10
      exact h10
    · obtain ⟨t, ht⟩ := hfr.2.2.2.2.2.2.2.2.1
      have hs : (virgl_hw_res_destroy { w with delayed := LIST_DEL e w.delayed } e).sent =
          s.sent ++ (pre.map (fun p => destroy_msgs (s.mem p))).flatten ++
            destroy_msgs (s.mem e) := by
        rw [virgl_hw_res_destroy_eq]; simp [w5, w1]
      rw [hs] at ht
      refine ⟨(pre.map (fun p => destroy_msgs (s.mem p))).flatten ++ destroy_msgs (s.mem e) ++ t,
        ?_, ?_⟩
      · rw [← ht]; simp
      · exact List.mem_append_left _ (List.mem_append_right _ hunref)

/-- C3 (as stated, refuted): the only pooled entry has timed out at the time of
the lookup (window `[4000000, 5000000)`, lookup at 6000000), it matches the
request and the server reports it idle: the lookup returns it, takes it out of
the pool and writes only the poll, no `RESOURCE_UNREF`. -/
theorem cache_create_reuses_timed_out_entry :
    stale_pool.delayed = [0] ∧
    (stale_pool.mem 0).start = 4000000 ∧ (stale_pool.mem 0).end_ = 5000000 ∧
    stale_pool.clock stale_pool.ticks = 6000000 ∧
    os_time_timeout (stale_pool.mem 0).start (stale_pool.mem 0).end_
      (stale_pool.clock stale_pool.ticks) = true ∧
    (virgl_vtest_winsys_resource_cache_create stale_pool 0 1 VIRGL_BIND_VERTEX_BUFFER 0 1 1 1
      0 0 0).1 = 0 ∧
    (virgl_vtest_winsys_resource_cache_create stale_pool 0 1 VIRGL_BIND_VERTEX_BUFFER 0 1 1 1
      0 0 0).2.sent = stale_pool.sent ++ [.busy_wait 1 0] ∧
    (virgl_vtest_winsys_resource_cache_create stale_pool 0 1 VIRGL_BIND_VERTEX_BUFFER 0 1 1 1
      0 0 0).2.delayed = [] := by
  decide

/-- C3 (amended): let `e` be a pooled entry whose retention window has passed at
the time of the lookup and which the scan reaches with nothing chosen (every
entry before it has timed out and does not match).  If `e` matches the request
and the server reports it idle, the lookup returns `e`: it leaves the pool
without being destroyed (the requests written are the destroy requests of the
entries before it, the poll of `e`, and the destroy requests of the timed-out
entries right behind it).  Otherwise (`e` does not match, or the server reports
it busy) `e` is not returned: it is removed from the pool and its
`RESOURCE_UNREF` is written. -/
theorem cache_create_timed_out_entry (s : virgl_vtest_winsys)
    (target format bind width height depth array_size last_level nr_samples size : Nat)
    (pre : List Nat) (e : Nat) (post : List Nat)
    (hbind : scans_pool bind) (hpool : s.delayed = pre ++ e :: post)
    (hnodup : s.delayed.Nodup) (halloc : ∀ p ∈ s.delayed, p < s.brk)
    (hpre : ∀ p ∈ pre, res_matches (s.mem p) size bind format = false ∧
      expired s.mem (s.clock s.ticks) p = true)
    (he : expired s.mem (s.clock s.ticks) e = true) :
    (res_matches (s.mem e) size bind format = true → next_busy_reply s e = 0 →
      (virgl_vtest_winsys_resource_cache_create s target format bind width height depth
          array_size last_level nr_samples size).1 = e ∧
      (virgl_vtest_winsys_resource_cache_create s target format bind width height depth
          array_size last_level nr_samples size).2.sent =
        s.sent ++ (pre.map (fun p => destroy_msgs (s.mem p))).flatten ++
          [.busy_wait ((s.mem e).res_handle % 4294967296) 0] ++
          ((post.takeWhile (expired s.mem (s.clock s.ticks))).map
            (fun p => destroy_msgs (s.mem p))).flatten ∧
      (virgl_vtest_winsys_resource_cache_create s target format bind width height depth
          array_size last_level nr_samples size).2.delayed =
        post.dropWhile (expired s.mem (s.clock s.ticks))) ∧
    ((res_matches (s.mem e) size bind format = false ∨ next_busy_reply s e = 1) →
      (virgl_vtest_winsys_resource_cache_create s target format bind width height depth
          array_size last_level nr_samples size).1 ≠ e ∧
      e ∉ (virgl_vtest_winsys_resource_cache_create s target format bind width height depth
          array_size last_level nr_samples size).2.delayed ∧
      ∃ l, (virgl_vtest_winsys_resource_cache_create s target format bind width height depth
          array_size last_level nr_samples size).2.sent = s.sent ++ l ∧
        vtest_msg.resource_unref (s.mem e).res_handle ∈ l) := by
  have hepost : e ∉ post := by
    rw [hpool] at hnodup
    exact (List.nodup_cons.mp (List.nodup_append.mp hnodup).2.1).1
  constructor
  · intro hm hidle
    obtain ⟨r1, r2, r3, -⟩ := scan_expired_idle (s.clock s.ticks) size bind format pre e post
      { s with ticks := s.ticks + 1 } hpool hnodup hpre hm hidle
    rw [← hpool] at r1 r2 r3
    have hres : (scan_of s size bind format).res = some e := r1
    rw [cache_create_of_scan_some s target format bind width height depth array_size last_level
      nr_samples size hbind e hres]
    unfold scan_of
    refine ⟨rfl, ?_, ?_⟩
    · simpa [store] using r3
    · simp [store, LIST_DEL, r2]
  · intro hcase
    obtain ⟨d1, d2, l, d3, d4⟩ := scan_expired_destroyed (s.clock s.ticks) size bind format pre
      e post { s with ticks := s.ticks + 1 } hpool hpre he hcase
    rw [← hpool] at d1 d2 d3
    have d2' : (scan_of s size bind format).ws.delayed.Sublist post := d2
    have d3' : (scan_of s size bind format).ws.sent = s.sent ++ l := d3
    cases hres : (scan_of s size bind format).res with
    | some x =>
      have hx : x ∈ post := d1 x hres
      rw [cache_create_of_scan_some s target format bind width height depth array_size
        last_level nr_samples size hbind x hres]
      refine ⟨fun h => hepost (h ▸ hx), ?_, l, by simpa [store] using d3', d4⟩
      intro hmem
      have : e ∈ post :=
        d2'.subset ((List.erase_sublist x _).subset (by simpa [store, LIST_DEL] using hmem))
      exact hepost this
    | none =>
      obtain ⟨h1, -, h3, h4, -, -⟩ := cache_create_of_scan_none s target format bind width
        height depth array_size last_level nr_samples size hbind hres
      have hlt : e < s.brk := halloc e (by rw [hpool]; simp)
      refine ⟨by rw [h1]; omega, ?_, ?_⟩
      · rw [h4]
        exact fun hmem => hepost (d2'.subset hmem)
      · refine ⟨l ++ [.resource_create s.handle target format bind width height depth
          array_size last_level nr_samples], ?_, List.mem_append_left _ d4⟩
        rw [h3, d3']
        simp

/-- Witness for C3: in `stale_pool` the timed-out entry is returned for a request
of size 0, which it matches, and destroyed for a request of size 64, which it
does not match. -/
theorem cache_create_timed_out_entry_witness :
    (virgl_vtest_winsys_resource_cache_create stale_pool 0 1 VIRGL_BIND_VERTEX_BUFFER 0 1 1 1
      0 0 0).1 = 0 ∧
    ((virgl_vtest_winsys_resource_cache_create stale_pool 0 1 VIRGL_BIND_VERTEX_BUFFER 64 1 1 1
      0 0 64).1 ≠ 0 ∧
      0 ∉ (virgl_vtest_winsys_resource_cache_create stale_pool 0 1 VIRGL_BIND_VERTEX_BUFFER 64 1
        1 1 0 0 64).2.delayed) :=
  have ha := (cache_create_timed_out_entry stale_pool 0 1 VIRGL_BIND_VERTEX_BUFFER 0 1 1 1 0 0
    0 [] 0 [] (Or.inr (Or.inr (Or.inl rfl))) (by decide) (by decide) (by decide) (by decide)
    (by decide)).1
    (by decide) (by decide)
  have hb := (cache_create_timed_out_entry stale_pool 0 1 VIRGL_BIND_VERTEX_BUFFER 64 1 1 1 0
    0 64 [] 0 [] (Or.inr (Or.inr (Or.inl rfl))) (by decide) (by decide) (by decide) (by decide)
    (by decide)).2
    (Or.inl (by decide))
  ⟨ha.1, hb.1, hb.2.1⟩

/-! ### The dedup table of a command buffer -/

theorem mem_reference_set (cbuf : virgl_vtest_cmd_buf) (x : Option Nat) :
    x ∈ reference_set cbuf ↔ ∃ i, i < cbuf.cres ∧ cbuf.res_bo i = x := by
  simp [reference_set]

theorem lookup_res_scan_some (cbuf : virgl_vtest_cmd_buf) (res : Nat) (fuel i0 i : Nat)
    (h : lookup_res_scan cbuf res fuel i0 = some i) :
    i0 ≤ i ∧ i < i0 + fuel ∧ cbuf.res_bo i = some res := by
  induction fuel generalizing i0 with
  | zero => simp [lookup_res_scan] at h
  | succ n ih =>
    rw [lookup_res_scan] at h
    by_cases hc : cbuf.res_bo i0 = some res
    · simp only [hc, if_true, Option.some.injEq] at h
      subst h
      exact ⟨le_refl _, by omega, hc⟩
    · simp only [hc, if_false] at h
      obtain ⟨h1, h2, h3⟩ := ih (i0 + 1) h
      exact ⟨by omega, by omega, h3⟩

theorem lookup_res_scan_none (cbuf : virgl_vtest_cmd_buf) (res : Nat) (fuel i0 : Nat)
    (h : lookup_res_scan cbuf res fuel i0 = none) :
    ∀ j, i0 ≤ j → j < i0 + fuel → cbuf.res_bo j ≠ some res := by
  induction fuel generalizing i0 with
  | zero => intro j h1 h2; omega
  | succ n ih =>
    rw [lookup_res_scan] at h
    by_cases hc : cbuf.res_bo i0 = some res
    · simp [hc] at h
    · simp only [hc, if_false] at h
      intro j h1 h2
      by_cases hj : j = i0
      · subst hj; exact hc
      · exact ih (i0 + 1) h j (by omega) (by omega)

/-- The hash-assisted lookup agrees with the linear scan whenever the table
invariant holds. -/
theorem lookup_res_iff (s : virgl_vtest_winsys) (cbuf : virgl_vtest_cmd_buf) (res : Nat)
    (hok : cbuf_ok s cbuf) :
    (virgl_vtest_lookup_res s cbuf res).1 = true ↔ some res ∈ reference_set cbuf := by
  rw [mem_reference_set]
  unfold virgl_vtest_lookup_res
  simp only []
  by_cases hf : cbuf.is_handle_added (res_hash s res) = true
  · simp only [hf, if_true]
    by_cases hh : cbuf.res_bo (cbuf.reloc_indices_hashlist (res_hash s res)) = some res
    · simp only [hh, if_true, true_iff]
      exact ⟨_, hok.1 _ hf, hh⟩
    · simp only [hh, if_false]
      cases hs : lookup_res_scan cbuf res cbuf.cres 0 with
      | some i =>
        obtain ⟨-, h2, h3⟩ := lookup_res_scan_some cbuf res cbuf.cres 0 i hs
        simp only [true_iff]
        exact ⟨i, by omega, h3⟩
      | none =>
        have hn := lookup_res_scan_none cbuf res cbuf.cres 0 hs
        simp only [Bool.false_eq_true, false_iff, not_exists, not_and]
        intro i hi
        exact hn i (Nat.zero_le _) (by omega)
  · simp only [hf, Bool.false_eq_true, if_false, false_iff, not_exists, not_and]
    intro i hi hres
    obtain ⟨p, hp1, hp2⟩ := hok.2 i hi
    rw [hres] at hp1
    cases hp1
    exact hf hp2

/-- The lookup changes at most the cached index of the table, and keeps the
table invariant. -/
theorem lookup_res_keeps (s : virgl_vtest_winsys) (cbuf : virgl_vtest_cmd_buf) (res : Nat)
    (hok : cbuf_ok s cbuf) :
    cbuf_ok s (virgl_vtest_lookup_res s cbuf res).2 ∧
    (virgl_vtest_lookup_res s cbuf res).2.res_bo = cbuf.res_bo ∧
    (virgl_vtest_lookup_res s cbuf res).2.cres = cbuf.cres ∧
    (virgl_vtest_lookup_res s cbuf res).2.nres = cbuf.nres ∧
    (virgl_vtest_lookup_res s cbuf res).2.is_handle_added = cbuf.is_handle_added ∧
    (virgl_vtest_lookup_res s cbuf res).2.cdw = cbuf.cdw ∧
    (virgl_vtest_lookup_res s cbuf res).2.buf = cbuf.buf := by
  unfold virgl_vtest_lookup_res
  simp only []
  split
  · split
    · exact ⟨hok, rfl, rfl, rfl, rfl, rfl, rfl⟩
    · cases hs : lookup_res_scan cbuf res cbuf.cres 0 with
      | some i =>
        obtain ⟨-, h2, -⟩ := lookup_res_scan_some cbuf res cbuf.cres 0 i hs
        refine ⟨⟨?_, hok.2⟩, rfl, rfl, rfl, rfl, rfl, rfl⟩
        intro h hh
        by_cases hq : h = res_hash s res
        · simp only [hq, if_true]; omega
        · simp only [hq, if_false]; exact hok.1 h hh
      | none => exact ⟨hok, rfl, rfl, rfl, rfl, rfl, rfl⟩
  · exact ⟨hok, rfl, rfl, rfl, rfl, rfl, rfl⟩

theorem res_hash_keeps_ids {s s' : virgl_vtest_winsys} (h : keeps_ids s s') (p : Nat) :
    res_hash s' p = res_hash s p := by
  unfold res_hash
  rw [(h.2.2.1 p).1]

theorem cbuf_ok_keeps_ids {s s' : virgl_vtest_winsys} (h : keeps_ids s s')
    (cbuf : virgl_vtest_cmd_buf) (hok : cbuf_ok s cbuf) : cbuf_ok s' cbuf := by
  refine ⟨hok.1, ?_⟩
  intro i hi
  obtain ⟨p, hp1, hp2⟩ := hok.2 i hi
  exact ⟨p, hp1, by rw [res_hash_keeps_ids h]; exact hp2⟩

/-- The function `virgl_vtest_add_res` in closed form: the resource gets one
more reference and one more command-buffer reference, and takes the slot
`res_bo[cres]`. -/
theorem virgl_vtest_add_res_eq (s : virgl_vtest_winsys) (cbuf : virgl_vtest_cmd_buf)
    (res : Nat) :
    virgl_vtest_add_res s cbuf res =
      ({ s with mem := fun q =>
            if q = res then
              { s.mem res with reference := (s.mem res).reference + 1,
                               num_cs_references := (s.mem res).num_cs_references + 1 }
            else s.mem q },
        { cbuf with
          nres := if cbuf.cres ≥ cbuf.nres then cbuf.nres + 256 else cbuf.nres
          res_bo := fun j => if j = cbuf.cres then some res else cbuf.res_bo j
          is_handle_added := fun h => if h = res_hash s res then true else cbuf.is_handle_added h
          reloc_indices_hashlist :=
            fun h => if h = res_hash s res then cbuf.cres else cbuf.reloc_indices_hashlist h
          cres := cbuf.cres + 1 }) := by
  unfold virgl_vtest_add_res
  simp only [virgl_vtest_resource_reference_eq]
  have hcres : (if cbuf.cres ≥ cbuf.nres then { cbuf with nres := cbuf.nres + 256 } else cbuf).cres
      = cbuf.cres := by split <;> rfl
  have hbo : (if cbuf.cres ≥ cbuf.nres then { cbuf with nres := cbuf.nres + 256 } else cbuf).res_bo
      = cbuf.res_bo := by split <;> rfl
  have hfl : (if cbuf.cres ≥ cbuf.nres then { cbuf with nres := cbuf.nres + 256 }
      else cbuf).is_handle_added = cbuf.is_handle_added := by split <;> rfl
  have hhl : (if cbuf.cres ≥ cbuf.nres then { cbuf with nres := cbuf.nres + 256 }
      else cbuf).reloc_indices_hashlist = cbuf.reloc_indices_hashlist := by split <;> rfl
  have hbuf : (if cbuf.cres ≥ cbuf.nres then { cbuf with nres := cbuf.nres + 256 } else cbuf).buf
      = cbuf.buf := by split <;> rfl
  have hcdw : (if cbuf.cres ≥ cbuf.nres then { cbuf with nres := cbuf.nres + 256 } else cbuf).cdw
      = cbuf.cdw := by split <;> rfl
  have hnres : (if cbuf.cres ≥ cbuf.nres then { cbuf with nres := cbuf.nres + 256 }
      else cbuf).nres = if cbuf.cres ≥ cbuf.nres then cbuf.nres + 256 else cbuf.nres := by
    split <;> rfl
  simp only [hcres, hbo, hfl, hhl, hbuf, hcdw, hnres, if_true]
  rw [pipe_reference_eq_take]
  simp only [reduceCtorEq, if_false]
  congr 1
  · simp only [take_reference, store]
    congr 1
    funext q
    by_cases hq : q = res <;> simp [hq]
  · congr 1
    funext j
    by_cases hj : j = cbuf.cres <;> simp [hj]

/-- An emit of a resource that is already in the reference set changes neither
the winsys nor the reference set. -/
theorem emit_res_present (s : virgl_vtest_winsys) (cbuf : virgl_vtest_cmd_buf) (res : Nat)
    (write_buf : Bool) (hok : cbuf_ok s cbuf) (hin : some res ∈ reference_set cbuf) :
    (virgl_vtest_emit_res s cbuf res write_buf).1 = s ∧
    cbuf_ok s (virgl_vtest_emit_res s cbuf res write_buf).2 ∧
    reference_set (virgl_vtest_emit_res s cbuf res write_buf).2 = reference_set cbuf := by
  have hl := (lookup_res_iff s cbuf res hok).mpr hin
  obtain ⟨k1, k2, k3, -, k5, -, -⟩ := lookup_res_keeps s cbuf res hok
  unfold virgl_vtest_emit_res
  simp only [hl, Bool.not_true, Bool.false_eq_true, if_false]
  generalize (virgl_vtest_lookup_res s cbuf res).2 = c1 at k1 k2 k3 k5
  refine ⟨trivial, ?_, ?_⟩
  · cases write_buf with
    | false => simpa using k1
    | true => simpa using (⟨k1.1, k1.2⟩ : cbuf_ok s { c1 with
        buf := fun j => if j = c1.cdw then (s.mem res).res_handle else c1.buf j,
        cdw := c1.cdw + 1 })
  · cases write_buf <;> simp [reference_set, k2, k3]

/-- An emit of a resource that is not yet in the reference set appends it to the
set and gives it one more reference and one more command-buffer reference; no
other record changes. -/
theorem emit_res_absent (s : virgl_vtest_winsys) (cbuf : virgl_vtest_cmd_buf) (res : Nat)
    (write_buf : Bool) (hok : cbuf_ok s cbuf) (hnot : some res ∉ reference_set cbuf) :
    (virgl_vtest_emit_res s cbuf res write_buf).1.mem =
      (fun q => if q = res then
          { s.mem res with reference := (s.mem res).reference + 1,
                           num_cs_references := (s.mem res).num_cs_references + 1 }
        else s.mem q) ∧
    cbuf_ok (virgl_vtest_emit_res s cbuf res write_buf).1
      (virgl_vtest_emit_res s cbuf res write_buf).2 ∧
    reference_set (virgl_vtest_emit_res s cbuf res write_buf).2 =
      reference_set cbuf ++ [some res] := by
  have hl : (virgl_vtest_lookup_res s cbuf res).1 = false := by
    cases h : (virgl_vtest_lookup_res s cbuf res).1 with
    | false => rfl
    | true => exact absurd ((lookup_res_iff s cbuf res hok).mp h) hnot
  obtain ⟨k1, k2, k3, -, k5, -, -⟩ := lookup_res_keeps s cbuf res hok
  have hkeep := keeps_ids_emit_res s cbuf res write_buf
  unfold virgl_vtest_emit_res at hkeep ⊢
  simp only [hl, Bool.not_false, if_true] at hkeep ⊢
  generalize (virgl_vtest_lookup_res s cbuf res).2 = c1 at k1 k2 k3 k5 hkeep
  have key : ∀ c2 : virgl_vtest_cmd_buf, cbuf_ok s c2 → c2.res_bo = cbuf.res_bo →
      c2.cres = cbuf.cres → keeps_ids s (virgl_vtest_add_res s c2 res).1 →
      (virgl_vtest_add_res s c2 res).1.mem =
        (fun q => if q = res then
            { s.mem res with reference := (s.mem res).reference + 1,
                             num_cs_references := (s.mem res).num_cs_references + 1 }
          else s.mem q) ∧
      cbuf_ok (virgl_vtest_add_res s c2 res).1 (virgl_vtest_add_res s c2 res).2 ∧
      reference_set (virgl_vtest_add_res s c2 res).2 = reference_set cbuf ++ [some res] := by
    intro c2 hc2 hbo hcres hk
    rw [virgl_vtest_add_res_eq] at hk ⊢
    refine ⟨rfl, ?_, ?_⟩
    · refine ⟨?_, ?_⟩
      · intro h hh
        simp only at hh ⊢
        by_cases hq : h = res_hash s res
        · simp [hq]
        · simp only [hq, if_false] at hh ⊢
          exact Nat.lt_succ_of_lt (hc2.1 h hh)
      · intro i hi
        simp only at hi ⊢
        by_cases hq : i = c2.cres
        · refine ⟨res, by simp [hq], ?_⟩
          rw [res_hash_keeps_ids hk]
          simp
        · obtain ⟨p, hp1, hp2⟩ := hc2.2 i (by omega)
          refine ⟨p, by simp [hq, hp1], ?_⟩
          rw [res_hash_keeps_ids hk]
          by_cases hh : res_hash s p = res_hash s res
          · simp [hh]
          · simp [hh, hp2]
    · simp only [reference_set, hcres, List.range_succ, List.map_append, List.map_cons,
        List.map_nil, if_true]
      congr 1
      apply List.map_congr_left
      intro j hj
      have : j ≠ cbuf.cres := by
        have := List.mem_range.mp hj; omega
      simp [this, hbo]
  cases write_buf with
  | false => simpa using key c1 k1 k2 k3 (by simpa using hkeep)
  | true =>
    simpa using key { c1 with
        buf := fun j => if j = c1.cdw then (s.mem res).res_handle else c1.buf j,
        cdw := c1.cdw + 1 } ⟨k1.1, k1.2⟩ k2 k3 (by simpa using hkeep)

theorem cbuf_ok_emit_res (s : virgl_vtest_winsys) (cbuf : virgl_vtest_cmd_buf) (res : Nat)
    (write_buf : Bool) (hok : cbuf_ok s cbuf) :
    cbuf_ok (virgl_vtest_emit_res s cbuf res write_buf).1
      (virgl_vtest_emit_res s cbuf res write_buf).2 := by
  by_cases hin : some res ∈ reference_set cbuf
  · obtain ⟨h1, h2, -⟩ := emit_res_present s cbuf res write_buf hok hin
    rw [h1]; exact h2
  · exact (emit_res_absent s cbuf res write_buf hok hin).2.1

theorem cbuf_ok_submit (s : virgl_vtest_winsys) (cbuf : virgl_vtest_cmd_buf)
    (hok : cbuf_ok s cbuf) :
    cbuf_ok (virgl_vtest_winsys_submit_cmd s cbuf).1 (virgl_vtest_winsys_submit_cmd s cbuf).2 := by
  unfold virgl_vtest_winsys_submit_cmd
  split
  · exact hok
  · unfold virgl_vtest_release_all_res
    refine ⟨?_, ?_⟩
    · intro h hh; simp at hh
    · intro i hi; simp at hi

theorem cbuf_ok_run (ops : List cbuf_op) (st : virgl_vtest_winsys × virgl_vtest_cmd_buf)
    (hok : cbuf_ok st.1 st.2) : cbuf_ok (cbuf_run st ops).1 (cbuf_run st ops).2 := by
  induction ops generalizing st with
  | nil => exact hok
  | cons op rest ih =>
    apply ih
    cases op with
    | emit_res res write_buf => exact cbuf_ok_emit_res st.1 st.2 res write_buf hok
    | submit_cmd => exact cbuf_ok_submit st.1 st.2 hok

theorem cbuf_ok_create (s : virgl_vtest_winsys) : cbuf_ok s virgl_vtest_cmd_buf_create := by
  refine ⟨?_, ?_⟩
  · intro h hh; simp [virgl_vtest_cmd_buf_create] at hh
  · intro i hi; simp [virgl_vtest_cmd_buf_create] at hi

/-- C10: in every state a command buffer reaches from `virgl_vtest_cmd_buf_create`
by `virgl_vtest_emit_res` and `virgl_vtest_winsys_submit_cmd`, the hash-assisted
`virgl_vtest_lookup_res` answers exactly as the plain linear scan of
`res_bo[0..cres)`: it finds every resource that was added, also when several of
them share a table slot, and reports no resource that is not in the set. -/
theorem virgl_vtest_lookup_res_refines_linear_scan (s0 : virgl_vtest_winsys)
    (ops : List cbuf_op) (res : Nat) :
    (virgl_vtest_lookup_res (cbuf_run (s0, virgl_vtest_cmd_buf_create) ops).1
        (cbuf_run (s0, virgl_vtest_cmd_buf_create) ops).2 res).1 =
      linear_lookup (cbuf_run (s0, virgl_vtest_cmd_buf_create) ops).2 res := by
  have hok := cbuf_ok_run ops (s0, virgl_vtest_cmd_buf_create) (cbuf_ok_create s0)
  have h := lookup_res_iff _ _ res hok
  unfold linear_lookup
  cases hl : (virgl_vtest_lookup_res (cbuf_run (s0, virgl_vtest_cmd_buf_create) ops).1
      (cbuf_run (s0, virgl_vtest_cmd_buf_create) ops).2 res).1 with
  | true =>
    symm
    simpa using h.mp hl
  | false =>
    symm
    have : ¬ some res ∈ reference_set (cbuf_run (s0, virgl_vtest_cmd_buf_create) ops).2 :=
      fun hm => by rw [h.mpr hm] at hl; exact absurd hl (by decide)
    simpa using this

/-! ### Referencing a resource several times in one buffer -/

/-- One emit that either names another resource, or names `r` while `r` is
already in the reference set: the record of `r` and the number of slots holding
`r` stay as they are. -/
theorem emit_res_keeps_r (s : virgl_vtest_winsys) (cbuf : virgl_vtest_cmd_buf) (q r : Nat)
    (write_buf : Bool) (hok : cbuf_ok s cbuf)
    (h : q ≠ r ∨ some r ∈ reference_set cbuf) :
    (virgl_vtest_emit_res s cbuf q write_buf).1.mem r = s.mem r ∧
    (reference_set (virgl_vtest_emit_res s cbuf q write_buf).2).count (some r) =
      (reference_set cbuf).count (some r) := by
  by_cases hin : some q ∈ reference_set cbuf
  · obtain ⟨h1, -, h3⟩ := emit_res_present s cbuf q write_buf hok hin
    rw [h1, h3]
    exact ⟨rfl, rfl⟩
  · have hqr : q ≠ r := by
      rcases h with h | h
      · exact h
      · intro hq; subst hq; exact hin h
    obtain ⟨h1, -, h3⟩ := emit_res_absent s cbuf q write_buf hok hin
    rw [h1, h3]
    refine ⟨by simp [Ne.symm hqr], ?_⟩
    rw [List.count_append]
    simp [List.count_cons, hqr]

theorem emits_keep_r (emits : List (Nat × Bool)) (r : Nat)
    (st : virgl_vtest_winsys × virgl_vtest_cmd_buf) (hok : cbuf_ok st.1 st.2)
    (h : (∀ e ∈ emits, e.1 ≠ r) ∨ some r ∈ reference_set st.2) :
    (cbuf_run st (emits.map (fun e => cbuf_op.emit_res e.1 e.2))).1.mem r = st.1.mem r ∧
    (reference_set (cbuf_run st (emits.map (fun e => cbuf_op.emit_res e.1 e.2))).2).count
      (some r) = (reference_set st.2).count (some r) := by
  induction emits generalizing st with
  | nil => exact ⟨rfl, rfl⟩
  | cons e rest ih =>
    have hstep := emit_res_keeps_r st.1 st.2 e.1 r e.2 hok
      (by rcases h with h | h
          · exact Or.inl (h e (by simp))
          · exact Or.inr h)
    have hok' := cbuf_ok_emit_res st.1 st.2 e.1 e.2 hok
    have h' : (∀ e' ∈ rest, e'.1 ≠ r) ∨
        some r ∈ reference_set (virgl_vtest_emit_res st.1 st.2 e.1 e.2).2 := by
      rcases h with h | h
      · exact Or.inl (fun e' he' => h e' (by simp [he']))
      · right
        have hc : 0 < (reference_set st.2).count (some r) := List.count_pos_iff.mpr h
        rw [← hstep.2] at hc
        exact List.count_pos_iff.mp hc
    obtain ⟨i1, i2⟩ := ih (virgl_vtest_emit_res st.1 st.2 e.1 e.2) hok' h'
    simp only [List.map_cons, cbuf_run, List.foldl_cons, cbuf_step] at i1 i2 ⊢
    exact ⟨i1.trans hstep.1, i2.trans hstep.2⟩

theorem emits_count_once (emits : List (Nat × Bool)) (r : Nat)
    (st : virgl_vtest_winsys × virgl_vtest_cmd_buf) (hok : cbuf_ok st.1 st.2)
    (hnot : some r ∉ reference_set st.2) (hmem : r ∈ emits.map Prod.fst) :
    ((cbuf_run st (emits.map (fun e => cbuf_op.emit_res e.1 e.2))).1.mem r).num_cs_references =
      (st.1.mem r).num_cs_references + 1 ∧
    ((cbuf_run st (emits.map (fun e => cbuf_op.emit_res e.1 e.2))).1.mem r).reference =
      (st.1.mem r).reference + 1 ∧
    (reference_set (cbuf_run st (emits.map (fun e => cbuf_op.emit_res e.1 e.2))).2).count
      (some r) = 1 := by
  induction emits generalizing st with
  | nil => simp at hmem
  | cons e rest ih =>
    have hok' := cbuf_ok_emit_res st.1 st.2 e.1 e.2 hok
    by_cases he : e.1 = r
    · -- the first emit of `r`: it is added
      have hnot' : some e.1 ∉ reference_set st.2 := by rw [he]; exact hnot
      obtain ⟨a1, -, a3⟩ := emit_res_absent st.1 st.2 e.1 e.2 hok hnot'
      have hin : some r ∈ reference_set (virgl_vtest_emit_res st.1 st.2 e.1 e.2).2 := by
        rw [a3, he]; simp
      obtain ⟨k1, k2⟩ := emits_keep_r rest r (virgl_vtest_emit_res st.1 st.2 e.1 e.2) hok'
        (Or.inr hin)
      simp only [List.map_cons, cbuf_run, List.foldl_cons, cbuf_step] at k1 k2 ⊢
      rw [k1, k2, a1, a3, he]
      refine ⟨by simp, by simp, ?_⟩
      rw [List.count_append, List.count_eq_zero_of_not_mem hnot]
      simp
    · -- an emit of another resource
      obtain ⟨s1, s2⟩ := emit_res_keeps_r st.1 st.2 e.1 r e.2 hok (Or.inl he)
      have hnot' : some r ∉ reference_set (virgl_vtest_emit_res st.1 st.2 e.1 e.2).2 := by
        intro hin
        have hc : 0 < (reference_set (virgl_vtest_emit_res st.1 st.2 e.1 e.2).2).count
            (some r) := List.count_pos_iff.mpr hin
        rw [s2] at hc
        exact hnot (List.count_pos_iff.mp hc)
      have hmem' : r ∈ rest.map Prod.fst := by
        simp only [List.map_cons, List.mem_cons] at hmem
        rcases hmem with h | h
        · exact absurd h.symm he
        · exact h
      obtain ⟨i1, i2, i3⟩ := ih (virgl_vtest_emit_res st.1 st.2 e.1 e.2) hok' hnot' hmem'
      simp only [List.map_cons, cbuf_run, List.foldl_cons, cbuf_step] at i1 i2 i3 ⊢
      rw [s1] at i1 i2
      exact ⟨i1, i2, i3⟩

/-- C9: take a command buffer in any state it reaches from
`virgl_vtest_cmd_buf_create` by emits and submits, and a resource `r` that is not
in its reference set.  After any sequence of `virgl_vtest_emit_res` calls on that
buffer (no submit in between) in which `r` is named at least once, among emits of
any other resources, `r.num_cs_references` and the reference count of `r` have
each grown by exactly 1, and exactly one slot of `res_bo[0..cres)` holds `r`. -/
theorem emit_res_counts_once (s0 : virgl_vtest_winsys) (before : List cbuf_op)
    (emits : List (Nat × Bool)) (r : Nat)
    (hnot : some r ∉ reference_set (cbuf_run (s0, virgl_vtest_cmd_buf_create) before).2)
    (hmem : r ∈ emits.map Prod.fst) :
    ((cbuf_run (cbuf_run (s0, virgl_vtest_cmd_buf_create) before)
        (emits.map (fun e => cbuf_op.emit_res e.1 e.2))).1.mem r).num_cs_references =
      ((cbuf_run (s0, virgl_vtest_cmd_buf_create) before).1.mem r).num_cs_references + 1 ∧
    ((cbuf_run (cbuf_run (s0, virgl_vtest_cmd_buf_create) before)
        (emits.map (fun e => cbuf_op.emit_res e.1 e.2))).1.mem r).reference =
      ((cbuf_run (s0, virgl_vtest_cmd_buf_create) before).1.mem r).reference + 1 ∧
    (reference_set (cbuf_run (cbuf_run (s0, virgl_vtest_cmd_buf_create) before)
        (emits.map (fun e => cbuf_op.emit_res e.1 e.2))).2).count (some r) = 1 :=
  emits_count_once emits r (cbuf_run (s0, virgl_vtest_cmd_buf_create) before)
    (cbuf_ok_run before (s0, virgl_vtest_cmd_buf_create) (cbuf_ok_create s0)) hnot hmem

/-- Witness for C9: resource 0 is emitted three times on a buffer that was used
and submitted before, interleaved with resource 1 (whose handle 513 falls into
the same table slot as handle 1) and resource 2: its counters grow by 1 and it
holds one slot. -/
theorem emit_res_counts_once_witness :
    ((cbuf_run (cbuf_run (colliding_handles, virgl_vtest_cmd_buf_create)
          [.emit_res 0 true, .submit_cmd])
        ([(0, true), (1, false), (0, true), (2, true), (0, false)].map
          (fun e => cbuf_op.emit_res e.1 e.2))).1.mem 0).num_cs_references = 1 ∧
    ((cbuf_run (cbuf_run (colliding_handles, virgl_vtest_cmd_buf_create)
          [.emit_res 0 true, .submit_cmd])
        ([(0, true), (1, false), (0, true), (2, true), (0, false)].map
          (fun e => cbuf_op.emit_res e.1 e.2))).1.mem 0).reference = 2 ∧
    (reference_set (cbuf_run (cbuf_run (colliding_handles, virgl_vtest_cmd_buf_create)
          [.emit_res 0 true, .submit_cmd])
        ([(0, true), (1, false), (0, true), (2, true), (0, false)].map
          (fun e => cbuf_op.emit_res e.1 e.2))).2).count (some 0) = 1 :=
  emit_res_counts_once colliding_handles [.emit_res 0 true, .submit_cmd]
    [(0, true), (1, false), (0, true), (2, true), (0, false)] 0 (by decide) (by decide)

/-! ### Submitting a command buffer -/

/-- Dropping the reference a slot holds on `p`, in closed form: the count of `p`
goes down by one; when it reaches zero `p` is pooled if cacheable and destroyed
otherwise. -/
theorem resource_reference_release_eq (s : virgl_vtest_winsys) (p : Nat) :
    virgl_vtest_resource_reference s (some p) none =
      (none,
        if (s.mem p).reference - 1 = 0 then
          if (s.mem p).cacheable = true then
            pool_insert (store s p { s.mem p with reference := (s.mem p).reference - 1 }) p
          else
            virgl_hw_res_destroy
              (store s p { s.mem p with reference := (s.mem p).reference - 1 }) p
        else store s p { s.mem p with reference := (s.mem p).reference - 1 }) := by
  rw [virgl_vtest_resource_reference_eq, pipe_reference_eq s p none (by simp)]
  simp only [take_reference, decide_eq_true_eq, can_cache_resource, store, if_true, beq_iff_eq]

/-- What dropping one reference does to the counters: the reference count of `p`
goes down by one, no other count changes, and what was written stays written. -/
theorem resource_reference_release_counts (s : virgl_vtest_winsys) (p : Nat) :
    (∀ q, ((virgl_vtest_resource_reference s (some p) none).2.mem q).reference =
      (s.mem q).reference - (if q = p then 1 else 0)) ∧
    (∀ q, ((virgl_vtest_resource_reference s (some p) none).2.mem q).num_cs_references =
      (s.mem q).num_cs_references) ∧
    s.sent <+: (virgl_vtest_resource_reference s (some p) none).2.sent := by
  rw [resource_reference_release_eq]
  simp only []
  have hst : ∀ q, ((store s p { s.mem p with reference := (s.mem p).reference - 1 }).mem q).reference
      = (s.mem q).reference - (if q = p then 1 else 0) := by
    intro q
    by_cases hq : q = p
    · subst hq; simp [store]
    · simp [store, hq]
  have hcs : ∀ q, ((store s p { s.mem p with reference := (s.mem p).reference - 1 }).mem
      q).num_cs_references = (s.mem q).num_cs_references := by
    intro q
    by_cases hq : q = p
    · subst hq; simp [store]
    · simp [store, hq]
  split
  · split
    · obtain ⟨-, c2, c3, -⟩ := virgl_cache_list_check_free_spec
        (store s p { s.mem p with reference := (s.mem p).reference - 1 })
      refine ⟨?_, ?_, ?_⟩
      · intro q
        unfold pool_insert
        by_cases hq : q = p
        · subst hq; simp only [if_true]; rw [c3]; simpa using hst q
        · simp only [hq, if_false]; rw [c3]; simpa [hq] using hst q
      · intro q
        unfold pool_insert
        by_cases hq : q = p
        · subst hq; simp only [if_true]; rw [c3]; exact hcs q
        · simp only [hq, if_false]; rw [c3]; exact hcs q
      · unfold pool_insert
        simp only [c2]
        exact List.prefix_append _ _
    · rw [virgl_hw_res_destroy_eq]
      exact ⟨hst, hcs, List.prefix_append _ _⟩
  · exact ⟨hst, hcs, List.prefix_refl _⟩
theorem release_all_res_loop_counts (fuel i : Nat) (s : virgl_vtest_winsys)
    (cbuf : virgl_vtest_cmd_buf) :
    (∀ q, ((release_all_res_loop fuel i s cbuf).1.mem q).num_cs_references =
      (s.mem q).num_cs_references -
        (((List.range' i fuel).map cbuf.res_bo).count (some q) : Nat)) ∧
    (∀ q, ((release_all_res_loop fuel i s cbuf).1.mem q).reference =
      (s.mem q).reference - (((List.range' i fuel).map cbuf.res_bo).count (some q) : Nat)) ∧
    s.sent <+: (release_all_res_loop fuel i s cbuf).1.sent := by
  induction fuel generalizing i s cbuf with
  | zero => simp [release_all_res_loop]
  | succ n ih =>
    unfold release_all_res_loop
    cases h : cbuf.res_bo i with
    | none =>
      simp only [List.range'_succ, List.map_cons, h]
      obtain ⟨a, b, c⟩ := ih (i + 1) s cbuf
      refine ⟨fun q => ?_, fun q => ?_, c⟩
      · rw [a q]; simp [List.count_cons]
      · rw [b q]; simp [List.count_cons]
    | some p =>
      have hr := resource_reference_release_counts
        (store s p { s.mem p with num_cs_references := (s.mem p).num_cs_references - 1 }) p
      simp only [] at hr ⊢
      generalize virgl_vtest_resource_reference
        (store s p { s.mem p with num_cs_references := (s.mem p).num_cs_references - 1 })
        (some p) none = rr at hr ⊢
      obtain ⟨r1, r2, r3⟩ := hr
      obtain ⟨a, b, c⟩ := ih (i + 1) rr.2
        { cbuf with res_bo := fun j => if j = i then rr.1 else cbuf.res_bo j }
      have hmap : List.map (fun j => if j = i then rr.1 else cbuf.res_bo j) (List.range' (i + 1) n)
          = List.map cbuf.res_bo (List.range' (i + 1) n) := by
        apply List.map_congr_left
        intro j hj
        have : j ≠ i := by
          have := (List.mem_range'_1.mp hj).1; omega
        simp [this]
      simp only [hmap] at a b
      have hs1 : s.sent <+: rr.2.sent := by simpa [store] using r3
      refine ⟨fun q => ?_, fun q => ?_, hs1.trans c⟩
      · rw [a q, r2 q]
        simp only [List.range'_succ, List.map_cons, h, List.count_cons]
        by_cases hq : q = p
        · subst hq; simp [store]; omega
        · have : ¬ p = q := fun e => hq e.symm
          simp [store, hq, this]
      · rw [b q, r1 q]
        simp only [List.range'_succ, List.map_cons, h, List.count_cons]
        by_cases hq : q = p
        · subst hq; simp [store]; omega
        · have : ¬ p = q := fun e => hq e.symm
          simp [store, hq, this]
theorem lookup_res_cdw (s : virgl_vtest_winsys) (cbuf : virgl_vtest_cmd_buf) (res : Nat) :
    (virgl_vtest_lookup_res s cbuf res).2.cdw = cbuf.cdw := by
  unfold virgl_vtest_lookup_res
  simp only []
  split
  · split
    · rfl
    · split <;> rfl
  · rfl

theorem emit_res_cdw (s : virgl_vtest_winsys) (cbuf : virgl_vtest_cmd_buf) (res : Nat)
    (write_buf : Bool) :
    (virgl_vtest_emit_res s cbuf res write_buf).2.cdw =
      cbuf.cdw + (if write_buf = true then 1 else 0) := by
  have hl := lookup_res_cdw s cbuf res
  unfold virgl_vtest_emit_res
  simp only [virgl_vtest_add_res_eq]
  generalize virgl_vtest_lookup_res s cbuf res = lr at hl
  obtain ⟨b, c1⟩ := lr
  simp only at hl
  cases b <;> cases write_buf <;> simp [hl]

theorem emits_without_write_keep_cdw (rs : List Nat)
    (st : virgl_vtest_winsys × virgl_vtest_cmd_buf) :
    (cbuf_run st (rs.map (fun r => cbuf_op.emit_res r false))).2.cdw = st.2.cdw := by
  induction rs generalizing st with
  | nil => rfl
  | cons r rest ih =>
    simp only [List.map_cons, cbuf_run, List.foldl_cons] at ih ⊢
    rw [ih]
    simp [cbuf_step, emit_res_cdw]

/-- C11: for a command buffer with `cdw > 0`, `virgl_vtest_winsys_submit_cmd`
first writes one `SUBMIT_CMD` request, whose header is `[cdw, VCMD_SUBMIT_CMD]`
and whose payload is the first `cdw` words of the buffer (`cdw * 4` bytes); what
it writes afterwards comes from the releases.  Every resource loses one
command-buffer reference and one reference for each slot of `res_bo[0..cres)`
that holds it, and no other counter changes.  The buffer is left with
`cdw = 0`, `cres = 0` and every `is_handle_added` flag cleared. -/
theorem submit_cmd_writes_batch_and_releases (s : virgl_vtest_winsys)
    (cbuf : virgl_vtest_cmd_buf) (hcdw : cbuf.cdw ≠ 0) :
    (∃ rest, (virgl_vtest_winsys_submit_cmd s cbuf).1.sent =
      s.sent ++ .submit_cmd cbuf.cdw ((List.range cbuf.cdw).map cbuf.buf) :: rest) ∧
    wire_request (.submit_cmd cbuf.cdw ((List.range cbuf.cdw).map cbuf.buf)) =
      some { cmd_len := cbuf.cdw, cmd_id := .VCMD_SUBMIT_CMD, payload_bytes := cbuf.cdw * 4 } ∧
    (∀ q, ((virgl_vtest_winsys_submit_cmd s cbuf).1.mem q).num_cs_references =
      (s.mem q).num_cs_references - ((reference_set cbuf).count (some q) : Nat)) ∧
    (∀ q, ((virgl_vtest_winsys_submit_cmd s cbuf).1.mem q).reference =
      (s.mem q).reference - ((reference_set cbuf).count (some q) : Nat)) ∧
    (virgl_vtest_winsys_submit_cmd s cbuf).2.cdw = 0 ∧
    (virgl_vtest_winsys_submit_cmd s cbuf).2.cres = 0 ∧
    ∀ h, (virgl_vtest_winsys_submit_cmd s cbuf).2.is_handle_added h = false := by
  obtain ⟨a, b, c⟩ := release_all_res_loop_counts cbuf.cres 0
    (virgl_vtest_submit_cmd s cbuf) cbuf
  unfold virgl_vtest_winsys_submit_cmd virgl_vtest_release_all_res
  simp only [hcdw, if_false]
  refine ⟨?_, rfl, ?_, ?_, trivial, trivial, fun _ => trivial⟩
  · obtain ⟨t, ht⟩ := c
    refine ⟨t, ?_⟩
    rw [← ht]
    simp [virgl_vtest_submit_cmd, send]
  · intro q
    rw [a q]
    simp [virgl_vtest_submit_cmd, send, reference_set, List.range_eq_range']
  · intro q
    rw [b q]
    simp [virgl_vtest_submit_cmd, send, reference_set, List.range_eq_range']

/-- C12: for a command buffer with `cdw = 0`, `virgl_vtest_winsys_submit_cmd`
returns 0 and changes nothing: the winsys (request log, pool and every resource
record) and the buffer are as before.  In particular, after any number of
`virgl_vtest_emit_res` calls with `write_buf = false` on such a buffer the
submit still changes nothing, so the resources they added stay in the reference
set with their counters. -/
theorem submit_cmd_empty_is_noop (s : virgl_vtest_winsys) (cbuf : virgl_vtest_cmd_buf)
    (hcdw : cbuf.cdw = 0) :
    virgl_vtest_winsys_submit_cmd_result cbuf = 0 ∧
    virgl_vtest_winsys_submit_cmd s cbuf = (s, cbuf) ∧
    ∀ rs : List Nat,
      virgl_vtest_winsys_submit_cmd
          (cbuf_run (s, cbuf) (rs.map (fun r => cbuf_op.emit_res r false))).1
          (cbuf_run (s, cbuf) (rs.map (fun r => cbuf_op.emit_res r false))).2 =
        cbuf_run (s, cbuf) (rs.map (fun r => cbuf_op.emit_res r false)) := by
  refine ⟨by simp [virgl_vtest_winsys_submit_cmd_result], ?_, ?_⟩
  · simp [virgl_vtest_winsys_submit_cmd, hcdw]
  · intro rs
    have h := emits_without_write_keep_cdw rs (s, cbuf)
    simp only [hcdw] at h
    simp [virgl_vtest_winsys_submit_cmd, h]
/-- Witness for C11: the vertex buffer of `one_emitted true` is emitted with its
handle written, so the batch has one word; the submit writes that batch, takes
back the command-buffer reference and one reference of the buffer, and empties
the command buffer. -/
theorem submit_cmd_writes_batch_and_releases_witness :
    (one_emitted true).2.cdw ≠ 0 ∧
    (((virgl_vtest_winsys_submit_cmd (one_emitted true).1 (one_emitted true).2).1.mem
        0).num_cs_references = 0 ∧
      ((virgl_vtest_winsys_submit_cmd (one_emitted true).1 (one_emitted true).2).1.mem
        0).reference = 1 ∧
      (virgl_vtest_winsys_submit_cmd (one_emitted true).1 (one_emitted true).2).2.cdw = 0 ∧
      (virgl_vtest_winsys_submit_cmd (one_emitted true).1 (one_emitted true).2).2.cres = 0) ∧
    (virgl_vtest_winsys_submit_cmd (one_emitted true).1 (one_emitted true).2).1.sent =
      [.resource_create 1 0 1 VIRGL_BIND_VERTEX_BUFFER 256 1 1 1 0 0, .submit_cmd 1 [1]] :=
  have h := submit_cmd_writes_batch_and_releases (one_emitted true).1 (one_emitted true).2
    (by decide)
  ⟨by decide, ⟨h.2.2.1 0, h.2.2.2.1 0, h.2.2.2.2.1, h.2.2.2.2.2.1⟩, by decide⟩

/-- Witness for C12: the vertex buffer of `one_emitted false` is emitted without
writing its handle, so the batch is empty; the submit returns 0 and the buffer
stays in the reference set with one command-buffer reference and two
references. -/
theorem submit_cmd_empty_is_noop_witness :
    (one_emitted false).2.cdw = 0 ∧
    (virgl_vtest_winsys_submit_cmd_result (one_emitted false).2 = 0 ∧
      virgl_vtest_winsys_submit_cmd (one_emitted false).1 (one_emitted false).2 =
        one_emitted false) ∧
    reference_set (one_emitted false).2 = [some 0] ∧
    ((one_emitted false).1.mem 0).num_cs_references = 1 ∧
    ((one_emitted false).1.mem 0).reference = 2 ∧
    (one_emitted false).1.sent =
      [.resource_create 1 0 1 VIRGL_BIND_VERTEX_BUFFER 256 1 1 1 0 0] :=
  have h := submit_cmd_empty_is_noop (one_emitted false).1 (one_emitted false).2 (by decide)
  ⟨by decide, ⟨h.1, h.2.1⟩, by decide, by decide, by decide, by decide⟩

/-! ### A resource referenced by a command buffer outlives its owner -/

/-- An emit of a resource that is not yet in the reference set changes the winsys
only in the two counters of that resource. -/
theorem emit_res_absent_ws (s : virgl_vtest_winsys) (cbuf : virgl_vtest_cmd_buf) (res : Nat)
    (write_buf : Bool) (hok : cbuf_ok s cbuf) (hnot : some res ∉ reference_set cbuf) :
    (virgl_vtest_emit_res s cbuf res write_buf).1 =
      { s with mem := fun q =>
          if q = res then
            { s.mem res with reference := (s.mem res).reference + 1,
                             num_cs_references := (s.mem res).num_cs_references + 1 }
          else s.mem q } := by
  have hl : (virgl_vtest_lookup_res s cbuf res).1 = false := by
    cases h : (virgl_vtest_lookup_res s cbuf res).1 with
    | false => rfl
    | true => exact absurd ((lookup_res_iff s cbuf res hok).mp h) hnot
  unfold virgl_vtest_emit_res
  simp only [hl, Bool.not_false, if_true, virgl_vtest_add_res_eq]

theorem release_all_res_single (s : virgl_vtest_winsys) (cbuf : virgl_vtest_cmd_buf) (r : Nat)
    (hcres : cbuf.cres = 1) (h0 : cbuf.res_bo 0 = some r) :
    (virgl_vtest_release_all_res s cbuf).1 =
      (virgl_vtest_resource_reference
        (store s r { s.mem r with num_cs_references := (s.mem r).num_cs_references - 1 })
        (some r) none).2 := by
  unfold virgl_vtest_release_all_res
  rw [hcres]
  simp only [release_all_res_loop, h0]

theorem mem_destroy_msgs (rec : virgl_hw_res) (h : Nat)
    (hm : vtest_msg.resource_unref h ∈ destroy_msgs rec) : rec.res_handle = h := by
  unfold destroy_msgs at hm
  cases hdt : rec.dt with
  | none => simp [hdt] at hm; exact hm.symm
  | some dt => simp [hdt] at hm; exact hm.symm

theorem reference_set_single (cbuf : virgl_vtest_cmd_buf) (r : Nat)
    (h : reference_set cbuf = [some r]) : cbuf.cres = 1 ∧ cbuf.res_bo 0 = some r := by
  unfold reference_set at h
  have hlen : cbuf.cres = 1 := by
    have := congrArg List.length h
    simpa using this
  rw [hlen] at h
  refine ⟨hlen, ?_⟩
  simpa [List.range_succ] using h
theorem submit_cmd_ws (s : virgl_vtest_winsys) (cbuf : virgl_vtest_cmd_buf)
    (hcdw : cbuf.cdw ≠ 0) :
    (virgl_vtest_winsys_submit_cmd s cbuf).1 =
      (virgl_vtest_release_all_res (virgl_vtest_submit_cmd s cbuf) cbuf).1 := by
  unfold virgl_vtest_winsys_submit_cmd
  simp only [hcdw, if_false]

theorem emit_unref_submit_eq (s : virgl_vtest_winsys) (cbuf : virgl_vtest_cmd_buf) (r : Nat)
    (write_buf : Bool)
    (hc : (s.mem r).cacheable = true) (href : (s.mem r).reference = 1)
    (hcs : (s.mem r).num_cs_references = 0)
    (hok : cbuf_ok s cbuf) (hempty : cbuf.cres = 0)
    (hcdw : write_buf = true ∨ cbuf.cdw ≠ 0) :
    (emit_unref_submit s cbuf r write_buf).1 =
      { s with mem := fun q =>
          if q = r then { s.mem r with reference := 1, num_cs_references := 1 } else s.mem q } ∧
    ∃ m, (emit_unref_submit s cbuf r write_buf).2.1 =
      pool_insert
        { s with
          sent := s.sent ++ [m]
          mem := fun q =>
            if q = r then { s.mem r with reference := 0, num_cs_references := 0 }
            else s.mem q } r ∧ m ≠ .resource_unref (s.mem r).res_handle := by
  have hnot : some r ∉ reference_set cbuf := by simp [reference_set, hempty]
  have he1 := emit_res_absent_ws s cbuf r write_buf hok hnot
  obtain ⟨-, -, he3⟩ := emit_res_absent s cbuf r write_buf hok hnot
  have hcdw1 := emit_res_cdw s cbuf r write_buf
  have hrs : reference_set (virgl_vtest_emit_res s cbuf r write_buf).2 = [some r] := by
    rw [he3]; simp [reference_set, hempty]
  obtain ⟨hcres, h0⟩ := reference_set_single _ r hrs
  have hne : (virgl_vtest_emit_res s cbuf r write_buf).2.cdw ≠ 0 := by
    rw [hcdw1]
    rcases hcdw with h | h
    · simp [h]
    · cases write_buf <;> simp [h]
  unfold emit_unref_submit
  simp only []
  generalize virgl_vtest_emit_res s cbuf r write_buf = e at he1 hcres h0 hne
  obtain ⟨e1, c2⟩ := e
  simp only at he1 hcres h0 hne
  subst he1
  have hu : virgl_vtest_winsys_resource_unref
      { s with mem := fun q =>
          if q = r then
            { s.mem r with reference := (s.mem r).reference + 1,
                           num_cs_references := (s.mem r).num_cs_references + 1 }
          else s.mem q } r =
      { s with mem := fun q =>
          if q = r then { s.mem r with reference := 1, num_cs_references := 1 } else s.mem q } := by
    unfold virgl_vtest_winsys_resource_unref
    rw [resource_reference_release_eq]
    simp only [href, hcs, if_true, store]
    norm_num
    funext q
    by_cases hq : q = r <;> simp [hq]
  rw [hu]
  refine ⟨rfl, .submit_cmd c2.cdw ((List.range c2.cdw).map c2.buf), ?_, by simp⟩
  rw [submit_cmd_ws _ _ hne, release_all_res_single _ c2 r hcres h0, resource_reference_release_eq]
  simp only [virgl_vtest_submit_cmd, send, store, if_true, hc]
  simp only [sub_self, if_true]
  congr 2
  funext q
  by_cases hq : q = r <;> simp [hq]
/-- C13: a cacheable resource `r` whose owner holds its only reference is emitted
into a command buffer with an empty reference set, and the owner releases it
with `virgl_vtest_winsys_resource_unref`.  While the buffer is not submitted,
`r.num_cs_references` is 1, the reference of the buffer keeps the count at 1,
nothing has been written and the pool is as before (so `r` is not in it).  The
submit of that buffer (a non-empty batch) brings the reference count of `r` to
zero: `r` is linked at the tail of the pool, and none of the requests written
since the emit is a `RESOURCE_UNREF` with the handle of `r`. -/
theorem emitted_resource_outlives_owner (s : virgl_vtest_winsys)
    (cbuf : virgl_vtest_cmd_buf) (r : Nat) (write_buf : Bool)
    (hc : (s.mem r).cacheable = true) (href : (s.mem r).reference = 1)
    (hcs : (s.mem r).num_cs_references = 0) (hpool : r ∉ s.delayed)
    (hh : ∀ q ∈ s.delayed, (s.mem q).res_handle ≠ (s.mem r).res_handle)
    (hok : cbuf_ok s cbuf) (hempty : cbuf.cres = 0)
    (hcdw : write_buf = true ∨ cbuf.cdw ≠ 0) :
    (((emit_unref_submit s cbuf r write_buf).1.mem r).num_cs_references = 1 ∧
      ((emit_unref_submit s cbuf r write_buf).1.mem r).reference = 1 ∧
      (emit_unref_submit s cbuf r write_buf).1.sent = s.sent ∧
      (emit_unref_submit s cbuf r write_buf).1.delayed = s.delayed) ∧
    (((emit_unref_submit s cbuf r write_buf).2.1.mem r).reference = 0 ∧
      ((emit_unref_submit s cbuf r write_buf).2.1.mem r).num_cs_references = 0 ∧
      (∃ front, (emit_unref_submit s cbuf r write_buf).2.1.delayed = front ++ [r] ∧
        front <:+ s.delayed) ∧
      ∃ rest, (emit_unref_submit s cbuf r write_buf).2.1.sent = s.sent ++ rest ∧
        vtest_msg.resource_unref (s.mem r).res_handle ∉ rest) := by
  obtain ⟨h1, m, h2, hm⟩ := emit_unref_submit_eq s cbuf r write_buf hc href hcs hok hempty hcdw
  rw [h1, h2]
  refine ⟨⟨by simp, by simp, rfl, rfl⟩, ?_⟩
  generalize hX : ({ s with
          sent := s.sent ++ [m]
          mem := fun q =>
            if q = r then { s.mem r with reference := 0, num_cs_references := 0 }
            else s.mem q } : virgl_vtest_winsys) = X
  have hXd : X.delayed = s.delayed := by rw [← hX]
  have hXs : X.sent = s.sent ++ [m] := by rw [← hX]
  have hXm : ∀ q, q ≠ r → X.mem q = s.mem q := by
    intro q hq; rw [← hX]; simp [hq]
  have hXr : (X.mem r).reference = 0 ∧ (X.mem r).num_cs_references = 0 := by
    rw [← hX]; simp
  obtain ⟨c1, c2, c3, -⟩ := virgl_cache_list_check_free_spec X
  unfold pool_insert
  simp only [if_true, c3, hXr, c1, c2, hXd, hXs, true_and]
  refine ⟨⟨_, rfl, List.dropWhile_suffix _⟩, _, List.append_assoc _ _ _, ?_⟩
  intro hmem
  rcases List.mem_append.mp hmem with hmem | hmem
  · exact hm (List.mem_singleton.mp hmem).symm
  · obtain ⟨l, hl, hml⟩ := List.mem_flatten.mp hmem
    obtain ⟨p, hp, rfl⟩ := List.mem_map.mp hl
    have hp' : p ∈ s.delayed := by
      have := List.takeWhile_sublist (expired X.mem (X.clock X.ticks)) |>.subset hp
      rw [← hXd]; exact this
    have hpr : p ≠ r := fun e => hpool (e ▸ hp')
    have := mem_destroy_msgs _ _ hml
    rw [hXm p hpr] at this
    exact hh p hp' this
/-- Witness for C13: the 256-byte vertex buffer of `one_vertex_buffer` (address 0,
handle 1) is emitted into a new command buffer and released by its owner; after
the submit it is the only pool entry, and the only requests ever written are its
`RESOURCE_CREATE` and the `SUBMIT_CMD`. -/
theorem emitted_resource_outlives_owner_witness :
    ((((emit_unref_submit one_vertex_buffer virgl_vtest_cmd_buf_create 0 true).1.mem
          0).num_cs_references = 1 ∧
        ((emit_unref_submit one_vertex_buffer virgl_vtest_cmd_buf_create 0 true).1.mem
          0).reference = 1 ∧
        (emit_unref_submit one_vertex_buffer virgl_vtest_cmd_buf_create 0 true).1.sent =
          one_vertex_buffer.sent ∧
        (emit_unref_submit one_vertex_buffer virgl_vtest_cmd_buf_create 0 true).1.delayed =
          one_vertex_buffer.delayed) ∧
      (((emit_unref_submit one_vertex_buffer virgl_vtest_cmd_buf_create 0 true).2.1.mem
          0).reference = 0 ∧
        ((emit_unref_submit one_vertex_buffer virgl_vtest_cmd_buf_create 0 true).2.1.mem
          0).num_cs_references = 0 ∧
        (∃ front,
          (emit_unref_submit one_vertex_buffer virgl_vtest_cmd_buf_create 0 true).2.1.delayed =
            front ++ [0] ∧ front <:+ one_vertex_buffer.delayed) ∧
        ∃ rest,
          (emit_unref_submit one_vertex_buffer virgl_vtest_cmd_buf_create 0 true).2.1.sent =
            one_vertex_buffer.sent ++ rest ∧
          vtest_msg.resource_unref (one_vertex_buffer.mem 0).res_handle ∉ rest)) ∧
    one_vertex_buffer.delayed = [] ∧
    (emit_unref_submit one_vertex_buffer virgl_vtest_cmd_buf_create 0 true).2.1.delayed = [0] ∧
    (emit_unref_submit one_vertex_buffer virgl_vtest_cmd_buf_create 0 true).2.1.sent =
      [.resource_create 1 0 1 VIRGL_BIND_VERTEX_BUFFER 256 1 1 1 0 0, .submit_cmd 1 [1]] :=
  ⟨emitted_resource_outlives_owner one_vertex_buffer virgl_vtest_cmd_buf_create 0 true
      (by decide) (by decide) (by decide) (by decide) (by decide)
      (cbuf_ok_create one_vertex_buffer) rfl (Or.inl rfl),
    by decide, by decide, by decide⟩

/-! ### Destroying a command buffer that still holds references -/

/-- C14 (the code at the failing input): a vertex buffer is emitted into a
command buffer and the command buffer is destroyed before it is submitted.
`virgl_vtest_cmd_buf_destroy` frees the buffer without releasing what it
references, so afterwards no live command buffer exists, yet the resource still
has `num_cs_references = 1` (and the reference the buffer took), and
`virgl_vtest_res_is_ref` returns TRUE. -/
theorem cmd_buf_destroy_keeps_cs_reference :
    emit_then_destroy.cbufs.map Option.isSome = [false] ∧
    live_references emit_then_destroy 0 = 0 ∧
    (emit_then_destroy.ws.mem 0).num_cs_references = 1 ∧
    (emit_then_destroy.ws.mem 0).reference = 2 ∧
    virgl_vtest_res_is_ref emit_then_destroy.ws 0 = true := by
  decide

/-! ### Command-buffer references without destroy -/

theorem live_references_append (sys : vtest_system) (w : virgl_vtest_winsys)
    (b : virgl_vtest_cmd_buf) (r : Nat) :
    live_references { ws := w, cbufs := sys.cbufs ++ [some b] } r =
      live_references sys r + (if linear_lookup b r = true then 1 else 0) := by
  unfold live_references
  simp only [List.filter_append, List.length_append]
  by_cases h : linear_lookup b r = true <;> simp [List.filter, h]

theorem live_references_set (l : List (Option virgl_vtest_cmd_buf)) (w w' : virgl_vtest_winsys)
    (i : Nat) (b b' : virgl_vtest_cmd_buf) (r : Nat) (hb : l.getD i none = some b) :
    live_references { ws := w', cbufs := l.set i (some b') } r +
        (if linear_lookup b r = true then 1 else 0) =
      live_references { ws := w, cbufs := l } r +
        (if linear_lookup b' r = true then 1 else 0) := by
  unfold live_references
  simp only []
  induction l generalizing i with
  | nil => simp at hb
  | cons c rest ih =>
    cases i with
    | zero =>
      simp only [List.getD_cons_zero] at hb
      subst hb
      simp only [List.set_cons_zero, List.filter_cons]
      by_cases h1 : linear_lookup b r = true <;> by_cases h2 : linear_lookup b' r = true <;>
        simp [h1, h2]
    | succ j =>
      simp only [List.getD_cons_succ] at hb
      have := ih j hb
      simp only [List.set_cons_succ, List.filter_cons]
      split
      · simp only [List.length_cons]; omega
      · exact this

theorem mem_set_some (l : List (Option virgl_vtest_cmd_buf)) (i : Nat)
    (b' c : virgl_vtest_cmd_buf) (h : some c ∈ l.set i (some b')) : c = b' ∨ some c ∈ l := by
  rcases List.mem_or_eq_of_mem_set h with h | h
  · exact Or.inr h
  · exact Or.inl (Option.some.inj h)

theorem mem_of_getD (l : List (Option virgl_vtest_cmd_buf)) (i : Nat) (b : virgl_vtest_cmd_buf)
    (hb : l.getD i none = some b) : some b ∈ l := by
  induction l generalizing i with
  | nil => simp at hb
  | cons c rest ih =>
    cases i with
    | zero => simp only [List.getD_cons_zero] at hb; simp [hb]
    | succ j => simp only [List.getD_cons_succ] at hb; exact List.mem_cons_of_mem _ (ih j hb)

theorem count_of_nodup (l : List (Option Nat)) (x : Option Nat) (hn : l.Nodup) :
    l.count x = if x ∈ l then 1 else 0 := by
  induction l with
  | nil => simp
  | cons a t ih =>
    obtain ⟨hna, hnt⟩ := List.nodup_cons.mp hn
    rw [List.count_cons, ih hnt]
    by_cases hax : a = x
    · subst hax; simp [hna]
    · have hxa : ¬ x = a := fun e => hax e.symm
      simp [hax, hxa]

theorem count_reference_set (b : virgl_vtest_cmd_buf) (r : Nat)
    (hn : (reference_set b).Nodup) :
    (reference_set b).count (some r) = if linear_lookup b r = true then 1 else 0 := by
  rw [count_of_nodup _ _ hn]
  unfold linear_lookup
  by_cases h : some r ∈ reference_set b <;> simp [h]

theorem linear_lookup_congr (b b' : virgl_vtest_cmd_buf) (r : Nat)
    (h : reference_set b' = reference_set b) : linear_lookup b' r = linear_lookup b r := by
  unfold linear_lookup; rw [h]

/-- What a submit does to the counters and the reference set of its buffer. -/
theorem submit_cmd_counts (s : virgl_vtest_winsys) (cbuf : virgl_vtest_cmd_buf) :
    (∀ q, ((virgl_vtest_winsys_submit_cmd s cbuf).1.mem q).num_cs_references =
      (s.mem q).num_cs_references -
        (if cbuf.cdw = 0 then 0 else ((reference_set cbuf).count (some q) : Int))) ∧
    reference_set (virgl_vtest_winsys_submit_cmd s cbuf).2 =
      (if cbuf.cdw = 0 then reference_set cbuf else []) := by
  by_cases hcdw : cbuf.cdw = 0
  · simp [virgl_vtest_winsys_submit_cmd, hcdw]
  · obtain ⟨a, -, -⟩ := release_all_res_loop_counts cbuf.cres 0
      (virgl_vtest_submit_cmd s cbuf) cbuf
    unfold virgl_vtest_winsys_submit_cmd virgl_vtest_release_all_res
    simp only [hcdw, if_false]
    refine ⟨?_, by simp [reference_set]⟩
    intro q
    rw [a q]
    simp [virgl_vtest_submit_cmd, send, reference_set, List.range_eq_range']

theorem cs_counted_boot (clock : Nat → Int) (busy_reply : Nat → Nat → Nat) :
    cs_counted (vtest_boot clock busy_reply) := by
  refine ⟨?_, ?_⟩
  · intro b hb; simp [vtest_boot] at hb
  · intro r; rfl

theorem live_references_set_buf (sys : vtest_system) (w : virgl_vtest_winsys) (i : Nat)
    (b b' : virgl_vtest_cmd_buf) (r : Nat) (hb : sys.cbufs.getD i none = some b) :
    live_references { ws := w, cbufs := sys.cbufs.set i (some b') } r +
        (if linear_lookup b r = true then 1 else 0) =
      live_references sys r + (if linear_lookup b' r = true then 1 else 0) :=
  live_references_set sys.cbufs sys.ws w i b b' r hb

theorem linear_lookup_append (b b' : virgl_vtest_cmd_buf) (res r : Nat)
    (h : reference_set b' = reference_set b ++ [some res])
    (hin : some res ∉ reference_set b) :
    (if linear_lookup b' r = true then 1 else 0 : Nat) =
      (if linear_lookup b r = true then 1 else 0) + (if r = res then 1 else 0) := by
  unfold linear_lookup
  rw [h]
  by_cases hr : r = res
  · subst hr
    have h1 : (reference_set b).contains (some r) = false := by simpa using hin
    simp [h1, hin]
  · have hr' : ¬ res = r := fun e => hr e.symm
    by_cases h1 : some r ∈ reference_set b <;> simp [hr, hr', h1]

theorem cs_counted_step (sys : vtest_system) (op : vtest_op) (hop : keeps_buffers op = true)
    (h : cs_counted sys) : cs_counted (vtest_step sys op) := by
  obtain ⟨hbuf, hcount⟩ := h
  cases op with
  | resource_create target format bind width height depth array_size last_level nr_samples size =>
    simp [keeps_buffers] at hop
  | resource_unref hres => simp [keeps_buffers] at hop
  | fence_reference dst src => simp [keeps_buffers] at hop
  | cmd_buf_destroy cbuf => simp [keeps_buffers] at hop
  | cache_flush => simp [keeps_buffers] at hop
  | cmd_buf_create =>
    simp only [vtest_step]
    refine ⟨?_, ?_⟩
    · intro b hb
      simp only [List.mem_append, List.mem_singleton, Option.some.injEq] at hb
      rcases hb with hb | rfl
      · exact hbuf b hb
      · exact ⟨cbuf_ok_create _, by simp [reference_set, virgl_vtest_cmd_buf_create]⟩
    · intro r
      rw [live_references_append sys sys.ws virgl_vtest_cmd_buf_create r]
      have : linear_lookup virgl_vtest_cmd_buf_create r = false := by
        simp [linear_lookup, reference_set, virgl_vtest_cmd_buf_create]
      simp [this, hcount r]
  | emit_res i res write_buf =>
    simp only [vtest_step]
    cases hb : sys.cbufs.getD i none with
    | none => exact ⟨hbuf, hcount⟩
    | some b =>
      simp only []
      obtain ⟨hokb, hnb⟩ := hbuf b (mem_of_getD _ _ _ hb)
      have hkeep := keeps_ids_emit_res sys.ws b res write_buf
      by_cases hin : some res ∈ reference_set b
      · obtain ⟨e1, e2, e3⟩ := emit_res_present sys.ws b res write_buf hokb hin
        refine ⟨?_, ?_⟩
        · intro c hc
          rcases mem_set_some _ _ _ _ hc with rfl | hc
          · simp only [e1]; exact ⟨e2, by rw [e3]; exact hnb⟩
          · simp only [e1]; exact hbuf c hc
        · intro r
          have hs := live_references_set_buf sys
            (virgl_vtest_emit_res sys.ws b res write_buf).1 i b
            (virgl_vtest_emit_res sys.ws b res write_buf).2 r hb
          rw [linear_lookup_congr b _ r e3] at hs
          have hc := hcount r
          have hm : (virgl_vtest_emit_res sys.ws b res write_buf).1.mem r = sys.ws.mem r := by
            rw [e1]
          simp only []
          rw [hm, hc]
          omega
      · obtain ⟨e1, e2, e3⟩ := emit_res_absent sys.ws b res write_buf hokb hin
        refine ⟨?_, ?_⟩
        · intro c hc
          rcases mem_set_some _ _ _ _ hc with rfl | hc
          · refine ⟨e2, ?_⟩
            rw [e3]
            exact List.nodup_append.mpr ⟨hnb, by simp, by simpa using hin⟩
          · exact ⟨cbuf_ok_keeps_ids hkeep c (hbuf c hc).1, (hbuf c hc).2⟩
        · intro r
          have hs := live_references_set_buf sys
            (virgl_vtest_emit_res sys.ws b res write_buf).1 i b
            (virgl_vtest_emit_res sys.ws b res write_buf).2 r hb
          rw [linear_lookup_append b _ res r e3 hin] at hs
          have hc := hcount r
          have hm : ((virgl_vtest_emit_res sys.ws b res write_buf).1.mem r).num_cs_references =
              (sys.ws.mem r).num_cs_references + (if r = res then 1 else 0) := by
            rw [e1]
            by_cases hr : r = res
            · subst hr; simp
            · simp [hr]
          simp only []
          rw [hm, hc]
          by_cases hr : r = res
          · simp only [hr, if_true] at hs ⊢; omega
          · simp only [hr, if_false] at hs ⊢; omega
  | submit_cmd i =>
    simp only [vtest_step]
    cases hb : sys.cbufs.getD i none with
    | none => exact ⟨hbuf, hcount⟩
    | some b =>
      simp only []
      obtain ⟨hokb, hnb⟩ := hbuf b (mem_of_getD _ _ _ hb)
      have hkeep := keeps_ids_submit sys.ws b
      obtain ⟨s1, s2⟩ := submit_cmd_counts sys.ws b
      refine ⟨?_, ?_⟩
      · intro c hc
        rcases mem_set_some _ _ _ _ hc with rfl | hc
        · refine ⟨cbuf_ok_submit _ _ hokb, ?_⟩
          rw [s2]
          split
          · exact hnb
          · exact List.nodup_nil
        · exact ⟨cbuf_ok_keeps_ids hkeep c (hbuf c hc).1, (hbuf c hc).2⟩
      · intro r
        have hs := live_references_set_buf sys
          (virgl_vtest_winsys_submit_cmd sys.ws b).1 i b
          (virgl_vtest_winsys_submit_cmd sys.ws b).2 r hb
        have hc := hcount r
        simp only []
        rw [s1 r, hc]
        by_cases hcdw : b.cdw = 0
        · have e : reference_set (virgl_vtest_winsys_submit_cmd sys.ws b).2 = reference_set b := by
            rw [s2, if_pos hcdw]
          rw [linear_lookup_congr b _ r e] at hs
          simp only [hcdw, if_true]
          omega
        · have hl : linear_lookup (virgl_vtest_winsys_submit_cmd sys.ws b).2 r = false := by
            unfold linear_lookup
            rw [s2, if_neg hcdw]
            rfl
          rw [hl] at hs
          rw [count_reference_set b r hnb]
          simp only [hcdw, if_false, Bool.false_eq_true] at hs ⊢
          by_cases hlb : linear_lookup b r = true
          · simp only [hlb, if_true] at hs ⊢; omega
          · simp only [hlb, if_false] at hs ⊢; omega

theorem cs_counted_run (ops : List vtest_op) (sys : vtest_system)
    (hops : ∀ op ∈ ops, keeps_buffers op = true) (h : cs_counted sys) :
    cs_counted (vtest_run sys ops) := by
  induction ops generalizing sys with
  | nil => exact h
  | cons op rest ih =>
    exact ih (vtest_step sys op) (fun o ho => hops o (List.mem_cons_of_mem _ ho))
      (cs_counted_step sys op (hops op (List.mem_cons_self _ _)) h)

/-- As long as no command buffer is destroyed the bookkeeping is exact: in every
state reached from `virgl_vtest_winsys_wrap` by command-buffer create, emit and
submit operations, `num_cs_references` of a resource is the number of live
command buffers whose `res_bo[0..cres)` contains it, and `virgl_vtest_res_is_ref`
returns TRUE exactly when there is such a buffer. -/
theorem res_is_ref_iff_live_reference (clock : Nat → Int) (busy_reply : Nat → Nat → Nat)
    (ops : List vtest_op) (hops : ∀ op ∈ ops, keeps_buffers op = true) (r : Nat) :
    ((vtest_run (vtest_boot clock busy_reply) ops).ws.mem r).num_cs_references =
      (live_references (vtest_run (vtest_boot clock busy_reply) ops) r : Int) ∧
    (virgl_vtest_res_is_ref (vtest_run (vtest_boot clock busy_reply) ops).ws r = true ↔
      0 < live_references (vtest_run (vtest_boot clock busy_reply) ops) r) := by
  have h := (cs_counted_run ops (vtest_boot clock busy_reply) hops
    (cs_counted_boot clock busy_reply)).2 r
  refine ⟨h, ?_⟩
  unfold virgl_vtest_res_is_ref
  rw [h]
  constructor
  · intro hh
    by_contra hz
    have : live_references (vtest_run (vtest_boot clock busy_reply) ops) r = 0 := by omega
    simp [this] at hh
  · intro hh
    have : ¬ ((live_references (vtest_run (vtest_boot clock busy_reply) ops) r : Int) = 0) := by
      omega
    simp [this]

/-! ### Transfer size -/

/-- C15 (as stated, refuted): for a region of 4 pixels by 2 rows by 2 layers of
4-byte pixels with both hints 0, `vtest_get_transfer_size` does not take the
hints although the region spans more than one row and more than one layer: the
valid stride is the packed stride 16, not the hint 0, and the result is
`16 * 2 * 2 = 64`, not `0 * 2`. -/
theorem vtest_get_transfer_size_skips_zero_hints :
    (vtest_get_transfer_size four_byte_pixels {}
      { x := 0, y := 0, z := 0, width := 4, height := 2, depth := 2 } 0 0 0).2 = 16 ∧
    (vtest_get_transfer_size four_byte_pixels {}
      { x := 0, y := 0, z := 0, width := 4, height := 2, depth := 2 } 0 0 0).1 = 64 := by
  decide

/-- C15 (amended): for every format, box, stride hint and layer-stride hint,
`vtest_get_transfer_size` yields as valid stride the stride hint when the hint
is non-zero and `box.height > 1`, and otherwise the packed stride of the format
for `box.width`; as valid layer stride the layer-stride hint when that hint is
non-zero and `box.depth > 1`, and otherwise
`util_format_get_2d_size(format, valid_stride, box.height)`; and it returns
`valid_layer_stride * box.depth` as a 32-bit unsigned product. -/
theorem vtest_get_transfer_size_hints (fmt : util_format) (res : virgl_hw_res) (box : pipe_box)
    (stride layer_stride level : Nat) :
    (vtest_get_transfer_size fmt res box stride layer_stride level).2 =
      (if stride ≠ 0 ∧ box.height > 1 then stride
       else fmt.util_format_get_stride res.format (to_uint32 box.width) % 4294967296) ∧
    (vtest_get_transfer_size fmt res box stride layer_stride level).1 =
      ((if layer_stride ≠ 0 ∧ box.depth > 1 then layer_stride
        else fmt.util_format_get_2d_size res.format
          (vtest_get_transfer_size fmt res box stride layer_stride level).2
          (to_uint32 box.height) % 4294967296) * to_uint32 box.depth) % 4294967296 := by
  unfold vtest_get_transfer_size
  simp only []
  refine ⟨?_, ?_⟩
  · by_cases h1 : stride ≠ 0 <;> by_cases h2 : box.height > 1 <;> simp [h1, h2]
  · by_cases h1 : layer_stride ≠ 0 <;> by_cases h2 : box.depth > 1 <;> simp [h1, h2]

/-! ### Wire layout -/

/-- C17: `virgl_vtest_send_transfer_cmd` writes one request whose 11 payload
words are handle, level, stride, layer_stride, box.x, box.y, box.z, box.width,
box.height, box.depth, data_size in this order (44 bytes); its header carries the
command id given, and the length word is 11 for `TRANSFER_GET` and
`11 + data_size` modulo `2 ^ 32` for `TRANSFER_PUT`. -/
theorem send_transfer_cmd_layout (s : virgl_vtest_winsys)
    (handle level stride layer_stride : Nat) (box : pipe_box) (data_size : Nat) :
    (∀ vcmd, ∃ m,
      (virgl_vtest_send_transfer_cmd s vcmd handle level stride layer_stride box data_size).sent =
        s.sent ++ [m] ∧
      transfer_words m =
        [handle, level, stride, layer_stride, to_uint32 box.x, to_uint32 box.y, to_uint32 box.z,
         to_uint32 box.width, to_uint32 box.height, to_uint32 box.depth, data_size] ∧
      (wire_request m).map (fun r => (r.cmd_id, r.payload_bytes)) = some (vcmd, 44)) ∧
    ((virgl_vtest_send_transfer_cmd s .VCMD_TRANSFER_GET handle level stride layer_stride box
        data_size).sent.getLast?.bind wire_request).map (fun r => r.cmd_len) = some 11 ∧
    ((virgl_vtest_send_transfer_cmd s .VCMD_TRANSFER_PUT handle level stride layer_stride box
        data_size).sent.getLast?.bind wire_request).map (fun r => r.cmd_len) =
      some ((11 + data_size) % 4294967296) := by
  refine ⟨fun vcmd => ⟨_, rfl, rfl, rfl⟩, ?_, ?_⟩
  · simp [virgl_vtest_send_transfer_cmd, send, wire_request, VCMD_TRANSFER_HDR_SIZE]
  · simp [virgl_vtest_send_transfer_cmd, send, wire_request, VCMD_TRANSFER_HDR_SIZE]

/-- C16 (as stated, refuted): `virgl_vtest_send_init` with the default identifier
`virtest` (7 characters) writes the header `[8, VCMD_CREATE_RENDERER]` followed by
8 bytes, the string with its terminating NUL, not `4 * 8` bytes. -/
theorem create_renderer_length_counts_bytes :
    (write_request (virgl_vtest_winsys_wrap (fun _ => 0) (fun _ _ => 0))
      (.send_init [118, 105, 114, 116, 101, 115, 116])).sent.map wire_request =
      [some { cmd_len := 8, cmd_id := .VCMD_CREATE_RENDERER, payload_bytes := 8 }] := by
  decide

/-- C16 (amended): every request the client writes (`CREATE_RENDERER` with
any identifier string, `GET_CAPS2`/`GET_CAPS`, `RESOURCE_CREATE`,
`RESOURCE_UNREF`, `RESOURCE_BUSY_WAIT`, `SUBMIT_CMD`, `TRANSFER_GET`,
`DT_COMMAND`) starts with a two-word header `[length, command id]`.  The number
of payload bytes written after the header is `4 * length`, except for
`CREATE_RENDERER`, where it is `length`: the header carries the byte count of
the identifier string with its terminating NUL. -/
theorem request_payload_follows_length (s : virgl_vtest_winsys) (call : vtest_send)
    (hput : ∀ handle level stride layer_stride box data_size,
      call ≠ .send_transfer_cmd .VCMD_TRANSFER_PUT handle level stride layer_stride box
        data_size) :
    ∃ msgs, (write_request s call).sent = s.sent ++ msgs ∧
      msgs.map (fun m => (wire_request m).map (fun r => r.cmd_id)) =
        (request_ids call).map some ∧
      ∀ m ∈ msgs, ∃ r, wire_request m = some r ∧
        r.payload_bytes =
          (match call with
           | .send_init _ => r.cmd_len
           | _ => 4 * r.cmd_len) := by
  cases call with
  | send_init cmdline =>
    refine ⟨[_], rfl, rfl, ?_⟩
    intro m hm
    rw [List.mem_singleton.mp hm]
    exact ⟨_, rfl, rfl⟩
  | send_get_caps =>
    refine ⟨[.get_caps2, .get_caps], by simp [write_request, virgl_vtest_send_get_caps_probes, send],
      rfl, ?_⟩
    intro m hm
    simp only [List.mem_cons, List.mem_singleton, List.not_mem_nil, or_false] at hm
    rcases hm with rfl | rfl <;> exact ⟨_, rfl, rfl⟩
  | send_resource_create handle target format bind width height depth array_size last_level
      nr_samples =>
    refine ⟨[_], rfl, rfl, ?_⟩
    intro m hm
    rw [List.mem_singleton.mp hm]
    exact ⟨_, rfl, rfl⟩
  | send_resource_unref handle =>
    refine ⟨[_], rfl, rfl, ?_⟩
    intro m hm
    rw [List.mem_singleton.mp hm]
    exact ⟨_, rfl, rfl⟩
  | busy_wait handle flags =>
    refine ⟨[_], rfl, rfl, ?_⟩
    intro m hm
    rw [List.mem_singleton.mp hm]
    exact ⟨_, rfl, rfl⟩
  | submit_cmd cbuf =>
    refine ⟨[_], rfl, rfl, ?_⟩
    intro m hm
    rw [List.mem_singleton.mp hm]
    exact ⟨_, rfl, Nat.mul_comm _ _⟩
  | send_transfer_cmd vcmd handle level stride layer_stride box data_size =>
    have hv : vcmd ≠ .VCMD_TRANSFER_PUT := by
      intro h
      exact hput handle level stride layer_stride box data_size (by rw [h])
    refine ⟨[_], rfl, rfl, ?_⟩
    intro m hm
    rw [List.mem_singleton.mp hm]
    refine ⟨_, rfl, ?_⟩
    simp [hv, VCMD_TRANSFER_HDR_SIZE]
  | send_dt cmd x y w h id handle drawable =>
    refine ⟨[_], rfl, rfl, ?_⟩
    intro m hm
    rw [List.mem_singleton.mp hm]
    exact ⟨_, rfl, rfl⟩

/-- Witness for C16: a `TRANSFER_GET` request for 64 bytes of resource 1 on a
freshly wrapped winsys has header length 11 and 44 payload bytes. -/
theorem request_payload_follows_length_witness :
    (∃ msgs,
      (write_request (virgl_vtest_winsys_wrap (fun _ => 0) (fun _ _ => 0))
        (.send_transfer_cmd .VCMD_TRANSFER_GET 1 0 0 0
          { x := 0, y := 0, z := 0, width := 64, height := 1, depth := 1 } 64)).sent =
        (virgl_vtest_winsys_wrap (fun _ => 0) (fun _ _ => 0)).sent ++ msgs ∧
      msgs.map (fun m => (wire_request m).map (fun r => r.cmd_id)) =
        (request_ids (.send_transfer_cmd .VCMD_TRANSFER_GET 1 0 0 0
          { x := 0, y := 0, z := 0, width := 64, height := 1, depth := 1 } 64)).map some ∧
      ∀ m ∈ msgs, ∃ r, wire_request m = some r ∧
        r.payload_bytes =
          (match (vtest_send.send_transfer_cmd .VCMD_TRANSFER_GET 1 0 0 0
              { x := 0, y := 0, z := 0, width := 64, height := 1, depth := 1 } 64) with
           | .send_init _ => r.cmd_len
           | _ => 4 * r.cmd_len)) ∧
    (write_request (virgl_vtest_winsys_wrap (fun _ => 0) (fun _ _ => 0))
      (.send_transfer_cmd .VCMD_TRANSFER_GET 1 0 0 0
        { x := 0, y := 0, z := 0, width := 64, height := 1, depth := 1 } 64)).sent.map
        wire_request =
      [some { cmd_len := 11, cmd_id := .VCMD_TRANSFER_GET, payload_bytes := 44 }] :=
  ⟨request_payload_follows_length _ _ (by simp), by decide⟩

/-! ### Fences -/

/-- C18 (as stated, refuted): the server reports the fence of `busy_fence` busy,
yet `virgl_fence_wait` with timeout 0 returns TRUE, and it writes no request. -/
theorem busy_fence_wait_reports_signalled :
    (virgl_vtest_resource_is_busy busy_fence 0).1 = true ∧
    (virgl_fence_wait busy_fence 0 0 1).map Prod.fst = some true ∧
    (virgl_fence_wait busy_fence 0 0 1).map (fun r => r.2.sent) = some busy_fence.sent ∧
    (virgl_fence_wait busy_fence 0 0 1).map (fun r => r.2.polls) = some busy_fence.polls := by
  decide

/-- C18 (amended): `virgl_fence_wait` with timeout 0 returns at once without
asking the server: the result is TRUE whatever the busy state of the fence, and
the winsys (request log, replies consumed, clock readings) is as before. -/
theorem virgl_fence_wait_zero (s : virgl_vtest_winsys) (fence fuel : Nat) :
    virgl_fence_wait s fence 0 fuel = some (true, s) := by
  simp [virgl_fence_wait]

/-- A lookup for a bind that is none of the three buffer binds, in a state where
no record has a recorded size: whether or not the pool is scanned, nothing is
taken from it, and the result is a fresh allocation made in the state the scan
(if any) left behind. -/
theorem cache_create_not_buffer (s : virgl_vtest_winsys)
    (target format bind width height depth array_size last_level nr_samples size : Nat)
    (hC : bind ≠ VIRGL_BIND_CONSTANT_BUFFER) (hI : bind ≠ VIRGL_BIND_INDEX_BUFFER)
    (hV : bind ≠ VIRGL_BIND_VERTEX_BUFFER) (hsize : 0 < size) (hz : sizes_unset s) :
    ∃ ws, ws.mem = s.mem ∧ ws.handle = s.handle ∧ ws.brk = s.brk ∧ s.sent <+: ws.sent ∧
      ws.delayed.Sublist s.delayed ∧
      virgl_vtest_winsys_resource_cache_create s target format bind width height depth
          array_size last_level nr_samples size =
        virgl_vtest_winsys_resource_create ws target format bind width height depth array_size
          last_level nr_samples size := by
  by_cases hcu : bind = VIRGL_BIND_CUSTOM
  · have hres : (scan_of s size bind format).res = none :=
      (scan_no_match (s.clock s.ticks) size bind format s.delayed 0
        { s with ticks := s.ticks + 1 }
        (fun p _ => res_matches_false_of_size_zero _ size bind format (hz p) hsize)).1
    obtain ⟨f1, f2, f3, f4, f5, -⟩ := scan_frame_scan_of s size bind format
    refine ⟨(scan_of s size bind format).ws, f1, f2, f3, f4, f5, ?_⟩
    have hguard : ¬ (bind ≠ VIRGL_BIND_CONSTANT_BUFFER ∧ bind ≠ VIRGL_BIND_INDEX_BUFFER ∧
        bind ≠ VIRGL_BIND_VERTEX_BUFFER ∧ bind ≠ VIRGL_BIND_CUSTOM) := by
      simp [hcu]
    unfold scan_of at hres ⊢
    unfold virgl_vtest_winsys_resource_cache_create
    simp only [hguard, if_false, os_time_get, hres, hC, hI, hV, or_self]
  · refine ⟨s, rfl, rfl, rfl, List.prefix_refl _, List.Sublist.refl _, ?_⟩
    unfold virgl_vtest_winsys_resource_cache_create
    simp only [hC, hI, hV, hcu, ne_eq, not_false_eq_true, and_self, if_true, or_self, if_false]

/-- The call `virgl_cs_create_fence` in a state where no record has a recorded
size, for a value of `PIPE_BIND_CUSTOM` that is none of the three buffer binds
and asks for no display target: it allocates a record that is not flagged
cacheable and writes its `RESOURCE_CREATE`. -/
theorem virgl_cs_create_fence_eq (pd : pipe_defines) (s : virgl_vtest_winsys)
    (hC : pd.PIPE_BIND_CUSTOM ≠ VIRGL_BIND_CONSTANT_BUFFER)
    (hI : pd.PIPE_BIND_CUSTOM ≠ VIRGL_BIND_INDEX_BUFFER)
    (hV : pd.PIPE_BIND_CUSTOM ≠ VIRGL_BIND_VERTEX_BUFFER)
    (hdt : pd.PIPE_BIND_CUSTOM &&& (VIRGL_BIND_DISPLAY_TARGET ||| VIRGL_BIND_SCANOUT) = 0)
    (hz : sizes_unset s) :
    ∃ ws : virgl_vtest_winsys, s.sent <+: ws.sent ∧ ws.delayed.Sublist s.delayed ∧
      virgl_cs_create_fence pd s =
        (s.brk,
          { ws with
            brk := s.brk + 1
            handle := (s.handle + 1) % 4294967296
            sent := ws.sent ++ [.resource_create s.handle pd.PIPE_BUFFER
              pd.PIPE_FORMAT_R8_UNORM pd.PIPE_BIND_CUSTOM 8 1 1 0 0 0]
            mem := fun q => if q = s.brk then
                { reference := 1, res_handle := s.handle, format := pd.PIPE_FORMAT_R8_UNORM,
                  bind := pd.PIPE_BIND_CUSTOM, width := 8, height := 1 }
              else s.mem q }) := by
  obtain ⟨ws, m1, m2, m3, m4, m5, e⟩ := cache_create_not_buffer s pd.PIPE_BUFFER
    pd.PIPE_FORMAT_R8_UNORM pd.PIPE_BIND_CUSTOM 8 1 1 0 0 0 8 hC hI hV (by decide) hz
  refine ⟨ws, m4, m5, ?_⟩
  unfold virgl_cs_create_fence
  rw [e, virgl_vtest_winsys_resource_create_eq _ _ _ _ _ _ _ _ _ _ _ hdt, m1, m2, m3]

/-- Dropping the only reference of a resource that is not flagged cacheable and
has no display target, through `virgl_fence_reference`: its `RESOURCE_UNREF` is
written and nothing else changes but its count. -/
theorem virgl_fence_reference_last_eq (s : virgl_vtest_winsys) (p : Nat)
    (href : (s.mem p).reference = 1) (hc : (s.mem p).cacheable = false)
    (hdt : (s.mem p).dt = none) :
    (virgl_fence_reference s (some p) none).2 =
      { s with
        sent := s.sent ++ [.resource_unref (s.mem p).res_handle]
        mem := fun q => if q = p then { s.mem p with reference := 0 } else s.mem q } := by
  unfold virgl_fence_reference
  rw [resource_reference_release_eq]
  simp only [href, hc, sub_self, if_true, Bool.false_eq_true, if_false, virgl_hw_res_destroy_eq,
    store, destroy_msgs, dt_set_after_destroy, hdt]

theorem virgl_cs_create_fence_facts (pd : pipe_defines) (s : virgl_vtest_winsys)
    (hC : pd.PIPE_BIND_CUSTOM ≠ VIRGL_BIND_CONSTANT_BUFFER)
    (hI : pd.PIPE_BIND_CUSTOM ≠ VIRGL_BIND_INDEX_BUFFER)
    (hV : pd.PIPE_BIND_CUSTOM ≠ VIRGL_BIND_VERTEX_BUFFER)
    (hdt : pd.PIPE_BIND_CUSTOM &&& (VIRGL_BIND_DISPLAY_TARGET ||| VIRGL_BIND_SCANOUT) = 0)
    (hz : sizes_unset s) :
    (virgl_cs_create_fence pd s).1 = s.brk ∧
    ((virgl_cs_create_fence pd s).2.mem s.brk).cacheable = false ∧
    ((virgl_cs_create_fence pd s).2.mem s.brk).reference = 1 ∧
    ((virgl_cs_create_fence pd s).2.mem s.brk).dt = none ∧
    ((virgl_cs_create_fence pd s).2.mem s.brk).res_handle = s.handle ∧
    sizes_unset (virgl_cs_create_fence pd s).2 ∧
    (virgl_cs_create_fence pd s).2.handle = (s.handle + 1) % 4294967296 ∧
    (virgl_cs_create_fence pd s).2.brk = s.brk + 1 ∧
    (virgl_cs_create_fence pd s).2.sent.getLast? =
      some (.resource_create s.handle pd.PIPE_BUFFER pd.PIPE_FORMAT_R8_UNORM
        pd.PIPE_BIND_CUSTOM 8 1 1 0 0 0) := by
  obtain ⟨ws, -, -, e⟩ := virgl_cs_create_fence_eq pd s hC hI hV hdt hz
  rw [e]
  refine ⟨rfl, by simp, by simp, by simp, by simp, ?_, rfl, rfl, by simp⟩
  intro q
  by_cases hq : q = s.brk
  · simp [hq]
  · simpa [hq] using hz q

/-- The fence scenario from a state in which no record has a recorded size. -/
theorem fence_create_release_create_spec (pd : pipe_defines) (s : virgl_vtest_winsys)
    (hC : pd.PIPE_BIND_CUSTOM ≠ VIRGL_BIND_CONSTANT_BUFFER)
    (hI : pd.PIPE_BIND_CUSTOM ≠ VIRGL_BIND_INDEX_BUFFER)
    (hV : pd.PIPE_BIND_CUSTOM ≠ VIRGL_BIND_VERTEX_BUFFER)
    (hdt : pd.PIPE_BIND_CUSTOM &&& (VIRGL_BIND_DISPLAY_TARGET ||| VIRGL_BIND_SCANOUT) = 0)
    (hz : sizes_unset s) :
    ((fence_create_release_create pd s).created.mem
      (fence_create_release_create pd s).first).cacheable = false ∧
    (fence_create_release_create pd s).released.sent =
      (fence_create_release_create pd s).created.sent ++
        [.resource_unref ((fence_create_release_create pd s).created.mem
          (fence_create_release_create pd s).first).res_handle] ∧
    (fence_create_release_create pd s).released.delayed =
      (fence_create_release_create pd s).created.delayed ∧
    (fence_create_release_create pd s).second ≠ (fence_create_release_create pd s).first ∧
    ((fence_create_release_create pd s).final.mem
        (fence_create_release_create pd s).second).res_handle ≠
      ((fence_create_release_create pd s).created.mem
        (fence_create_release_create pd s).first).res_handle ∧
    (fence_create_release_create pd s).final.sent.getLast? =
      some (.resource_create
        ((fence_create_release_create pd s).final.mem
          (fence_create_release_create pd s).second).res_handle
        pd.PIPE_BUFFER pd.PIPE_FORMAT_R8_UNORM pd.PIPE_BIND_CUSTOM 8 1 1 0 0 0) := by
  obtain ⟨a1, a2, a3, a4, a5, a6, a7, a8, -⟩ := virgl_cs_create_fence_facts pd s hC hI hV hdt hz
  unfold fence_create_release_create
  simp only []
  generalize virgl_cs_create_fence pd s = c1 at a1 a2 a3 a4 a5 a6 a7 a8
  obtain ⟨f, W⟩ := c1
  simp only at a1 a2 a3 a4 a5 a6 a7 a8
  subst a1
  have e2 := virgl_fence_reference_last_eq W s.brk a3 a2 a4
  have hzR : sizes_unset (virgl_fence_reference W (some s.brk) none).2 := by
    rw [e2]
    intro q
    by_cases hq : q = s.brk
    · simpa [hq] using a6 s.brk
    · simpa [hq] using a6 q
  have hRh : (virgl_fence_reference W (some s.brk) none).2.handle = W.handle := by rw [e2]
  have hRb : (virgl_fence_reference W (some s.brk) none).2.brk = W.brk := by rw [e2]
  have hRs : (virgl_fence_reference W (some s.brk) none).2.sent =
      W.sent ++ [.resource_unref (W.mem s.brk).res_handle] := by rw [e2]
  have hRd : (virgl_fence_reference W (some s.brk) none).2.delayed = W.delayed := by rw [e2]
  generalize (virgl_fence_reference W (some s.brk) none).2 = R at hzR hRh hRb hRs hRd
  obtain ⟨b1, -, -, -, b5, -, -, -, b9⟩ := virgl_cs_create_fence_facts pd R hC hI hV hdt hzR
  rw [b1, b5, hRh, hRb, a7, a8] at *
  refine ⟨a2, hRs, hRd, by omega, ?_, ?_⟩
  · rw [a5]; omega
  · rw [b9, hRh, a7]

/-- C20 (as stated, refuted): on a freshly wrapped winsys with an idle server and
a clock standing still, with `PIPE_BIND_CUSTOM` taken equal to
`VIRGL_BIND_CUSTOM`: the fence gets handle 1; dropping its last reference writes
`RESOURCE_UNREF` for handle 1 and leaves the pool empty; the next
`virgl_cs_create_fence` writes a `RESOURCE_CREATE` and returns handle 2. -/
theorem fence_is_destroyed_and_created_again :
    (fence_create_release_create custom_as_virgl
      (virgl_vtest_winsys_wrap (fun _ => 0) (fun _ _ => 0))).released.delayed = [] ∧
    (fence_create_release_create custom_as_virgl
      (virgl_vtest_winsys_wrap (fun _ => 0) (fun _ _ => 0))).released.sent =
      [.resource_create 1 0 64 VIRGL_BIND_CUSTOM 8 1 1 0 0 0, .resource_unref 1] ∧
    ((fence_create_release_create custom_as_virgl
        (virgl_vtest_winsys_wrap (fun _ => 0) (fun _ _ => 0))).final.mem
      (fence_create_release_create custom_as_virgl
        (virgl_vtest_winsys_wrap (fun _ => 0) (fun _ _ => 0))).second).res_handle = 2 ∧
    (fence_create_release_create custom_as_virgl
      (virgl_vtest_winsys_wrap (fun _ => 0) (fun _ _ => 0))).final.sent =
      [.resource_create 1 0 64 VIRGL_BIND_CUSTOM 8 1 1 0 0 0, .resource_unref 1,
       .resource_create 2 0 64 VIRGL_BIND_CUSTOM 8 1 1 0 0 0] := by
  decide

/-- C20 (amended): a fence created by `virgl_cs_create_fence` is not
cache-eligible, in any state reached from `virgl_vtest_winsys_wrap` and for any
value of `PIPE_BIND_CUSTOM` that is none of the three buffer binds and asks for
no display target.  Its record is not flagged cacheable; when its last reference
is dropped through `virgl_fence_reference`, a `RESOURCE_UNREF` with its handle is
written and the pool stays as it was; the next `virgl_cs_create_fence` returns a
different record with a different handle, and the last request it writes is the
`RESOURCE_CREATE` for that handle. -/
theorem fence_is_not_cached (pd : pipe_defines) (clock : Nat → Int)
    (busy_reply : Nat → Nat → Nat) (ops : List vtest_op)
    (hC : pd.PIPE_BIND_CUSTOM ≠ VIRGL_BIND_CONSTANT_BUFFER)
    (hI : pd.PIPE_BIND_CUSTOM ≠ VIRGL_BIND_INDEX_BUFFER)
    (hV : pd.PIPE_BIND_CUSTOM ≠ VIRGL_BIND_VERTEX_BUFFER)
    (hdt : pd.PIPE_BIND_CUSTOM &&& (VIRGL_BIND_DISPLAY_TARGET ||| VIRGL_BIND_SCANOUT) = 0) :
    ((fence_create_release_create pd (vtest_run (vtest_boot clock busy_reply) ops).ws).created.mem
      (fence_create_release_create pd
        (vtest_run (vtest_boot clock busy_reply) ops).ws).first).cacheable = false ∧
    (fence_create_release_create pd (vtest_run (vtest_boot clock busy_reply) ops).ws).released.sent
      = (fence_create_release_create pd
          (vtest_run (vtest_boot clock busy_reply) ops).ws).created.sent ++
        [.resource_unref ((fence_create_release_create pd
            (vtest_run (vtest_boot clock busy_reply) ops).ws).created.mem
          (fence_create_release_create pd
            (vtest_run (vtest_boot clock busy_reply) ops).ws).first).res_handle] ∧
    (fence_create_release_create pd
        (vtest_run (vtest_boot clock busy_reply) ops).ws).released.delayed =
      (fence_create_release_create pd
        (vtest_run (vtest_boot clock busy_reply) ops).ws).created.delayed ∧
    (fence_create_release_create pd (vtest_run (vtest_boot clock busy_reply) ops).ws).second ≠
      (fence_create_release_create pd (vtest_run (vtest_boot clock busy_reply) ops).ws).first ∧
    ((fence_create_release_create pd (vtest_run (vtest_boot clock busy_reply) ops).ws).final.mem
        (fence_create_release_create pd
          (vtest_run (vtest_boot clock busy_reply) ops).ws).second).res_handle ≠
      ((fence_create_release_create pd
          (vtest_run (vtest_boot clock busy_reply) ops).ws).created.mem
        (fence_create_release_create pd
          (vtest_run (vtest_boot clock busy_reply) ops).ws).first).res_handle ∧
    (fence_create_release_create pd
        (vtest_run (vtest_boot clock busy_reply) ops).ws).final.sent.getLast? =
      some (.resource_create
        ((fence_create_release_create pd
            (vtest_run (vtest_boot clock busy_reply) ops).ws).final.mem
          (fence_create_release_create pd
            (vtest_run (vtest_boot clock busy_reply) ops).ws).second).res_handle
        pd.PIPE_BUFFER pd.PIPE_FORMAT_R8_UNORM pd.PIPE_BIND_CUSTOM 8 1 1 0 0 0) :=
  fence_create_release_create_spec pd _ hC hI hV hdt
    (sizes_unset_run ops (vtest_boot clock busy_reply) (fun _ => rfl))

/-- Witness for C20: with `PIPE_BIND_CUSTOM` equal to `VIRGL_BIND_CUSTOM`, after a
vertex buffer was created and released into the pool (address 0, handle 1): the
fence gets handle 2 and is destroyed on release, the pool still holds only the
vertex buffer, and the second fence gets handle 3. -/
theorem fence_is_not_cached_witness :
    (fence_create_release_create custom_as_virgl
      (vtest_run (vtest_boot (fun _ => 0) (fun _ _ => 0))
        [.resource_create 0 1 VIRGL_BIND_VERTEX_BUFFER 256 1 1 1 0 0 256,
         .resource_unref 0]).ws).released.sent =
      (fence_create_release_create custom_as_virgl
        (vtest_run (vtest_boot (fun _ => 0) (fun _ _ => 0))
          [.resource_create 0 1 VIRGL_BIND_VERTEX_BUFFER 256 1 1 1 0 0 256,
           .resource_unref 0]).ws).created.sent ++
        [.resource_unref ((fence_create_release_create custom_as_virgl
            (vtest_run (vtest_boot (fun _ => 0) (fun _ _ => 0))
              [.resource_create 0 1 VIRGL_BIND_VERTEX_BUFFER 256 1 1 1 0 0 256,
               .resource_unref 0]).ws).created.mem
          (fence_create_release_create custom_as_virgl
            (vtest_run (vtest_boot (fun _ => 0) (fun _ _ => 0))
              [.resource_create 0 1 VIRGL_BIND_VERTEX_BUFFER 256 1 1 1 0 0 256,
               .resource_unref 0]).ws).first).res_handle] ∧
    (fence_create_release_create custom_as_virgl
      (vtest_run (vtest_boot (fun _ => 0) (fun _ _ => 0))
        [.resource_create 0 1 VIRGL_BIND_VERTEX_BUFFER 256 1 1 1 0 0 256,
         .resource_unref 0]).ws).released.delayed = [0] ∧
    (fence_create_release_create custom_as_virgl
      (vtest_run (vtest_boot (fun _ => 0) (fun _ _ => 0))
        [.resource_create 0 1 VIRGL_BIND_VERTEX_BUFFER 256 1 1 1 0 0 256,
         .resource_unref 0]).ws).final.sent =
      [.resource_create 1 0 1 VIRGL_BIND_VERTEX_BUFFER 256 1 1 1 0 0,
       .resource_create 2 0 64 VIRGL_BIND_CUSTOM 8 1 1 0 0 0, .resource_unref 2,
       .resource_create 3 0 64 VIRGL_BIND_CUSTOM 8 1 1 0 0 0] :=
  ⟨(fence_is_not_cached custom_as_virgl (fun _ => 0) (fun _ _ => 0)
      [.resource_create 0 1 VIRGL_BIND_VERTEX_BUFFER 256 1 1 1 0 0 256, .resource_unref 0]
      (by decide) (by decide) (by decide) (by decide)).2.1,
    by decide, by decide⟩

/-! ### Flushing the pool -/

theorem unref_handles_append (a b : List vtest_msg) :
    unref_handles (a ++ b) = unref_handles a ++ unref_handles b := by
  simp [unref_handles, List.filterMap_append]

theorem unref_handles_destroy_msgs (r : virgl_hw_res) :
    unref_handles (destroy_msgs r) = [r.res_handle] := by
  unfold unref_handles destroy_msgs
  cases r.dt <;> rfl

theorem unref_handles_destroyed (mem : Nat → virgl_hw_res) (l : List Nat) :
    unref_handles ((l.map (fun p => destroy_msgs (mem p))).flatten) =
      l.map (fun p => (mem p).res_handle) := by
  induction l with
  | nil => rfl
  | cons c rest ih =>
    simp only [List.map_cons, List.flatten_cons, unref_handles_append, ih,
      unref_handles_destroy_msgs, List.singleton_append]

theorem virgl_cache_flush_loop_spec (l : List Nat) (s : virgl_vtest_winsys)
    (hl : s.delayed = l) :
    (virgl_cache_flush_loop l s).delayed = [] ∧
    (virgl_cache_flush_loop l s).sent =
      s.sent ++ (l.map (fun p => destroy_msgs (s.mem p))).flatten ∧
    (virgl_cache_flush_loop l s).mem = s.mem ∧
    (virgl_cache_flush_loop l s).ticks = s.ticks ∧
    (virgl_cache_flush_loop l s).polls = s.polls := by
  induction l generalizing s with
  | nil => simp [virgl_cache_flush_loop, hl]
  | cons c rest ih =>
    unfold virgl_cache_flush_loop
    simp only []
    obtain ⟨a, b, d, e, f⟩ := ih (virgl_hw_res_destroy { s with delayed := LIST_DEL c s.delayed } c)
      (by simp [virgl_hw_res_destroy_eq, LIST_DEL, hl])
    refine ⟨a, ?_, ?_, ?_, ?_⟩
    · rw [b]; simp [virgl_hw_res_destroy_eq]
    · rw [d]; simp [virgl_hw_res_destroy_eq]
    · rw [e]; simp [virgl_hw_res_destroy_eq]
    · rw [f]; simp [virgl_hw_res_destroy_eq]

/-- C21: for every pool state, `virgl_cache_flush` leaves the pool empty and
writes, for the pooled entries in head-to-tail order, the requests that destroy
them: one `RESOURCE_UNREF` per entry, carrying the handle of that entry (followed
by a display-target destroy command if the entry has a display target).  No
window is looked at: the result does not depend on `start` and `end`, and the
clock is not read. -/
theorem virgl_cache_flush_destroys_all (s : virgl_vtest_winsys) :
    (virgl_cache_flush s).delayed = [] ∧
    (virgl_cache_flush s).sent =
      s.sent ++ (s.delayed.map (fun p => destroy_msgs (s.mem p))).flatten ∧
    unref_handles (virgl_cache_flush s).sent =
      unref_handles s.sent ++ s.delayed.map (fun p => (s.mem p).res_handle) ∧
    (virgl_cache_flush s).ticks = s.ticks := by
  obtain ⟨a, b, -, d, -⟩ := virgl_cache_flush_loop_spec s.delayed s rfl
  unfold virgl_cache_flush
  refine ⟨a, b, ?_, d⟩
  rw [b, unref_handles_append, unref_handles_destroyed]

/-! ### Display-target ids -/

theorem and_one_shiftLeft_ne_zero (x i : Nat) : x &&& (1 <<< i) ≠ 0 ↔ x.testBit i = true := by
  rw [Nat.one_shiftLeft, Nat.and_two_pow]
  cases h : x.testBit i <;> simp

/-- The scan `while((dt_set & (1<<id)) && (id < 32)) id++`: it stops at the
lowest id from the start on whose bit is clear, or at 32. -/
theorem dt_scan_spec (dt_set : Nat) (fuel id : Nat) (hid : id ≤ 32) (hf : 33 ≤ fuel + id) :
    id ≤ dt_scan dt_set fuel id ∧ dt_scan dt_set fuel id ≤ 32 ∧
    (∀ j, id ≤ j → j < dt_scan dt_set fuel id → dt_set.testBit j = true) ∧
    (dt_scan dt_set fuel id < 32 → dt_set.testBit (dt_scan dt_set fuel id) = false) := by
  induction fuel generalizing id with
  | zero => omega
  | succ n ih =>
    unfold dt_scan
    by_cases hc : dt_set &&& (1 <<< id) ≠ 0 ∧ id < 32
    · rw [if_pos hc]
      obtain ⟨a, b, c, d⟩ := ih (id + 1) (by omega) (by omega)
      refine ⟨by omega, b, ?_, d⟩
      intro j hj1 hj2
      by_cases hji : j = id
      · rw [hji]; exact (and_one_shiftLeft_ne_zero _ _).mp hc.1
      · exact c j (by omega) hj2
    · rw [if_neg hc]
      refine ⟨le_refl _, hid, ?_, ?_⟩
      · intro j hj1 hj2; omega
      · intro hlt
        by_contra hb
        exact hc ⟨(and_one_shiftLeft_ne_zero _ _).mpr (by simpa using hb), hlt⟩

theorem ids_full_iff (ids : List Nat) (hn : ids.Nodup) (hlt : ∀ i ∈ ids, i < 32) :
    (∀ j, j < 32 → j ∈ ids) ↔ ids.length = 32 := by
  have h1 : ids.Subperm (List.range 32) :=
    List.subperm_of_subset hn (fun i hi => List.mem_range.mpr (hlt i hi))
  constructor
  · intro hall
    have h2 : (List.range 32).Subperm ids :=
      List.subperm_of_subset (List.nodup_range 32) (fun i hi => hall i (List.mem_range.mp hi))
    have a := h1.length_le
    have b := h2.length_le
    simp only [List.length_range] at a b
    omega
  · intro hlen j hj
    have hp : ids.Perm (List.range 32) := h1.perm_of_length_le (by simp [hlen])
    exact hp.symm.subset (List.mem_range.mpr hj)

theorem testBit_set_id (x r i : Nat) :
    ((x ||| (1 <<< r)) % 4294967296).testBit i =
      (decide (i < 32) && (x.testBit i || decide (r = i))) := by
  rw [show (4294967296 : Nat) = 2 ^ 32 by norm_num, Nat.testBit_mod_two_pow, Nat.testBit_or,
    Nat.one_shiftLeft, Nat.testBit_two_pow]

theorem testBit_clear_id (x d i : Nat) :
    (x &&& (4294967295 ^^^ ((1 <<< d) % 4294967296))).testBit i =
      (x.testBit i && (decide (i < 32) && !decide (d = i))) := by
  rw [Nat.testBit_and, Nat.testBit_xor, show (4294967295 : Nat) = 2 ^ 32 - 1 by norm_num,
    Nat.testBit_two_pow_sub_one, show (4294967296 : Nat) = 2 ^ 32 by norm_num,
    Nat.testBit_mod_two_pow, Nat.one_shiftLeft, Nat.testBit_two_pow]
  by_cases h1 : i < 32 <;> by_cases h2 : d = i <;> simp [h1, h2]

/-- What `vtest_displaytarget_create` does when the id bookkeeping is sound. -/
theorem vtest_displaytarget_create_spec (sys : dt_system) (hok : dt_ok sys)
    (width height : Nat) :
    ((vtest_displaytarget_create sys.ws width height).1 = none ↔ sys.live.length = 32) ∧
    ((vtest_displaytarget_create sys.ws width height).1 = none →
      (vtest_displaytarget_create sys.ws width height).2 = sys.ws) ∧
    ∀ dt, (vtest_displaytarget_create sys.ws width height).1 = some dt →
      dt.id < 32 ∧ dt.id ∉ live_ids sys ∧ (∀ j, j < dt.id → j ∈ live_ids sys) ∧
      (vtest_displaytarget_create sys.ws width height).2.sent =
        sys.ws.sent ++ [.dt .VCMD_DT_CMD_CREATE 0 0 width height dt.id 0 0] ∧
      ∀ i, (vtest_displaytarget_create sys.ws width height).2.dt_set.testBit i =
        decide (i ∈ live_ids sys ++ [dt.id]) := by
  obtain ⟨hn, hlt, hbits⟩ := hok
  obtain ⟨-, s2, s3, s4⟩ := dt_scan_spec sys.ws.dt_set 33 0 (by omega) (by omega)
  have hlen : (live_ids sys).length = sys.live.length := by simp [live_ids]
  have hfull := ids_full_iff (live_ids sys) hn hlt
  unfold vtest_displaytarget_create
  simp only []
  by_cases h32 : dt_scan sys.ws.dt_set 33 0 = 32
  · simp only [h32, if_true, true_iff, forall_true_left, reduceCtorEq, false_implies,
      implies_true, and_true]
    rw [← hlen]
    apply hfull.mp
    intro j hj
    have := s3 j (by omega) (by omega)
    rw [hbits j] at this
    simpa using this
  · simp only [h32, if_false, reduceCtorEq, false_iff, false_implies, true_and,
      Option.some.injEq]
    have hr : dt_scan sys.ws.dt_set 33 0 < 32 := by omega
    have hclear := s4 hr
    rw [hbits] at hclear
    have hnot : dt_scan sys.ws.dt_set 33 0 ∉ live_ids sys := by simpa using hclear
    refine ⟨?_, ?_⟩
    · intro hl
      rw [← hlen] at hl
      exact hnot (hfull.mpr hl _ hr)
    · intro dt hdt
      subst hdt
      simp only []
      refine ⟨hr, hnot, ?_, ?_, ?_⟩
      · intro j hj
        have := s3 j (by omega) hj
        rw [hbits j] at this
        simpa using this
      · simp [virgl_vtest_send_dt, send]
      · intro i
        simp only [virgl_vtest_send_dt, send]
        rw [testBit_set_id, hbits i]
        by_cases h1 : i ∈ live_ids sys
        · have := hlt i h1
          simp [h1, this]
        · by_cases h2 : dt_scan sys.ws.dt_set 33 0 = i
          · rw [← h2]; simp [hr, hnot]
          · have h3 : ¬ i = dt_scan sys.ws.dt_set 33 0 := fun e => h2 e.symm
            simp [h1, h2, h3]

theorem dt_ok_step (sys : dt_system) (op : dt_op) (hok : dt_ok sys) : dt_ok (dt_step sys op) := by
  cases op with
  | create width height =>
    obtain ⟨-, -, c3⟩ := vtest_displaytarget_create_spec sys hok width height
    obtain ⟨hn, hlt, hbits⟩ := hok
    simp only [dt_step]
    cases hc : vtest_displaytarget_create sys.ws width height with
    | mk r s =>
      cases r with
      | none =>
        have hs : s = sys.ws := by
          obtain ⟨-, c2, -⟩ := vtest_displaytarget_create_spec sys ⟨hn, hlt, hbits⟩ width height
          rw [hc] at c2
          exact c2 rfl
        simp only [hs]
        exact ⟨hn, hlt, hbits⟩
      | some dt =>
        rw [hc] at c3
        obtain ⟨d1, d2, -, -, d5⟩ := c3 dt rfl
        simp only at d5 ⊢
        have hids : live_ids ({ ws := s, live := sys.live ++ [dt] } : dt_system) =
            live_ids sys ++ [dt.id] := by simp [live_ids]
        refine ⟨?_, ?_, ?_⟩
        · rw [hids]
          exact List.nodup_append.mpr
            ⟨hn, List.nodup_singleton _, List.disjoint_singleton.mpr d2⟩
        · intro i hi
          rw [hids] at hi
          simp only [List.mem_append, List.mem_singleton] at hi
          rcases hi with hi | hi
          · exact hlt i hi
          · rw [hi]; exact d1
        · intro i
          rw [d5 i, hids]
  | destroy dt =>
    obtain ⟨hn, hlt, hbits⟩ := hok
    simp only [dt_step]
    by_cases hm : dt ∈ sys.live
    · simp only [hm, if_true]
      have hids : live_ids (⟨vtest_displaytarget_destroy sys.ws dt, sys.live.erase dt⟩ :
          dt_system) = (live_ids sys).erase dt.id := by
        simp only [live_ids]
        rw [List.map_erase]
        intro a b h
        cases a; cases b; simp_all
      have hmem : ∀ i, i ∈ (live_ids sys).erase dt.id ↔ i ≠ dt.id ∧ i ∈ live_ids sys :=
        fun i => hn.mem_erase_iff
      refine ⟨?_, ?_, ?_⟩
      · rw [hids]; exact hn.erase _
      · intro i hi
        rw [hids] at hi
        exact hlt i ((hmem i).mp hi).2
      · intro i
        rw [hids]
        simp only [vtest_displaytarget_destroy, virgl_vtest_send_dt, send]
        rw [testBit_clear_id, hbits i]
        by_cases h1 : i ∈ live_ids sys
        · have := hlt i h1
          by_cases h2 : i = dt.id
          · simp [hmem, h1, h2]
          · have h3 : ¬ dt.id = i := fun e => h2 e.symm
            simp [hmem, h1, h2, h3, this]
        · simp [hmem, h1]
    · simp only [hm, if_false]
      exact ⟨hn, hlt, hbits⟩

theorem dt_ok_run (ops : List dt_op) (sys : dt_system) (hok : dt_ok sys) :
    dt_ok (dt_run sys ops) := by
  induction ops generalizing sys with
  | nil => exact hok
  | cons op rest ih => exact ih (dt_step sys op) (dt_ok_step sys op hok)

/-- C22: start from a winsys with `dt_set = 0` and no display target, and apply
any sequence of `vtest_displaytarget_create` calls and `vtest_displaytarget_destroy`
calls on live display targets.  In the state reached, the live display targets
have pairwise distinct ids below 32 and `dt_set` has exactly the bits of the
live ids set.  A further create returns NULL if and only if 32 display targets
are live, and then it writes nothing and leaves the winsys as it is; otherwise
the new display target gets the lowest id whose bit is clear, and a display-target
create command carrying that id is written. -/
theorem displaytarget_ids_follow_dt_set (s0 : virgl_vtest_winsys) (h0 : s0.dt_set = 0)
    (ops : List dt_op) :
    (live_ids (dt_run { ws := s0, live := [] } ops)).Nodup ∧
    (∀ i ∈ live_ids (dt_run { ws := s0, live := [] } ops), i < 32) ∧
    (∀ i, (dt_run { ws := s0, live := [] } ops).ws.dt_set.testBit i =
      decide (i ∈ live_ids (dt_run { ws := s0, live := [] } ops))) ∧
    ∀ width height,
      ((vtest_displaytarget_create (dt_run { ws := s0, live := [] } ops).ws width height).1 =
          none ↔ (dt_run { ws := s0, live := [] } ops).live.length = 32) ∧
      ((vtest_displaytarget_create (dt_run { ws := s0, live := [] } ops).ws width height).1 =
          none →
        (vtest_displaytarget_create (dt_run { ws := s0, live := [] } ops).ws width height).2 =
          (dt_run { ws := s0, live := [] } ops).ws) ∧
      ∀ dt,
        (vtest_displaytarget_create (dt_run { ws := s0, live := [] } ops).ws width height).1 =
          some dt →
        dt.id < 32 ∧ dt.id ∉ live_ids (dt_run { ws := s0, live := [] } ops) ∧
        (∀ j, j < dt.id → j ∈ live_ids (dt_run { ws := s0, live := [] } ops)) ∧
        (vtest_displaytarget_create (dt_run { ws := s0, live := [] } ops).ws width
            height).2.sent =
          (dt_run { ws := s0, live := [] } ops).ws.sent ++
            [.dt .VCMD_DT_CMD_CREATE 0 0 width height dt.id 0 0] := by
  have hstart : dt_ok { ws := s0, live := [] } := by
    refine ⟨List.nodup_nil, fun i hi => by simp [live_ids] at hi, ?_⟩
    intro i
    simp [live_ids, h0]
  have hok := dt_ok_run ops _ hstart
  refine ⟨hok.1, hok.2.1, hok.2.2, ?_⟩
  intro width height
  obtain ⟨c1, c2, c3⟩ := vtest_displaytarget_create_spec _ hok width height
  refine ⟨c1, c2, ?_⟩
  intro dt hdt
  obtain ⟨d1, d2, d3, d4, -⟩ := c3 dt hdt
  exact ⟨d1, d2, d3, d4⟩

/-- Witness for C22: in `create_destroy_create_dt` the live ids are 1 and 0,
`dt_set` is 3, and the next create gets id 2. -/
theorem displaytarget_ids_follow_dt_set_witness :
    (virgl_vtest_winsys_wrap (fun _ => 0) (fun _ _ => 0)).dt_set = 0 ∧
    ((live_ids create_destroy_create_dt).Nodup ∧
      (∀ i ∈ live_ids create_destroy_create_dt, i < 32)) ∧
    live_ids create_destroy_create_dt = [1, 0] ∧
    create_destroy_create_dt.ws.dt_set = 3 ∧
    (vtest_displaytarget_create create_destroy_create_dt.ws 16 16).1 = some { id := 2 } ∧
    create_destroy_create_dt.ws.sent =
      [.dt .VCMD_DT_CMD_CREATE 0 0 4 4 0 0 0, .dt .VCMD_DT_CMD_CREATE 0 0 8 8 1 0 0,
       .dt .VCMD_DT_CMD_DESTROY 0 0 0 0 0 0 0, .dt .VCMD_DT_CMD_CREATE 0 0 2 2 0 0 0] :=
  have h := displaytarget_ids_follow_dt_set (virgl_vtest_winsys_wrap (fun _ => 0) (fun _ _ => 0))
    rfl [.create 4 4, .create 8 8, .destroy { id := 0 }, .create 2 2]
  ⟨rfl, ⟨h.1, h.2.1⟩, by decide, by decide, by decide, by decide⟩

/-! ### Capability negotiation -/

theorem written_before_succ (results : Nat → write_result) (k : Nat) :
    written_before results (k + 1) = written_before results k + written results k := by
  simp [written_before, List.range_succ]

theorem resumed_calls_succ (results : Nat → write_result) (size k : Nat) :
    resumed_calls results size (k + 1) =
      resumed_calls results size k ++
        [(written_before results k, (size : Int) - written_before results k)] := by
  simp [resumed_calls, List.range_succ]

/-- The loop of `virgl_block_write`, started after `k` successful calls. -/
theorem virgl_block_write_loop_sound (results : Nat → write_result) (size : Nat) (fuel k : Nat)
    (hk : ∀ j, j < k → ∃ n, results j = .wrote n)
    (ret : Int) (log : List (Nat × Int))
    (h : virgl_block_write_loop results size fuel k (written_before results k)
      ((size : Int) - written_before results k) (resumed_calls results size k) = some (ret, log)) :
    ∃ m, k ≤ m ∧ log = resumed_calls results size (m + 1) ∧
      (∀ j, j < m → ∃ n, results j = .wrote n) ∧
      ((∃ n, results m = .wrote n ∧ written_before results (m + 1) = size ∧ ret = size) ∨
        (∃ e, results m = .failed e ∧ ret = -(e : Int))) := by
  induction fuel generalizing k with
  | zero => simp [virgl_block_write_loop] at h
  | succ f ih =>
    unfold virgl_block_write_loop at h
    cases hr : results k with
    | failed e =>
      simp only [hr, Option.some.injEq, Prod.mk.injEq] at h
      obtain ⟨h1, h2⟩ := h
      exact ⟨k, le_refl _, by rw [resumed_calls_succ]; exact h2.symm, hk,
        Or.inr ⟨e, hr, h1.symm⟩⟩
    | wrote n =>
      simp only [hr] at h
      have hw : written results k = n := by simp [written, hr]
      by_cases hl : (size : Int) - written_before results k - (n : Int) ≠ 0
      · rw [if_pos hl] at h
        have hk' : ∀ j, j < k + 1 → ∃ n, results j = .wrote n := by
          intro j hj
          by_cases hjk : j = k
          · rw [hjk]; exact ⟨n, hr⟩
          · exact hk j (by omega)
        have h' : virgl_block_write_loop results size f (k + 1) (written_before results (k + 1))
            ((size : Int) - written_before results (k + 1))
            (resumed_calls results size (k + 1)) = some (ret, log) := by
          rw [written_before_succ, resumed_calls_succ, hw]
          rw [show ((size : Int) - ((written_before results k + n : Nat) : Int)) =
            (size : Int) - written_before results k - (n : Int) by push_cast; ring]
          exact h
        obtain ⟨m, m1, m2, m3, m4⟩ := ih (k + 1) hk' h'
        exact ⟨m, by omega, m2, m3, m4⟩
      · rw [if_neg hl] at h
        simp only [Option.some.injEq, Prod.mk.injEq] at h
        obtain ⟨h1, h2⟩ := h
        refine ⟨k, le_refl _, by rw [resumed_calls_succ]; exact h2.symm, hk,
          Or.inl ⟨n, hr, ?_, h1.symm⟩⟩
        rw [written_before_succ, hw]
        have : (size : Int) - written_before results k - (n : Int) = 0 := by
          by_contra hne; exact hl hne
        omega

theorem virgl_block_write_loop_mono (results : Nat → write_result) (size : Nat)
    (fuel fuel' k ptr : Nat) (left : Int) (log : List (Nat × Int))
    (r : Int × List (Nat × Int))
    (h : virgl_block_write_loop results size fuel k ptr left log = some r) (hle : fuel ≤ fuel') :
    virgl_block_write_loop results size fuel' k ptr left log = some r := by
  induction fuel generalizing fuel' k ptr left log with
  | zero => simp [virgl_block_write_loop] at h
  | succ f ih =>
    obtain ⟨g, rfl⟩ : ∃ g, fuel' = g + 1 := ⟨fuel' - 1, by omega⟩
    unfold virgl_block_write_loop at h ⊢
    cases hr : results k with
    | failed e => simpa [hr] using h
    | wrote n =>
      simp only [hr] at h ⊢
      split
      · rename_i hl
        rw [if_pos hl] at h
        exact ih g _ _ _ _ h (by omega)
      · rename_i hl
        rw [if_neg hl] at h
        exact h

theorem virgl_block_write_loop_returns (results : Nat → write_result) (size : Nat) (m : Nat)
    (hstop : (∃ e, results m = .failed e) ∨ written_before results (m + 1) = size)
    (fuel k : Nat) (hkm : k ≤ m) (hf : m - k < fuel) (ptr : Nat) (log : List (Nat × Int)) :
    ∃ r, virgl_block_write_loop results size fuel k ptr
      ((size : Int) - written_before results k) log = some r := by
  induction fuel generalizing k ptr log with
  | zero => omega
  | succ f ih =>
    unfold virgl_block_write_loop
    cases hr : results k with
    | failed e => exact ⟨_, rfl⟩
    | wrote n =>
      simp only []
      have hw : written results k = n := by simp [written, hr]
      by_cases hl : (size : Int) - written_before results k - (n : Int) ≠ 0
      · rw [if_pos hl]
        have hlt : k < m := by
          by_contra hge
          have hkm' : k = m := by omega
          rw [hkm'] at hr hl hw
          rcases hstop with ⟨e, he⟩ | hs
          · rw [he] at hr; cases hr
          · rw [written_before_succ, hw] at hs
            apply hl
            omega
        have := ih (k + 1) (by omega) (by omega) (ptr + n)
          (log ++ [(ptr, (size : Int) - written_before results k)])
        rw [written_before_succ, hw] at this
        rw [show ((size : Int) - ((written_before results k + n : Nat) : Int)) =
          (size : Int) - written_before results k - (n : Int) by push_cast; ring] at this
        exact this
      · rw [if_neg hl]
        exact ⟨_, rfl⟩

/-- C24 (as stated, refuted): the first `write` of a 16-byte buffer is
interrupted (`EINTR`); `virgl_block_write` returns `-EINTR` after that single
call and does not call `write` again, although the next call would have taken
all 16 bytes. -/
theorem virgl_block_write_reports_interruption :
    virgl_block_write interrupted_once 16 8 = some (-(EINTR : Int), [(0, 16)]) ∧
    interrupted_once 0 = .failed EINTR ∧ interrupted_once 1 = .wrote 16 := by
  decide

/-- C24 (amended): for every buffer size `n` and every sequence of results of
the underlying `write` call, `virgl_block_write` (socket backend) issues each
`write` at the first unsent byte with the remaining count, so no byte is skipped
or sent twice.  It returns `n` only after the partial writes it issued sum to
exactly `n` bytes, and it returns `-errno` as soon as one `write` fails,
whatever the error (an interruption is not retried).  It does return: if some
`write` fails or the bytes written reach `n`, the result exists from some number
of rounds on and no longer depends on the bound. -/
theorem virgl_block_write_resumes (results : Nat → write_result) (size : Nat) :
    (∀ fuel ret log, virgl_block_write results size fuel = some (ret, log) →
      ∃ m, log = resumed_calls results size (m + 1) ∧
        (∀ j, j < m → ∃ n, results j = .wrote n) ∧
        ((∃ n, results m = .wrote n ∧ written_before results (m + 1) = size ∧
            ret = (size : Int)) ∨
          (∃ e, results m = .failed e ∧ ret = -(e : Int)))) ∧
    (∀ m, ((∃ e, results m = .failed e) ∨ written_before results (m + 1) = size) →
      ∀ fuel, m < fuel →
        ∃ r, ∀ fuel', fuel ≤ fuel' → virgl_block_write results size fuel' = some r) := by
  refine ⟨?_, ?_⟩
  · intro fuel ret log h
    have h0 : written_before results 0 = 0 := rfl
    have h1 : resumed_calls results size 0 = [] := rfl
    unfold virgl_block_write at h
    obtain ⟨m, -, m2, m3, m4⟩ := virgl_block_write_loop_sound results size fuel 0
      (fun j hj => absurd hj (Nat.not_lt_zero j)) ret log (by rw [h0, h1]; simpa using h)
    exact ⟨m, m2, m3, m4⟩
  · intro m hstop fuel hf
    obtain ⟨r, hr⟩ := virgl_block_write_loop_returns results size m hstop fuel 0 (Nat.zero_le _)
      (by omega) 0 []
    have h0 : written_before results 0 = 0 := rfl
    rw [h0] at hr
    refine ⟨r, fun fuel' hle => ?_⟩
    unfold virgl_block_write
    exact virgl_block_write_loop_mono _ _ _ _ _ _ _ _ _ (by simpa using hr) hle

/-- Witness for C24: a socket that takes 5, 7 and 4 bytes of a 16-byte buffer is
called at offsets 0, 5 and 12 with counts 16, 11 and 4, and the result is 16. -/
theorem virgl_block_write_resumes_witness :
    virgl_block_write three_partial_writes 16 3 = some (16, [(0, 16), (5, 11), (12, 4)]) ∧
    (∃ r, ∀ fuel, 3 ≤ fuel → virgl_block_write three_partial_writes 16 fuel = some r) :=
  ⟨by decide,
    (virgl_block_write_resumes three_partial_writes 16).2 2 (Or.inr (by decide)) 3 (by decide)⟩

/-! ### Receiving transfer data -/

theorem recv_transfer_loop_spec (rx : Nat → Nat) (stride packed : Nat) (hp : packed ≤ stride)
    (n : Nat) (fuel : Nat) (hf : n < fuel) (ptr pos : Nat) (data : Nat → Nat) :
    ∃ out, recv_transfer_loop rx stride packed fuel (n : Int) ptr pos data =
        some (out, pos + n * stride) ∧
      (∀ r j, r < n → j < packed →
        out (ptr + r * stride + j) = rx (pos + r * stride + j)) ∧
      (∀ a, (∀ r j, r < n → j < packed → a ≠ ptr + r * stride + j) → out a = data a) := by
  induction n generalizing fuel ptr pos data with
  | zero =>
    obtain ⟨f, rfl⟩ : ∃ f, fuel = f + 1 := ⟨fuel - 1, by omega⟩
    refine ⟨data, by simp [recv_transfer_loop], ?_, ?_⟩
    · intro r j hr; omega
    · intro a _; rfl
  | succ k ih =>
    obtain ⟨f, rfl⟩ : ∃ f, fuel = f + 1 := ⟨fuel - 1, by omega⟩
    obtain ⟨out, h1, h2, h3⟩ := ih f (by omega) (ptr + stride) (pos + stride)
      (fun a => if ptr ≤ a ∧ a < ptr + packed then
        (fun j => if j < stride then rx (pos + j) else 0) (a - ptr) else data a)
    refine ⟨out, ?_, ?_, ?_⟩
    · unfold recv_transfer_loop
      have hne : ((k + 1 : Nat) : Int) ≠ 0 := by omega
      rw [if_neg hne]
      simp only []
      rw [show ((k + 1 : Nat) : Int) - 1 = (k : Int) by push_cast; ring, h1]
      congr 2
      ring
    · intro r j hr hj
      cases r with
      | zero =>
        have hout := h3 (ptr + 0 * stride + j) (by
          intro r' j' _ hj'
          have : r' * stride + stride = (r' + 1) * stride := by ring
          have : 0 ≤ r' * stride := Nat.zero_le _
          omega)
        rw [hout]
        have c1 : ptr ≤ ptr + 0 * stride + j ∧ ptr + 0 * stride + j < ptr + packed := by omega
        have c2 : ptr + 0 * stride + j - ptr < stride := by omega
        simp only [c1, and_self, if_true, c2]
        congr 1
        omega
      | succ r' =>
        have := h2 r' j (by omega) hj
        have e1 : ptr + (r' + 1) * stride + j = ptr + stride + r' * stride + j := by ring
        have e2 : pos + (r' + 1) * stride + j = pos + stride + r' * stride + j := by ring
        rw [e1, e2]
        exact this
    · intro a ha
      have hout := h3 a (by
        intro r j hr hj
        have := ha (r + 1) j (by omega) hj
        have e1 : ptr + (r + 1) * stride + j = ptr + stride + r * stride + j := by ring
        rw [e1] at this
        exact this)
      rw [hout]
      have c1 : ¬ (ptr ≤ a ∧ a < ptr + packed) := by
        intro hc
        exact ha 0 (a - ptr) (by omega) (by omega) (by omega)
      simp only [c1, if_false]

theorem recv_transfer_loop_mono (rx : Nat → Nat) (stride packed : Nat) (fuel fuel' : Nat)
    (hblocks : Int) (ptr pos : Nat) (data : Nat → Nat) (r : (Nat → Nat) × Nat)
    (h : recv_transfer_loop rx stride packed fuel hblocks ptr pos data = some r)
    (hle : fuel ≤ fuel') :
    recv_transfer_loop rx stride packed fuel' hblocks ptr pos data = some r := by
  induction fuel generalizing fuel' hblocks ptr pos data with
  | zero => simp [recv_transfer_loop] at h
  | succ f ih =>
    obtain ⟨g, rfl⟩ : ∃ g, fuel' = g + 1 := ⟨fuel' - 1, by omega⟩
    unfold recv_transfer_loop at h ⊢
    split
    · rename_i hz
      rw [if_pos hz] at h
      exact h
    · rename_i hz
      rw [if_neg hz] at h
      exact ih g _ _ _ _ h (by omega)

theorem to_int32_of_lt (w : Nat) (h : w < 2147483648) : to_int32 w = (w : Int) := by
  unfold to_int32
  have : w % 4294967296 = w := Nat.mod_eq_of_lt (by omega)
  rw [this, if_pos h]

/-- C25: for every format, box and `stride` (a 32-bit value) with
`util_format_get_stride(format, box.width) ≤ stride`, and a number of block rows
`util_format_get_nblocksy(format, box.height)` that fits an `int`,
`virgl_vtest_recv_transfer_get_data` reads that many chunks of `stride` bytes
from the transport.  For each row `r` the first
`util_format_get_stride(format, box.width)` bytes of chunk `r` end up at
destination offset `r * stride`, and every other destination byte (the padding
of each row and everything past the last row) is as before. -/
theorem recv_transfer_get_data_copies_rows (fmt : util_format) (rx : Nat → Nat) (pos : Nat)
    (data : Nat → Nat) (data_size stride : Nat) (box : pipe_box) (format : Nat)
    (hstride : stride < 4294967296)
    (hp : fmt.util_format_get_stride format (to_uint32 box.width) ≤ stride)
    (hrows : fmt.util_format_get_nblocksy format (to_uint32 box.height) < 2147483648) :
    ∃ out,
      (∀ fuel, fmt.util_format_get_nblocksy format (to_uint32 box.height) < fuel →
        virgl_vtest_recv_transfer_get_data fmt rx pos data data_size stride box format fuel =
          some (out,
            pos + fmt.util_format_get_nblocksy format (to_uint32 box.height) * stride)) ∧
      (∀ r j, r < fmt.util_format_get_nblocksy format (to_uint32 box.height) →
        j < fmt.util_format_get_stride format (to_uint32 box.width) →
        out (r * stride + j) = rx (pos + r * stride + j)) ∧
      (∀ a, (∀ r j, r < fmt.util_format_get_nblocksy format (to_uint32 box.height) →
          j < fmt.util_format_get_stride format (to_uint32 box.width) → a ≠ r * stride + j) →
        out a = data a) := by
  have hpk : fmt.util_format_get_stride format (to_uint32 box.width) % 4294967296 =
      fmt.util_format_get_stride format (to_uint32 box.width) := Nat.mod_eq_of_lt (by omega)
  obtain ⟨out, h1, h2, h3⟩ := recv_transfer_loop_spec rx stride
    (fmt.util_format_get_stride format (to_uint32 box.width)) hp
    (fmt.util_format_get_nblocksy format (to_uint32 box.height))
    (fmt.util_format_get_nblocksy format (to_uint32 box.height) + 1) (by omega) 0 pos data
  refine ⟨out, ?_, ?_, ?_⟩
  · intro fuel hf
    unfold virgl_vtest_recv_transfer_get_data
    simp only [hpk, to_int32_of_lt _ hrows]
    exact recv_transfer_loop_mono _ _ _ _ _ _ _ _ _ _ h1 (by omega)
  · intro r j hr hj
    have := h2 r j hr hj
    simpa using this
  · intro a ha
    apply h3
    intro r j hr hj
    have := ha r j hr hj
    simpa using this

/-- Witness for C25: two rows of two 4-byte pixels received with a stride of 12
into a zeroed destination: bytes 0..7 and 12..19 of the stream land at the same
offsets, the padding bytes 8..11 and 20..23 and everything after stay 0, and 24
bytes are consumed. -/
theorem recv_transfer_get_data_copies_rows_witness :
    (∃ out,
      (∀ fuel, four_byte_pixels.util_format_get_nblocksy 1 (to_uint32 two_by_two.height) < fuel →
        virgl_vtest_recv_transfer_get_data four_byte_pixels counting_stream 0 (fun _ => 0) 24 12
            two_by_two 1 fuel =
          some (out,
            0 + four_byte_pixels.util_format_get_nblocksy 1 (to_uint32 two_by_two.height) * 12)) ∧
      (∀ r j, r < four_byte_pixels.util_format_get_nblocksy 1 (to_uint32 two_by_two.height) →
        j < four_byte_pixels.util_format_get_stride 1 (to_uint32 two_by_two.width) →
        out (r * 12 + j) = counting_stream (0 + r * 12 + j)) ∧
      (∀ a, (∀ r j,
          r < four_byte_pixels.util_format_get_nblocksy 1 (to_uint32 two_by_two.height) →
          j < four_byte_pixels.util_format_get_stride 1 (to_uint32 two_by_two.width) →
          a ≠ r * 12 + j) →
        out a = (fun _ => 0) a)) ∧
    (virgl_vtest_recv_transfer_get_data four_byte_pixels counting_stream 0 (fun _ => 0) 24 12
        two_by_two 1 3).map
      (fun r => ((List.range 26).map r.1, r.2)) =
      some ([100, 101, 102, 103, 104, 105, 106, 107, 0, 0, 0, 0,
             112, 113, 114, 115, 116, 117, 118, 119, 0, 0, 0, 0, 0, 0], 24) :=
  ⟨recv_transfer_get_data_copies_rows four_byte_pixels counting_stream 0 (fun _ => 0) 24 12
      two_by_two 1 (by decide) (by decide) (by decide),
    by decide⟩

/-! ### What a scan of the pool does -/

theorem busy_polls_append (a b : List vtest_msg) :
    busy_polls (a ++ b) = busy_polls a ++ busy_polls b := by
  simp [busy_polls, List.filterMap_append]

theorem busy_polls_destroy_msgs (r : virgl_hw_res) : busy_polls (destroy_msgs r) = [] := by
  unfold busy_polls destroy_msgs
  cases r.dt <;> rfl

theorem scan_effect_refl (s : virgl_vtest_winsys) : scan_effect s s [] [] :=
  ⟨scan_frame_refl s, by simp, by simp, by simp⟩

theorem scan_effect_trans {a b c : virgl_vtest_winsys} {g1 g2 p1 p2 : List Nat}
    (h1 : scan_effect a b g1 p1) (h2 : scan_effect b c g2 p2) :
    scan_effect a c (g1 ++ g2) (p1 ++ p2) := by
  obtain ⟨f1, u1, b1, n1⟩ := h1
  obtain ⟨f2, u2, b2, n2⟩ := h2
  have hm : b.mem = a.mem := f1.1
  refine ⟨scan_frame_trans f1 f2, ?_, ?_, ?_⟩
  · rw [u2, u1, hm]; simp
  · rw [b2, b1, hm]; simp
  · rw [n2, n1]; simp; omega

theorem scan_effect_destroy (s : virgl_vtest_winsys) (c : Nat) :
    scan_effect s (virgl_hw_res_destroy { s with delayed := LIST_DEL c s.delayed } c) [c] [] := by
  refine ⟨scan_frame_destroy s c, ?_, ?_, ?_⟩
  · simp [virgl_hw_res_destroy_eq, unref_handles_append, unref_handles_destroy_msgs]
  · simp [virgl_hw_res_destroy_eq, busy_polls_append, busy_polls_destroy_msgs]
  · simp [virgl_hw_res_destroy_eq]

theorem scan_effect_after_poll (s : virgl_vtest_winsys) (c : Nat) :
    scan_effect s (after_poll s c) [] [c] := by
  refine ⟨scan_frame_after_poll s c, ?_, ?_, ?_⟩
  · simp [after_poll, send, unref_handles_append, unref_handles]
  · simp [after_poll, send, busy_polls_append, busy_polls]
  · simp [after_poll, send]

theorem pool_perm_trans {a b c g1 g2 : List Nat} (d1 : (b ++ g1).Perm a)
    (d2 : (c ++ g2).Perm b) : (c ++ (g1 ++ g2)).Perm a := by
  have e1 : (c ++ (g1 ++ g2)).Perm ((c ++ g2) ++ g1) := by
    rw [List.append_assoc]
    exact List.Perm.append_left _ List.perm_append_comm
  exact e1.trans ((List.Perm.append_right g1 d2).trans d1)

theorem pool_perm_destroy (s : virgl_vtest_winsys) (c : Nat) (hc : c ∈ s.delayed) :
    ((virgl_hw_res_destroy { s with delayed := LIST_DEL c s.delayed } c).delayed ++ [c]).Perm
      s.delayed := by
  simp only [virgl_hw_res_destroy_eq, LIST_DEL]
  exact (List.perm_append_comm.trans (List.perm_cons_erase hc).symm)

theorem mem_of_scan_frame {s s' : virgl_vtest_winsys} (h : scan_frame s s') : s'.mem = s.mem :=
  h.1

theorem next_busy_reply_of_effect {s s' : virgl_vtest_winsys} {gone : List Nat}
    (h : scan_effect s s' gone []) (e : Nat) : next_busy_reply s' e = next_busy_reply s e := by
  obtain ⟨f, -, -, n⟩ := h
  unfold next_busy_reply
  rw [f.1, f.2.2.2.1, n]
  simp
/-- The first loop of the lookup, entry by entry: which entries it destroys and
which single entry it may poll. -/
theorem loop1_effect (now : Int) (size bind format : Nat) (res : Option Nat) (ret : Int)
    (l : List Nat) (s : virgl_vtest_winsys) :
    ∃ gone polled pre,
      scan_effect s (cache_create_loop1 now size bind format res ret l s).ws gone polled ∧
      (∀ g ∈ gone, g ∈ l ∧ expired s.mem now g = true) ∧
      (res.isSome → polled = [] ∧
        (cache_create_loop1 now size bind format res ret l s).res = res ∧
        (cache_create_loop1 now size bind format res ret l s).ret = ret) ∧
      (res = none →
        (polled = [] ∧ (cache_create_loop1 now size bind format res ret l s).res = none ∧
          ((cache_create_loop1 now size bind format res ret l s).ret = ret ∨
            (cache_create_loop1 now size bind format res ret l s).ret = 0)) ∨
        ∃ e, polled = [e] ∧ e ∈ l ∧ res_matches (s.mem e) size bind format = true ∧
          ((to_int32 (next_busy_reply s e) = 1 ∧
              (cache_create_loop1 now size bind format res ret l s).res = none ∧
              (cache_create_loop1 now size bind format res ret l s).ret = -1) ∨
            (to_int32 (next_busy_reply s e) ≠ 1 ∧
              (cache_create_loop1 now size bind format res ret l s).res = some e ∧
              (cache_create_loop1 now size bind format res ret l s).ret = 1 ∧
              (l.Nodup → e ∉ gone)))) ∧
      ((cache_create_loop1 now size bind format res ret l s).ret ≠ -1 →
        l = pre ++ (cache_create_loop1 now size bind format res ret l s).curr ∧
        ∀ g ∈ gone, g ∈ pre) ∧
      (l.Nodup → (∀ c ∈ l, c ∈ s.delayed) →
        ((cache_create_loop1 now size bind format res ret l s).ws.delayed ++ gone).Perm
          s.delayed) := by
  induction l generalizing res ret s with
  | nil =>
    refine ⟨[], [], [], ?_, ?_, ?_, ?_, ?_, ?_⟩
    · simp only [cache_create_loop1]; exact scan_effect_refl s
    · intro g hg; simp at hg
    · intro _; simp [cache_create_loop1]
    · intro hr; left; simp [cache_create_loop1, hr]
    · intro _; simp [cache_create_loop1]
    · intro _ _; simp [cache_create_loop1]
  | cons c rest ih =>
    -- the state after destroying `c`, and what carries over to it
    have hdes := scan_effect_destroy s c
    have hl_des : (c :: rest).Nodup → (∀ c' ∈ c :: rest, c' ∈ s.delayed) →
        ∀ c' ∈ rest, c' ∈
          (virgl_hw_res_destroy { s with delayed := LIST_DEL c s.delayed } c).delayed := by
      intro hn hl c' hc'
      simp only [virgl_hw_res_destroy_eq, LIST_DEL]
      have hne : c' ≠ c := fun e => (List.nodup_cons.mp hn).1 (e ▸ hc')
      exact (List.mem_erase_of_ne hne).mpr (hl c' (List.mem_cons_of_mem _ hc'))
    cases res with
    | some r =>
      rw [loop1_chosen_step]
      by_cases hx : expired s.mem now c = true
      · by_cases hr : ret = -1
        · simp only [hx, hr, if_true]
          refine ⟨[c], [], [], hdes, ?_, ?_, ?_, ?_, ?_⟩
          · intro g hg
            rw [List.mem_singleton.mp hg]
            exact ⟨List.mem_cons_self _ _, hx⟩
          · intro _; simp
          · intro h; cases h
          · intro h; exact absurd rfl h
          · intro _ hl
            exact pool_perm_destroy s c (hl c (List.mem_cons_self _ _))
        · simp only [hx, hr, if_true, if_false]
          obtain ⟨g', p', pre', e1, e2, e3, -, e5, e6⟩ := ih (some r) ret
            (virgl_hw_res_destroy { s with delayed := LIST_DEL c s.delayed } c)
          have hm := mem_of_scan_frame hdes.1
          obtain ⟨q1, q2, q3⟩ := e3 rfl
          refine ⟨[c] ++ g', [] ++ p', c :: pre', scan_effect_trans hdes e1, ?_, ?_, ?_, ?_, ?_⟩
          · intro g hg
            rcases List.mem_append.mp hg with hg | hg
            · rw [List.mem_singleton.mp hg]
              exact ⟨List.mem_cons_self _ _, hx⟩
            · obtain ⟨a, b⟩ := e2 g hg
              rw [hm] at b
              exact ⟨List.mem_cons_of_mem _ a, b⟩
          · intro _
            exact ⟨by simp [q1], q2, q3⟩
          · intro h; cases h
          · intro hne
            obtain ⟨a, b⟩ := e5 hne
            refine ⟨by rw [List.cons_append, ← a], ?_⟩
            intro g hg
            rcases List.mem_append.mp hg with hg | hg
            · rw [List.mem_singleton.mp hg]; exact List.mem_cons_self _ _
            · exact List.mem_cons_of_mem _ (b g hg)
          · intro hn hl
            exact pool_perm_trans (pool_perm_destroy s c (hl c (List.mem_cons_self _ _)))
              (e6 (List.nodup_cons.mp hn).2 (hl_des hn hl))
      · simp only [hx, if_false, Bool.false_eq_true]
        refine ⟨[], [], [], scan_effect_refl s, ?_, ?_, ?_, ?_, ?_⟩
        · intro g hg; simp at hg
        · intro _; simp
        · intro h; cases h
        · intro _; simp
        · intro _ _; simp
    | none =>
      by_cases hm : res_matches (s.mem c) size bind format = true
      · by_cases hb : to_int32 (next_busy_reply s c) = 1
        · rw [loop1_busy now size bind format ret c rest s hm hb]
          simp only []
          by_cases hx : expired s.mem now c = true
          · simp only [hx, if_true]
            have hpoll := scan_effect_after_poll s c
            have hdes2 := scan_effect_destroy (after_poll s c) c
            refine ⟨[] ++ [c], [c] ++ [], [], scan_effect_trans hpoll hdes2, ?_, ?_, ?_, ?_, ?_⟩
            · intro g hg
              simp only [List.nil_append, List.mem_singleton] at hg
              rw [hg]
              exact ⟨List.mem_cons_self _ _, hx⟩
            · intro h; cases h
            · intro _
              right
              exact ⟨c, by simp, List.mem_cons_self _ _, hm, Or.inl ⟨hb, trivial, trivial⟩⟩
            · intro h; exact absurd rfl h
            · intro _ hl
              have := pool_perm_destroy (after_poll s c) c
                (by simpa [after_poll, send] using hl c (List.mem_cons_self _ _))
              simpa [after_poll, send] using this
          · simp only [hx, if_false, Bool.false_eq_true]
            refine ⟨[], [c], [], scan_effect_after_poll s c, ?_, ?_, ?_, ?_, ?_⟩
            · intro g hg; simp at hg
            · intro h; cases h
            · intro _
              right
              exact ⟨c, rfl, List.mem_cons_self _ _, hm, Or.inl ⟨hb, trivial, trivial⟩⟩
            · intro h; exact absurd rfl h
            · intro _ _; simp [after_poll, send]
        · rw [loop1_pick now size bind format ret c rest s hm hb]
          have hpoll := scan_effect_after_poll s c
          obtain ⟨g', p', pre', e1, e2, e3, -, e5, e6⟩ := ih (some c) 1 (after_poll s c)
          obtain ⟨q1, q2, q3⟩ := e3 rfl
          subst q1
          refine ⟨[] ++ g', [c] ++ [], c :: pre', scan_effect_trans hpoll e1, ?_, ?_, ?_, ?_, ?_⟩
          · intro g hg
            simp only [List.nil_append] at hg
            obtain ⟨a, b⟩ := e2 g hg
            exact ⟨List.mem_cons_of_mem _ a, by simpa [after_poll, send] using b⟩
          · intro h; cases h
          · intro _
            right
            refine ⟨c, by simp, List.mem_cons_self _ _, hm, Or.inr ⟨hb, q2, q3, ?_⟩⟩
            intro hn hg
            simp only [List.nil_append] at hg
            exact (List.nodup_cons.mp hn).1 (e2 c hg).1
          · intro hne
            obtain ⟨a, b⟩ := e5 hne
            refine ⟨by rw [List.cons_append, ← a], ?_⟩
            intro g hg
            simp only [List.nil_append] at hg
            exact List.mem_cons_of_mem _ (b g hg)
          · intro hn hl
            have := e6 (List.nodup_cons.mp hn).2 (fun c' hc' => by
              simpa [after_poll, send] using hl c' (List.mem_cons_of_mem _ hc'))
            simpa [after_poll, send] using this
      · have hm' : res_matches (s.mem c) size bind format = false := by simpa using hm
        by_cases hx : expired s.mem now c = true
        · rw [loop1_skip_expired now size bind format ret c rest s hm' hx]
          obtain ⟨g', p', pre', e1, e2, -, e4, e5, e6⟩ := ih none 0
            (virgl_hw_res_destroy { s with delayed := LIST_DEL c s.delayed } c)
          have hmm := mem_of_scan_frame hdes.1
          refine ⟨[c] ++ g', [] ++ p', c :: pre', scan_effect_trans hdes e1, ?_, ?_, ?_, ?_, ?_⟩
          · intro g hg
            rcases List.mem_append.mp hg with hg | hg
            · rw [List.mem_singleton.mp hg]
              exact ⟨List.mem_cons_self _ _, hx⟩
            · obtain ⟨a, b⟩ := e2 g hg
              rw [hmm] at b
              exact ⟨List.mem_cons_of_mem _ a, b⟩
          · intro h; cases h
          · intro _
            rcases e4 rfl with ⟨a1, a2, a3⟩ | ⟨e, a1, a2, a3, a4⟩
            · left
              refine ⟨by simp [a1], a2, Or.inr ?_⟩
              rcases a3 with h | h <;> exact h
            · right
              rw [hmm] at a3
              rw [next_busy_reply_of_effect hdes e] at a4
              refine ⟨e, by simp [a1], List.mem_cons_of_mem _ a2, a3, ?_⟩
              rcases a4 with ⟨b1, b2, b3⟩ | ⟨b1, b2, b3, b4⟩
              · exact Or.inl ⟨b1, b2, b3⟩
              · refine Or.inr ⟨b1, b2, b3, ?_⟩
                intro hn hg
                rcases List.mem_append.mp hg with hg | hg
                · rw [List.mem_singleton.mp hg] at a2
                  exact (List.nodup_cons.mp hn).1 a2
                · exact b4 (List.nodup_cons.mp hn).2 hg
          · intro hne
            obtain ⟨a, b⟩ := e5 hne
            refine ⟨by rw [List.cons_append, ← a], ?_⟩
            intro g hg
            rcases List.mem_append.mp hg with hg | hg
            · rw [List.mem_singleton.mp hg]; exact List.mem_cons_self _ _
            · exact List.mem_cons_of_mem _ (b g hg)
          · intro hn hl
            exact pool_perm_trans (pool_perm_destroy s c (hl c (List.mem_cons_self _ _)))
              (e6 (List.nodup_cons.mp hn).2 (hl_des hn hl))
        · have hx' : expired s.mem now c = false := by simpa using hx
          rw [loop1_stop now size bind format ret c rest s hm' hx']
          refine ⟨[], [], [], scan_effect_refl s, ?_, ?_, ?_, ?_, ?_⟩
          · intro g hg; simp at hg
          · intro h; cases h
          · intro _; left; exact ⟨rfl, rfl, Or.inr rfl⟩
          · intro _; simp
          · intro _ _; simp

/-- The second loop of the lookup destroys nothing and polls at most the first
matching entry it meets. -/
theorem loop2_effect (size bind format : Nat) (ret : Int) (l : List Nat)
    (s : virgl_vtest_winsys) :
    ∃ polled, scan_effect s (cache_create_loop2 size bind format ret l s).ws [] polled ∧
      (cache_create_loop2 size bind format ret l s).ws.delayed = s.delayed ∧
      ((polled = [] ∧ (cache_create_loop2 size bind format ret l s).res = none) ∨
        ∃ e, polled = [e] ∧ e ∈ l ∧ res_matches (s.mem e) size bind format = true ∧
          ((to_int32 (next_busy_reply s e) = 1 ∧
              (cache_create_loop2 size bind format ret l s).res = none) ∨
            (to_int32 (next_busy_reply s e) ≠ 1 ∧
              (cache_create_loop2 size bind format ret l s).res = some e))) := by
  induction l generalizing ret with
  | nil =>
    exact ⟨[], by simpa [cache_create_loop2] using scan_effect_refl s,
      by simp [cache_create_loop2], Or.inl ⟨rfl, by simp [cache_create_loop2]⟩⟩
  | cons c rest ih =>
    by_cases hm : res_matches (s.mem c) size bind format = true
    · by_cases hb : to_int32 (next_busy_reply s c) = 1
      · rw [loop2_busy size bind format ret c rest s hm hb]
        exact ⟨[c], scan_effect_after_poll s c, by simp [after_poll, send],
          Or.inr ⟨c, rfl, List.mem_cons_self _ _, hm, Or.inl ⟨hb, rfl⟩⟩⟩
      · rw [loop2_pick size bind format ret c rest s hm hb]
        exact ⟨[c], scan_effect_after_poll s c, by simp [after_poll, send],
          Or.inr ⟨c, rfl, List.mem_cons_self _ _, hm, Or.inr ⟨hb, rfl⟩⟩⟩
    · have hm' : res_matches (s.mem c) size bind format = false := by simpa using hm
      rw [loop2_skip size bind format ret c rest s hm']
      obtain ⟨p, e1, e2, e3⟩ := ih 0
      refine ⟨p, e1, e2, ?_⟩
      rcases e3 with h | ⟨e, a1, a2, a3⟩
      · exact Or.inl h
      · exact Or.inr ⟨e, a1, List.mem_cons_of_mem _ a2, a3⟩
/-- The two loops of the lookup together: the entries destroyed are timed-out
entries of the list scanned, at most one entry is polled, it matches the
request, and the reply to that poll decides the outcome. -/
theorem scan_effect_scan (now : Int) (size bind format : Nat) (ret : Int) (l : List Nat)
    (s : virgl_vtest_winsys) :
    ∃ gone polled,
      scan_effect s (cache_create_scan now size bind format ret l s).ws gone polled ∧
      (∀ g ∈ gone, g ∈ l ∧ expired s.mem now g = true) ∧
      ((polled = [] ∧ (cache_create_scan now size bind format ret l s).res = none) ∨
        ∃ e, polled = [e] ∧ e ∈ l ∧ res_matches (s.mem e) size bind format = true ∧
          ((to_int32 (next_busy_reply s e) = 1 ∧
              (cache_create_scan now size bind format ret l s).res = none) ∨
            (to_int32 (next_busy_reply s e) ≠ 1 ∧
              (cache_create_scan now size bind format ret l s).res = some e ∧
              (l.Nodup → e ∉ gone)))) ∧
      (l.Nodup → (∀ c ∈ l, c ∈ s.delayed) →
        ((cache_create_scan now size bind format ret l s).ws.delayed ++ gone).Perm
          s.delayed) := by
  obtain ⟨gone, polled, pre, e1, e2, -, e4, e5, e6⟩ :=
    loop1_effect now size bind format none ret l s
  unfold cache_create_scan
  simp only []
  by_cases hg : (cache_create_loop1 now size bind format none ret l s).res.isNone ∧
      (cache_create_loop1 now size bind format none ret l s).ret ≠ -1
  · rw [if_pos hg]
    obtain ⟨hg1, hg2⟩ := hg
    obtain ⟨hl, hpre⟩ := e5 hg2
    have hA : polled = [] := by
      rcases e4 rfl with ⟨a, -, -⟩ | ⟨e, -, -, -, h⟩
      · exact a
      · rcases h with ⟨-, -, b⟩ | ⟨-, b, -⟩
        · exact absurd b hg2
        · rw [b] at hg1; simp at hg1
    subst hA
    obtain ⟨p2, f1, f2, f3⟩ := loop2_effect size bind format
      (cache_create_loop1 now size bind format none ret l s).ret
      (cache_create_loop1 now size bind format none ret l s).curr
      (cache_create_loop1 now size bind format none ret l s).ws
    have hm := mem_of_scan_frame e1.1
    refine ⟨gone, p2, by simpa using scan_effect_trans e1 f1, e2, ?_, ?_⟩
    · rcases f3 with h | ⟨e, a1, a2, a3, a4⟩
      · exact Or.inl h
      · right
        rw [hm] at a3
        rw [next_busy_reply_of_effect e1 e] at a4
        have hel : e ∈ l := by rw [hl]; exact List.mem_append_right _ a2
        refine ⟨e, a1, hel, a3, ?_⟩
        rcases a4 with h | ⟨b1, b2⟩
        · exact Or.inl h
        · refine Or.inr ⟨b1, b2, ?_⟩
          intro hn hgone
          rw [hl] at hn
          exact (List.nodup_append.mp hn).2.2 (hpre e hgone) a2
    · intro hn hmem
      rw [f2]
      exact e6 hn hmem
  · rw [if_neg hg]
    refine ⟨gone, polled, e1, e2, ?_, e6⟩
    rcases e4 rfl with ⟨a1, a2, -⟩ | ⟨e, a1, a2, a3, a4⟩
    · exact Or.inl ⟨a1, a2⟩
    · right
      refine ⟨e, a1, a2, a3, ?_⟩
      rcases a4 with ⟨b1, b2, -⟩ | ⟨b1, b2, -, b4⟩
      · exact Or.inl ⟨b1, b2⟩
      · exact Or.inr ⟨b1, b2, b4⟩

/-- The scan of one lookup, seen from the state the lookup starts in. -/
theorem scan_of_effect (s : virgl_vtest_winsys) (size bind format : Nat) :
    ∃ gone polled,
      scan_effect { s with ticks := s.ticks + 1 } (scan_of s size bind format).ws gone polled ∧
      (∀ g ∈ gone, g ∈ s.delayed ∧ expired s.mem (s.clock s.ticks) g = true) ∧
      ((polled = [] ∧ (scan_of s size bind format).res = none) ∨
        ∃ e, polled = [e] ∧ e ∈ s.delayed ∧ res_matches (s.mem e) size bind format = true ∧
          ((to_int32 (next_busy_reply s e) = 1 ∧ (scan_of s size bind format).res = none) ∨
            (to_int32 (next_busy_reply s e) ≠ 1 ∧
              (scan_of s size bind format).res = some e ∧
              (s.delayed.Nodup → e ∉ gone)))) ∧
      (s.delayed.Nodup → ((scan_of s size bind format).ws.delayed ++ gone).Perm s.delayed) := by
  obtain ⟨gone, polled, e1, e2, e3, e4⟩ := scan_effect_scan (s.clock s.ticks) size bind format 0
    s.delayed { s with ticks := s.ticks + 1 }
  exact ⟨gone, polled, e1, e2, e3, fun hn => e4 hn (fun c hc => hc)⟩

theorem resource_create_fresh (s : virgl_vtest_winsys)
    (target format bind width height depth array_size last_level nr_samples size : Nat) :
    fresh_record s bind false
      (virgl_vtest_winsys_resource_create s target format bind width height depth array_size
        last_level nr_samples size) := by
  unfold fresh_record virgl_vtest_winsys_resource_create
  by_cases hdt : bind &&& (VIRGL_BIND_DISPLAY_TARGET ||| VIRGL_BIND_SCANOUT) = 0
  · simp only [hdt, ne_eq, not_true_eq_false, if_false]
    refine ⟨?_, ?_, ?_, ?_, ?_, ?_, ?_, ?_, ?_, ?_, ?_, ?_, ?_, ?_, ?_, ?_, ?_, ?_, ?_⟩ <;>
      first
      | (intro q hq; simp [store, virgl_vtest_send_resource_create, send, hq])
      | simp [store, virgl_vtest_send_resource_create, send, created_handles, unref_handles,
          busy_polls, List.filterMap_append]
  · simp only [hdt, ne_eq, not_false_eq_true, if_true]
    unfold vtest_displaytarget_create
    by_cases hid : dt_scan s.dt_set 33 0 = 32
    · refine ⟨?_, ?_, ?_, ?_, ?_, ?_, ?_, ?_, ?_, ?_, ?_, ?_, ?_, ?_, ?_, ?_, ?_, ?_, ?_⟩ <;>
        first
        | (intro q hq; simp [store, virgl_vtest_send_resource_create, send, hq, hid])
        | simp [store, virgl_vtest_send_resource_create, send, created_handles, unref_handles,
            busy_polls, List.filterMap_append, hid]
    · refine ⟨?_, ?_, ?_, ?_, ?_, ?_, ?_, ?_, ?_, ?_, ?_, ?_, ?_, ?_, ?_, ?_, ?_, ?_, ?_⟩ <;>
        first
        | (intro q hq
           simp [store, virgl_vtest_send_resource_create, virgl_vtest_send_dt, send, hq, hid])
        | simp [store, virgl_vtest_send_resource_create, virgl_vtest_send_dt, send,
            created_handles, unref_handles, busy_polls, List.filterMap_append, hid]

/-- The lookup by cases: either it allocates, in the state it was called in
(bind kinds that are not looked up) or in the state the scan left behind (nothing
chosen); or the scan chose a pooled entry and the lookup returns that entry,
unlinked and with one reference. -/
theorem cache_create_cases (s : virgl_vtest_winsys)
    (target format bind width height depth array_size last_level nr_samples size : Nat) :
    (∃ ws, ((¬ scans_pool bind ∧ ws = s) ∨
          (scans_pool bind ∧ (scan_of s size bind format).res = none ∧
            ws = (scan_of s size bind format).ws)) ∧
        fresh_record ws bind
          (decide (bind = VIRGL_BIND_CONSTANT_BUFFER ∨ bind = VIRGL_BIND_INDEX_BUFFER ∨
            bind = VIRGL_BIND_VERTEX_BUFFER))
          (virgl_vtest_winsys_resource_cache_create s target format bind width height depth
            array_size last_level nr_samples size)) ∨
    ∃ e, scans_pool bind ∧ (scan_of s size bind format).res = some e ∧
      virgl_vtest_winsys_resource_cache_create s target format bind width height depth
          array_size last_level nr_samples size =
        (e, store { (scan_of s size bind format).ws with
                    delayed := LIST_DEL e (scan_of s size bind format).ws.delayed,
                    num_delayed := (scan_of s size bind format).ws.num_delayed - 1 } e
              { (scan_of s size bind format).ws.mem e with reference := 1 }) := by
  have halloc : ∀ ws : virgl_vtest_winsys,
      fresh_record ws bind
        (decide (bind = VIRGL_BIND_CONSTANT_BUFFER ∨ bind = VIRGL_BIND_INDEX_BUFFER ∨
          bind = VIRGL_BIND_VERTEX_BUFFER))
        (if bind = VIRGL_BIND_CONSTANT_BUFFER ∨ bind = VIRGL_BIND_INDEX_BUFFER ∨
            bind = VIRGL_BIND_VERTEX_BUFFER then
          ((virgl_vtest_winsys_resource_create ws target format bind width height depth
              array_size last_level nr_samples size).1,
            store (virgl_vtest_winsys_resource_create ws target format bind width height depth
              array_size last_level nr_samples size).2
              (virgl_vtest_winsys_resource_create ws target format bind width height depth
                array_size last_level nr_samples size).1
              { (virgl_vtest_winsys_resource_create ws target format bind width height depth
                  array_size last_level nr_samples size).2.mem
                  (virgl_vtest_winsys_resource_create ws target format bind width height depth
                    array_size last_level nr_samples size).1 with cacheable := true })
        else
          ((virgl_vtest_winsys_resource_create ws target format bind width height depth
              array_size last_level nr_samples size).1,
            (virgl_vtest_winsys_resource_create ws target format bind width height depth
              array_size last_level nr_samples size).2)) := by
    intro ws
    have h := resource_create_fresh ws target format bind width height depth array_size
      last_level nr_samples size
    generalize virgl_vtest_winsys_resource_create ws target format bind width height depth
      array_size last_level nr_samples size = r at h
    obtain ⟨a1, a2, a3, a4, a5, a6, a7, a8, a9, a10, a11, a12, a13, a14, a15, a16, a17, a18,
      a19⟩ := h
    by_cases hb : bind = VIRGL_BIND_CONSTANT_BUFFER ∨ bind = VIRGL_BIND_INDEX_BUFFER ∨
        bind = VIRGL_BIND_VERTEX_BUFFER
    · rw [if_pos hb]
      refine ⟨a1, a2, a3, ?_, ?_, ?_, ?_, ?_, ?_, a10, a11, a12, a13, a14, a15, a16, a17, a18,
        a19⟩
      · intro q hq; simp [store, a1, hq, a4 q hq]
      · simp [store, a1, a5]
      · simp [store, a1, a6]
      · simp [store, a1, a7]
      · simp [store, a1, a8]
      · simp [store, a1, hb]
    · rw [if_neg hb]
      refine ⟨a1, a2, a3, a4, a5, a6, a7, a8, ?_, a10, a11, a12, a13, a14, a15, a16, a17, a18,
        a19⟩
      simp [a9, hb]
  by_cases hbind : scans_pool bind
  · cases hres : (scan_of s size bind format).res with
    | some e =>
      right
      exact ⟨e, hbind, rfl, cache_create_of_scan_some s target format bind width height depth
        array_size last_level nr_samples size hbind e hres⟩
    | none =>
      left
      refine ⟨(scan_of s size bind format).ws, Or.inr ⟨hbind, rfl, rfl⟩, ?_⟩
      have hguard : ¬ (bind ≠ VIRGL_BIND_CONSTANT_BUFFER ∧ bind ≠ VIRGL_BIND_INDEX_BUFFER ∧
          bind ≠ VIRGL_BIND_VERTEX_BUFFER ∧ bind ≠ VIRGL_BIND_CUSTOM) := by
        unfold scans_pool at hbind; tauto
      have h := halloc (scan_of s size bind format).ws
      unfold scan_of at hres h ⊢
      unfold virgl_vtest_winsys_resource_cache_create
      simp only [hguard, if_false, os_time_get, hres]
      exact h
  · left
    refine ⟨s, Or.inl ⟨hbind, rfl⟩, ?_⟩
    have hguard : bind ≠ VIRGL_BIND_CONSTANT_BUFFER ∧ bind ≠ VIRGL_BIND_INDEX_BUFFER ∧
        bind ≠ VIRGL_BIND_VERTEX_BUFFER ∧ bind ≠ VIRGL_BIND_CUSTOM := by
      unfold scans_pool at hbind; tauto
    have h := halloc s
    unfold virgl_vtest_winsys_resource_cache_create
    simp only []
    rw [if_pos hguard]
    exact h
/-- C29: for every pool state and request, one call of
`virgl_vtest_winsys_resource_cache_create` writes at most one
`RESOURCE_BUSY_WAIT` request (and consumes at most one reply).  Without a poll the
result is a fresh allocation.  With a poll, the polled entry `e` is a pooled
entry whose bind, format and size match the request, the poll carries its handle
and flags 0, and its reply settles the call: idle, `e` is returned and nothing is
allocated; busy, a fresh record is allocated. -/
theorem cache_create_polls_at_most_once (s : virgl_vtest_winsys)
    (target format bind width height depth array_size last_level nr_samples size : Nat) :
    (busy_polls (virgl_vtest_winsys_resource_cache_create s target format bind width height
          depth array_size last_level nr_samples size).2.sent = busy_polls s.sent ∧
      (virgl_vtest_winsys_resource_cache_create s target format bind width height
          depth array_size last_level nr_samples size).2.polls = s.polls ∧
      (virgl_vtest_winsys_resource_cache_create s target format bind width height
          depth array_size last_level nr_samples size).1 = s.brk) ∨
    ∃ e, e ∈ s.delayed ∧ res_matches (s.mem e) size bind format = true ∧
      busy_polls (virgl_vtest_winsys_resource_cache_create s target format bind width height
          depth array_size last_level nr_samples size).2.sent =
        busy_polls s.sent ++ [((s.mem e).res_handle % 4294967296, 0)] ∧
      (virgl_vtest_winsys_resource_cache_create s target format bind width height
          depth array_size last_level nr_samples size).2.polls = s.polls + 1 ∧
      (to_int32 (next_busy_reply s e) ≠ 1 →
        (virgl_vtest_winsys_resource_cache_create s target format bind width height
          depth array_size last_level nr_samples size).1 = e ∧
        created_handles (virgl_vtest_winsys_resource_cache_create s target format bind width
          height depth array_size last_level nr_samples size).2.sent =
          created_handles s.sent) ∧
      (to_int32 (next_busy_reply s e) = 1 →
        (virgl_vtest_winsys_resource_cache_create s target format bind width height
          depth array_size last_level nr_samples size).1 = s.brk ∧
        created_handles (virgl_vtest_winsys_resource_cache_create s target format bind width
          height depth array_size last_level nr_samples size).2.sent =
          created_handles s.sent ++ [s.handle]) := by
  obtain ⟨gone, polled, ⟨fr, -, hp, hn⟩, -, hcase, -⟩ := scan_of_effect s size bind format
  obtain ⟨-, fh, fb, -, -, -, -, -, -, -, -, fc⟩ := fr
  simp only [] at hp hn fh fb fc
  rcases cache_create_cases s target format bind width height depth array_size last_level
    nr_samples size with ⟨ws, hws, hfresh⟩ | ⟨e, -, hres, heq⟩
  · obtain ⟨a1, -, -, -, -, -, -, -, -, -, -, -, a13, a14, -, -, -, a18, -⟩ := hfresh
    rcases hws with ⟨-, rfl⟩ | ⟨-, hres, rfl⟩
    · exact Or.inl ⟨a13, a18, a1⟩
    · rcases hcase with ⟨hnil, -⟩ | ⟨e, he, hmem, hmatch, hans⟩
      · subst hnil
        left
        refine ⟨?_, ?_, ?_⟩
        · rw [a13, hp]; simp
        · rw [a18, hn]; simp
        · rw [a1, fb]
      · subst he
        have hbusy : to_int32 (next_busy_reply s e) = 1 := by
          rcases hans with ⟨h, -⟩ | ⟨-, h, -⟩
          · exact h
          · rw [hres] at h; cases h
        right
        refine ⟨e, hmem, hmatch, ?_, ?_, fun h => absurd hbusy h, fun _ => ⟨?_, ?_⟩⟩
        · rw [a13, hp]; simp
        · rw [a18, hn]; simp
        · rw [a1, fb]
        · rw [a14, fc, fh]
  · rcases hcase with ⟨-, h⟩ | ⟨e', he, hmem, hmatch, hans⟩
    · rw [hres] at h; cases h
    · subst he
      rcases hans with ⟨-, h⟩ | ⟨hidle, h, -⟩
      · rw [hres] at h; cases h
      · rw [hres] at h
        cases h
        right
        rw [heq]
        refine ⟨e, hmem, hmatch, ?_, ?_, fun _ => ⟨rfl, ?_⟩, fun h => absurd h hidle⟩
        · simp only [store]; rw [hp]; simp
        · simp only [store]; rw [hn]; simp
        · simp only [store]; rw [fc]

/-- C27: when the scan of `virgl_vtest_winsys_resource_cache_create` selects the
pooled entry `e` (in a pool that links no node twice), the call returns `e`; `e`
is unlinked and the entries left keep their order (the pool is a sublist of the
old one, and together with `e` and the timed-out entries `gone` that the scan
destroyed it makes up the old pool); `num_delayed` goes down by 1; the record of
`e` is the old one with `reference = 1`, so handle, bind, format and the
cacheable flag are as before; no `RESOURCE_CREATE` is written, and the
`RESOURCE_UNREF` requests written are those of the destroyed entries, none of
which is `e`. -/
theorem cache_create_reuses_selected (s : virgl_vtest_winsys)
    (target format bind width height depth array_size last_level nr_samples size : Nat)
    (e : Nat) (hn : s.delayed.Nodup) (hbind : scans_pool bind)
    (hres : (scan_of s size bind format).res = some e) :
    (virgl_vtest_winsys_resource_cache_create s target format bind width height depth
        array_size last_level nr_samples size).1 = e ∧
    e ∈ s.delayed ∧
    e ∉ (virgl_vtest_winsys_resource_cache_create s target format bind width height depth
        array_size last_level nr_samples size).2.delayed ∧
    (virgl_vtest_winsys_resource_cache_create s target format bind width height depth
        array_size last_level nr_samples size).2.delayed.Sublist s.delayed ∧
    (virgl_vtest_winsys_resource_cache_create s target format bind width height depth
        array_size last_level nr_samples size).2.num_delayed = s.num_delayed - 1 ∧
    (virgl_vtest_winsys_resource_cache_create s target format bind width height depth
        array_size last_level nr_samples size).2.mem e = { s.mem e with reference := 1 } ∧
    created_handles (virgl_vtest_winsys_resource_cache_create s target format bind width height
        depth array_size last_level nr_samples size).2.sent = created_handles s.sent ∧
    ∃ gone, e ∉ gone ∧
      (∀ g ∈ gone, g ∈ s.delayed ∧ expired s.mem (s.clock s.ticks) g = true) ∧
      ((virgl_vtest_winsys_resource_cache_create s target format bind width height depth
        array_size last_level nr_samples size).2.delayed ++ e :: gone).Perm s.delayed ∧
      unref_handles (virgl_vtest_winsys_resource_cache_create s target format bind width height
        depth array_size last_level nr_samples size).2.sent =
        unref_handles s.sent ++ gone.map (fun p => (s.mem p).res_handle) := by
  obtain ⟨gone, polled, ⟨fr, hu, -, -⟩, hgone, hcase, hperm⟩ := scan_of_effect s size bind format
  obtain ⟨fm, -, -, -, -, -, -, fnd, -, fsub, -, fc⟩ := fr
  simp only [] at fm fnd fsub fc hu
  have hperm := hperm hn
  have he : e ∈ s.delayed ∧ e ∉ gone := by
    rcases hcase with ⟨-, h⟩ | ⟨e', -, hmem, -, hans⟩
    · rw [hres] at h; cases h
    · rcases hans with ⟨-, h⟩ | ⟨-, h, hng⟩
      · rw [hres] at h; cases h
      · rw [hres] at h
        cases h
        exact ⟨hmem, hng hn⟩
  have hin : e ∈ (scan_of s size bind format).ws.delayed := by
    rcases List.mem_append.mp (hperm.symm.subset he.1) with h | h
    · exact h
    · exact absurd h he.2
  have hnd : (scan_of s size bind format).ws.delayed.Nodup := fsub.nodup hn
  rw [cache_create_of_scan_some s target format bind width height depth array_size last_level
    nr_samples size hbind e hres]
  refine ⟨rfl, he.1, ?_, ?_, ?_, ?_, ?_, gone, he.2, hgone, ?_, ?_⟩
  · simp only [store, LIST_DEL]
    exact fun h => ((List.Nodup.mem_erase_iff hnd).mp h).1 rfl
  · simp only [store, LIST_DEL]
    exact (List.erase_sublist _ _).trans fsub
  · simp only [store]; rw [fnd]
  · simp only [store, if_true]; rw [fm]
  · simp only [store]; exact fc
  · simp only [store, LIST_DEL]
    have h1 : ((scan_of s size bind format).ws.delayed.erase e ++ e :: gone).Perm
        ((scan_of s size bind format).ws.delayed ++ gone) := by
      have h2 := (List.perm_cons_erase hin).symm
      exact (List.perm_middle.trans (List.Perm.append_right gone h2))
    exact h1.trans hperm
  · simp only [store]; exact hu

/-- Witness for C27: a pool holding one idle 128-byte constant buffer, asked for
a 128-byte constant buffer of the same format. -/
theorem cache_create_reuses_selected_witness :
    (virgl_vtest_winsys_resource_cache_create pooled_128 0 1 VIRGL_BIND_CONSTANT_BUFFER 128 1 1
        1 0 0 128).1 = 0 ∧
    0 ∈ pooled_128.delayed ∧
    0 ∉ (virgl_vtest_winsys_resource_cache_create pooled_128 0 1 VIRGL_BIND_CONSTANT_BUFFER 128
        1 1 1 0 0 128).2.delayed ∧
    (virgl_vtest_winsys_resource_cache_create pooled_128 0 1 VIRGL_BIND_CONSTANT_BUFFER 128 1 1
        1 0 0 128).2.delayed.Sublist pooled_128.delayed ∧
    (virgl_vtest_winsys_resource_cache_create pooled_128 0 1 VIRGL_BIND_CONSTANT_BUFFER 128 1 1
        1 0 0 128).2.num_delayed = pooled_128.num_delayed - 1 ∧
    (virgl_vtest_winsys_resource_cache_create pooled_128 0 1 VIRGL_BIND_CONSTANT_BUFFER 128 1 1
        1 0 0 128).2.mem 0 = { pooled_128.mem 0 with reference := 1 } ∧
    created_handles (virgl_vtest_winsys_resource_cache_create pooled_128 0 1
        VIRGL_BIND_CONSTANT_BUFFER 128 1 1 1 0 0 128).2.sent = created_handles pooled_128.sent ∧
    ∃ gone, 0 ∉ gone ∧
      (∀ g ∈ gone, g ∈ pooled_128.delayed ∧
        expired pooled_128.mem (pooled_128.clock pooled_128.ticks) g = true) ∧
      ((virgl_vtest_winsys_resource_cache_create pooled_128 0 1 VIRGL_BIND_CONSTANT_BUFFER 128
        1 1 1 0 0 128).2.delayed ++ 0 :: gone).Perm pooled_128.delayed ∧
      unref_handles (virgl_vtest_winsys_resource_cache_create pooled_128 0 1
        VIRGL_BIND_CONSTANT_BUFFER 128 1 1 1 0 0 128).2.sent =
        unref_handles pooled_128.sent ++ gone.map (fun p => (pooled_128.mem p).res_handle) :=
  cache_create_reuses_selected pooled_128 0 1 VIRGL_BIND_CONSTANT_BUFFER 128 1 1 1 0 0 128 0
    (by decide) (Or.inl rfl) (by decide)

/-! ### Only cacheable buffers are pooled -/

theorem pool_kept_refl (s : virgl_vtest_winsys) : pool_kept s s :=
  ⟨keeps_ids_refl s, fun _ hp => Or.inl hp⟩

theorem pool_kept_trans {a b c : virgl_vtest_winsys} (h1 : pool_kept a b)
    (h2 : pool_kept b c) : pool_kept a c := by
  refine ⟨keeps_ids_trans h1.1 h2.1, ?_⟩
  intro p hp
  rcases h2.2 p hp with h | h
  · exact h1.2 p h
  · right
    rw [← (h1.1.2.2.1 p).2.2.2.2.2]
    exact h

theorem pool_kept_of_subset {s s' : virgl_vtest_winsys} (hk : keeps_ids s s')
    (h : ∀ p ∈ s'.delayed, p ∈ s.delayed) : pool_kept s s' :=
  ⟨hk, fun p hp => Or.inl (h p hp)⟩

theorem pool_kept_check_free (s : virgl_vtest_winsys) :
    pool_kept s (virgl_cache_list_check_free s) := by
  refine pool_kept_of_subset (keeps_ids_check_free s) ?_
  intro p hp
  rw [(virgl_cache_list_check_free_spec s).1] at hp
  exact (List.dropWhile_suffix _).subset hp

theorem take_reference_delayed (s : virgl_vtest_winsys) (src : Option Nat) :
    (take_reference s src).delayed = s.delayed := by
  cases src <;> rfl

theorem pipe_reference_delayed (s : virgl_vtest_winsys) (dst src : Option Nat) :
    (pipe_reference s dst src).2.delayed = s.delayed := by
  rw [pipe_reference_eq_take]
  by_cases h : dst = src
  · simp [h]
  · simp only [h, if_false]
    cases dst with
    | none => exact take_reference_delayed s src
    | some p => simp [store, take_reference_delayed]

theorem pool_kept_pipe_reference (s : virgl_vtest_winsys) (dst src : Option Nat) :
    pool_kept s (pipe_reference s dst src).2 :=
  pool_kept_of_subset (keeps_ids_pipe_reference s dst src)
    (fun p hp => by rw [pipe_reference_delayed] at hp; exact hp)

theorem pool_kept_destroy (s : virgl_vtest_winsys) (c : Nat) :
    pool_kept s (virgl_hw_res_destroy s c) :=
  pool_kept_of_subset (keeps_ids_destroy s c)
    (fun p hp => by simpa [virgl_hw_res_destroy_eq] using hp)

theorem pool_kept_pool_insert (s : virgl_vtest_winsys) (old : Nat)
    (hc : (s.mem old).cacheable = true) : pool_kept s (pool_insert s old) := by
  refine ⟨keeps_ids_pool_insert s old, ?_⟩
  intro p hp
  unfold pool_insert at hp
  simp only [List.mem_append, List.mem_singleton] at hp
  rcases hp with hp | rfl
  · exact (pool_kept_check_free s).2 p hp
  · exact Or.inr hc

theorem pool_kept_resource_reference (s : virgl_vtest_winsys) (dres sres : Option Nat) :
    pool_kept s (virgl_vtest_resource_reference s dres sres).2 := by
  have hp := pool_kept_pipe_reference s dres sres
  rw [virgl_vtest_resource_reference_eq]
  cases dres with
  | none => exact hp
  | some old =>
    simp only []
    split
    · split
      · rename_i _ hc
        exact pool_kept_trans hp (pool_kept_pool_insert _ _ (by simpa [can_cache_resource] using hc))
      · exact pool_kept_trans hp (pool_kept_destroy _ _)
    · exact hp

theorem pool_kept_release_all_res_loop (fuel i : Nat) (s : virgl_vtest_winsys)
    (cbuf : virgl_vtest_cmd_buf) : pool_kept s (release_all_res_loop fuel i s cbuf).1 := by
  induction fuel generalizing i s cbuf with
  | zero => simp [release_all_res_loop, pool_kept_refl]
  | succ n ih =>
    unfold release_all_res_loop
    cases h : cbuf.res_bo i with
    | none => simp only []; exact ih _ _ _
    | some p =>
      simp only []
      have h1 : pool_kept s
          (store s p { s.mem p with num_cs_references := (s.mem p).num_cs_references - 1 }) :=
        pool_kept_of_subset (keeps_ids_store_cs s p _) (fun _ hq => hq)
      have h2 := pool_kept_resource_reference
        (store s p { s.mem p with num_cs_references := (s.mem p).num_cs_references - 1 })
        (some p) none
      exact pool_kept_trans (pool_kept_trans h1 h2) (ih _ _ _)

theorem pool_kept_submit (s : virgl_vtest_winsys) (cbuf : virgl_vtest_cmd_buf) :
    pool_kept s (virgl_vtest_winsys_submit_cmd s cbuf).1 := by
  unfold virgl_vtest_winsys_submit_cmd
  split
  · exact pool_kept_refl s
  · unfold virgl_vtest_release_all_res
    have h1 : pool_kept s (virgl_vtest_submit_cmd s cbuf) :=
      pool_kept_of_subset (keeps_ids_send s _ rfl) (fun _ hq => hq)
    exact pool_kept_trans h1 (pool_kept_release_all_res_loop _ _ _ _)

theorem pool_kept_emit_res (s : virgl_vtest_winsys) (cbuf : virgl_vtest_cmd_buf) (res : Nat)
    (write_buf : Bool) : pool_kept s (virgl_vtest_emit_res s cbuf res write_buf).1 := by
  refine pool_kept_of_subset (keeps_ids_emit_res s cbuf res write_buf) ?_
  intro p hp
  unfold virgl_vtest_emit_res at hp
  simp only [] at hp
  split at hp
  · rw [virgl_vtest_add_res_eq] at hp; exact hp
  · exact hp

theorem pool_kept_flush (s : virgl_vtest_winsys) : pool_kept s (virgl_cache_flush s) := by
  refine pool_kept_of_subset (keeps_ids_flush_loop s.delayed s) ?_
  intro p hp
  unfold virgl_cache_flush at hp
  rw [(virgl_cache_flush_loop_spec s.delayed s rfl).1] at hp
  cases hp

theorem pool_cacheable_of_kept {s s' : virgl_vtest_winsys} (hk : pool_kept s s')
    (h : pool_cacheable s) : pool_cacheable s' := by
  obtain ⟨⟨-, kb, kf, -, -, -, -⟩, kd⟩ := hk
  obtain ⟨h1, h2⟩ := h
  have hc : ∀ q, (s'.mem q).cacheable = (s.mem q).cacheable := fun q => (kf q).2.2.2.2.2
  have hb : ∀ q, (s'.mem q).bind = (s.mem q).bind := fun q => (kf q).2.2.2.1
  refine ⟨?_, ?_⟩
  · intro q hq
    rw [hc q] at hq
    rw [kb, hb q]
    exact h1 q hq
  · intro p hp
    rw [hc p]
    rcases kd p hp with h | h
    · exact h2 p h
    · exact h

theorem pool_cacheable_cache_create (s : virgl_vtest_winsys)
    (target format bind width height depth array_size last_level nr_samples size : Nat)
    (h : pool_cacheable s) :
    pool_cacheable (virgl_vtest_winsys_resource_cache_create s target format bind width height
      depth array_size last_level nr_samples size).2 := by
  obtain ⟨fm, -, fb, -, fsub, -⟩ := scan_frame_scan_of s size bind format
  have hscan : pool_cacheable (scan_of s size bind format).ws := by
    refine ⟨?_, ?_⟩
    · intro q hq; rw [fm] at hq ⊢; rw [fb]; exact h.1 q hq
    · intro p hp; rw [fm]; exact h.2 p (fsub.subset hp)
  rcases cache_create_cases s target format bind width height depth array_size last_level
    nr_samples size with ⟨ws, hws, hfresh⟩ | ⟨e, -, -, heq⟩
  · have hw : pool_cacheable ws := by
      rcases hws with ⟨-, e⟩ | ⟨-, -, e⟩
      · rw [e]; exact h
      · rw [e]; exact hscan
    obtain ⟨-, a2, -, a4, -, -, -, a8, a9, a10, -⟩ := hfresh
    refine ⟨?_, ?_⟩
    · intro q hq
      rw [a2]
      by_cases hqb : q = ws.brk
      · subst hqb
        rw [a9] at hq
        rw [a8]
        have := of_decide_eq_true hq
        exact ⟨by omega, by tauto⟩
      · rw [a4 q hqb] at hq ⊢
        exact ⟨by have := (hw.1 q hq).1; omega, (hw.1 q hq).2⟩
    · intro p hp
      rw [a10] at hp
      have hc := hw.2 p hp
      have hlt := (hw.1 p hc).1
      rw [a4 p (by omega)]
      exact hc
  · rw [heq]
    refine ⟨?_, ?_⟩
    · intro q hq
      by_cases hqe : q = e
      · subst hqe
        simp only [store, if_true] at hq ⊢
        exact hscan.1 q hq
      · simp only [store, hqe, if_false] at hq ⊢
        exact hscan.1 q hq
    · intro p hp
      simp only [store, LIST_DEL] at hp
      have hp' := List.mem_of_mem_erase hp
      by_cases hpe : p = e
      · subst hpe; simp only [store, if_true]; exact hscan.2 p hp'
      · simp only [store, hpe, if_false]; exact hscan.2 p hp'

theorem pool_cacheable_step (sys : vtest_system) (op : vtest_op)
    (h : pool_cacheable sys.ws) : pool_cacheable (vtest_step sys op).ws := by
  cases op with
  | resource_create target format bind width height depth array_size last_level nr_samples
      size =>
    exact pool_cacheable_cache_create sys.ws target format bind width height depth
      array_size last_level nr_samples size h
  | resource_unref hres =>
    exact pool_cacheable_of_kept (pool_kept_resource_reference sys.ws (some hres) none) h
  | fence_reference dst src =>
    exact pool_cacheable_of_kept (pool_kept_resource_reference sys.ws dst src) h
  | cmd_buf_create => exact h
  | cmd_buf_destroy cbuf => exact h
  | emit_res cbuf res write_buf =>
    simp only [vtest_step]
    split
    · exact pool_cacheable_of_kept (pool_kept_emit_res sys.ws _ res write_buf) h
    · exact h
  | submit_cmd cbuf =>
    simp only [vtest_step]
    split
    · exact pool_cacheable_of_kept (pool_kept_submit sys.ws _) h
    · exact h
  | cache_flush => exact pool_cacheable_of_kept (pool_kept_flush sys.ws) h

theorem pool_cacheable_run (ops : List vtest_op) (sys : vtest_system)
    (h : pool_cacheable sys.ws) : pool_cacheable (vtest_run sys ops).ws := by
  induction ops generalizing sys with
  | nil => exact h
  | cons op rest ih => exact ih (vtest_step sys op) (pool_cacheable_step sys op h)

theorem pool_cacheable_boot (clock : Nat → Int) (busy_reply : Nat → Nat → Nat) :
    pool_cacheable (vtest_boot clock busy_reply).ws := by
  refine ⟨?_, ?_⟩
  · intro q hq; simp [vtest_boot, virgl_vtest_winsys_wrap] at hq
  · intro p hp; simp [vtest_boot, virgl_vtest_winsys_wrap] at hp

/-- C26: in every state reached from a freshly wrapped winsys (empty pool) by any
sequence of resource creates, releases, fence-reference moves, command-buffer
creates and destroys, `emit_res`, submits and cache flushes, every entry of the
delayed pool has its cacheable flag set and its bind is exactly one of
`VIRGL_BIND_VERTEX_BUFFER`, `VIRGL_BIND_INDEX_BUFFER` and
`VIRGL_BIND_CONSTANT_BUFFER`. -/
theorem pooled_entries_are_cacheable_buffers (clock : Nat → Int)
    (busy_reply : Nat → Nat → Nat) (ops : List vtest_op) :
    ∀ p ∈ (vtest_run (vtest_boot clock busy_reply) ops).ws.delayed,
      ((vtest_run (vtest_boot clock busy_reply) ops).ws.mem p).cacheable = true ∧
      (((vtest_run (vtest_boot clock busy_reply) ops).ws.mem p).bind = VIRGL_BIND_VERTEX_BUFFER ∨
        ((vtest_run (vtest_boot clock busy_reply) ops).ws.mem p).bind = VIRGL_BIND_INDEX_BUFFER ∨
        ((vtest_run (vtest_boot clock busy_reply) ops).ws.mem p).bind =
          VIRGL_BIND_CONSTANT_BUFFER) := by
  intro p hp
  obtain ⟨h1, h2⟩ := pool_cacheable_run ops _ (pool_cacheable_boot clock busy_reply)
  exact ⟨h2 p hp, (h1 p (h2 p hp)).2⟩

/-! ### Resource lifetimes under well-used operations -/

theorem handle_inj {s : virgl_vtest_winsys} (hn : handles_numbered s)
    (hb : s.brk < 4294967296) {a b : Nat} (ha : a < s.brk) (hb' : b < s.brk)
    (h : (s.mem a).res_handle = (s.mem b).res_handle) : a = b := by
  rw [hn.2.1 a ha, hn.2.1 b hb'] at h
  omega

/-- A scan, sweep or flush keeps the bookkeeping: it only unlinks pooled entries
and writes one `RESOURCE_UNREF` for each entry it unlinked.  A record outside the
pool that no `RESOURCE_UNREF` names is still not named afterwards. -/
theorem pool_ok_sweep {s s' : virgl_vtest_winsys} (gone : List Nat) (h : pool_ok s)
    (hm : s'.mem = s.mem) (hh : s'.handle = s.handle) (hb : s'.brk = s.brk)
    (hc : created_handles s'.sent = created_handles s.sent) (hu : s'.usecs = s.usecs)
    (hck : s'.clock = s.clock) (ht : s.ticks ≤ s'.ticks)
    (hsub : s'.delayed.Sublist s.delayed) (hperm : (s'.delayed ++ gone).Perm s.delayed)
    (hun : unref_handles s'.sent =
      unref_handles s.sent ++ gone.map (fun p => (s.mem p).res_handle)) :
    pool_ok s' ∧
    ∀ q, q < s.brk → q ∉ s.delayed → (s.mem q).res_handle ∉ unref_handles s.sent →
      (s.mem q).res_handle ∉ unref_handles s'.sent := by
  obtain ⟨hn, hbk, hcs, hlive, hnd, hpool, hund, hdead, hus, hsort⟩ := h
  have hgone_sub : ∀ g ∈ gone, g ∈ s.delayed :=
    fun g hg => hperm.subset (List.mem_append_right _ hg)
  have hnd2 : (s'.delayed ++ gone).Nodup := hperm.nodup_iff.mpr hnd
  obtain ⟨hnd', hgn, hdisj⟩ := List.nodup_append.mp hnd2
  have key : ∀ q, q < s.brk → q ∉ gone →
      (s.mem q).res_handle ∉ gone.map (fun p => (s.mem p).res_handle) := by
    intro q hq hng hmem
    obtain ⟨g, hg, heq⟩ := List.mem_map.mp hmem
    have hgb := (hpool g (hgone_sub g hg)).2.2.1
    have := handle_inj hn hbk hgb hq heq
    exact hng (this ▸ hg)
  refine ⟨⟨?_, ?_, ?_, ?_, hnd', ?_, ?_, ?_, ?_, ?_⟩, ?_⟩
  · refine ⟨by rw [hh, hb]; exact hn.1, ?_, by rw [hc, hb]; exact hn.2.2⟩
    intro k hk
    rw [hm]
    rw [hb] at hk
    exact hn.2.1 k hk
  · rw [hb]; exact hbk
  · rw [hm]; exact hcs
  · intro q hq
    rw [hm] at hq ⊢
    rw [hb, hun]
    obtain ⟨a, b⟩ := hlive q hq
    refine ⟨a, ?_⟩
    intro hmem
    rcases List.mem_append.mp hmem with x | x
    · exact b x
    · refine key q a ?_ x
      intro hg
      have := (hpool q (hgone_sub q hg)).1
      omega
  · intro p hp
    obtain ⟨a, b, c, d⟩ := hpool p (hsub.subset hp)
    rw [hm, hb, hun]
    refine ⟨a, b, c, ?_⟩
    intro hmem
    rcases List.mem_append.mp hmem with x | x
    · exact d x
    · exact key p c (fun hg => hdisj hp hg) x
  · rw [hun]
    refine List.nodup_append.mpr ⟨hund, ?_, ?_⟩
    · refine List.Nodup.map_on ?_ hgn
      intro x hx y hy hxy
      exact handle_inj hn hbk (hpool x (hgone_sub x hx)).2.2.1
        (hpool y (hgone_sub y hy)).2.2.1 hxy
    · intro a ha hmem
      obtain ⟨g, hg, heq⟩ := List.mem_map.mp hmem
      exact (hpool g (hgone_sub g hg)).2.2.2 (heq ▸ ha)
  · intro x hx
    rw [hun] at hx
    rw [hb, hm]
    rcases List.mem_append.mp hx with x1 | x1
    · exact hdead x x1
    · obtain ⟨g, hg, heq⟩ := List.mem_map.mp x1
      exact ⟨g, (hpool g (hgone_sub g hg)).2.2.1, heq⟩
  · rw [hu]; exact hus
  · intro hmono
    rw [hck] at hmono
    obtain ⟨t1, t2⟩ := hsort hmono
    refine ⟨?_, ?_⟩
    · intro p hp
      obtain ⟨t, a, b, c⟩ := t1 p (hsub.subset hp)
      exact ⟨t, by omega, by rw [hm, hck]; exact b, by rw [hm, hu]; exact c⟩
    · rw [hm]; exact t2.sublist hsub
  · intro q hq hnp hnu
    rw [hun]
    intro hmem
    rcases List.mem_append.mp hmem with x | x
    · exact hnu x
    · exact key q hq (fun hg => hnp (hgone_sub q hg)) x
/-- Rewriting the record of a resource that is not pooled, with its handle
kept. -/
theorem pool_ok_store {s : virgl_vtest_winsys} (h : pool_ok s) (p : Nat) (r : virgl_hw_res)
    (hp : p ∉ s.delayed) (hh : r.res_handle = (s.mem p).res_handle)
    (hcs' : 0 ≤ r.num_cs_references ∧ r.num_cs_references ≤ r.reference)
    (hlive' : 0 < r.reference → p < s.brk ∧ (s.mem p).res_handle ∉ unref_handles s.sent) :
    pool_ok (store s p r) := by
  obtain ⟨hn, hbk, hcs, hlive, hnd, hpool, hund, hdead, hus, hsort⟩ := h
  have hmem : ∀ q, q ≠ p → (store s p r).mem q = s.mem q := by
    intro q hq; simp [store, hq]
  have hmp : (store s p r).mem p = r := by simp [store]
  refine ⟨handles_numbered_store s p r hh hn, hbk, ?_, ?_, hnd, ?_, hund, ?_, hus, ?_⟩
  · intro q
    by_cases hq : q = p
    · subst hq; rw [hmp]; exact hcs'
    · rw [hmem q hq]; exact hcs q
  · intro q hq
    by_cases hqp : q = p
    · subst hqp
      rw [hmp] at hq ⊢
      rw [hh]
      exact hlive' hq
    · rw [hmem q hqp] at hq ⊢
      exact hlive q hq
  · intro q hq
    have hqp : q ≠ p := fun e => hp (e ▸ hq)
    rw [hmem q hqp]
    exact hpool q hq
  · intro x hx
    obtain ⟨q, a, b⟩ := hdead x hx
    refine ⟨q, a, ?_⟩
    by_cases hqp : q = p
    · subst hqp; rw [hmp, hh]; exact b
    · rw [hmem q hqp]; exact b
  · intro hmono
    obtain ⟨t1, t2⟩ := hsort hmono
    refine ⟨?_, ?_⟩
    · intro q hq
      have hqp : q ≠ p := fun e => hp (e ▸ hq)
      rw [hmem q hqp]
      exact t1 q hq
    · refine t2.imp_of_mem ?_
      intro a b ha hb hab
      have hap : a ≠ p := fun e => hp (e ▸ ha)
      have hbp : b ≠ p := fun e => hp (e ▸ hb)
      rw [hmem a hap, hmem b hbp]
      exact hab

/-- Destroying an allocated record that has no reference, is not pooled and has
not been destroyed before. -/
theorem pool_ok_destroy {s : virgl_vtest_winsys} (h : pool_ok s) (p : Nat)
    (hpb : p < s.brk) (href : (s.mem p).reference = 0) (hnp : p ∉ s.delayed)
    (hnu : (s.mem p).res_handle ∉ unref_handles s.sent) :
    pool_ok (virgl_hw_res_destroy s p) := by
  obtain ⟨hn, hbk, hcs, hlive, hnd, hpool, hund, hdead, hus, hsort⟩ := h
  have hun : unref_handles (virgl_hw_res_destroy s p).sent =
      unref_handles s.sent ++ [(s.mem p).res_handle] := by
    rw [virgl_hw_res_destroy_eq]
    simp only [unref_handles_append, unref_handles_destroy_msgs]
  have hm : (virgl_hw_res_destroy s p).mem = s.mem := by rw [virgl_hw_res_destroy_eq]
  have hb : (virgl_hw_res_destroy s p).brk = s.brk := by rw [virgl_hw_res_destroy_eq]
  have hd : (virgl_hw_res_destroy s p).delayed = s.delayed := by rw [virgl_hw_res_destroy_eq]
  have hu : (virgl_hw_res_destroy s p).usecs = s.usecs := by rw [virgl_hw_res_destroy_eq]
  have hck : (virgl_hw_res_destroy s p).clock = s.clock := by rw [virgl_hw_res_destroy_eq]
  have htk : (virgl_hw_res_destroy s p).ticks = s.ticks := by rw [virgl_hw_res_destroy_eq]
  refine ⟨keeps_ids_handles_numbered (keeps_ids_destroy s p) hn, by rw [hb]; exact hbk,
    by rw [hm]; exact hcs, ?_, by rw [hd]; exact hnd, ?_, ?_, ?_, by rw [hu]; exact hus, ?_⟩
  · intro q hq
    rw [hm] at hq ⊢
    rw [hb, hun]
    obtain ⟨a, b⟩ := hlive q hq
    refine ⟨a, ?_⟩
    intro hmem
    rcases List.mem_append.mp hmem with x | x
    · exact b x
    · have := handle_inj hn hbk a hpb (List.mem_singleton.mp x)
      subst this
      omega
  · intro q hq
    rw [hd] at hq
    obtain ⟨a, b, c, d⟩ := hpool q hq
    rw [hm, hb, hun]
    refine ⟨a, b, c, ?_⟩
    intro hmem
    rcases List.mem_append.mp hmem with x | x
    · exact d x
    · have := handle_inj hn hbk c hpb (List.mem_singleton.mp x)
      subst this
      exact hnp hq
  · rw [hun]
    exact List.nodup_append.mpr ⟨hund, List.nodup_singleton _,
      List.disjoint_singleton.mpr hnu⟩
  · intro x hx
    rw [hun] at hx
    rw [hb, hm]
    rcases List.mem_append.mp hx with x1 | x1
    · exact hdead x x1
    · exact ⟨p, hpb, (List.mem_singleton.mp x1).symm⟩
  · intro hmono
    rw [hck] at hmono
    obtain ⟨t1, t2⟩ := hsort hmono
    rw [pool_sorted, hm, hd, htk, hck, hu]
    exact ⟨t1, t2⟩

theorem pool_ok_check_free {s : virgl_vtest_winsys} (h : pool_ok s) :
    pool_ok (virgl_cache_list_check_free s) ∧
    ∀ q, q < s.brk → q ∉ s.delayed → (s.mem q).res_handle ∉ unref_handles s.sent →
      (s.mem q).res_handle ∉ unref_handles (virgl_cache_list_check_free s).sent := by
  obtain ⟨c1, c2, c3, c4, -, c6, c7, c8, c9, -, -⟩ := virgl_cache_list_check_free_spec s
  have hk := keeps_ids_check_free s
  refine pool_ok_sweep (expired_head s (s.clock s.ticks)) h c3 c8 c9 hk.2.2.2.1 c4 c6 (by rw [c7]; omega) ?_ ?_ ?_
  · rw [c1]; exact (List.dropWhile_suffix _).sublist
  · rw [c1]
    have := List.takeWhile_append_dropWhile (expired s.mem (s.clock s.ticks)) s.delayed
    exact List.perm_append_comm.trans (by rw [this] : (List.takeWhile (expired s.mem (s.clock s.ticks)) s.delayed ++
        List.dropWhile (expired s.mem (s.clock s.ticks)) s.delayed).Perm s.delayed)
  · rw [c2, unref_handles_append, unref_handles_destroyed]

/-- Linking a released cacheable record at the tail of the pool, stamped with
the current reading of the clock. -/
theorem pool_ok_link {s : virgl_vtest_winsys} (h : pool_ok s) (p : Nat)
    (hpb : p < s.brk) (href : (s.mem p).reference = 0) (hc : (s.mem p).cacheable = true)
    (hnp : p ∉ s.delayed) (hnu : (s.mem p).res_handle ∉ unref_handles s.sent) :
    pool_ok { s with
      ticks := s.ticks + 1
      delayed := s.delayed ++ [p]
      num_delayed := s.num_delayed + 1
      mem := fun q =>
        if q = p then
          { s.mem p with start := s.clock s.ticks, end_ := s.clock s.ticks + s.usecs }
        else s.mem q } := by
  obtain ⟨hn, hbk, hcs, hlive, hnd, hpool, hund, hdead, hus, hsort⟩ := h
  refine ⟨?_, hbk, ?_, ?_, ?_, ?_, hund, ?_, hus, ?_⟩
  · refine ⟨hn.1, ?_, hn.2.2⟩
    intro k hk
    by_cases hkp : k = p
    · subst hkp; simp only [if_true]; exact hn.2.1 k hk
    · simp only [hkp, if_false]; exact hn.2.1 k hk
  · intro q
    by_cases hq : q = p
    · subst hq; simp only [if_true]; exact hcs q
    · simp only [hq, if_false]; exact hcs q
  · intro q hq
    by_cases hqp : q = p
    · subst hqp; simp only [if_true] at hq ⊢; exact hlive q hq
    · simp only [hqp, if_false] at hq ⊢; exact hlive q hq
  · exact List.nodup_append.mpr ⟨hnd, List.nodup_singleton _,
      List.disjoint_singleton.mpr hnp⟩
  · intro q hq
    by_cases hqp : q = p
    · subst hqp; simp only [if_true]; exact ⟨href, hc, hpb, hnu⟩
    · simp only [hqp, if_false]
      rcases List.mem_append.mp hq with x | x
      · exact hpool q x
      · exact absurd (List.mem_singleton.mp x) hqp
  · intro x hx
    obtain ⟨q, a, b⟩ := hdead x hx
    refine ⟨q, a, ?_⟩
    by_cases hqp : q = p
    · subst hqp; simp only [if_true]; exact b
    · simp only [hqp, if_false]; exact b
  · intro hmono
    have hmono' : Monotone s.clock := hmono
    obtain ⟨t1, t2⟩ := hsort hmono
    refine ⟨?_, ?_⟩
    · intro q hq
      by_cases hqp : q = p
      · subst hqp
        simp only [if_true]
        exact ⟨s.ticks, Nat.lt_succ_self _, rfl, trivial⟩
      · simp only [hqp, if_false]
        rcases List.mem_append.mp hq with x | x
        · obtain ⟨t, a, b, c⟩ := t1 q x
          exact ⟨t, Nat.lt_succ_of_lt a, b, c⟩
        · exact absurd (List.mem_singleton.mp x) hqp
    · refine List.pairwise_append.mpr ⟨?_, List.pairwise_singleton _ _, ?_⟩
      · refine t2.imp_of_mem ?_
        intro a b ha hb hab
        have hap : a ≠ p := fun e => hnp (e ▸ ha)
        have hbp : b ≠ p := fun e => hnp (e ▸ hb)
        simp only [hap, hbp, if_false]
        exact hab
      · intro a ha b hb
        have hap : a ≠ p := fun e => hnp (e ▸ ha)
        rw [List.mem_singleton.mp hb]
        simp only [hap, if_false, if_true]
        obtain ⟨t, x, y, z⟩ := t1 a ha
        rw [z, y]
        have := hmono' (Nat.le_of_lt x)
        omega

/-- Dropping a reference that is held beyond those of the command buffers. -/
theorem pool_ok_release {s : virgl_vtest_winsys} (h : pool_ok s) (p : Nat)
    (hheld : (s.mem p).num_cs_references < (s.mem p).reference) :
    pool_ok (virgl_vtest_resource_reference s (some p) none).2 := by
  have hcs := h.2.2.1 p
  have hpos : 0 < (s.mem p).reference := by omega
  obtain ⟨hpb, hnu⟩ := h.2.2.2.1 p hpos
  have hnp : p ∉ s.delayed := by
    intro hp
    have := (h.2.2.2.2.2.1 p hp).1
    omega
  have h1 : pool_ok (store s p { s.mem p with reference := (s.mem p).reference - 1 }) :=
    pool_ok_store h p _ hnp rfl ⟨hcs.1, by simp only []; omega⟩ (fun _ => ⟨hpb, hnu⟩)
  rw [resource_reference_release_eq]
  simp only []
  by_cases hz : (s.mem p).reference - 1 = 0
  · rw [if_pos hz]
    by_cases hc : (s.mem p).cacheable = true
    · rw [if_pos hc]
      obtain ⟨h2, h3⟩ := pool_ok_check_free h1
      obtain ⟨c1, -, c3, -, -, -, -, -, c9, -, -⟩ := virgl_cache_list_check_free_spec
        (store s p { s.mem p with reference := (s.mem p).reference - 1 })
      have hnp2 : p ∉ (virgl_cache_list_check_free
          (store s p { s.mem p with reference := (s.mem p).reference - 1 })).delayed := by
        rw [c1]
        intro hp
        exact hnp ((List.dropWhile_suffix _).subset hp)
      have hmp : ((virgl_cache_list_check_free
          (store s p { s.mem p with reference := (s.mem p).reference - 1 })).mem p) =
          { s.mem p with reference := (s.mem p).reference - 1 } := by
        rw [c3]; simp [store]
      have hnu2 := h3 p hpb hnp (by simpa [store] using hnu)
      have := pool_ok_link h2 p (by rw [c9]; exact hpb) (by rw [hmp]; exact hz)
        (by rw [hmp]; exact hc) hnp2 (by rw [hmp]; simpa [store] using hnu2)
      exact this
    · rw [if_neg hc]
      exact pool_ok_destroy h1 p hpb (by simp [store, hz]) hnp (by simpa [store] using hnu)
  · rw [if_neg hz]
    exact h1

theorem pool_ok_flush {s : virgl_vtest_winsys} (h : pool_ok s) :
    pool_ok (virgl_cache_flush s) := by
  obtain ⟨c1, c2, c3, c4, -⟩ := virgl_cache_flush_loop_spec s.delayed s rfl
  obtain ⟨k1, k2, -, k4, k5, k6, -⟩ := keeps_ids_flush_loop s.delayed s
  unfold virgl_cache_flush
  refine (pool_ok_sweep s.delayed h c3 k1 k2 k4 k5 k6 (by rw [c4]) ?_ ?_ ?_).1
  · rw [c1]; exact List.nil_sublist _
  · rw [c1]; simp
  · rw [c2, unref_handles_append, unref_handles_destroyed]

/-- The scan of a lookup keeps the bookkeeping, and the entry it selects is still
pooled afterwards. -/
theorem pool_ok_scan_of {s : virgl_vtest_winsys} (h : pool_ok s) (size bind format : Nat) :
    pool_ok (scan_of s size bind format).ws ∧
    ∀ e, (scan_of s size bind format).res = some e →
      e ∈ (scan_of s size bind format).ws.delayed := by
  obtain ⟨gone, polled, ⟨fr, hu, -, -⟩, -, hcase, hperm⟩ := scan_of_effect s size bind format
  obtain ⟨fm, fh, fb, -, fck, ftk, fus, -, -, fsub, -, fc⟩ := fr
  simp only [] at fm fh fb fck ftk fus fsub fc hu
  have hnd := h.2.2.2.2.1
  have hperm := hperm hnd
  refine ⟨(pool_ok_sweep gone h fm fh fb fc fus fck (by rw [ftk]; omega) fsub hperm hu).1, ?_⟩
  intro e hres
  rcases hcase with ⟨-, hn⟩ | ⟨e', -, hmem, -, hans⟩
  · rw [hres] at hn; cases hn
  · rcases hans with ⟨-, hn⟩ | ⟨-, hs, hng⟩
    · rw [hres] at hn; cases hn
    · rw [hres] at hs
      cases hs
      rcases List.mem_append.mp (hperm.symm.subset hmem) with x | x
      · exact x
      · exact absurd x (hng hnd)

/-- A lookup made while the handle counter has room keeps the bookkeeping; the
record it returns has exactly one reference afterwards. -/
theorem pool_ok_cache_create {s : virgl_vtest_winsys} (h : pool_ok s)
    (target format bind width height depth array_size last_level nr_samples size : Nat)
    (hroom : s.brk + 1 < 4294967296) :
    pool_ok (virgl_vtest_winsys_resource_cache_create s target format bind width height
      depth array_size last_level nr_samples size).2 ∧
    ((virgl_vtest_winsys_resource_cache_create s target format bind width height
      depth array_size last_level nr_samples size).2.mem
        (virgl_vtest_winsys_resource_cache_create s target format bind width height
          depth array_size last_level nr_samples size).1).reference = 1 := by
  have hnum := handles_numbered_cache_create s target format bind width height depth
    array_size last_level nr_samples size h.1
  obtain ⟨hscan, hsel⟩ := pool_ok_scan_of h size bind format
  obtain ⟨-, -, fb, -, -, -⟩ := scan_frame_scan_of s size bind format
  rcases cache_create_cases s target format bind width height depth array_size last_level
    nr_samples size with ⟨ws, hws, hfresh⟩ | ⟨e, -, hres, heq⟩
  · have hw : pool_ok ws ∧ ws.brk = s.brk := by
      rcases hws with ⟨-, e⟩ | ⟨-, -, e⟩
      · rw [e]; exact ⟨h, rfl⟩
      · rw [e]; exact ⟨hscan, fb⟩
    obtain ⟨⟨hn, hbk, hcs, hlive, hnd, hpool, hund, hdead, hus, hsort⟩, hwb⟩ := hw
    generalize virgl_vtest_winsys_resource_cache_create s target format bind width height
      depth array_size last_level nr_samples size = r at hfresh hnum
    obtain ⟨a1, a2, a3, a4, a5, a6, a7, a8, a9, a10, a11, a12, a13, a14, a15, a16, a17, a18,
      a19⟩ := hfresh
    have hfreshh : ∀ x ∈ unref_handles ws.sent, x ≠ ws.handle := by
      intro x hx heq
      obtain ⟨q, b, c⟩ := hdead x hx
      rw [hn.2.1 q b, heq, hn.1] at c
      omega
    refine ⟨⟨hnum, by rw [a2]; omega, ?_, ?_, by rw [a10]; exact hnd, ?_, by rw [a12]; exact hund,
      ?_, by rw [a17]; exact hus, ?_⟩, by rw [a1, a6]⟩
    · intro q
      by_cases hq : q = ws.brk
      · subst hq; rw [a6, a7]; omega
      · rw [a4 q hq]; exact hcs q
    · intro q hq
      rw [a2, a12]
      by_cases hqb : q = ws.brk
      · subst hqb
        rw [a5]
        exact ⟨by omega, fun hx => hfreshh _ hx rfl⟩
      · rw [a4 q hqb] at hq ⊢
        exact ⟨by have := (hlive q hq).1; omega, (hlive q hq).2⟩
    · intro p hp
      rw [a10] at hp
      obtain ⟨b, c, d, e⟩ := hpool p hp
      rw [a4 p (by omega), a2, a12]
      exact ⟨b, c, by omega, e⟩
    · intro x hx
      rw [a12] at hx
      obtain ⟨q, b, c⟩ := hdead x hx
      rw [a2]
      exact ⟨q, by omega, by rw [a4 q (by omega)]; exact c⟩
    · intro hmono
      rw [a15] at hmono
      obtain ⟨t1, t2⟩ := hsort hmono
      refine ⟨?_, ?_⟩
      · intro p hp
        rw [a10] at hp
        have hpb := (hpool p hp).2.2.1
        rw [a4 p (by omega), a16, a15, a17]
        exact t1 p hp
      · rw [a10]
        refine t2.imp_of_mem ?_
        intro a b ha hb hab
        have hab1 := (hpool a ha).2.2.1
        have hab2 := (hpool b hb).2.2.1
        rw [a4 a (by omega), a4 b (by omega)]
        exact hab
  · have hin := hsel e hres
    obtain ⟨hn, hbk, hcs, hlive, hnd, hpool, hund, hdead, hus, hsort⟩ := hscan
    obtain ⟨b, c, d, x⟩ := hpool e hin
    rw [heq]
    refine ⟨?_, by simp [store]⟩
    have hbase : pool_ok { (scan_of s size bind format).ws with
        delayed := LIST_DEL e (scan_of s size bind format).ws.delayed,
        num_delayed := (scan_of s size bind format).ws.num_delayed - 1 } := by
      refine ⟨hn, hbk, hcs, hlive, hnd.erase e, ?_, hund, hdead, hus, ?_⟩
      · intro p hp
        exact hpool p (List.mem_of_mem_erase hp)
      · intro hmono
        obtain ⟨t1, t2⟩ := hsort hmono
        exact ⟨fun p hp => t1 p (List.mem_of_mem_erase hp), t2.sublist (List.erase_sublist _ _)⟩
    refine pool_ok_store hbase e _ ?_ rfl ⟨(hcs e).1, ?_⟩ (fun _ => ⟨d, x⟩)
    · exact fun hp => ((List.Nodup.mem_erase_iff hnd).mp hp).1 rfl
    · have := (hcs e).2
      simp only []
      omega

theorem pool_ok_emit_res {s : virgl_vtest_winsys} (h : pool_ok s) (cbuf : virgl_vtest_cmd_buf)
    (res : Nat) (write_buf : Bool) (hok : cbuf_ok s cbuf)
    (hlive : 0 < (s.mem res).reference) :
    pool_ok (virgl_vtest_emit_res s cbuf res write_buf).1 := by
  by_cases hin : some res ∈ reference_set cbuf
  · rw [(emit_res_present s cbuf res write_buf hok hin).1]
    exact h
  · rw [emit_res_absent_ws s cbuf res write_buf hok hin]
    have hcs := h.2.2.1 res
    have hl := h.2.2.2.1 res hlive
    have hnp : res ∉ s.delayed := by
      intro hp
      have := (h.2.2.2.2.2.1 res hp).1
      omega
    exact pool_ok_store h res
      { s.mem res with reference := (s.mem res).reference + 1,
                       num_cs_references := (s.mem res).num_cs_references + 1 }
      hnp rfl ⟨by simp only []; omega, by simp only []; omega⟩ (fun _ => hl)

theorem pool_ok_send {s : virgl_vtest_winsys} (h : pool_ok s) (m : vtest_msg)
    (hc : created_handles [m] = []) (hu : unref_handles [m] = []) : pool_ok (send s m) := by
  obtain ⟨hn, hbk, hcs, hlive, hnd, hpool, hund, hdead, hus, hsort⟩ := h
  have hun : unref_handles (send s m).sent = unref_handles s.sent := by
    simp [send, unref_handles_append, hu]
  refine ⟨keeps_ids_handles_numbered (keeps_ids_send s m hc) hn, hbk, hcs, ?_, hnd, ?_, ?_, ?_,
    hus, hsort⟩
  · intro q hq; rw [hun]; exact hlive q hq
  · intro p hp; rw [hun]; exact hpool p hp
  · rw [hun]; exact hund
  · intro x hx; rw [hun] at hx; exact hdead x hx

/-- The loop of `virgl_vtest_release_all_res` keeps the bookkeeping when the
slots it visits hold distinct resources, each counted as referenced by a command
buffer. -/
theorem pool_ok_release_all_res_loop (fuel i : Nat) (s : virgl_vtest_winsys)
    (cbuf : virgl_vtest_cmd_buf) (h : pool_ok s)
    (hslots : ∀ j, i ≤ j → j < i + fuel →
      ∃ p, cbuf.res_bo j = some p ∧ 1 ≤ (s.mem p).num_cs_references)
    (hdist : ∀ j k, i ≤ j → j < k → k < i + fuel → cbuf.res_bo j ≠ cbuf.res_bo k) :
    pool_ok (release_all_res_loop fuel i s cbuf).1 := by
  induction fuel generalizing i s cbuf with
  | zero => simpa [release_all_res_loop] using h
  | succ n ih =>
    obtain ⟨p, hp, hcsp⟩ := hslots i (le_refl _) (by omega)
    unfold release_all_res_loop
    rw [hp]
    simp only []
    have hcs := h.2.2.1 p
    have hpos : 0 < (s.mem p).reference := by omega
    have hl := h.2.2.2.1 p hpos
    have hnp : p ∉ s.delayed := by
      intro hq
      have := (h.2.2.2.2.2.1 p hq).1
      omega
    have h1 : pool_ok
        (store s p { s.mem p with num_cs_references := (s.mem p).num_cs_references - 1 }) :=
      pool_ok_store h p _ hnp rfl ⟨by simp only []; omega, by simp only []; omega⟩ (fun _ => hl)
    have h2 := pool_ok_release h1 p (by simp [store]; omega)
    have hcount := (resource_reference_release_counts
      (store s p { s.mem p with num_cs_references := (s.mem p).num_cs_references - 1 }) p).2.1
    refine ih (i + 1) _ _ h2 ?_ ?_
    · intro j hj1 hj2
      obtain ⟨q, hq, hcsq⟩ := hslots j (by omega) (by omega)
      have hji : j ≠ i := by omega
      refine ⟨q, by simp only [hji, if_false]; exact hq, ?_⟩
      have hqp : q ≠ p := by
        intro e
        subst e
        exact hdist i j (le_refl _) (by omega) (by omega) (hp.trans hq.symm)
      rw [hcount q]
      simp only [store, hqp, if_false]
      exact hcsq
    · intro j k hj hjk hk
      have hji : j ≠ i := by omega
      have hki : k ≠ i := by omega
      simp only [hji, hki, if_false]
      exact hdist j k (by omega) hjk (by omega)

theorem pool_ok_submit {s : virgl_vtest_winsys} (h : pool_ok s) (cbuf : virgl_vtest_cmd_buf)
    (hslots : ∀ j, j < cbuf.cres →
      ∃ p, cbuf.res_bo j = some p ∧ 1 ≤ (s.mem p).num_cs_references)
    (hdist : (reference_set cbuf).Nodup) :
    pool_ok (virgl_vtest_winsys_submit_cmd s cbuf).1 := by
  unfold virgl_vtest_winsys_submit_cmd
  split
  · exact h
  · unfold virgl_vtest_release_all_res
    simp only []
    refine pool_ok_release_all_res_loop cbuf.cres 0 _ cbuf
      (pool_ok_send h _ rfl rfl) ?_ ?_
    · intro j _ hj
      obtain ⟨p, a, b⟩ := hslots j (by omega)
      exact ⟨p, a, b⟩
    · intro j k _ hjk hk heq
      have := List.inj_on_of_nodup_map hdist (List.mem_range.mpr (by omega : j < cbuf.cres))
        (List.mem_range.mpr (by omega : k < cbuf.cres)) heq
      omega

theorem live_references_pos (sys : vtest_system) (b : virgl_vtest_cmd_buf) (p : Nat)
    (hb : some b ∈ sys.cbufs) (hl : linear_lookup b p = true) :
    1 ≤ live_references sys p := by
  unfold live_references
  have : some b ∈ sys.cbufs.filter (fun b =>
      match b with
      | some b => linear_lookup b p
      | none => false) := List.mem_filter.mpr ⟨hb, hl⟩
  exact List.length_pos_of_mem this

theorem linear_lookup_of_slot (b : virgl_vtest_cmd_buf) (i p : Nat) (hi : i < b.cres)
    (hp : b.res_bo i = some p) : linear_lookup b p = true := by
  unfold linear_lookup reference_set
  have : some p ∈ List.map b.res_bo (List.range b.cres) :=
    List.mem_map.mpr ⟨i, List.mem_range.mpr hi, hp⟩
  simpa using this

/-- The slots of a live command buffer hold resources that are counted as
referenced by a command buffer. -/
theorem cs_counted_slots {sys : vtest_system} (h : cs_counted sys) (b : virgl_vtest_cmd_buf)
    (hb : some b ∈ sys.cbufs) :
    ∀ j, j < b.cres → ∃ p, b.res_bo j = some p ∧ 1 ≤ (sys.ws.mem p).num_cs_references := by
  intro j hj
  obtain ⟨p, hp, -⟩ := (h.1 b hb).1.2 j hj
  refine ⟨p, hp, ?_⟩
  rw [h.2 p]
  have := live_references_pos sys b p hb (linear_lookup_of_slot b j p hj hp)
  exact_mod_cast this

/-- A step on the winsys alone keeps the count of command-buffer references when
it changes no `num_cs_references` and no handle of a resource that a command
buffer references. -/
theorem cs_counted_frame {sys : vtest_system} (h : cs_counted sys) (w : virgl_vtest_winsys)
    (hnum : ∀ r, (w.mem r).num_cs_references = (sys.ws.mem r).num_cs_references)
    (hh : ∀ r, 0 < (sys.ws.mem r).num_cs_references →
      (w.mem r).res_handle = (sys.ws.mem r).res_handle) :
    cs_counted { sys with ws := w } := by
  refine ⟨?_, ?_⟩
  · intro b hb
    obtain ⟨⟨o1, o2⟩, hnd⟩ := h.1 b hb
    refine ⟨⟨o1, ?_⟩, hnd⟩
    intro i hi
    obtain ⟨p, hp1, hp2⟩ := o2 i hi
    obtain ⟨p', hp', hcs⟩ := cs_counted_slots h b hb i hi
    have hpp : p' = p := Option.some.inj (hp'.symm.trans hp1)
    subst hpp
    refine ⟨p', hp1, ?_⟩
    have : res_hash w p' = res_hash sys.ws p' := by
      unfold res_hash
      rw [hh p' (by omega)]
    rw [this]
    exact hp2
  · intro r
    rw [hnum r, h.2 r]
    rfl

theorem cache_create_cs {s : virgl_vtest_winsys} (h : pool_ok s)
    (target format bind width height depth array_size last_level nr_samples size : Nat) :
    ∀ r, ((virgl_vtest_winsys_resource_cache_create s target format bind width height depth
        array_size last_level nr_samples size).2.mem r).num_cs_references =
        (s.mem r).num_cs_references ∧
      (0 < (s.mem r).num_cs_references →
        ((virgl_vtest_winsys_resource_cache_create s target format bind width height depth
          array_size last_level nr_samples size).2.mem r).res_handle = (s.mem r).res_handle) := by
  obtain ⟨fm, -, fb, -, -, -⟩ := scan_frame_scan_of s size bind format
  have hbrk : (s.mem s.brk).num_cs_references = 0 := by
    have h1 := h.2.2.1 s.brk
    by_cases hp : 0 < (s.mem s.brk).reference
    · have := (h.2.2.2.1 s.brk hp).1
      omega
    · omega
  intro r
  rcases cache_create_cases s target format bind width height depth array_size last_level
    nr_samples size with ⟨ws, hws, hfresh⟩ | ⟨e, -, -, heq⟩
  · have hw : ws.mem = s.mem ∧ ws.brk = s.brk := by
      rcases hws with ⟨-, e⟩ | ⟨-, -, e⟩
      · rw [e]; exact ⟨rfl, rfl⟩
      · rw [e]; exact ⟨fm, fb⟩
    obtain ⟨-, -, -, a4, -, -, a7, -⟩ := hfresh
    by_cases hr : r = s.brk
    · subst hr
      rw [← hw.2, a7, hw.2, hbrk]
      exact ⟨rfl, fun hx => absurd hx (by omega)⟩
    · rw [a4 r (by rw [hw.2]; exact hr), hw.1]
      exact ⟨rfl, fun _ => rfl⟩
  · rw [heq]
    by_cases hr : r = e
    · subst hr
      simp only [store, if_true]
      rw [fm]
      exact ⟨rfl, fun _ => rfl⟩
    · simp only [store, hr, if_false]
      rw [fm]
      exact ⟨rfl, fun _ => rfl⟩

theorem pool_sound_boot (clock : Nat → Int) (busy_reply : Nat → Nat → Nat) :
    pool_sound (vtest_boot clock busy_reply) := by
  refine ⟨cs_counted_boot clock busy_reply, handles_numbered_boot clock busy_reply, ?_, ?_, ?_,
    ?_, ?_, ?_, ?_, ?_, ?_⟩
  · simp [vtest_boot, virgl_vtest_winsys_wrap]
  · intro q; simp [vtest_boot, virgl_vtest_winsys_wrap]
  · intro q hq; simp [vtest_boot, virgl_vtest_winsys_wrap] at hq
  · simp [vtest_boot, virgl_vtest_winsys_wrap]
  · intro p hp; simp [vtest_boot, virgl_vtest_winsys_wrap] at hp
  · simp [vtest_boot, virgl_vtest_winsys_wrap, unref_handles]
  · intro x hx; simp [vtest_boot, virgl_vtest_winsys_wrap, unref_handles] at hx
  · simp [vtest_boot, virgl_vtest_winsys_wrap]
  · intro _
    refine ⟨?_, ?_⟩
    · intro p hp; simp [vtest_boot, virgl_vtest_winsys_wrap] at hp
    · simp [vtest_boot, virgl_vtest_winsys_wrap]

theorem pool_sound_step (sys : vtest_system) (op : vtest_op) (h : pool_sound sys)
    (hv : op_valid sys op = true) : pool_sound (vtest_step sys op) := by
  obtain ⟨hcs, hok⟩ := h
  cases op with
  | resource_create target format bind width height depth array_size last_level nr_samples
      size =>
    have hroom : sys.ws.brk + 1 < 4294967296 := by simpa [op_valid] using hv
    have hc := cache_create_cs hok target format bind width height depth array_size last_level
      nr_samples size
    exact ⟨cs_counted_frame hcs _ (fun r => (hc r).1) (fun r => (hc r).2),
      (pool_ok_cache_create hok target format bind width height depth array_size last_level
        nr_samples size hroom).1⟩
  | resource_unref hres =>
    have hheld : (sys.ws.mem hres).num_cs_references < (sys.ws.mem hres).reference := by
      simpa [op_valid] using hv
    have hk := keeps_ids_resource_reference sys.ws (some hres) none
    have hn := (resource_reference_release_counts sys.ws hres).2.1
    exact ⟨cs_counted_frame hcs _ hn (fun r _ => (hk.2.2.1 r).1), pool_ok_release hok hres hheld⟩
  | fence_reference dst src => simp [op_valid] at hv
  | cmd_buf_create => exact ⟨cs_counted_step sys _ rfl hcs, hok⟩
  | cmd_buf_destroy cbuf => simp [op_valid] at hv
  | emit_res i res write_buf =>
    refine ⟨cs_counted_step sys _ rfl hcs, ?_⟩
    have hlive : 0 < (sys.ws.mem res).reference := by simpa [op_valid] using hv
    simp only [vtest_step]
    cases hb : sys.cbufs.getD i none with
    | none => exact hok
    | some b =>
      exact pool_ok_emit_res hok b res write_buf (hcs.1 b (mem_of_getD _ _ _ hb)).1 hlive
  | submit_cmd i =>
    refine ⟨cs_counted_step sys _ rfl hcs, ?_⟩
    simp only [vtest_step]
    cases hb : sys.cbufs.getD i none with
    | none => exact hok
    | some b =>
      have hmem := mem_of_getD _ _ _ hb
      exact pool_ok_submit hok b (cs_counted_slots hcs b hmem) (hcs.1 b hmem).2
  | cache_flush =>
    have hm := (virgl_cache_flush_loop_spec sys.ws.delayed sys.ws rfl).2.2.1
    refine ⟨cs_counted_frame hcs _ (fun r => ?_) (fun r _ => ?_), pool_ok_flush hok⟩
    · unfold virgl_cache_flush; rw [hm]
    · unfold virgl_cache_flush; rw [hm]

theorem pool_sound_run (ops : List vtest_op) (sys : vtest_system) (h : pool_sound sys)
    (hv : ops_valid sys ops = true) : pool_sound (vtest_run sys ops) := by
  induction ops generalizing sys with
  | nil => exact h
  | cons op rest ih =>
    simp only [ops_valid, Bool.and_eq_true] at hv
    exact ih (vtest_step sys op) (pool_sound_step sys op h hv.1) hv.2
theorem cache_create_clock (s : virgl_vtest_winsys)
    (target format bind width height depth array_size last_level nr_samples size : Nat) :
    (virgl_vtest_winsys_resource_cache_create s target format bind width height depth
        array_size last_level nr_samples size).2.clock = s.clock ∧
    (virgl_vtest_winsys_resource_cache_create s target format bind width height depth
        array_size last_level nr_samples size).2.usecs = s.usecs := by
  obtain ⟨-, -, -, -, fck, -, fus, -⟩ := scan_frame_scan (s.clock s.ticks) size bind format 0
    s.delayed { s with ticks := s.ticks + 1 }
  have fck' : (scan_of s size bind format).ws.clock = s.clock := fck
  have fus' : (scan_of s size bind format).ws.usecs = s.usecs := fus
  rcases cache_create_cases s target format bind width height depth array_size last_level
    nr_samples size with ⟨ws, hws, hfresh⟩ | ⟨e, -, -, heq⟩
  · obtain ⟨-, -, -, -, -, -, -, -, -, -, -, -, -, -, a15, -, a17, -⟩ := hfresh
    rcases hws with ⟨-, e⟩ | ⟨-, -, e⟩
    · rw [a15, a17, e]; exact ⟨rfl, rfl⟩
    · rw [a15, a17, e]; exact ⟨fck', fus'⟩
  · rw [heq]
    exact ⟨fck', fus'⟩

theorem step_clock (sys : vtest_system) (op : vtest_op) :
    (vtest_step sys op).ws.clock = sys.ws.clock ∧ (vtest_step sys op).ws.usecs = sys.ws.usecs := by
  cases op with
  | resource_create target format bind width height depth array_size last_level nr_samples
      size =>
    exact cache_create_clock sys.ws target format bind width height depth array_size last_level
      nr_samples size
  | resource_unref hres =>
    have hk := keeps_ids_resource_reference sys.ws (some hres) none
    exact ⟨hk.2.2.2.2.2.1, hk.2.2.2.2.1⟩
  | fence_reference dst src =>
    have hk := keeps_ids_resource_reference sys.ws dst src
    exact ⟨hk.2.2.2.2.2.1, hk.2.2.2.2.1⟩
  | cmd_buf_create => exact ⟨rfl, rfl⟩
  | cmd_buf_destroy cbuf => exact ⟨rfl, rfl⟩
  | emit_res cbuf res write_buf =>
    simp only [vtest_step]
    split
    · rename_i b _
      have hk := keeps_ids_emit_res sys.ws b res write_buf
      exact ⟨hk.2.2.2.2.2.1, hk.2.2.2.2.1⟩
    · exact ⟨rfl, rfl⟩
  | submit_cmd cbuf =>
    simp only [vtest_step]
    split
    · rename_i b _
      have hk := keeps_ids_submit sys.ws b
      exact ⟨hk.2.2.2.2.2.1, hk.2.2.2.2.1⟩
    · exact ⟨rfl, rfl⟩
  | cache_flush =>
    have hk := keeps_ids_flush_loop sys.ws.delayed sys.ws
    exact ⟨hk.2.2.2.2.2.1, hk.2.2.2.2.1⟩

theorem run_clock (ops : List vtest_op) (sys : vtest_system) :
    (vtest_run sys ops).ws.clock = sys.ws.clock ∧ (vtest_run sys ops).ws.usecs = sys.ws.usecs := by
  induction ops generalizing sys with
  | nil => exact ⟨rfl, rfl⟩
  | cons op rest ih =>
    obtain ⟨a, b⟩ := ih (vtest_step sys op)
    obtain ⟨c, d⟩ := step_clock sys op
    exact ⟨a.trans c, b.trans d⟩

theorem os_time_timeout_false_iff (start end_ now : Int) (h : start ≤ end_) :
    os_time_timeout start end_ now = false ↔ start ≤ now ∧ now < end_ := by
  unfold os_time_timeout
  simp [h]

theorem dropWhile_all_false (f : Nat → Bool) (l : List Nat)
    (hp : l.Pairwise (fun a b => f a = false → f b = false)) :
    ∀ p ∈ l.dropWhile f, f p = false := by
  induction l with
  | nil => intro p hp; simp at hp
  | cons a t ih =>
    obtain ⟨h1, h2⟩ := List.pairwise_cons.mp hp
    intro p hpm
    by_cases ha : f a = true
    · rw [List.dropWhile_cons_of_pos ha] at hpm
      exact ih h2 p hpm
    · have ha' : f a = false := by simpa using ha
      rw [List.dropWhile_cons_of_neg ha] at hpm
      rcases List.mem_cons.mp hpm with e | e
      · rw [e]; exact ha'
      · exact h1 p e ha'

/-- C28: for every sequence of creates, releases, command-buffer creates,
`emit_res`, submits and cache flushes on a freshly wrapped winsys in which a
release only drops a reference that is held, `emit_res` only names a resource
that has a reference, and fewer than `2 ^ 32` records are allocated: no handle
occurs in two `RESOURCE_UNREF` requests; no pooled entry and no resource with a
reference (a reused entry is one) has had a `RESOURCE_UNREF` for its handle, so an
entry that left the pool by reuse was not destroyed; and whatever a create made
next returns, it is not in the pool and no `RESOURCE_UNREF` has been written for
its handle, so an entry that was destroyed is never returned. -/
theorem resource_unref_sent_once (clock : Nat → Int) (busy_reply : Nat → Nat → Nat)
    (ops : List vtest_op) (hv : ops_valid (vtest_boot clock busy_reply) ops = true) :
    (unref_handles (vtest_run (vtest_boot clock busy_reply) ops).ws.sent).Nodup ∧
    (∀ p ∈ (vtest_run (vtest_boot clock busy_reply) ops).ws.delayed,
      ((vtest_run (vtest_boot clock busy_reply) ops).ws.mem p).res_handle ∉
        unref_handles (vtest_run (vtest_boot clock busy_reply) ops).ws.sent) ∧
    (∀ q, 0 < ((vtest_run (vtest_boot clock busy_reply) ops).ws.mem q).reference →
      ((vtest_run (vtest_boot clock busy_reply) ops).ws.mem q).res_handle ∉
        unref_handles (vtest_run (vtest_boot clock busy_reply) ops).ws.sent) ∧
    ∀ target format bind width height depth array_size last_level nr_samples size,
      (vtest_run (vtest_boot clock busy_reply) ops).ws.brk + 1 < 4294967296 →
      ((virgl_vtest_winsys_resource_cache_create
          (vtest_run (vtest_boot clock busy_reply) ops).ws target format bind width height
          depth array_size last_level nr_samples size).2.mem
        (virgl_vtest_winsys_resource_cache_create
          (vtest_run (vtest_boot clock busy_reply) ops).ws target format bind width height
          depth array_size last_level nr_samples size).1).res_handle ∉
        unref_handles (virgl_vtest_winsys_resource_cache_create
          (vtest_run (vtest_boot clock busy_reply) ops).ws target format bind width height
          depth array_size last_level nr_samples size).2.sent ∧
      (virgl_vtest_winsys_resource_cache_create
          (vtest_run (vtest_boot clock busy_reply) ops).ws target format bind width height
          depth array_size last_level nr_samples size).1 ∉
        (virgl_vtest_winsys_resource_cache_create
          (vtest_run (vtest_boot clock busy_reply) ops).ws target format bind width height
          depth array_size last_level nr_samples size).2.delayed := by
  obtain ⟨-, hok⟩ := pool_sound_run ops _ (pool_sound_boot clock busy_reply) hv
  refine ⟨hok.2.2.2.2.2.2.1, fun p hp => (hok.2.2.2.2.2.1 p hp).2.2.2,
    fun q hq => (hok.2.2.2.1 q hq).2, ?_⟩
  intro target format bind width height depth array_size last_level nr_samples size hroom
  obtain ⟨hok', href⟩ := pool_ok_cache_create hok target format bind width height depth
    array_size last_level nr_samples size hroom
  refine ⟨(hok'.2.2.2.1 _ (by rw [href]; decide)).2, ?_⟩
  intro hp
  have := (hok'.2.2.2.2.2.1 _ hp).1
  rw [href] at this
  exact absurd this (by decide)

/-- C30: for every sequence of operations as in C28, under a clock that never
runs backwards: `usecs` still has the value 1000000 that
`virgl_vtest_winsys_wrap` gave it, the pool is ordered head to tail by
non-decreasing `end`, and after `virgl_cache_list_check_free` no entry left in
the pool has its window passed at the time the sweep read, although the sweep
stopped at the first entry whose window had not passed. -/
theorem pool_ordered_by_expiry (clock : Nat → Int) (busy_reply : Nat → Nat → Nat)
    (ops : List vtest_op) (hv : ops_valid (vtest_boot clock busy_reply) ops = true)
    (hmono : Monotone clock) :
    (vtest_run (vtest_boot clock busy_reply) ops).ws.usecs = 1000000 ∧
    (vtest_run (vtest_boot clock busy_reply) ops).ws.delayed.Pairwise
      (fun a b => ((vtest_run (vtest_boot clock busy_reply) ops).ws.mem a).end_ ≤
        ((vtest_run (vtest_boot clock busy_reply) ops).ws.mem b).end_) ∧
    ∀ p ∈ (virgl_cache_list_check_free (vtest_run (vtest_boot clock busy_reply) ops).ws).delayed,
      expired (virgl_cache_list_check_free (vtest_run (vtest_boot clock busy_reply) ops).ws).mem
        ((vtest_run (vtest_boot clock busy_reply) ops).ws.clock
          (vtest_run (vtest_boot clock busy_reply) ops).ws.ticks) p = false := by
  obtain ⟨-, hok⟩ := pool_sound_run ops _ (pool_sound_boot clock busy_reply) hv
  obtain ⟨hck, hus⟩ := run_clock ops (vtest_boot clock busy_reply)
  generalize (vtest_run (vtest_boot clock busy_reply) ops).ws = s at hok hck hus
  have hck' : s.clock = clock := hck
  have hus' : s.usecs = 1000000 := hus
  have hm : Monotone s.clock := by rw [hck']; exact hmono
  obtain ⟨t1, t2⟩ := hok.2.2.2.2.2.2.2.2.2 hm
  refine ⟨hus', t2, ?_⟩
  obtain ⟨c1, -, c3, -⟩ := virgl_cache_list_check_free_spec s
  rw [c1, c3]
  refine dropWhile_all_false _ _ (t2.imp_of_mem ?_)
  intro a b ha hb hab hxa
  obtain ⟨ta, a1, a2, a3⟩ := t1 a ha
  obtain ⟨tb, b1, b2, b3⟩ := t1 b hb
  unfold expired at hxa ⊢
  have hxa' := (os_time_timeout_false_iff _ _ _ (by rw [a3, hus']; omega)).mp hxa
  refine (os_time_timeout_false_iff _ _ _ (by rw [b3, hus']; omega)).mpr ⟨?_, by omega⟩
  rw [b2]
  exact hm (Nat.le_of_lt b1)
/-- Witness for C28: `pooled_then_reused` on a freshly wrapped winsys with an
idle server. -/
theorem resource_unref_sent_once_witness :
    (unref_handles (vtest_run (vtest_boot (fun n => (n : Int)) (fun _ _ => 0))
        pooled_then_reused).ws.sent).Nodup ∧
    (∀ p ∈ (vtest_run (vtest_boot (fun n => (n : Int)) (fun _ _ => 0))
        pooled_then_reused).ws.delayed,
      ((vtest_run (vtest_boot (fun n => (n : Int)) (fun _ _ => 0))
        pooled_then_reused).ws.mem p).res_handle ∉
        unref_handles (vtest_run (vtest_boot (fun n => (n : Int)) (fun _ _ => 0))
          pooled_then_reused).ws.sent) ∧
    (∀ q, 0 < ((vtest_run (vtest_boot (fun n => (n : Int)) (fun _ _ => 0))
        pooled_then_reused).ws.mem q).reference →
      ((vtest_run (vtest_boot (fun n => (n : Int)) (fun _ _ => 0))
        pooled_then_reused).ws.mem q).res_handle ∉
        unref_handles (vtest_run (vtest_boot (fun n => (n : Int)) (fun _ _ => 0))
          pooled_then_reused).ws.sent) ∧
    ∀ target format bind width height depth array_size last_level nr_samples size,
      (vtest_run (vtest_boot (fun n => (n : Int)) (fun _ _ => 0))
        pooled_then_reused).ws.brk + 1 < 4294967296 →
      ((virgl_vtest_winsys_resource_cache_create
          (vtest_run (vtest_boot (fun n => (n : Int)) (fun _ _ => 0)) pooled_then_reused).ws
          target format bind width height depth array_size last_level nr_samples size).2.mem
        (virgl_vtest_winsys_resource_cache_create
          (vtest_run (vtest_boot (fun n => (n : Int)) (fun _ _ => 0)) pooled_then_reused).ws
          target format bind width height depth array_size last_level nr_samples
          size).1).res_handle ∉
        unref_handles (virgl_vtest_winsys_resource_cache_create
          (vtest_run (vtest_boot (fun n => (n : Int)) (fun _ _ => 0)) pooled_then_reused).ws
          target format bind width height depth array_size last_level nr_samples size).2.sent ∧
      (virgl_vtest_winsys_resource_cache_create
          (vtest_run (vtest_boot (fun n => (n : Int)) (fun _ _ => 0)) pooled_then_reused).ws
          target format bind width height depth array_size last_level nr_samples size).1 ∉
        (virgl_vtest_winsys_resource_cache_create
          (vtest_run (vtest_boot (fun n => (n : Int)) (fun _ _ => 0)) pooled_then_reused).ws
          target format bind width height depth array_size last_level nr_samples
          size).2.delayed :=
  resource_unref_sent_once (fun n => (n : Int)) (fun _ _ => 0) pooled_then_reused (by decide)

/-- Witness for C30: `released_in_turn` under a clock that advances by 400000
per reading. -/
theorem pool_ordered_by_expiry_witness :
    (vtest_run (vtest_boot (fun n => 400000 * (n : Int)) (fun _ _ => 0))
        released_in_turn).ws.usecs = 1000000 ∧
    (vtest_run (vtest_boot (fun n => 400000 * (n : Int)) (fun _ _ => 0))
        released_in_turn).ws.delayed.Pairwise
      (fun a b => ((vtest_run (vtest_boot (fun n => 400000 * (n : Int)) (fun _ _ => 0))
          released_in_turn).ws.mem a).end_ ≤
        ((vtest_run (vtest_boot (fun n => 400000 * (n : Int)) (fun _ _ => 0))
          released_in_turn).ws.mem b).end_) ∧
    ∀ p ∈ (virgl_cache_list_check_free (vtest_run (vtest_boot (fun n => 400000 * (n : Int))
        (fun _ _ => 0)) released_in_turn).ws).delayed,
      expired (virgl_cache_list_check_free (vtest_run (vtest_boot (fun n => 400000 * (n : Int))
          (fun _ _ => 0)) released_in_turn).ws).mem
        ((vtest_run (vtest_boot (fun n => 400000 * (n : Int)) (fun _ _ => 0))
          released_in_turn).ws.clock
          (vtest_run (vtest_boot (fun n => 400000 * (n : Int)) (fun _ _ => 0))
            released_in_turn).ws.ticks) p = false :=
  pool_ordered_by_expiry (fun n => 400000 * (n : Int)) (fun _ _ => 0) released_in_turn
    (by decide) (fun a b h => by show 400000 * (a : Int) ≤ 400000 * (b : Int); omega)

/-- Witness for C26: after an index buffer was created and released, the pool
holds it. -/
theorem pooled_entries_are_cacheable_buffers_witness :
    0 ∈ (vtest_run (vtest_boot (fun _ => 0) (fun _ _ => 0)) index_buffer_released).ws.delayed ∧
    ((vtest_run (vtest_boot (fun _ => 0) (fun _ _ => 0)) index_buffer_released).ws.mem
      0).cacheable = true ∧
    (((vtest_run (vtest_boot (fun _ => 0) (fun _ _ => 0)) index_buffer_released).ws.mem 0).bind =
        VIRGL_BIND_VERTEX_BUFFER ∨
      ((vtest_run (vtest_boot (fun _ => 0) (fun _ _ => 0)) index_buffer_released).ws.mem 0).bind =
        VIRGL_BIND_INDEX_BUFFER ∨
      ((vtest_run (vtest_boot (fun _ => 0) (fun _ _ => 0)) index_buffer_released).ws.mem 0).bind =
        VIRGL_BIND_CONSTANT_BUFFER) :=
  ⟨by decide, pooled_entries_are_cacheable_buffers (fun _ => 0) (fun _ _ => 0)
    index_buffer_released 0 (by decide)⟩

/-! ### Reading a region back -/

/-- The stream position after the receive loop: one chunk of `stride` bytes per
row, whatever is copied out of the chunks. -/
theorem recv_transfer_loop_pos (rx : Nat → Nat) (stride packed : Nat) (n : Nat) (fuel : Nat)
    (hf : n < fuel) (ptr pos : Nat) (data : Nat → Nat) :
    ∃ out, recv_transfer_loop rx stride packed fuel (n : Int) ptr pos data =
      some (out, pos + n * stride) := by
  induction n generalizing fuel ptr pos data with
  | zero =>
    obtain ⟨f, rfl⟩ : ∃ f, fuel = f + 1 := ⟨fuel - 1, by omega⟩
    exact ⟨data, by simp [recv_transfer_loop]⟩
  | succ k ih =>
    obtain ⟨f, rfl⟩ : ∃ f, fuel = f + 1 := ⟨fuel - 1, by omega⟩
    obtain ⟨out, h1⟩ := ih f (by omega) (ptr + stride) (pos + stride)
      (fun a => if ptr ≤ a ∧ a < ptr + packed then
        (fun j => if j < stride then rx (pos + j) else 0) (a - ptr) else data a)
    refine ⟨out, ?_⟩
    unfold recv_transfer_loop
    have hne : ((k + 1 : Nat) : Int) ≠ 0 := by omega
    rw [if_neg hne]
    simp only []
    rw [show ((k + 1 : Nat) : Int) - 1 = (k : Int) by push_cast; ring, h1]
    congr 2
    ring

/-- The size `vtest_get_transfer_size` returns for a box of one layer, when the
2d size of the format is rows times stride: the product of the number of block
rows and the valid stride, cut to 32 bits. -/
theorem get_transfer_size_one_layer (fmt : util_format) (r : virgl_hw_res) (box : pipe_box)
    (stride layer_stride level : Nat) (hdepth : box.depth = 1)
    (h2d : ∀ st, fmt.util_format_get_2d_size r.format st (to_uint32 box.height) =
      fmt.util_format_get_nblocksy r.format (to_uint32 box.height) * st) :
    (vtest_get_transfer_size fmt r box stride layer_stride level).1 =
      (fmt.util_format_get_nblocksy r.format (to_uint32 box.height) *
        (vtest_get_transfer_size fmt r box stride layer_stride level).2) % 4294967296 := by
  have h1 : to_uint32 (1 : Int) = 1 := by decide
  have h2 : ¬ ((1 : Int) > 1) := by decide
  unfold vtest_get_transfer_size
  simp only [hdepth, h1, h2, if_false, ite_self, h2d, Nat.mul_one, Nat.mod_mod]
/-- C31 (as stated, refuted): a region of four rows of 4-byte pixels is read back
with a stride hint of `2 ^ 30 = 1073741824`, in one layer, for a format whose 2d
size is rows times stride.  `vtest_get_transfer_size` cuts `4 * 2 ^ 30` to the 32
bits of `valid_layer_stride` and returns 0, the `TRANSFER_GET` request announces
`data_size = 0`, and the receive loop reads four chunks of `2 ^ 30` bytes,
`4294967296` bytes in all. -/
theorem transfer_get_reads_past_announced_size :
    one_by_four.depth = 1 ∧
    (∀ st, four_byte_pixels.util_format_get_2d_size (one_texture.mem 0).format st
        (to_uint32 one_by_four.height) =
      four_byte_pixels.util_format_get_nblocksy (one_texture.mem 0).format
        (to_uint32 one_by_four.height) * st) ∧
    vtest_get_transfer_size four_byte_pixels (one_texture.mem 0) one_by_four 1073741824 0 0 =
      (0, 1073741824) ∧
    (virgl_vtest_transfer_get four_byte_pixels one_texture (fun _ => 0) 0 (fun _ => 0) 0
        one_by_four 1073741824 0 0 0 5).map (fun r => (r.1.sent.getLast?, r.2.2)) =
      some (some (.transfer 11 .VCMD_TRANSFER_GET 1 0 1073741824 0 0 0 0 1 4 1 0),
        4294967296) := by
  refine ⟨rfl, ?_, by decide, by decide⟩
  intro st
  show st * 4 = 4 * st
  omega

/-- C31 (amended): for every resource, stride hints and box with
`box.depth = 1`, for a format whose 2d size is rows times stride, when the number
of block rows fits the `int` it is kept in (below `2 ^ 31`) and its product with
the valid stride fits the 32-bit `data_size` (below `2 ^ 32`):
`virgl_vtest_transfer_get` writes one `TRANSFER_GET` request announcing
`data_size`, the value of `vtest_get_transfer_size`, and returns after reading
exactly `data_size` bytes from the transport, as
`util_format_get_nblocksy(format, box.height)` chunks of `valid_stride` bytes. -/
theorem transfer_get_reads_announced_size (fmt : util_format) (s : virgl_vtest_winsys)
    (rx : Nat → Nat) (pos : Nat) (mapped : Nat → Nat) (res : Nat) (box : pipe_box)
    (stride layer_stride buf_offset level : Nat) (hdepth : box.depth = 1)
    (h2d : ∀ st, fmt.util_format_get_2d_size (s.mem res).format st (to_uint32 box.height) =
      fmt.util_format_get_nblocksy (s.mem res).format (to_uint32 box.height) * st)
    (hrows : fmt.util_format_get_nblocksy (s.mem res).format (to_uint32 box.height) <
      2147483648)
    (hfit : fmt.util_format_get_nblocksy (s.mem res).format (to_uint32 box.height) *
      (vtest_get_transfer_size fmt (s.mem res) box stride layer_stride level).2 < 4294967296) :
    (vtest_get_transfer_size fmt (s.mem res) box stride layer_stride level).1 =
      fmt.util_format_get_nblocksy (s.mem res).format (to_uint32 box.height) *
        (vtest_get_transfer_size fmt (s.mem res) box stride layer_stride level).2 ∧
    ∃ mapped',
      ∀ fuel, fmt.util_format_get_nblocksy (s.mem res).format (to_uint32 box.height) < fuel →
        virgl_vtest_transfer_get fmt s rx pos mapped res box stride layer_stride buf_offset
            level fuel =
          some (send s (.transfer VCMD_TRANSFER_HDR_SIZE .VCMD_TRANSFER_GET
              (s.mem res).res_handle level stride layer_stride (to_uint32 box.x)
              (to_uint32 box.y) (to_uint32 box.z) (to_uint32 box.width) (to_uint32 box.height)
              (to_uint32 box.depth)
              (vtest_get_transfer_size fmt (s.mem res) box stride layer_stride level).1),
            mapped',
            pos + (vtest_get_transfer_size fmt (s.mem res) box stride layer_stride level).1) := by
  have hsize := get_transfer_size_one_layer fmt (s.mem res) box stride layer_stride level
    hdepth h2d
  rw [Nat.mod_eq_of_lt hfit] at hsize
  refine ⟨hsize, ?_⟩
  obtain ⟨out, h1⟩ := recv_transfer_loop_pos rx
    (vtest_get_transfer_size fmt (s.mem res) box stride layer_stride level).2
    (fmt.util_format_get_stride (s.mem res).format (to_uint32 box.width) % 4294967296)
    (fmt.util_format_get_nblocksy (s.mem res).format (to_uint32 box.height))
    (fmt.util_format_get_nblocksy (s.mem res).format (to_uint32 box.height) + 1) (by omega) 0
    pos (fun a => mapped (buf_offset + a))
  refine ⟨fun a => if buf_offset ≤ a then out (a - buf_offset) else mapped a, ?_⟩
  intro fuel hf
  have h2 := recv_transfer_loop_mono _ _ _ _ fuel _ _ _ _ _ h1 (by omega)
  unfold virgl_vtest_transfer_get virgl_vtest_recv_transfer_get_data
  simp only [to_int32_of_lt _ hrows, h2]
  rw [hsize]
  simp [virgl_vtest_send_transfer_cmd]

/-- Witness for C31: two rows of two 4-byte pixels read back with a stride hint
of 12: the request announces 24 bytes and 24 bytes are read. -/
theorem transfer_get_reads_announced_size_witness :
    (vtest_get_transfer_size four_byte_pixels (one_texture.mem 0) two_by_two 12 0 0).1 =
      four_byte_pixels.util_format_get_nblocksy (one_texture.mem 0).format
          (to_uint32 two_by_two.height) *
        (vtest_get_transfer_size four_byte_pixels (one_texture.mem 0) two_by_two 12 0 0).2 ∧
    ∃ mapped',
      ∀ fuel, four_byte_pixels.util_format_get_nblocksy (one_texture.mem 0).format
          (to_uint32 two_by_two.height) < fuel →
        virgl_vtest_transfer_get four_byte_pixels one_texture counting_stream 0 (fun _ => 0) 0
            two_by_two 12 0 0 0 fuel =
          some (send one_texture (.transfer VCMD_TRANSFER_HDR_SIZE .VCMD_TRANSFER_GET
              (one_texture.mem 0).res_handle 0 12 0 (to_uint32 two_by_two.x)
              (to_uint32 two_by_two.y) (to_uint32 two_by_two.z) (to_uint32 two_by_two.width)
              (to_uint32 two_by_two.height) (to_uint32 two_by_two.depth)
              (vtest_get_transfer_size four_byte_pixels (one_texture.mem 0) two_by_two 12 0
                0).1),
            mapped',
            0 + (vtest_get_transfer_size four_byte_pixels (one_texture.mem 0) two_by_two 12 0
              0).1) :=
  transfer_get_reads_announced_size four_byte_pixels one_texture counting_stream 0 (fun _ => 0)
    0 two_by_two 12 0 0 0 rfl (fun st => by show st * 2 = 2 * st; omega) (by decide)
    (by decide)

end VirglVtest
